import Mathlib

/-!
# Ghost-particle exchange of the NeighborList tutorial

A shallow embedding of `Tutorials/GPU/NeighborList/MDParticleContainer.cpp`:
the boundary boxes of a grid, the region mask and neighbour table, the
classification and sort of the particles by region code, and the exchange of
ghost particles between grids (local copies, packed buffers between ranks).

Definitions come first, theorems follow.
-/

namespace MD

/-! ## Outcomes -/

/-- Ways a call can fail to produce a result: `abort` is a fatal stop of the
process raised by an assertion, `undefined` is a read or write that the
language leaves without meaning (outside an array, of bytes never written). -/
inductive Err where
  | abort (msg : String)
  | undefined
deriving DecidableEq

deriving instance DecidableEq for Except

/-- Whether a result is a value and not a failure. -/
def isOk {α : Type} : Except Err α → Bool
  | .ok _ => true
  | .error _ => false

/-- Whether a result is a fatal stop. -/
def isAbort {α : Type} : Except Err α → Bool
  | .error (.abort _) => true
  | _ => false

/-! ## Index vectors and boxes -/

/-- Modelled from the spec: the index vector `IntVect` of the decomposition
collaborator is absent from the sources; it is a list of `AMREX_SPACEDIM`
integers, one per axis. -/
abbrev IntVect := List Int

namespace IntVect

/-- The vector with every component equal to `v`, as `IntVect(AMREX_D_DECL(v, v, v))`. -/
def const (dim : Nat) (v : Int) : IntVect := List.replicate dim v

/-- Componentwise sum. -/
def add (a b : IntVect) : IntVect := List.zipWith (fun x y => x + y) a b

/-- Componentwise difference. -/
def sub (a b : IntVect) : IntVect := List.zipWith (fun x y => x - y) a b

/-- Product with an integer, `c * v`. -/
def scale (c : Int) (a : IntVect) : IntVect := a.map (fun x => c * x)

/-- Every component of `a` is at most the matching component of `b`. -/
def allLE (a b : IntVect) : Bool := (List.zipWith (fun x y => decide (x ≤ y)) a b).all id

/-- Modelled from the spec: the comparison `>` of two `IntVect`s is absent from
the sources; the spec speaks of the shell depth exceeding the extent "on any
axis", so `a > b` holds when every component of `a` exceeds that of `b`. -/
def allGT (a b : IntVect) : Bool := (List.zipWith (fun x y => decide (y < x)) a b).all id

/-- Lexicographic order on lists of integers, first entry most significant. -/
def lexLT : List Int → List Int → Bool
  | [], [] => false
  | [], _ :: _ => true
  | _ :: _, [] => false
  | a :: as, b :: bs => decide (a < b) || (decide (a = b) && lexLT as bs)

/-- Modelled from the spec: the order `<` used to sort index vectors is absent
from the sources; it is the lexicographic order in which the last axis is the
most significant. -/
def lt (a b : IntVect) : Bool := lexLT a.reverse b.reverse

end IntVect

/-- Modelled from the spec: the box type of the decomposition collaborator is
absent from the sources; a box is the set of cells between two corners, with an
index type `btype` that is `0` for a cell-centered box. -/
structure Box where
  smallend : IntVect
  bigend : IntVect
  btype : Nat
deriving DecidableEq

instance : Inhabited Box := ⟨{ smallend := [], bigend := [], btype := 0 }⟩

namespace Box

/-- The index type is cell-centered on every axis, `ixType().cellCentered()`. -/
def cellCentered (b : Box) : Bool := b.btype == 0

/-- Number of cells on each axis, `size()`. -/
def size (b : Box) : IntVect := List.zipWith (fun l h => h - l + 1) b.smallend b.bigend

/-- The box is not empty, `ok()`. -/
def ok (b : Box) : Bool := IntVect.allLE b.smallend b.bigend

/-- The cell `p` lies in the box. -/
def contains (b : Box) (p : IntVect) : Bool :=
  IntVect.allLE b.smallend p && IntVect.allLE p b.bigend

/-- Intersection of two boxes, `a & b`. -/
def intersect (a b : Box) : Box :=
  { smallend := List.zipWith max a.smallend b.smallend
    bigend := List.zipWith min a.bigend b.bigend
    btype := a.btype }

/-- The box moved by `iv`, `b + iv`. -/
def shift (b : Box) (iv : IntVect) : Box :=
  { smallend := b.smallend.add iv, bigend := b.bigend.add iv, btype := b.btype }

/-- The box moved back by `iv`, `b - iv`. -/
def unshift (b : Box) (iv : IntVect) : Box :=
  { smallend := b.smallend.sub iv, bigend := b.bigend.sub iv, btype := b.btype }

/-- The box grown by `n` cells on every side, `amrex::grow(b, n)`. -/
def grow (b : Box) (n : Int) : Box :=
  { smallend := b.smallend.map (fun x => x - n)
    bigend := b.bigend.map (fun x => x + n)
    btype := b.btype }

/-- Modelled from the spec: the order `<` of boxes used by sorting and by
ordered sets is absent from the sources; boxes are compared by index type,
then by lower corner, then by upper corner. -/
def lt (a b : Box) : Bool :=
  decide (a.btype < b.btype) ||
    (decide (a.btype = b.btype) &&
      (IntVect.lt a.smallend b.smallend ||
        (decide (a.smallend = b.smallend) && IntVect.lt a.bigend b.bigend)))

end Box

/-- Modelled from the spec: `adjCellHi` is absent from the sources; for a
cell-centered box it is the box of `len` cells next to `b` on the high side of
axis `dir`, equal to `b` on the other axes. -/
def adjCellHi (b : Box) (dir : Nat) (len : Int) : Box :=
  { smallend := b.smallend.set dir (b.bigend.getD dir 0 + 1)
    bigend := b.bigend.set dir (b.bigend.getD dir 0 + len)
    btype := b.btype }

/-- Modelled from the spec: `adjCellLo` is absent from the sources; for a
cell-centered box it is the box of `len` cells next to `b` on the low side of
axis `dir`, equal to `b` on the other axes. -/
def adjCellLo (b : Box) (dir : Nat) (len : Int) : Box :=
  { smallend := b.smallend.set dir (b.smallend.getD dir 0 - len)
    bigend := b.bigend.set dir (b.smallend.getD dir 0 - 1)
    btype := b.btype }

/-! ## Sorting and removal of duplicates -/

/-- Removal of every element equal to its predecessor, `std::unique`. -/
def unique {α : Type} [DecidableEq α] : List α → List α
  | [] => []
  | [a] => [a]
  | a :: b :: l => if a = b then unique (b :: l) else a :: unique (b :: l)

/-- Modelled from the spec: `RemoveDuplicates` is absent from the sources; it
sorts the vector by `<` and erases repeated elements, which is also the order
in which an ordered set is traversed. -/
def RemoveDuplicates {α : Type} [DecidableEq α] (lt : α → α → Bool) (l : List α) : List α :=
  unique (List.insertionSort (fun a b => lt b a = false) l)

/-! ## Boundary boxes -/

/-- The face, edge and corner boxes of depth `ncells` around `box`
(`getBoundaryBoxes`), in `dim` space dimensions: both assertions, then the
three nested loops over the axes, then the removal of duplicates. -/
def getBoundaryBoxes (dim : Nat) (box : Box) (ncells : Int) : Except Err (List Box) :=
  if IntVect.allGT box.size (IntVect.scale 2 (IntVect.const dim ncells)) = false then
    .error (.abort "Too many cells requested in getBoundaryBoxes")
  else if box.cellCentered = false then
    .error (.abort "Box must be cell-centered")
  else
    let bl := (List.range dim).flatMap fun i =>
      let hi_face_box := adjCellHi box i ncells
      let lo_face_box := adjCellLo box i ncells
      let face_boxes := [hi_face_box, lo_face_box]
      face_boxes ++ face_boxes.flatMap fun face_box =>
        (List.range dim).flatMap fun j =>
          if i = j then [] else
            let hi_edge_box := adjCellHi face_box j ncells
            let lo_edge_box := adjCellLo face_box j ncells
            let edge_boxes := [hi_edge_box, lo_edge_box]
            edge_boxes ++ edge_boxes.flatMap fun edge_box =>
              (List.range dim).flatMap fun k =>
                if j = k ∨ i = k then [] else
                  [adjCellHi edge_box k ncells, adjCellLo edge_box k ncells]
    .ok (RemoveDuplicates Box.lt bl)

/-! ## Periodic shifts and intersections -/

/-- The shifts of one axis of period `p`: a loop from `-p` to `p` in steps of
`p` on a periodic axis, the single shift `0` on the others. -/
def axisShifts (p : Int) : List Int :=
  if p = 0 then [0] else if 0 < p then [-p, 0, p] else []

/-- Modelled from the spec: `Periodicity::shiftIntVect` is absent from the
sources; it lists every periodic shift, the zero shift included, as the
combinations of the shifts of the axes (`period` holds the length of the
domain on a periodic axis and `0` on the others). -/
def shiftIntVect : IntVect → List IntVect
  | [] => [[]]
  | p :: ps => (axisShifts p).flatMap fun i => (shiftIntVect ps).map fun r => i :: r

/-- Modelled from the spec: `BoxArray::intersections` is absent from the
sources; it returns, for every box of the array whose growth by `ng` cells
meets `bx`, the index of the box and the intersection. -/
def intersections (ba : List Box) (bx : Box) (ng : Int) : List (Nat × Box) :=
  (List.range ba.length).filterMap fun idx =>
    let isect := bx.intersect ((ba.getD idx default).grow ng)
    if isect.ok then some (idx, isect) else none

/-! ## Region mask and neighbour table -/

/-- Modelled from the spec: the integer field `BaseFab<int>` is absent from the
sources; it holds one integer for every cell of its box. -/
structure BaseFab where
  box : Box
  val : IntVect → Int

namespace BaseFab

/-- Assignment of `v` to every cell of `bx`, `setVal(v, bx)`. -/
def setVal (f : BaseFab) (v : Int) (bx : Box) : BaseFab :=
  { f with val := fun iv => if bx.contains iv then v else f.val iv }

/-- The value at cell `iv`, `fab(iv)`; a cell outside the box of the field has
no value. -/
def get (f : BaseFab) (iv : IntVect) : Except Err Int :=
  if f.box.contains iv then .ok (f.val iv) else .error .undefined

end BaseFab

/-- Modelled from the spec: the real number type `Real` is absent from the
sources; a real is held as the exact fraction `num / den`, and the rounding of
floating-point arithmetic is not part of the model. -/
structure AmrexReal where
  num : Int
  den : Nat
deriving DecidableEq

namespace AmrexReal

/-- Difference of two reals. -/
def sub (a b : AmrexReal) : AmrexReal :=
  { num := a.num * b.den - b.num * a.den, den := a.den * b.den }

/-- Product of two reals. -/
def mul (a b : AmrexReal) : AmrexReal :=
  { num := a.num * b.num, den := a.den * b.den }

/-- The largest integer not above the real, `floor`. -/
def floor (a : AmrexReal) : Int := a.num / a.den

end AmrexReal

/-- The decomposition and the geometry that the container is built on:
`dim` is `AMREX_SPACEDIM`, `ba` the box array of level 0, `dmap` the rank that
owns each grid, `nprocs` the number of ranks, `period` the periodicity of the
domain, `plo`, `dxi` and `domain` the lower corner, the inverse cell size and
the index box of the domain, `ncells` the depth of the shell (`m_ncells`),
`sizeofParticleType` the number of bytes of a particle record. -/
structure Config where
  dim : Nat
  ba : List Box
  dmap : Nat → Nat
  nprocs : Nat
  period : IntVect
  plo : List AmrexReal
  dxi : List AmrexReal
  domain : Box
  ncells : Int
  sizeofParticleType : Nat

/-- The region mask (`m_neighbor_mask_ptr`) and the neighbour table
(`m_grid_map`), both indexed by grid. -/
structure NeighborMask where
  m_neighbor_mask : Nat → BaseFab
  m_grid_map : Nat → List (List Nat)

/-- Order of the pairs (grid, box) in the ordered set `neighbor_grids`. -/
def pairLT (a b : Nat × Box) : Bool :=
  decide (a.1 < b.1) || (decide (a.1 = b.1) && Box.lt a.2 b.2)

/-- The set `neighbor_grids` of `buildNeighborMask` for grid `grid`: for every
periodic shift, the grids other than `grid` whose growth by `ncells` meets the
shifted box of `grid`, each with the intersection moved back by the shift. -/
def neighborGrids (cfg : Config) (grid : Nat) : List (Nat × Box) :=
  RemoveDuplicates pairLT ((shiftIntVect cfg.period).flatMap fun pit =>
    let box := (cfg.ba.getD grid default).shift pit
    (intersections cfg.ba box cfg.ncells).filterMap fun isec =>
      if grid ≠ isec.1 then some (isec.1, isec.2.unshift pit) else none)

/-- The body of the loop over grids of `buildNeighborMask` for one grid: the
field of the grid, first `-1` everywhere, is stamped with code `i` over the
`i`-th boundary box when that box meets a neighbour, and the table lists under
code `i` the neighbours met by the `i`-th boundary box. -/
def buildNeighborMaskGrid (cfg : Config) (grid : Nat) :
    Except Err (BaseFab × List (List Nat)) :=
  let neighbor_grids := neighborGrids cfg grid
  let isec_grids := neighbor_grids.map Prod.fst
  let isec_bl := neighbor_grids.map Prod.snd
  match getBoundaryBoxes cfg.dim ((cfg.ba.getD grid default).grow (-cfg.ncells)) cfg.ncells with
  | .error e => .error e
  | .ok bl =>
    let fab0 : BaseFab := { box := cfg.ba.getD grid default, val := fun _ => -1 }
    let fab := (List.range bl.length).foldl (fun (fab : BaseFab) i =>
      let box := bl.getD i default
      if (intersections isec_bl box 0).isEmpty then fab else fab.setVal i box) fab0
    let table := (List.range bl.length).map fun i =>
      (intersections isec_bl (bl.getD i default) 0).map fun isec => isec_grids.getD isec.1 0
    .ok (fab, table)

/-- The loop over grids of `buildNeighborMask`, from the mask and table built
so far; a grid whose assertions fail stops the whole run. -/
def buildNeighborMaskFrom (cfg : Config) : List Nat → NeighborMask → Except Err NeighborMask
  | [], nm => .ok nm
  | grid :: rest, nm =>
    match buildNeighborMaskGrid cfg grid with
    | .error e => .error e
    | .ok r =>
      buildNeighborMaskFrom cfg rest
        { m_neighbor_mask := Function.update nm.m_neighbor_mask grid r.1
          m_grid_map := Function.update nm.m_grid_map grid r.2 }

/-- The mask and table after `buildNeighborMask`: every grid is visited by the
rank that owns it, and the visits do not depend on each other. -/
def buildNeighborMask (cfg : Config) : Except Err NeighborMask :=
  buildNeighborMaskFrom cfg (List.range cfg.ba.length)
    { m_neighbor_mask := fun g => { box := cfg.ba.getD g default, val := fun _ => -1 }
      m_grid_map := fun _ => [] }

/-! ## Particles and their store -/

instance : Inhabited AmrexReal := ⟨{ num := 0, den := 1 }⟩

/-- Modelled from the spec: the particle record is declared outside the
sources; it is a fixed-size record of a position, the real components
(velocity and acceleration), a unique id and the creating rank. -/
structure ParticleType where
  pos : List AmrexReal
  rdata : List AmrexReal
  id : Int
  cpu : Int
deriving DecidableEq

instance : Inhabited ParticleType := ⟨{ pos := [], rdata := [], id := 0, cpu := 0 }⟩

/-- Modelled from the spec: the per-grid particle store is absent from the
sources; it is an array holding the real particles followed by the ghost
segment, with the length of the ghost segment kept aside. Sizes are natural
numbers, without the wrap of a machine integer. -/
structure ParticleTile where
  m_data : List ParticleType
  m_num_neighbor_particles : Nat
deriving DecidableEq

instance : Inhabited ParticleTile := ⟨{ m_data := [], m_num_neighbor_particles := 0 }⟩

/-- Change of the length of an array, `resize`: a longer array is filled up
with default records, a shorter one is cut. -/
def resize {α : Type} [Inhabited α] (l : List α) (n : Nat) : List α :=
  l.take n ++ List.replicate (n - l.length) default

namespace ParticleTile

/-- Number of real particles, `numRealParticles()` and `numParticles()`. -/
def numRealParticles (t : ParticleTile) : Nat :=
  t.m_data.length - t.m_num_neighbor_particles

/-- Length of the ghost segment, `getNumNeighbors()`. -/
def getNumNeighbors (t : ParticleTile) : Nat := t.m_num_neighbor_particles

/-- Change of the length of the ghost segment, `setNumNeighbors(n)`: the array
is resized to the real particles plus `n` ghosts. -/
def setNumNeighbors (t : ParticleTile) (n : Nat) : ParticleTile :=
  { m_data := resize t.m_data (t.numRealParticles + n), m_num_neighbor_particles := n }

/-- The real particles of the tile. -/
def realParticles (t : ParticleTile) : List ParticleType := t.m_data.take t.numRealParticles

/-- The ghost segment of the tile. -/
def ghosts (t : ParticleTile) : List ParticleType := t.m_data.drop t.numRealParticles

end ParticleTile

/-- The particle data of the container on all ranks: the tile of every grid
(`GetParticles(0)`, whose only tile index is `0`) and the runs `m_start` and
`m_stop` of every grid. A grid belongs to one rank, which alone reads and
writes the entries of the grid. -/
structure ParticleState where
  plev : Nat → ParticleTile
  m_start : Nat → List Int
  m_stop : Nat → List Int

/-- The grids visited by an `MFIter` on rank `myProc`: the grids owned by the
rank, in increasing order. -/
def localGrids (cfg : Config) (myProc : Nat) : List Nat :=
  (List.range cfg.ba.length).filter fun g => cfg.dmap g = myProc

/-! ## Classification and sort -/

/-- The cell of a particle: the floor of `(pos - plo) * dxi` on every axis,
moved by the lower corner of the domain. -/
def cellOf (cfg : Config) (p : ParticleType) : IntVect :=
  IntVect.add
    ((List.range cfg.dim).map fun d =>
      AmrexReal.floor (((p.pos.getD d default).sub (cfg.plo.getD d default)).mul
        (cfg.dxi.getD d default)))
    cfg.domain.smallend

/-- The codes `pcodes` of an array of particles: the value of the mask at the
cell of each particle. -/
def codesOf (cfg : Config) (mask : BaseFab) : List ParticleType → Except Err (List Int)
  | [] => .ok []
  | p :: ps =>
    match mask.get (cellOf cfg p) with
    | .error e => .error e
    | .ok code =>
      match codesOf cfg mask ps with
      | .error e => .error e
      | .ok codes => .ok (code :: codes)

/-- Order of two (key, value) pairs by key. -/
def keyLE {α : Type} (a b : Int × α) : Prop := a.1 ≤ b.1

instance {α : Type} : IsTotal (Int × α) keyLE := ⟨fun a b => Int.le_total a.1 b.1⟩

instance {α : Type} : IsTrans (Int × α) keyLE := ⟨fun _ _ _ h1 h2 => Int.le_trans h1 h2⟩

instance {α : Type} : DecidableRel (keyLE (α := α)) := fun a b => Int.decLe a.1 b.1

/-- Modelled from the spec: `thrust::sort_by_key` is absent from the sources;
the spec has the array stably sorted by the key, so the values keep their
order among equal keys. The sorted keys and the sorted values are returned. -/
def sort_by_key {α : Type} (keys : List Int) (vals : List α) : List Int × List α :=
  let s := List.insertionSort keyLE (keys.zip vals)
  (s.map Prod.fst, s.map Prod.snd)

/-- The loop of a binary search for the first position whose element is not
below `value`: `first` and `count` delimit the positions still in question, the
first argument bounds the number of halvings. -/
def lowerBoundLoop (a : List Int) (value : Int) : Nat → Nat → Nat → Nat
  | 0, first, _ => first
  | fuel + 1, first, count =>
    if count = 0 then first
    else
      let step := count / 2
      if a.getD (first + step) 0 < value then
        lowerBoundLoop a value fuel (first + step + 1) (count - (step + 1))
      else lowerBoundLoop a value fuel first step

/-- The loop of a binary search for the first position whose element is above
`value`. -/
def upperBoundLoop (a : List Int) (value : Int) : Nat → Nat → Nat → Nat
  | 0, first, _ => first
  | fuel + 1, first, count =>
    if count = 0 then first
    else
      let step := count / 2
      if value < a.getD (first + step) 0 then upperBoundLoop a value fuel first step
      else upperBoundLoop a value fuel (first + step + 1) (count - (step + 1))

/-- Modelled from the spec: `thrust::lower_bound` is absent from the sources;
it is the binary search of the spec, whose range halves at every step, so as
many steps as the array has elements always suffice. -/
def lower_bound (a : List Int) (value : Int) : Nat := lowerBoundLoop a value a.length 0 a.length

/-- Modelled from the spec: `thrust::upper_bound` is absent from the sources;
see `lower_bound`. -/
def upper_bound (a : List Int) (value : Int) : Nat := upperBoundLoop a value a.length 0 a.length

/-- The probe sequence of the searches: the `num_codes + 1` codes counted up
from `-1`. -/
def probes (num_codes : Nat) : List Int :=
  (List.range (num_codes + 1)).map fun (k : Nat) => (k : Int) - 1

/-- The body of the loop of `sortParticlesByNeighborDest` for grid `gid`: the
codes of the real particles, the sort of the real particles by code, and the
two searches that give the runs of the codes. -/
def sortGrid (cfg : Config) (nm : NeighborMask) (st : ParticleState) (gid : Nat) :
    Except Err ParticleState :=
  let src_tile := st.plev gid
  let np := src_tile.numRealParticles
  match codesOf cfg (nm.m_neighbor_mask gid) (src_tile.m_data.take np) with
  | .error e => .error e
  | .ok pcodes =>
    let sorted := sort_by_key pcodes (src_tile.m_data.take np)
    let num_codes := (nm.m_grid_map gid).length
    .ok
      { plev := Function.update st.plev gid
          { src_tile with m_data := sorted.2 ++ src_tile.m_data.drop np }
        m_start := Function.update st.m_start gid
          ((probes num_codes).map fun v => (lower_bound sorted.1 v : Int))
        m_stop := Function.update st.m_stop gid
          ((probes num_codes).map fun v => (upper_bound sorted.1 v : Int)) }

/-- A loop whose body may fail: the body is run on the elements in order, and
the first failure ends the loop. -/
def forEach {σ β : Type} (body : σ → β → Except Err σ) : List β → σ → Except Err σ
  | [], st => .ok st
  | g :: gs, st =>
    match body st g with
    | .error e => .error e
    | .ok st1 => forEach body gs st1

/-- The call `sortParticlesByNeighborDest()` on rank `myProc`. -/
def sortParticlesByNeighborDest (cfg : Config) (nm : NeighborMask) (myProc : Nat)
    (st : ParticleState) : Except Err ParticleState :=
  forEach (sortGrid cfg nm) (localGrids cfg myProc) st

/-! ## Reset of the ghost segments -/

/-- The call `clearNeighbors()` on rank `myProc`: the ghost segment of every
grid of the rank is set to length `0`. -/
def clearNeighbors (cfg : Config) (myProc : Nat) (st : ParticleState) : ParticleState :=
  (localGrids cfg myProc).foldl
    (fun st src_grid =>
      { st with plev := Function.update st.plev src_grid ((st.plev src_grid).setNumNeighbors 0) })
    st

/-! ## Bytes of the send and receive buffers -/

/-- The objects that are copied into the buffers. -/
inductive Obj where
  | sizeT (n : Nat)
  | int (i : Int)
  | particle (p : ParticleType)
deriving DecidableEq

/-- A byte of a buffer: the `k`-th byte of the representation of an object, or
`none` for a byte that was never written. -/
abbrev MemVal := Option (Obj × Nat)

/-- Number of bytes of a `size_t`. -/
def sizeof_size_t : Nat := 8

/-- Number of bytes of an `int`. -/
def sizeof_int : Nat := 4

/-- The bytes of an object of `sz` bytes. -/
def storeObj (sz : Nat) (o : Obj) : List MemVal := (List.range sz).map fun k => some (o, k)

/-- The object of `sz` bytes read at position `pos`: the bytes there must be the
whole representation of one object. -/
def loadObj (sz : Nat) (buf : List MemVal) (pos : Nat) : Option Obj :=
  match buf.getD pos none with
  | some (o, 0) => if 0 < sz ∧ (buf.drop pos).take sz = storeObj sz o then some o else none
  | _ => none

/-- A `size_t` read at `pos`. -/
def readSizeT (buf : List MemVal) (pos : Nat) : Except Err Nat :=
  match loadObj sizeof_size_t buf pos with
  | some (.sizeT n) => .ok n
  | _ => .error .undefined

/-- An `int` read at `pos`. -/
def readInt (buf : List MemVal) (pos : Nat) : Except Err Int :=
  match loadObj sizeof_int buf pos with
  | some (.int i) => .ok i
  | _ => .error .undefined

/-- The `n` particle records read from `pos` on. -/
def readParticles (cfg : Config) (buf : List MemVal) : Nat → Nat → Except Err (List ParticleType)
  | 0, _ => .ok []
  | n + 1, pos =>
    match loadObj cfg.sizeofParticleType buf pos with
    | some (.particle p) =>
      match readParticles cfg buf n (pos + cfg.sizeofParticleType) with
      | .error e => .error e
      | .ok ps => .ok (p :: ps)
    | _ => .error .undefined

/-- A copy of `xs` over the elements of `l` from position `off` on. -/
def writeAt {α : Type} (l : List α) (off : Nat) (xs : List α) : List α :=
  l.take off ++ xs ++ l.drop (off + xs.length)

/-- Change of the length of a buffer; new bytes are not yet written. -/
def resizeBuf (l : List MemVal) (n : Nat) : List MemVal :=
  l.take n ++ List.replicate (n - l.length) none

/-- The bytes of an array of particle records. -/
def storeParticles (cfg : Config) (ps : List ParticleType) : List MemVal :=
  ps.flatMap fun p => storeObj cfg.sizeofParticleType (.particle p)

/-! ## Exchange of the ghost particles -/

/-- The first loop nest of `updateNeighbors` on rank `myProc`: the number
`grid_counts` of groups that go to each other rank. -/
def gridCounts (cfg : Config) (nm : NeighborMask) (myProc : Nat) : Nat → Nat :=
  (localGrids cfg myProc).foldl
    (fun gc src_grid =>
      ((List.range (nm.m_grid_map src_grid).length).map fun k => k + 1).foldl
        (fun gc i =>
          ((nm.m_grid_map src_grid).getD (i - 1) []).foldl
            (fun gc dst_grid =>
              let dest_proc := cfg.dmap dst_grid
              if dest_proc ≠ myProc then Function.update gc dest_proc (gc dest_proc + 1) else gc)
            gc)
        gc)
    (fun _ => 0)

/-- The send buffers `not_ours` of one rank, a map from destination rank to
buffer: `keys` lists the ranks that have an entry, `buf` gives the buffer of a
rank (empty for a rank without an entry). -/
structure SendMap where
  buf : Nat → List MemVal
  keys : List Nat

/-- The particle data of the container together with the send buffers of one
rank. -/
structure PackState where
  st : ParticleState
  not_ours : SendMap

/-- The records of positions `start` up to `stop` of an array; positions
outside the array hold no record. -/
def recordsBetween (data : List ParticleType) (start stop : Int) :
    Except Err (List ParticleType) :=
  if 0 ≤ start ∧ start ≤ stop ∧ stop ≤ (data.length : Int) then
    .ok ((data.drop start.toNat).take (stop - start).toNat)
  else .error .undefined

/-- The non-local branch of `updateNeighbors`: the buffer of the destination
rank grows by one group, which is the run length, the destination grid, the
destination rank and the records; the first group of a buffer is preceded by
the number of groups. -/
def packGroup (cfg : Config) (buf : List MemVal) (grid_count num_to_add : Nat)
    (dst_grid dest_proc : Nat) (records : List ParticleType) : List MemVal :=
  let old_size := buf.length
  let new_size :=
    old_size + num_to_add * cfg.sizeofParticleType + sizeof_size_t + 2 * sizeof_int
  let buf1 :=
    if old_size = 0 then
      writeAt (resizeBuf buf (new_size + sizeof_size_t)) 0 (storeObj sizeof_size_t (.sizeT grid_count))
    else resizeBuf buf new_size
  let dst := if old_size = 0 then old_size + sizeof_size_t else old_size
  let buf2 := writeAt buf1 dst (storeObj sizeof_size_t (.sizeT num_to_add))
  let dst := dst + sizeof_size_t
  let buf3 := writeAt buf2 dst (storeObj sizeof_int (.int dst_grid))
  let dst := dst + sizeof_int
  let buf4 := writeAt buf3 dst (storeObj sizeof_int (.int dest_proc))
  let dst := dst + sizeof_int
  writeAt buf4 dst (storeParticles cfg records)

/-- The body of the loop over the destination grids of one code in
`updateNeighbors`: a local copy to the end of the ghost segment of the
destination when the destination is on this rank, a packed group otherwise. -/
def copyOrPack (cfg : Config) (myProc : Nat) (grid_counts : Nat → Nat) (src_grid : Nat)
    (start stop : Int) (num_to_add : Nat) (ps : PackState) (dst_grid : Nat) :
    Except Err PackState :=
  let dest_proc := cfg.dmap dst_grid
  if dest_proc = myProc then
    let dst_ptile := ps.st.plev dst_grid
    let nRParticles := dst_ptile.numRealParticles
    let nNParticles := dst_ptile.getNumNeighbors
    let new_num_neighbors := nNParticles + num_to_add
    let plev1 := Function.update ps.st.plev dst_grid (dst_ptile.setNumNeighbors new_num_neighbors)
    match recordsBetween (plev1 src_grid).m_data start stop with
    | .error e => .error e
    | .ok records =>
      let dst := plev1 dst_grid
      .ok { ps with
        st := { ps.st with
          plev := Function.update plev1 dst_grid
            { dst with m_data := writeAt dst.m_data (nRParticles + nNParticles) records } } }
  else
    match recordsBetween (ps.st.plev src_grid).m_data start stop with
    | .error e => .error e
    | .ok records =>
      .ok { ps with
        not_ours :=
          { buf := Function.update ps.not_ours.buf dest_proc
              (packGroup cfg (ps.not_ours.buf dest_proc) (grid_counts dest_proc) num_to_add
                dst_grid dest_proc records)
            keys :=
              if dest_proc ∈ ps.not_ours.keys then ps.not_ours.keys
              else ps.not_ours.keys ++ [dest_proc] } }

/-- The body of the loop over the codes of one source grid in
`updateNeighbors`, for `i` from `1` to `num_codes`. The entries of `m_start`
and `m_stop` are `int`s, so the run length `num_to_add` is their difference
whenever the run is well-formed; a run that ends before it starts is caught
when its records are read (`recordsBetween`). -/
def exportCode (cfg : Config) (nm : NeighborMask) (myProc : Nat) (grid_counts : Nat → Nat)
    (src_grid : Nat) (ps : PackState) (i : Nat) : Except Err PackState :=
  match (ps.st.m_start src_grid)[i]?, (ps.st.m_stop src_grid)[i]? with
  | some start, some stop =>
    let num_to_add := (stop - start).toNat
    forEach (copyOrPack cfg myProc grid_counts src_grid start stop num_to_add)
      ((nm.m_grid_map src_grid).getD (i - 1) []) ps
  | _, _ => .error .undefined

/-- The body of the second loop over the grids in `updateNeighbors`. -/
def exportGrid (cfg : Config) (nm : NeighborMask) (myProc : Nat) (grid_counts : Nat → Nat)
    (ps : PackState) (src_grid : Nat) : Except Err PackState :=
  forEach (exportCode cfg nm myProc grid_counts src_grid)
    ((List.range (nm.m_grid_map src_grid).length).map fun k => k + 1) ps

/-- The part of `updateNeighbors` that a rank runs on its own: the reset of the
ghost segments, the count of the groups, and the loop that copies the runs to
local destinations and packs the runs for the other ranks. -/
def updateNeighborsPack (cfg : Config) (nm : NeighborMask) (myProc : Nat)
    (st : ParticleState) : Except Err PackState :=
  forEach (exportGrid cfg nm myProc (gridCounts cfg nm myProc)) (localGrids cfg myProc)
    { st := clearNeighbors cfg myProc st, not_ours := { buf := fun _ => [], keys := [] } }

/-- The value of a `size_t` stored into an `int` of 32 bits. -/
def toInt32 (n : Nat) : Int :=
  if n % 2 ^ 32 < 2 ^ 31 then ((n % 2 ^ 32 : Nat) : Int) else ((n % 2 ^ 32 : Nat) : Int) - 2 ^ 32

/-- The largest `int`, `std::numeric_limits<int>::max()`. -/
def INT_MAX : Nat := 2147483647

/-- The loop of `fillNeighborsMPIGPU` over the announced byte counts `Rcvs`:
the senders with a positive count (`RcvProc`), the offset of each in the
receive buffer (`rOffset`) and the total (`TotRcvBytes`). -/
def recvLayout (Rcvs : List Nat) : List Nat × List Nat × Nat :=
  (List.range Rcvs.length).foldl
    (fun acc i =>
      if 0 < Rcvs.getD i 0 then (acc.1 ++ [i], acc.2.1 ++ [acc.2.2], acc.2.2 + Rcvs.getD i 0)
      else acc)
    ([], [], 0)

/-- The loop over the groups of one peer in the unpack of
`fillNeighborsMPIGPU`: `num_grids` groups are still to be read and `pos` is the
position of `buffer` in the receive buffer. -/
def unpackGroups (cfg : Config) (myProc : Nat) (rcv_buffer : List MemVal) :
    Nat → Nat → ParticleState → Except Err ParticleState
  | 0, _, st => .ok st
  | num_grids + 1, pos, st =>
    match readSizeT rcv_buffer pos with
    | .error e => .error e
    | .ok num_particles =>
      match readInt rcv_buffer (pos + sizeof_size_t) with
      | .error e => .error e
      | .ok gid =>
        match readInt rcv_buffer (pos + sizeof_size_t + sizeof_int) with
        | .error e => .error e
        | .ok pid =>
          let pos := pos + sizeof_size_t + sizeof_int + sizeof_int
          if num_particles = 0 then unpackGroups cfg myProc rcv_buffer num_grids pos st
          else if pid ≠ (myProc : Int) then
            .error (.abort "pid == ParallelDescriptor::MyProc()")
          else if gid < 0 then .error .undefined
          else
            let ptile := st.plev gid.toNat
            let nRParticles := ptile.numRealParticles
            let nNParticles := ptile.getNumNeighbors
            let new_num_neighbors := nNParticles + num_particles
            let ptile := ptile.setNumNeighbors new_num_neighbors
            match readParticles cfg rcv_buffer num_particles pos with
            | .error e => .error e
            | .ok records =>
              unpackGroups cfg myProc rcv_buffer num_grids
                (pos + num_particles * cfg.sizeofParticleType)
                { st with
                  plev := Function.update st.plev gid.toNat
                    { ptile with
                      m_data := writeAt ptile.m_data (nRParticles + nNParticles) records } }

/-- The body of the loop over the peers in the unpack of
`fillNeighborsMPIGPU`: the offset of the peer, held in an `int`, the number of
groups, and the groups. -/
def unpackPeer (cfg : Config) (myProc : Nat) (rcv_buffer : List MemVal) (rOffset : List Nat)
    (st : ParticleState) (i : Nat) : Except Err ParticleState :=
  let offset := toInt32 (rOffset.getD i 0)
  if offset < 0 then .error .undefined
  else
    match readSizeT rcv_buffer offset.toNat with
    | .error e => .error e
    | .ok num_grids =>
      unpackGroups cfg myProc rcv_buffer num_grids (offset.toNat + sizeof_size_t) st

/-- The call `fillNeighborsMPIGPU(not_ours)` on rank `myProc`, where `sends r`
is the map `not_ours` of rank `r`. Modelled from the spec: the transport is
absent from the sources; it is reliable and ordered, so the maximum, the sizes
and the messages that the rank receives are those of the other ranks. -/
def fillNeighborsMPIGPU (cfg : Config) (myProc : Nat) (sends : Nat → SendMap)
    (st : ParticleState) : Except Err ParticleState :=
  let NProcs := cfg.nprocs
  let not_ours := sends myProc
  if not_ours.keys.any (fun who => decide (NProcs ≤ who)) then .error .undefined
  else
    let NumSnds := fun r => ((List.range NProcs).map fun who => ((sends r).buf who).length).sum
    let NumSndsMax := ((List.range NProcs).map NumSnds).foldl max 0
    if NumSndsMax = 0 then .ok st
    else
      let Rcvs := (List.range NProcs).map fun i => ((sends i).buf myProc).length
      if Rcvs.getD myProc 0 ≠ 0 then
        .error (.abort "Rcvs[ParallelDescriptor::MyProc()] == 0")
      else
        let layout := recvLayout Rcvs
        let RcvProc := layout.1
        let rOffset := layout.2.1
        let TotRcvBytes := layout.2.2
        let nrcvs := RcvProc.length
        if RcvProc.any (fun who => decide (INT_MAX ≤ Rcvs.getD who 0)) then
          .error (.abort "Cnt < std::numeric_limits<int>::max()")
        else if not_ours.keys.any (fun who => decide (INT_MAX ≤ (not_ours.buf who).length)) then
          .error (.abort "Cnt < std::numeric_limits<int>::max()")
        else
          let rcv_buffer := (List.range nrcvs).foldl
            (fun buffer i =>
              writeAt buffer (rOffset.getD i 0) ((sends (RcvProc.getD i 0)).buf myProc))
            (List.replicate TotRcvBytes none)
          if 0 < nrcvs then
            forEach (unpackPeer cfg myProc rcv_buffer rOffset) (List.range nrcvs) st
          else .ok st

/-- The particle data of all ranks together with the send maps of the ranks
that have run the first part of `updateNeighbors`. -/
structure Packed where
  st : ParticleState
  sends : Nat → SendMap

/-- The first part of `updateNeighbors` on rank `r`, after the ranks before it:
the particle data of the rank changes and the send map of the rank is kept. -/
def packStep (cfg : Config) (nm : NeighborMask) (acc : Packed) (r : Nat) : Except Err Packed :=
  match updateNeighborsPack cfg nm r acc.st with
  | .error e => .error e
  | .ok ps => .ok { st := ps.st, sends := Function.update acc.sends r ps.not_ours }

/-- The first part of `updateNeighbors` on every rank in turn. -/
def packAll (cfg : Config) (nm : NeighborMask) (ranks : List Nat) (st : ParticleState) :
    Except Err Packed :=
  forEach (packStep cfg nm) ranks
    { st := st, sends := fun _ => { buf := fun _ => [], keys := [] } }

/-- The call `updateNeighbors()` on every rank: each rank runs the first part
on its own grids, then a single rank asserts that nothing is left to send
while several ranks run `fillNeighborsMPIGPU` together. -/
def updateNeighbors (cfg : Config) (nm : NeighborMask) (st : ParticleState) :
    Except Err ParticleState :=
  match packAll cfg nm (List.range cfg.nprocs) st with
  | .error e => .error e
  | .ok packed =>
    if cfg.nprocs = 1 then
      if (packed.sends 0).keys.isEmpty then .ok packed.st
      else .error (.abort "not_ours.empty()")
    else
      forEach (fun st r => fillNeighborsMPIGPU cfg r packed.sends st) (List.range cfg.nprocs)
        packed.st

/-- The call `sortParticlesByNeighborDest()` on every rank. -/
def sortAll (cfg : Config) (nm : NeighborMask) (st : ParticleState) : Except Err ParticleState :=
  forEach (fun st r => sortParticlesByNeighborDest cfg nm r st) (List.range cfg.nprocs) st

/-- The call `fillNeighbors()` on every rank: the sort, then `updateNeighbors`. -/
def fillNeighbors (cfg : Config) (nm : NeighborMask) (st : ParticleState) :
    Except Err ParticleState :=
  match sortAll cfg nm st with
  | .error e => .error e
  | .ok st1 => updateNeighbors cfg nm st1

/-- The call `clearNeighbors()` on every rank. -/
def clearAll (cfg : Config) (st : ParticleState) : ParticleState :=
  (List.range cfg.nprocs).foldl (fun st r => clearNeighbors cfg r st) st

/-! ## Auxiliary definitions of the proofs -/

/-- What the sort leaves in the entries of grid `g`, from the entries before. -/
def SortedFrom (cfg : Config) (nm : NeighborMask) (g : Nat)
    (before after : ParticleTile × List Int × List Int) : Prop :=
  ∃ codes, codesOf cfg (nm.m_neighbor_mask g) before.1.realParticles = .ok codes ∧
    after.1 = { m_data := (sort_by_key codes before.1.realParticles).2 ++ before.1.ghosts
                m_num_neighbor_particles := before.1.m_num_neighbor_particles } ∧
    after.2.1 = (probes (nm.m_grid_map g).length).map
      (fun v => (lower_bound (sort_by_key codes before.1.realParticles).1 v : Int)) ∧
    after.2.2 = (probes (nm.m_grid_map g).length).map
      (fun v => (upper_bound (sort_by_key codes before.1.realParticles).1 v : Int))

/-- The entries of grid `g` in the particle data. -/
def slotOf (st : ParticleState) (g : Nat) : ParticleTile × List Int × List Int :=
  (st.plev g, st.m_start g, st.m_stop g)

/-- The stamping loop of `buildNeighborMask` over the first `n` boundary boxes. -/
def stampFold (isec_bl bl : List Box) (n : Nat) (fab0 : BaseFab) : BaseFab :=
  (List.range n).foldl (fun (fab : BaseFab) i =>
    let box := bl.getD i default
    if (intersections isec_bl box 0).isEmpty then fab else fab.setVal i box) fab0

/-- The `i`-th boundary box meets one of the boxes `isec_bl`, so that the loop
stamps it. -/
def Stamped (isec_bl bl : List Box) (i : Nat) : Prop :=
  (intersections isec_bl (bl.getD i default) 0).isEmpty = false

/-- The boxes that the neighbours of grid `grid` cut out of the grid. -/
def isecBoxes (cfg : Config) (grid : Nat) : List Box := (neighborGrids cfg grid).map Prod.snd

/-- The neighbours of grid `grid`, one for each box of `isecBoxes`. -/
def isecGrids (cfg : Config) (grid : Nat) : List Nat := (neighborGrids cfg grid).map Prod.fst

/-- The headers (run length, grid, rank) of the groups that the unpack loop
walks over, from `num_grids` groups at position `pos` on. -/
def groupHeaders (cfg : Config) (rcv_buffer : List MemVal) : Nat → Nat → List (Nat × Int × Int)
  | 0, _ => []
  | num_grids + 1, pos =>
    match readSizeT rcv_buffer pos, readInt rcv_buffer (pos + sizeof_size_t),
      readInt rcv_buffer (pos + sizeof_size_t + sizeof_int) with
    | .ok num_particles, .ok gid, .ok pid =>
      (num_particles, gid, pid) ::
        groupHeaders cfg rcv_buffer num_grids
          (pos + sizeof_size_t + sizeof_int + sizeof_int
            + num_particles * cfg.sizeofParticleType)
    | _, _, _ => []

/-- A particle state without particles. -/
def emptyState : ParticleState :=
  { plev := fun _ => default, m_start := fun _ => [], m_stop := fun _ => [] }

/-- Three ranks and one grid of ten cells on rank `0`. -/
def threeRanks : Config :=
  { dim := 1, ba := [{ smallend := [0], bigend := [9], btype := 0 }], dmap := fun _ => 0,
    nprocs := 3, period := [0], plo := [{ num := 0, den := 1 }], dxi := [{ num := 1, den := 1 }],
    domain := { smallend := [0], bigend := [9], btype := 0 }, ncells := 1,
    sizeofParticleType := 80 }

/-- A message of one group of run length `0` for grid `0` that names rank `2`
as its destination. -/
def strayMessage : List MemVal :=
  storeObj sizeof_size_t (.sizeT 1) ++ storeObj sizeof_size_t (.sizeT 0) ++
    storeObj sizeof_int (.int 0) ++ storeObj sizeof_int (.int 2)

/-- Send maps in which rank `1` sends `strayMessage` to rank `0`. -/
def straySends : Nat → SendMap := fun r =>
  if r = 1 then { buf := fun who => if who = 0 then strayMessage else [], keys := [0] }
  else { buf := fun _ => [], keys := [] }

/-- The list that `getBoundaryBoxes` builds before the removal of duplicates. -/
def rawBoundaryBoxes (dim : Nat) (box : Box) (ncells : Int) : List Box :=
  (List.range dim).flatMap fun i =>
    let hi_face_box := adjCellHi box i ncells
    let lo_face_box := adjCellLo box i ncells
    let face_boxes := [hi_face_box, lo_face_box]
    face_boxes ++ face_boxes.flatMap fun face_box =>
      (List.range dim).flatMap fun j =>
        if i = j then [] else
          let hi_edge_box := adjCellHi face_box j ncells
          let lo_edge_box := adjCellLo face_box j ncells
          let edge_boxes := [hi_edge_box, lo_edge_box]
          edge_boxes ++ edge_boxes.flatMap fun edge_box =>
            (List.range dim).flatMap fun k =>
              if j = k ∨ i = k then [] else
                [adjCellHi edge_box k ncells, adjCellLo edge_box k ncells]

/-- The three intervals of one axis: below the box (`s = -1`), the box
(`s = 0`), above the box (any other `s`). -/
def sideLo (lo hi n s : Int) : Int := if s = 0 then lo else if s = -1 then lo - n else hi + 1

/-- Upper end of the interval of `sideLo`. -/
def sideHi (lo hi n s : Int) : Int := if s = 0 then hi else if s = -1 then lo - 1 else hi + n

/-- The box of `len` cells next to `b` on axis `dir`, on the high side for
`s = 1` and on the low side otherwise. -/
def adjSide (s : Int) (b : Box) (dir : Nat) (len : Int) : Box :=
  if s = 1 then adjCellHi b dir len else adjCellLo b dir len

/-- The box `b` lies next to `box` in the direction `dir`, which gives `-1`,
`0` or `1` for every axis: on every axis `b` spans the interval of `sideLo` and
`sideHi`. -/
def IsRegion (box : Box) (n : Int) (dim : Nat) (dir : Nat → Int) (b : Box) : Prop :=
  b.smallend.length = dim ∧ b.bigend.length = dim ∧ b.btype = box.btype ∧
    ∀ a, a < dim →
      b.smallend.getD a 0 = sideLo (box.smallend.getD a 0) (box.bigend.getD a 0) n (dir a) ∧
      b.bigend.getD a 0 = sideHi (box.smallend.getD a 0) (box.bigend.getD a 0) n (dir a)

/-- The cell `iv` lies in the shell of depth `n` of the grid: in the grid, and
not in the grid shrunk by `n` cells. -/
def inShell (grid : Box) (n : Int) (iv : IntVect) : Prop :=
  grid.contains iv = true ∧ (grid.grow (-n)).contains iv = false

instance (grid : Box) (n : Int) (iv : IntVect) : Decidable (inShell grid n iv) := by
  unfold inShell
  infer_instance

/-- A direction with entries `-1`, `0`, `1`, not all `0` below `dim`. -/
def ShellDir (dim : Nat) (dir : Nat → Int) : Prop :=
  (∀ a, dir a = -1 ∨ dir a = 0 ∨ dir a = 1) ∧ ∃ a, a < dim ∧ dir a ≠ 0

/-- The direction of a cell seen from a box: per axis `-1` below the box, `1`
above the box, `0` in between. -/
def dirOf (box : Box) (iv : IntVect) (a : Nat) : Int :=
  if iv.getD a 0 < box.smallend.getD a 0 then -1
  else if box.bigend.getD a 0 < iv.getD a 0 then 1 else 0

/-- The value of the mask of grid `g` at cell `iv` after `buildNeighborMask`. -/
def maskAt (cfg : Config) (g : Nat) (iv : IntVect) : Except Err Int :=
  match buildNeighborMask cfg with
  | .ok nm => .ok ((nm.m_neighbor_mask g).val iv)
  | .error e => .error e

/-- The neighbour table of grid `g` after `buildNeighborMask`. -/
def tableAt (cfg : Config) (g : Nat) : Except Err (List (List Nat)) :=
  match buildNeighborMask cfg with
  | .ok nm => .ok (nm.m_grid_map g)
  | .error e => .error e

/-- A domain of twenty cells on one axis, not periodic, cut into two grids of
ten cells, with a shell of depth `1`; `nprocs` ranks, grid `g` on rank
`dmap g`. -/
def twoGrids (nprocs : Nat) (dmap : Nat → Nat) : Config :=
  { dim := 1
    ba := [{ smallend := [0], bigend := [9], btype := 0 },
      { smallend := [10], bigend := [19], btype := 0 }]
    dmap := dmap, nprocs := nprocs, period := [0]
    plo := [{ num := 0, den := 1 }], dxi := [{ num := 1, den := 1 }]
    domain := { smallend := [0], bigend := [19], btype := 0 }, ncells := 1
    sizeofParticleType := 80 }

/-! ## Example configurations -/

/-- A particle with identifier `id` at the centre of cell `cell`, for a domain
with lower corner `0` and cells of size `1`. -/
def particleAt (id : Int) (cell : List Int) : ParticleType :=
  { pos := cell.map fun c => { num := 2 * c + 1, den := 2 }, rdata := [], id := id, cpu := 0 }

/-- The particle data in which grid `0` holds the real particles `ps` and no
other grid holds a particle. -/
def onlyGridZero (ps : List ParticleType) : ParticleState :=
  { plev := fun g => if g = 0 then { m_data := ps, m_num_neighbor_particles := 0 } else default
    m_start := fun _ => [], m_stop := fun _ => [] }

/-- A periodic domain on one axis cut into two grids of `len` cells, with a
shell of depth `1`; `nprocs` ranks, grid `g` on rank `dmap g`. -/
def periodicPair (len : Int) (nprocs : Nat) (dmap : Nat → Nat) : Config :=
  { dim := 1
    ba := [{ smallend := [0], bigend := [len - 1], btype := 0 },
      { smallend := [len], bigend := [2 * len - 1], btype := 0 }]
    dmap := dmap, nprocs := nprocs, period := [2 * len]
    plo := [{ num := 0, den := 1 }], dxi := [{ num := 1, den := 1 }]
    domain := { smallend := [0], bigend := [2 * len - 1], btype := 0 }, ncells := 1
    sizeofParticleType := 80 }

/-- The identifiers of the real particles and of the ghosts of grid `g` after
`buildNeighborMask` and `times` calls of `fillNeighbors`. -/
def idsAfterFill (cfg : Config) (st : ParticleState) (times : Nat) (g : Nat) :
    Except Err (List Int × List Int) :=
  match buildNeighborMask cfg with
  | .error e => .error e
  | .ok nm =>
    match forEach (fun st (_ : Nat) => fillNeighbors cfg nm st) (List.range times) st with
    | .error e => .error e
    | .ok st1 =>
      .ok (((st1.plev g).realParticles.map fun p => p.id),
        ((st1.plev g).ghosts.map fun p => p.id))

/-- A domain of twenty by ten cells, periodic on the second axis, cut into two
grids of ten by ten cells side by side, with a shell of depth `1`. -/
def periodicStrip (nprocs : Nat) (dmap : Nat → Nat) : Config :=
  { dim := 2
    ba := [{ smallend := [0, 0], bigend := [9, 9], btype := 0 },
      { smallend := [10, 0], bigend := [19, 9], btype := 0 }]
    dmap := dmap, nprocs := nprocs, period := [0, 10]
    plo := [{ num := 0, den := 1 }, { num := 0, den := 1 }]
    dxi := [{ num := 1, den := 1 }, { num := 1, den := 1 }]
    domain := { smallend := [0, 0], bigend := [19, 9], btype := 0 }, ncells := 1
    sizeofParticleType := 80 }

/-- A domain of twenty by ten cells, not periodic, cut into a grid of ten by
ten cells and, next to it, two grids of ten by five cells, with a shell of
depth `1`. -/
def unevenGrids (nprocs : Nat) (dmap : Nat → Nat) : Config :=
  { dim := 2
    ba := [{ smallend := [0, 0], bigend := [9, 9], btype := 0 },
      { smallend := [10, 0], bigend := [19, 4], btype := 0 },
      { smallend := [10, 5], bigend := [19, 9], btype := 0 }]
    dmap := dmap, nprocs := nprocs, period := [0, 0]
    plo := [{ num := 0, den := 1 }, { num := 0, den := 1 }]
    dxi := [{ num := 1, den := 1 }, { num := 1, den := 1 }]
    domain := { smallend := [0, 0], bigend := [19, 9], btype := 0 }, ncells := 1
    sizeofParticleType := 80 }

/-- The runs `m_start` and `m_stop` of grid `g` after `buildNeighborMask` and
`fillNeighbors`. -/
def runsAfterFill (cfg : Config) (st : ParticleState) (g : Nat) :
    Except Err (List Int × List Int) :=
  match buildNeighborMask cfg with
  | .error e => .error e
  | .ok nm =>
    match fillNeighbors cfg nm st with
    | .error e => .error e
    | .ok st1 => .ok (st1.m_start g, st1.m_stop g)

/-- Two results are related: two values related by `R`, or the same failure. -/
def ExceptRel {α : Type} (R : α → α → Prop) : Except Err α → Except Err α → Prop
  | .ok a, .ok b => R a b
  | .error e, .error e' => e = e'
  | _, _ => False

/-- Two particle states have the same runs and the same tiles on the grids
that satisfy `P`. -/
def SameOn (P : Nat → Prop) (a b : ParticleState) : Prop :=
  a.m_start = b.m_start ∧ a.m_stop = b.m_stop ∧ ∀ g, P g → a.plev g = b.plev g

/-- Two particle states have the same runs and the same real particles on the
grids that satisfy `P`. -/
def SameReal (P : Nat → Prop) (a b : ParticleState) : Prop :=
  a.m_start = b.m_start ∧ a.m_stop = b.m_stop ∧
    ∀ g, P g → (a.plev g).realParticles = (b.plev g).realParticles

/-- Every neighbour listed in the table is a grid of the box array. -/
def TableValid (cfg : Config) (nm : NeighborMask) : Prop :=
  ∀ s k d, d ∈ (nm.m_grid_map s).getD k [] → d < cfg.ba.length

/-- The grid `g` is a grid of the box array owned by rank `r`. -/
def LocalTo (cfg : Config) (r : Nat) (g : Nat) : Prop := g < cfg.ba.length ∧ cfg.dmap g = r

/-- The tile with the records `recs` added at the end of its ghost segment. -/
def addNeighbors (t : ParticleTile) (recs : List ParticleType) : ParticleTile :=
  { m_data := writeAt (t.setNumNeighbors (t.getNumNeighbors + recs.length)).m_data
      (t.numRealParticles + t.getNumNeighbors) recs
    m_num_neighbor_particles := t.getNumNeighbors + recs.length }

/-- Two pack states agree on the grids of rank `r` and on the send buffers. -/
def PackSim (cfg : Config) (r : Nat) (a b : PackState) : Prop :=
  SameOn (LocalTo cfg r) a.st b.st ∧ a.not_ours = b.not_ours

/-- What a step of the exchange leaves as it was: the runs, the real particles
of every grid, and the tiles of the grids that do not satisfy `P`. -/
def Frame (P : Nat → Prop) (a b : ParticleState) : Prop :=
  b.m_start = a.m_start ∧ b.m_stop = a.m_stop ∧
    (∀ g, (b.plev g).realParticles = (a.plev g).realParticles ∧
      (b.plev g).numRealParticles = (a.plev g).numRealParticles) ∧
    ∀ g, ¬ P g → b.plev g = a.plev g

/-- Two particle states have the same runs and the same tiles on the grids of
the box array. -/
def SameGrids (cfg : Config) (a b : ParticleState) : Prop :=
  SameOn (fun g => g < cfg.ba.length) a b

/-- The invariant of the first part of `updateNeighbors` run from two states:
same send maps, same runs and real particles on the grids of the box array,
and same tiles on the grids of the ranks in `D`. -/
def PackInv (cfg : Config) (D : Nat → Prop) (A B : Packed) : Prop :=
  A.sends = B.sends ∧ SameReal (fun g => g < cfg.ba.length) A.st B.st ∧
    ∀ g, g < cfg.ba.length → D (cfg.dmap g) → A.st.plev g = B.st.plev g

/-- The entries of a grid are sorted: the codes of the real particles are in
non-decreasing order and the runs are those that the searches give for these
codes. -/
def SortedSlot (cfg : Config) (nm : NeighborMask) (g : Nat)
    (s : ParticleTile × List Int × List Int) : Prop :=
  ∃ codes, codesOf cfg (nm.m_neighbor_mask g) s.1.realParticles = .ok codes ∧
    List.Sorted (fun x y => x ≤ y) codes ∧
    s.2.1 = (probes (nm.m_grid_map g).length).map (fun v => (lower_bound codes v : Int)) ∧
    s.2.2 = (probes (nm.m_grid_map g).length).map (fun v => (upper_bound codes v : Int))

/-- The grids visited by the ranks `0` up to `nprocs - 1`, in the order of the
visits. -/
def allLocalGrids (cfg : Config) : List Nat :=
  (List.range cfg.nprocs).flatMap fun r => localGrids cfg r

/-- The tile that holds the real particles `real` followed by the ghosts `G`. -/
def mkTile (real G : List ParticleType) : ParticleTile :=
  { m_data := real ++ G, m_num_neighbor_particles := G.length }

/-- The run of code `i - 1` of grid `s`: the real particles of the grid at the
positions from `m_start[s][i]` up to `m_stop[s][i]`. -/
def runOf (st : ParticleState) (s i : Nat) : List ParticleType :=
  ((st.plev s).realParticles.drop ((st.m_start s).getD i 0).toNat).take
    ((st.m_stop s).getD i 0 - (st.m_start s).getD i 0).toNat

/-- The runs are well-formed: for every grid of the box array and every `i`
from `1` to the number of codes, `m_start` and `m_stop` have an entry `i`, and
the entries delimit positions of real particles. -/
def RunsValid (cfg : Config) (nm : NeighborMask) (st : ParticleState) : Prop :=
  ∀ s, s < cfg.ba.length → ∀ i, 1 ≤ i → i ≤ (nm.m_grid_map s).length →
    ∃ a b, (st.m_start s)[i]? = some a ∧ (st.m_stop s)[i]? = some b ∧
      0 ≤ a ∧ a ≤ b ∧ b ≤ ((st.plev s).numRealParticles : Int)

/-- The exports of one code of a source grid, in the order of the loop: the
source grid, the index `i` of the run, the destination grid. -/
def codeTriples (nm : NeighborMask) (s i : Nat) : List (Nat × Nat × Nat) :=
  ((nm.m_grid_map s).getD (i - 1) []).map fun d => (s, i, d)

/-- The exports of one source grid, in the order of the loops. -/
def gridTriples (nm : NeighborMask) (s : Nat) : List (Nat × Nat × Nat) :=
  ((List.range (nm.m_grid_map s).length).map fun k => k + 1).flatMap (codeTriples nm s)

/-- The exports of the grids of rank `r`, in the order of the loops. -/
def rankTriples (cfg : Config) (nm : NeighborMask) (r : Nat) : List (Nat × Nat × Nat) :=
  (localGrids cfg r).flatMap (gridTriples nm)

/-- The records that a list of exports delivers to grid `g`, in order. -/
def deliveredTo (st : ParticleState) (g : Nat) (ts : List (Nat × Nat × Nat)) :
    List ParticleType :=
  ts.flatMap fun t => if t.2.2 = g then runOf st t.1 t.2.1 else []

/-- The bytes of one group of a send buffer. -/
def encodeGroup (cfg : Config) (k d w : Nat) (recs : List ParticleType) : List MemVal :=
  storeObj sizeof_size_t (.sizeT k) ++ storeObj sizeof_int (.int d) ++
    storeObj sizeof_int (.int w) ++ storeParticles cfg recs

/-- The bytes of the groups that a list of exports sends to rank `w`. -/
def groupsBytes (cfg : Config) (st : ParticleState) (w : Nat) (ts : List (Nat × Nat × Nat)) :
    List MemVal :=
  ts.flatMap fun t =>
    if cfg.dmap t.2.2 = w then
      encodeGroup cfg (runOf st t.1 t.2.1).length t.2.2 w (runOf st t.1 t.2.1)
    else []

/-- The send buffer that a list of exports leaves for rank `w`: nothing when no
group goes to `w`, the number `count` followed by the groups otherwise. -/
def messageTo (cfg : Config) (st : ParticleState) (count w : Nat)
    (ts : List (Nat × Nat × Nat)) : List MemVal :=
  if groupsBytes cfg st w ts = [] then []
  else storeObj sizeof_size_t (.sizeT count) ++ groupsBytes cfg st w ts

/-- The state of the first part of `updateNeighbors` on rank `r` after the
exports `ts`, when the runs and the real particles are those of `st` and the
tiles of the other ranks are those of `base`: every grid of the rank holds the
records delivered so far, and every send buffer holds the groups packed so
far. -/
def PackedAfter (cfg : Config) (st base : ParticleState) (gc : Nat → Nat) (r : Nat)
    (ts : List (Nat × Nat × Nat)) (ps : PackState) : Prop :=
  ps.st.m_start = st.m_start ∧ ps.st.m_stop = st.m_stop ∧
    (∀ g, LocalTo cfg r g →
      ps.st.plev g = mkTile (st.plev g).realParticles (deliveredTo st g ts)) ∧
    (∀ g, ¬ LocalTo cfg r g → ps.st.plev g = base.plev g) ∧
    (∀ w, ps.not_ours.buf w = if w = r then [] else messageTo cfg st (gc w) w ts) ∧
    ∀ w, w ∈ ps.not_ours.keys → w ≠ r ∧ ∃ t, t ∈ ts ∧ cfg.dmap t.2.2 = w

/-- The send buffer that rank `i` leaves for rank `w`: the message made of the
exports of the grids of rank `i` to the grids of rank `w`. -/
def sendBuf (cfg : Config) (nm : NeighborMask) (st : ParticleState) (i w : Nat) : List MemVal :=
  if w = i then [] else messageTo cfg st (gridCounts cfg nm i w) w (rankTriples cfg nm i)

/-- The state after the ranks `rs` have run the first part of
`updateNeighbors` from `st`: the grids of these ranks hold their local copies,
the other grids are as in `st`, and the send maps of these ranks hold their
messages. -/
def PackedRanks (cfg : Config) (nm : NeighborMask) (st : ParticleState) (rs : List Nat)
    (acc : Packed) : Prop :=
  acc.st.m_start = st.m_start ∧ acc.st.m_stop = st.m_stop ∧
    (∀ g, g < cfg.ba.length → cfg.dmap g ∈ rs →
      acc.st.plev g = mkTile (st.plev g).realParticles
        (deliveredTo st g (rankTriples cfg nm (cfg.dmap g)))) ∧
    (∀ g, ¬ (g < cfg.ba.length ∧ cfg.dmap g ∈ rs) → acc.st.plev g = st.plev g) ∧
    (∀ r, r ∈ rs → ∀ w, (acc.sends r).buf w = sendBuf cfg nm st r w) ∧
    (∀ r, r ∈ rs → ∀ w, w ∈ (acc.sends r).keys →
      w ≠ r ∧ ∃ t, t ∈ rankTriples cfg nm r ∧ cfg.dmap t.2.2 = w) ∧
    ∀ r, r ∉ rs → acc.sends r = { buf := fun _ => [], keys := [] }

/-- Offsets of consecutive blocks of the given lengths, the first block at
offset `T`. -/
def offsetsFrom : Nat → List Nat → List Nat
  | _, [] => []
  | T, x :: xs => T :: offsetsFrom (T + x) xs

/-- The exports in the order in which their records reach the grids of rank
`r`: the exports of the rank itself during its local copies, then those of the
other ranks in increasing order of the rank. -/
def arrivalOrder (cfg : Config) (nm : NeighborMask) (r : Nat) : List (Nat × Nat × Nat) :=
  rankTriples cfg nm r ++
    ((List.range cfg.nprocs).filter fun i => decide (i ≠ r)).flatMap (rankTriples cfg nm)

/-- The table of `twoGrids`: each grid has a low and a high face box, the high
box of grid `0` faces grid `1` and the low box of grid `1` faces grid `0`. The
mask of every grid is left without a value, as the exchange does not read it. -/
def faceTable : NeighborMask :=
  { m_neighbor_mask := fun _ => { box := default, val := fun _ => -1 }
    m_grid_map := fun s => if s = 0 then [[], [1]] else if s = 1 then [[0], []] else [] }

/-- Sorted particles for `twoGrids`: grid `0` holds the particle `3` of no
region and the particle `7` of its high face box, grid `1` the particle `8` of
its low face box. -/
def sortedPair : ParticleState :=
  { plev := fun g =>
      if g = 0 then
        { m_data := [particleAt 3 [4], particleAt 7 [9]], m_num_neighbor_particles := 0 }
      else if g = 1 then { m_data := [particleAt 8 [10]], m_num_neighbor_particles := 0 }
      else default
    m_start := fun g => if g = 0 then [0, 1, 1] else [0, 0, 1]
    m_stop := fun g => if g = 0 then [1, 1, 2] else [0, 1, 1] }

/-- The value of a result, or `d` when the result is a failure. -/
def valueOr {α : Type} (d : α) : Except Err α → α
  | .ok a => a
  | .error _ => d

/-- The state of the exchange before any rank has packed: no particle and empty
send maps. -/
def noPacked : Packed :=
  { st := emptyState, sends := fun _ => { buf := fun _ => [], keys := [] } }

/-- A mask and table in which no grid has a region. -/
def noMask : NeighborMask :=
  { m_neighbor_mask := fun _ => { box := default, val := fun _ => -1 }
    m_grid_map := fun _ => [] }

/-- A domain of `len` cells on one axis, not periodic, made of one grid on one
rank, with a shell of depth `ncells`. -/
def oneGrid (len ncells : Int) : Config :=
  { dim := 1, ba := [{ smallend := [0], bigend := [len - 1], btype := 0 }], dmap := fun _ => 0,
    nprocs := 1, period := [0], plo := [{ num := 0, den := 1 }], dxi := [{ num := 1, den := 1 }],
    domain := { smallend := [0], bigend := [len - 1], btype := 0 }, ncells := ncells,
    sizeofParticleType := 80 }

/-- A periodic domain of ten cells on one axis made of a single grid on one
rank, with a shell of depth `1`: the grid shifted by the period lies next to
the grid itself. -/
def periodicOne : Config :=
  { dim := 1, ba := [{ smallend := [0], bigend := [9], btype := 0 }], dmap := fun _ => 0,
    nprocs := 1, period := [10], plo := [{ num := 0, den := 1 }], dxi := [{ num := 1, den := 1 }],
    domain := { smallend := [0], bigend := [9], btype := 0 }, ncells := 1,
    sizeofParticleType := 80 }

/-- The number that `fillNeighborsMPIGPU` tests before the size exchange:
`NumSnds` after `ReduceLongMax`, the largest over the ranks of the bytes that a
rank has to send. -/
def numSndsMax (cfg : Config) (sends : Nat → SendMap) : Nat :=
  ((List.range cfg.nprocs).map fun r =>
    ((List.range cfg.nprocs).map fun who => ((sends r).buf who).length).sum).foldl max 0

/-- The bytes that all ranks together have to send: the sum over the ranks of
the sizes of the send buffers of the rank. -/
def totalSnds (cfg : Config) (sends : Nat → SendMap) : Nat :=
  ((List.range cfg.nprocs).map fun r =>
    ((List.range cfg.nprocs).map fun who => ((sends r).buf who).length).sum).sum

/-- The part of `fillNeighborsMPIGPU` after the test `if (NumSnds == 0) return;`:
the exchange of the sizes, the layout of the receive buffer, the receives and
sends, and the unpack. -/
def exchangeAfterTest (cfg : Config) (myProc : Nat) (sends : Nat → SendMap)
    (st : ParticleState) : Except Err ParticleState :=
  let NProcs := cfg.nprocs
  let not_ours := sends myProc
  let Rcvs := (List.range NProcs).map fun i => ((sends i).buf myProc).length
  if Rcvs.getD myProc 0 ≠ 0 then
    .error (.abort "Rcvs[ParallelDescriptor::MyProc()] == 0")
  else
    let layout := recvLayout Rcvs
    let RcvProc := layout.1
    let rOffset := layout.2.1
    let TotRcvBytes := layout.2.2
    let nrcvs := RcvProc.length
    if RcvProc.any (fun who => decide (INT_MAX ≤ Rcvs.getD who 0)) then
      .error (.abort "Cnt < std::numeric_limits<int>::max()")
    else if not_ours.keys.any (fun who => decide (INT_MAX ≤ (not_ours.buf who).length)) then
      .error (.abort "Cnt < std::numeric_limits<int>::max()")
    else
      let rcv_buffer := (List.range nrcvs).foldl
        (fun buffer i =>
          writeAt buffer (rOffset.getD i 0) ((sends (RcvProc.getD i 0)).buf myProc))
        (List.replicate TotRcvBytes none)
      if 0 < nrcvs then
        forEach (unpackPeer cfg myProc rcv_buffer rOffset) (List.range nrcvs) st
      else .ok st

/-- The tile `b` is the tile `a` after records were added at the end of its
ghost segment: the number of real particles and the real particles are the
same, the ghost count is not smaller, and, when the ghost count of `a` does not
exceed the length of its array (so that the array of `a` ends at position
`numReal + ghost count`), the array of `b` is the array of `a` followed by the
added records. -/
def GhostsAdded (a b : ParticleTile) : Prop :=
  b.numRealParticles = a.numRealParticles ∧ b.realParticles = a.realParticles ∧
    a.getNumNeighbors ≤ b.getNumNeighbors ∧
    (a.m_num_neighbor_particles ≤ a.m_data.length →
      b.m_num_neighbor_particles ≤ b.m_data.length ∧ ∃ rest, b.m_data = a.m_data ++ rest)

/-- From the particle data `a` to `b` the runs are the same and every tile has
only gained ghosts. -/
def GhostsGrow (a b : ParticleState) : Prop :=
  b.m_start = a.m_start ∧ b.m_stop = a.m_stop ∧ ∀ g, GhostsAdded (a.plev g) (b.plev g)

/-- The loop of `updateNeighbors` on rank `myProc` that copies the runs to the
local destinations and packs the runs for the other ranks, without the reset of
the ghost segments that precedes it in `updateNeighbors`. -/
def exchangePack (cfg : Config) (nm : NeighborMask) (myProc : Nat)
    (st : ParticleState) : Except Err PackState :=
  forEach (exportGrid cfg nm myProc (gridCounts cfg nm myProc)) (localGrids cfg myProc)
    { st := st, not_ours := { buf := fun _ => [], keys := [] } }

/-- The loop `exchangePack` on rank `r`, after the ranks before it. -/
def exchangeStep (cfg : Config) (nm : NeighborMask) (acc : Packed) (r : Nat) :
    Except Err Packed :=
  match exchangePack cfg nm r acc.st with
  | .error e => .error e
  | .ok ps => .ok { st := ps.st, sends := Function.update acc.sends r ps.not_ours }

/-- The exchange alone on every rank, in the words of the specification: the
local copies and the packing of every rank, then the exchange between the
ranks; this is `updateNeighbors` without the reset of the ghost segments. -/
def exchange (cfg : Config) (nm : NeighborMask) (st : ParticleState) :
    Except Err ParticleState :=
  match forEach (exchangeStep cfg nm) (List.range cfg.nprocs)
      ({ st := st, sends := fun _ => { buf := fun _ => [], keys := [] } } : Packed) with
  | .error e => .error e
  | .ok packed =>
    if cfg.nprocs = 1 then
      if (packed.sends 0).keys.isEmpty then .ok packed.st
      else .error (.abort "not_ours.empty()")
    else
      forEach (fun st r => fillNeighborsMPIGPU cfg r packed.sends st) (List.range cfg.nprocs)
        packed.st

/-- The exchange call in the words of the specification: the reset of the ghost
segments on every rank, then the classification and sort on every rank, then
the exchange. -/
def clearSortExchange (cfg : Config) (nm : NeighborMask) (st : ParticleState) :
    Except Err ParticleState :=
  match sortAll cfg nm (clearAll cfg st) with
  | .error e => .error e
  | .ok st1 => exchange cfg nm st1

/-- The reads of the unpack loop of `fillNeighborsMPIGPU` over `num_grids`
groups from position `pos` on (the loop of `unpackGroups` without the
assertion on the rank and without the writes into the tiles): the groups (run
length, destination grid, destination rank, records) in the order of the walk,
and the position reached after the last group. -/
def readGroups (cfg : Config) (rcv_buffer : List MemVal) :
    Nat → Nat → Except Err (List (Nat × Int × Int × List ParticleType) × Nat)
  | 0, pos => .ok ([], pos)
  | num_grids + 1, pos =>
    match readSizeT rcv_buffer pos with
    | .error e => .error e
    | .ok num_particles =>
      match readInt rcv_buffer (pos + sizeof_size_t) with
      | .error e => .error e
      | .ok gid =>
        match readInt rcv_buffer (pos + sizeof_size_t + sizeof_int) with
        | .error e => .error e
        | .ok pid =>
          let pos := pos + sizeof_size_t + sizeof_int + sizeof_int
          match readParticles cfg rcv_buffer num_particles pos with
          | .error e => .error e
          | .ok records =>
            match readGroups cfg rcv_buffer num_grids
                (pos + num_particles * cfg.sizeofParticleType) with
            | .error e => .error e
            | .ok rest => .ok ((num_particles, gid, pid, records) :: rest.1, rest.2)

/-- What the unpack loop of `fillNeighborsMPIGPU` on rank `myProc` does with
the groups that it has read: a group of run length `0` is skipped, the rank of
another group is asserted to be `myProc`, and the records of the group are
added at the end of the ghost segment of the grid of the group. -/
def applyGroups (myProc : Nat) :
    List (Nat × Int × Int × List ParticleType) → ParticleState → Except Err ParticleState
  | [], st => .ok st
  | g :: gs, st =>
    if g.1 = 0 then applyGroups myProc gs st
    else if g.2.2.1 ≠ (myProc : Int) then .error (.abort "pid == ParallelDescriptor::MyProc()")
    else if g.2.1 < 0 then .error .undefined
    else
      applyGroups myProc gs
        { st with
          plev := Function.update st.plev g.2.1.toNat
            (addNeighbors (st.plev g.2.1.toNat) g.2.2.2) }

/-- The bytes of one group (run length, destination grid, destination rank,
records) of a send buffer. -/
def groupBytes (cfg : Config) (g : Nat × Int × Int × List ParticleType) : List MemVal :=
  storeObj sizeof_size_t (.sizeT g.1) ++ storeObj sizeof_int (.int g.2.1) ++
    storeObj sizeof_int (.int g.2.2.1) ++ storeParticles cfg g.2.2.2

/-- The groups that a list of exports packs for rank `w`, in the order of the
exports: one group for every export whose destination grid is on rank `w`,
made of the run length, the destination grid, the rank `w` and the records of
the run; a run without records gives a group too. -/
def groupsOf (cfg : Config) (st : ParticleState) (w : Nat) (ts : List (Nat × Nat × Nat)) :
    List (Nat × Int × Int × List ParticleType) :=
  (ts.filter fun t => decide (cfg.dmap t.2.2 = w)).map fun t =>
    ((runOf st t.1 t.2.1).length, (t.2.2 : Int), (w : Int), runOf st t.1 t.2.1)

/-- The vectors of `dim` entries, each `-1`, `0` or `1`. -/
def dirList : Nat → List (List Int)
  | 0 => [[]]
  | d + 1 => [-1, 0, 1].flatMap fun s => (dirList d).map fun l => s :: l

/-- The directions around a box in `dim` dimensions: the vectors of `dirList`
other than the zero vector. A direction with one entry other than `0` is a
face, with two an edge, with three a corner. -/
def shellDirs (dim : Nat) : List (List Int) :=
  (dirList dim).filter fun l => l.any fun s => decide (s ≠ 0)

/-- The box of depth `n` next to `box` in the direction `dir`: on every axis it
spans the interval of `sideLo` and `sideHi` for the entry of the axis. -/
def regionBox (dim : Nat) (box : Box) (n : Int) (dir : List Int) : Box :=
  { smallend := (List.range dim).map fun a =>
      sideLo (box.smallend.getD a 0) (box.bigend.getD a 0) n (dir.getD a 0)
    bigend := (List.range dim).map fun a =>
      sideHi (box.smallend.getD a 0) (box.bigend.getD a 0) n (dir.getD a 0)
    btype := box.btype }

/-- The byte counts announced to rank `0` of four ranks when each of the ranks
`1`, `2`, `3` sends one message of 1073741864 bytes: the group count, and one
group of 13421773 records of 80 bytes with its header. -/
def bigCounts : List Nat := [0, 1073741864, 1073741864, 1073741864]

/-! ## Initial positions in a cell -/

/-- The value fits an `int` of 32 bits. -/
def inInt32 (x : Int) : Bool := decide (-(2 ^ 31) ≤ x ∧ x < 2 ^ 31)

/-- Product of two `int`s, `a * b`; the overflow of a signed integer has no
defined result. -/
def mulInt (a b : Int) : Except Err Int :=
  if inInt32 (a * b) then .ok (a * b) else .error .undefined

/-- Quotient of two `int`s, `a / b`, truncated towards zero; a division by zero
and the quotient of the least `int` by `-1` have no defined result. -/
def divInt (a b : Int) : Except Err Int :=
  if b = 0 ∨ (a = -(2 ^ 31) ∧ b = -1) then .error .undefined else .ok (a.tdiv b)

/-- Remainder of two `int`s, `a % b`, with the sign of `a`; defined when the
quotient is. -/
def modInt (a b : Int) : Except Err Int :=
  if b = 0 ∨ (a = -(2 ^ 31) ∧ b = -1) then .error .undefined else .ok (a.tmod b)

/-- The real `(0.5 + i) / n` for two `int`s, as the exact fraction
`(2 i + 1) / (2 n)` with the sign carried by the numerator; for `n = 0` the
denominator is `0` and the fraction stands for no finite value. -/
def AmrexReal.halfPlusOver (i n : Int) : AmrexReal :=
  { num := (2 * i + 1) * n.sign, den := (2 * n).natAbs }

/-- The locals `ix_part`, `iy_part` and `iz_part` of `get_position_unit_cell`
for the particle `i_part` of a cell with `nppc` particles per axis. -/
def subCellIndices (nppc : IntVect) (i_part : Int) : Except Err (Int × Int × Int) :=
  match nppc[1]?, nppc[2]? with
  | some ny, some nz =>
    match mulInt ny nz with
    | .error e => .error e
    | .ok nynz =>
      match divInt i_part nynz, modInt i_part nynz with
      | .ok ix_part, .ok m =>
        match modInt m ny, divInt m ny with
        | .ok iy_part, .ok iz_part => .ok (ix_part, iy_part, iz_part)
        | _, _ => .error .undefined
      | _, _ => .error .undefined
  | _, _ => .error .undefined

/-- The position `r` in the unit cell that `get_position_unit_cell` gives to
the particle `i_part`: `(0.5 + index) / n` on each of the three axes. -/
def get_position_unit_cell (nppc : IntVect) (i_part : Int) : Except Err (List AmrexReal) :=
  match nppc[0]?, nppc[1]?, nppc[2]? with
  | some nx, some ny, some nz =>
    match subCellIndices nppc i_part with
    | .error e => .error e
    | .ok idx =>
      .ok [AmrexReal.halfPlusOver idx.1 nx, AmrexReal.halfPlusOver idx.2.1 ny,
        AmrexReal.halfPlusOver idx.2.2 nz]
  | _, _, _ => .error .undefined

/-! # Theorems -/

/-! ### Results that are values -/

theorem eq_ok_of_isOk {α : Type} (d : α) (x : Except Err α) (h : isOk x = true) :
    x = .ok (valueOr d x) := by
  cases x with
  | error e => simp [isOk] at h
  | ok a => rfl

/-! ### The check of the shell depth -/

theorem allGT_iff (a b : List Int) (h : a.length = b.length) :
    IntVect.allGT a b = true ↔ ∀ i, i < a.length → b.getD i 0 < a.getD i 0 := by
  induction a generalizing b with
  | nil => simp [IntVect.allGT]
  | cons x xs ih =>
    cases b with
    | nil => simp at h
    | cons y ys =>
      simp only [List.length_cons, Nat.add_right_cancel_iff] at h
      have ih' := ih ys h
      simp only [IntVect.allGT, List.zipWith_cons_cons, List.all_cons, id_eq, Bool.and_eq_true,
        decide_eq_true_eq, List.length_cons] at ih' ⊢
      rw [ih']
      constructor
      · rintro ⟨h0, hr⟩ i hi
        cases i with
        | zero => simpa using h0
        | succ j => simpa using hr j (by omega)
      · intro hall
        refine ⟨by simpa using hall 0 (by omega), fun i hi => ?_⟩
        simpa using hall (i + 1) (by omega)

theorem size_getD (b : Box) (i : Nat) (h : b.smallend.length = b.bigend.length)
    (hi : i < b.smallend.length) :
    b.size.getD i 0 = b.bigend.getD i 0 - b.smallend.getD i 0 + 1 := by
  simp [Box.size, List.getD_eq_getElem?_getD, List.getElem?_zipWith, hi, h ▸ hi]

theorem grow_size_allGT (dim : Nat) (grid : Box) (n : Int)
    (hlo : grid.smallend.length = dim) (hhi : grid.bigend.length = dim) :
    IntVect.allGT (grid.grow (-n)).size (IntVect.scale 2 (IntVect.const dim n)) = true ↔
      ∀ a, a < dim → 4 * n < grid.size.getD a 0 := by
  rw [allGT_iff _ _ (by simp [Box.size, Box.grow, IntVect.scale, IntVect.const, hlo, hhi])]
  have hlen : (grid.grow (-n)).size.length = dim := by simp [Box.size, Box.grow, hlo, hhi]
  rw [hlen]
  refine forall_congr' fun a => forall_congr' fun ha => ?_
  rw [size_getD grid a (by omega) (by omega)]
  have h1 : (grid.grow (-n)).size.getD a 0
      = grid.bigend.getD a 0 - grid.smallend.getD a 0 + 1 - 2 * n := by
    simp [Box.size, Box.grow, List.getD_eq_getElem?_getD, List.getElem?_zipWith, hlo, hhi, ha]
    omega
  have h2 : (IntVect.scale 2 (IntVect.const dim n)).getD a 0 = 2 * n := by
    simp [IntVect.scale, IntVect.const, List.getD_eq_getElem?_getD, ha]
  rw [h1, h2]
  constructor <;> intro h <;> omega

/-- C8, amended. For a grid with extent `L` on each of its `dim` axes and a
shell of depth `n`, the call of `getBoundaryBoxes` on the grid shrunk by `n`,
as `buildNeighborMask` makes it, stops at an assertion exactly when the grid is
not cell-centered or `L ≤ 4 * n` on some axis, and returns the boxes exactly
when the grid is cell-centered and `4 * n < L` on every axis: the depth must be
less than a quarter of the extent, not half of it. -/
theorem C8_check (dim : Nat) (grid : Box) (n : Int)
    (hlo : grid.smallend.length = dim) (hhi : grid.bigend.length = dim) :
    (isAbort (getBoundaryBoxes dim (grid.grow (-n)) n) = true ↔
        (grid.cellCentered = false ∨ ∃ a, a < dim ∧ grid.size.getD a 0 ≤ 4 * n)) ∧
      (isOk (getBoundaryBoxes dim (grid.grow (-n)) n) = true ↔
        (grid.cellCentered = true ∧ ∀ a, a < dim → 4 * n < grid.size.getD a 0)) := by
  have hg := grow_size_allGT dim grid n hlo hhi
  have hc : (grid.grow (-n)).cellCentered = grid.cellCentered := rfl
  unfold getBoundaryBoxes
  rw [hc]
  by_cases h1 : IntVect.allGT (grid.grow (-n)).size (IntVect.scale 2 (IntVect.const dim n)) = true
  · have h1' := hg.mp h1
    by_cases h2 : grid.cellCentered = true
    · simp only [h1, h2, isAbort, isOk]
      simp only [Bool.true_eq_false, if_false, true_and, false_or, true_iff]
      refine ⟨⟨fun h => by simp at h, fun ⟨a, ha, hle⟩ => ?_⟩, h1'⟩
      have := h1' a ha
      omega
    · simp only [Bool.not_eq_true] at h2
      simp [h1, h2, isAbort, isOk]
  · have h1' : ¬ ∀ a, a < dim → 4 * n < grid.size.getD a 0 := fun h => h1 (hg.mpr h)
    simp only [Bool.not_eq_true] at h1
    simp only [h1, if_true, isAbort, isOk]
    push_neg at h1'
    obtain ⟨a, ha, hle⟩ := h1'
    simp only [true_iff, Bool.false_eq_true, false_iff, not_and, not_forall]
    exact ⟨Or.inr ⟨a, ha, hle⟩, fun _ => ⟨a, ha, by omega⟩⟩

/-! ### Loops -/

theorem forEach_rel {σ β : Type} (body : σ → β → Except Err σ) (R : σ → σ → Prop)
    (hrefl : ∀ s, R s s) (htrans : ∀ a b c, R a b → R b c → R a c) (l : List β)
    (hstep : ∀ s b s', b ∈ l → body s b = .ok s' → R s s') (s s' : σ)
    (h : forEach body l s = .ok s') : R s s' := by
  induction l generalizing s with
  | nil =>
    simp only [forEach, Except.ok.injEq] at h
    subst h
    exact hrefl s
  | cons b bs ih =>
    simp only [forEach] at h
    cases hb : body s b with
    | error e => simp [hb] at h
    | ok s1 =>
      simp only [hb] at h
      exact htrans _ _ _ (hstep s b s1 (List.mem_cons_self _ _) hb)
        (ih (fun s b s' hm => hstep s b s' (List.mem_cons_of_mem _ hm)) s1 h)

theorem forEach_append {σ β : Type} (body : σ → β → Except Err σ) (l1 l2 : List β) (s : σ) :
    forEach body (l1 ++ l2) s =
      match forEach body l1 s with
      | .error e => .error e
      | .ok s1 => forEach body l2 s1 := by
  induction l1 generalizing s with
  | nil => simp [forEach]
  | cons b bs ih =>
    simp only [List.cons_append, forEach]
    cases body s b with
    | error e => rfl
    | ok s1 => exact ih s1

/-! ### The particle store -/

theorem length_resize {α : Type} [Inhabited α] (l : List α) (n : Nat) :
    (resize l n).length = n := by
  simp only [resize, List.length_append, List.length_take, List.length_replicate]
  omega

theorem take_resize {α : Type} [Inhabited α] (l : List α) (n k : Nat) (hk : k ≤ n)
    (hl : k ≤ l.length) : (resize l n).take k = l.take k := by
  simp only [resize]
  rw [List.take_append_of_le_length (by simp; omega), List.take_take]
  congr 1
  omega

theorem numRealParticles_le (t : ParticleTile) : t.numRealParticles ≤ t.m_data.length := by
  simp [ParticleTile.numRealParticles]

theorem numRealParticles_setNumNeighbors (t : ParticleTile) (n : Nat) :
    (t.setNumNeighbors n).numRealParticles = t.numRealParticles := by
  simp [ParticleTile.setNumNeighbors, ParticleTile.numRealParticles, length_resize]

theorem realParticles_setNumNeighbors (t : ParticleTile) (n : Nat) :
    (t.setNumNeighbors n).realParticles = t.realParticles := by
  rw [ParticleTile.realParticles, numRealParticles_setNumNeighbors]
  exact take_resize _ _ _ (Nat.le_add_right _ _) (numRealParticles_le t)

theorem setNumNeighbors_zero (t : ParticleTile) :
    t.setNumNeighbors 0 = { m_data := t.realParticles, m_num_neighbor_particles := 0 } := by
  have h := numRealParticles_le t
  simp only [ParticleTile.setNumNeighbors, ParticleTile.realParticles, resize, Nat.add_zero]
  rw [show t.numRealParticles - t.m_data.length = 0 by omega]
  simp

theorem ghosts_setNumNeighbors_zero (t : ParticleTile) : (t.setNumNeighbors 0).ghosts = [] := by
  have h := numRealParticles_le t
  rw [setNumNeighbors_zero]
  simp [ParticleTile.ghosts, ParticleTile.numRealParticles, ParticleTile.realParticles]

theorem setNumNeighbors_zero_idem (t : ParticleTile) :
    (t.setNumNeighbors 0).setNumNeighbors 0 = t.setNumNeighbors 0 := by
  rw [setNumNeighbors_zero (t.setNumNeighbors 0), realParticles_setNumNeighbors,
    setNumNeighbors_zero]

/-! ### Reset of the ghost segments -/

theorem clearFold_plev (l : List Nat) (st : ParticleState) (g : Nat) :
    ((l.foldl (fun st src_grid =>
        { st with plev := Function.update st.plev src_grid ((st.plev src_grid).setNumNeighbors 0) })
      st).plev g) = if g ∈ l then (st.plev g).setNumNeighbors 0 else st.plev g := by
  induction l generalizing st with
  | nil => simp
  | cons a as ih =>
    simp only [List.foldl_cons, List.mem_cons]
    rw [ih]
    by_cases hga : g = a
    · subst hga
      simp [setNumNeighbors_zero_idem]
    · simp [Function.update_noteq hga, hga]

theorem clearFold_runs (l : List Nat) (st : ParticleState) :
    (l.foldl (fun st src_grid =>
        { st with plev := Function.update st.plev src_grid ((st.plev src_grid).setNumNeighbors 0) })
      st).m_start = st.m_start ∧
    (l.foldl (fun st src_grid =>
        { st with plev := Function.update st.plev src_grid ((st.plev src_grid).setNumNeighbors 0) })
      st).m_stop = st.m_stop := by
  induction l generalizing st with
  | nil => simp
  | cons a as ih => simp only [List.foldl_cons]; rw [(ih _).1, (ih _).2]; simp

theorem clearNeighbors_plev (cfg : Config) (myProc : Nat) (st : ParticleState) (g : Nat) :
    (clearNeighbors cfg myProc st).plev g =
      if g ∈ localGrids cfg myProc then (st.plev g).setNumNeighbors 0 else st.plev g :=
  clearFold_plev _ st g

theorem clearNeighbors_m_start (cfg : Config) (myProc : Nat) (st : ParticleState) :
    (clearNeighbors cfg myProc st).m_start = st.m_start := (clearFold_runs _ st).1

theorem clearNeighbors_m_stop (cfg : Config) (myProc : Nat) (st : ParticleState) :
    (clearNeighbors cfg myProc st).m_stop = st.m_stop := (clearFold_runs _ st).2

theorem mem_localGrids (cfg : Config) (myProc g : Nat) :
    g ∈ localGrids cfg myProc ↔ g < cfg.ba.length ∧ cfg.dmap g = myProc := by
  simp [localGrids]

/-- C10. After `clearNeighbors` on a rank, every grid owned by the rank has a
ghost count of `0` and an empty ghost segment, and in every grid the number and
the contents of the real particles are as before. -/
theorem C10_clearNeighbors (cfg : Config) (myProc : Nat) (st : ParticleState) :
    (∀ g, g < cfg.ba.length → cfg.dmap g = myProc →
        ((clearNeighbors cfg myProc st).plev g).getNumNeighbors = 0 ∧
          ((clearNeighbors cfg myProc st).plev g).ghosts = []) ∧
      (∀ g, ((clearNeighbors cfg myProc st).plev g).numRealParticles
            = (st.plev g).numRealParticles ∧
          ((clearNeighbors cfg myProc st).plev g).realParticles = (st.plev g).realParticles) := by
  refine ⟨fun g hg hd => ?_, fun g => ?_⟩
  · have hm : g ∈ localGrids cfg myProc := (mem_localGrids cfg myProc g).2 ⟨hg, hd⟩
    rw [clearNeighbors_plev, if_pos hm]
    exact ⟨rfl, ghosts_setNumNeighbors_zero _⟩
  · rw [clearNeighbors_plev]
    split
    · exact ⟨numRealParticles_setNumNeighbors _ _, realParticles_setNumNeighbors _ _⟩
    · exact ⟨rfl, rfl⟩

/-! ### Loops over distinct grids -/

theorem forEach_slots {σ τ : Type} (body : σ → Nat → Except Err σ) (slot : σ → Nat → τ)
    (Q : Nat → τ → τ → Prop)
    (hframe : ∀ s g s', body s g = .ok s' → ∀ g', g' ≠ g → slot s' g' = slot s g')
    (hQ : ∀ s g s', body s g = .ok s' → Q g (slot s g) (slot s' g))
    (l : List Nat) (hnd : l.Nodup) (s s' : σ) (h : forEach body l s = .ok s') :
    (∀ g, g ∈ l → Q g (slot s g) (slot s' g)) ∧ (∀ g, g ∉ l → slot s' g = slot s g) := by
  induction l generalizing s with
  | nil =>
    simp only [forEach, Except.ok.injEq] at h
    subst h
    simp
  | cons a as ih =>
    simp only [forEach] at h
    cases hb : body s a with
    | error e => simp [hb] at h
    | ok s1 =>
      simp only [hb] at h
      have hnd' := List.nodup_cons.mp hnd
      obtain ⟨ih1, ih2⟩ := ih hnd'.2 s1 h
      refine ⟨fun g hg => ?_, fun g hg => ?_⟩
      · rcases List.mem_cons.mp hg with rfl | hg'
        · rw [ih2 g hnd'.1]
          exact hQ s g s1 hb
        · have hne : g ≠ a := fun e => hnd'.1 (e ▸ hg')
          rw [← hframe s a s1 hb g hne]
          exact ih1 g hg'
      · have hne : g ≠ a := fun e => hg (e ▸ List.mem_cons_self _ _)
        have hg' : g ∉ as := fun e => hg (List.mem_cons_of_mem _ e)
        rw [ih2 g hg', hframe s a s1 hb g hne]

theorem forEach_defined {σ τ : Type} (body : σ → Nat → Except Err σ) (slot : σ → Nat → τ)
    (D : Nat → τ → Prop)
    (hframe : ∀ s g s', body s g = .ok s' → ∀ g', g' ≠ g → slot s' g' = slot s g')
    (hD : ∀ s g, D g (slot s g) → ∃ s', body s g = .ok s')
    (l : List Nat) (hnd : l.Nodup) (s : σ) (h : ∀ g, g ∈ l → D g (slot s g)) :
    ∃ s', forEach body l s = .ok s' := by
  induction l generalizing s with
  | nil => exact ⟨s, rfl⟩
  | cons a as ih =>
    obtain ⟨s1, hs1⟩ := hD s a (h a (List.mem_cons_self _ _))
    have hnd' := List.nodup_cons.mp hnd
    have : ∀ g, g ∈ as → D g (slot s1 g) := fun g hg => by
      have hne : g ≠ a := fun e => hnd'.1 (e ▸ hg)
      rw [hframe s a s1 hs1 g hne]
      exact h g (List.mem_cons_of_mem _ hg)
    obtain ⟨s', hs'⟩ := ih hnd'.2 s1 this
    exact ⟨s', by simp [forEach, hs1, hs']⟩

theorem localGrids_nodup (cfg : Config) (myProc : Nat) : (localGrids cfg myProc).Nodup :=
  List.Nodup.filter _ (List.nodup_range _)

/-! ### Codes and the sort by key -/

theorem codesOf_ok_iff (cfg : Config) (mask : BaseFab) (ps : List ParticleType)
    (codes : List Int) :
    codesOf cfg mask ps = .ok codes ↔
      List.Forall₂ (fun p c => mask.get (cellOf cfg p) = .ok c) ps codes := by
  induction ps generalizing codes with
  | nil =>
    cases codes <;> simp [codesOf]
  | cons p ps ih =>
    simp only [codesOf]
    cases hg : mask.get (cellOf cfg p) with
    | error e =>
      simp only
      constructor
      · intro h; simp at h
      · intro h
        cases h with
        | cons h1 _ => simp [hg] at h1
    | ok c =>
      simp only
      cases hr : codesOf cfg mask ps with
      | error e =>
        simp only
        constructor
        · intro h; simp at h
        · intro h
          cases h with
          | cons h1 h2 => rw [(ih _).2 h2] at hr; simp at hr
      | ok cs =>
        simp only [Except.ok.injEq]
        constructor
        · intro h
          subst h
          exact List.Forall₂.cons hg ((ih cs).1 hr)
        · intro h
          cases h with
          | cons h1 h2 =>
            rw [hg] at h1
            rw [(ih _).2 h2] at hr
            simp only [Except.ok.injEq] at h1 hr
            rw [h1, hr]

theorem codesOf_length (cfg : Config) (mask : BaseFab) (ps : List ParticleType) (codes : List Int)
    (h : codesOf cfg mask ps = .ok codes) : codes.length = ps.length :=
  ((codesOf_ok_iff cfg mask ps codes).1 h).length_eq.symm

theorem codesOf_defined (cfg : Config) (mask : BaseFab) (ps : List ParticleType)
    (h : ∀ p, p ∈ ps → mask.box.contains (cellOf cfg p) = true) :
    ∃ codes, codesOf cfg mask ps = .ok codes := by
  induction ps with
  | nil => exact ⟨[], rfl⟩
  | cons p ps ih =>
    obtain ⟨cs, hcs⟩ := ih (fun q hq => h q (List.mem_cons_of_mem _ hq))
    have hp := h p (List.mem_cons_self _ _)
    exact ⟨mask.val (cellOf cfg p) :: cs, by simp [codesOf, BaseFab.get, hp, hcs]⟩

theorem codesOf_map_snd (cfg : Config) (mask : BaseFab) (s : List (Int × ParticleType))
    (h : ∀ x, x ∈ s → mask.get (cellOf cfg x.2) = .ok x.1) :
    codesOf cfg mask (s.map Prod.snd) = .ok (s.map Prod.fst) := by
  induction s with
  | nil => rfl
  | cons x xs ih =>
    simp [codesOf, h x (List.mem_cons_self _ _),
      ih (fun y hy => h y (List.mem_cons_of_mem _ hy))]

theorem forall₂_mem_zip {α β : Type} {R : α → β → Prop} {l1 : List α} {l2 : List β}
    (h : List.Forall₂ R l1 l2) : ∀ x, x ∈ l2.zip l1 → R x.2 x.1 := by
  induction h with
  | nil => simp
  | cons h1 _ ih =>
    intro x hx
    simp only [List.zip_cons_cons, List.mem_cons] at hx
    rcases hx with rfl | hx
    · exact h1
    · exact ih x hx

theorem sort_by_key_perm {α : Type} (keys : List Int) (vals : List α)
    (h : keys.length = vals.length) : (sort_by_key keys vals).2.Perm vals := by
  have h1 := (List.perm_insertionSort keyLE (keys.zip vals)).map Prod.snd
  rw [List.map_snd_zip _ _ (by omega)] at h1
  exact h1

theorem sort_by_key_sorted {α : Type} (keys : List Int) (vals : List α) :
    List.Sorted (fun a b => a ≤ b) (sort_by_key keys vals).1 := by
  have h := List.sorted_insertionSort keyLE (keys.zip vals)
  simp only [sort_by_key]
  exact List.pairwise_map.mpr h

theorem sort_by_key_codes (cfg : Config) (mask : BaseFab) (ps : List ParticleType)
    (codes : List Int) (h : codesOf cfg mask ps = .ok codes) :
    codesOf cfg mask (sort_by_key codes ps).2 = .ok (sort_by_key codes ps).1 := by
  apply codesOf_map_snd
  intro x hx
  have hx' : x ∈ codes.zip ps := (List.perm_insertionSort keyLE _).subset hx
  exact forall₂_mem_zip ((codesOf_ok_iff cfg mask ps codes).1 h) x hx'

/-! ### The sort of one grid -/

theorem sortGrid_frame (cfg : Config) (nm : NeighborMask) (st : ParticleState) (g : Nat)
    (st' : ParticleState) (h : sortGrid cfg nm st g = .ok st') :
    ∀ g', g' ≠ g → slotOf st' g' = slotOf st g' := by
  intro g' hne
  dsimp only [sortGrid] at h
  split at h
  · simp at h
  · simp only [Except.ok.injEq] at h
    subst h
    simp [slotOf, Function.update_noteq hne]

theorem sortGrid_at (cfg : Config) (nm : NeighborMask) (st : ParticleState) (g : Nat)
    (st' : ParticleState) (h : sortGrid cfg nm st g = .ok st') :
    SortedFrom cfg nm g (slotOf st g) (slotOf st' g) := by
  dsimp only [sortGrid] at h
  split at h
  · simp at h
  · rename_i pcodes hc
    simp only [Except.ok.injEq] at h
    subst h
    exact ⟨pcodes, hc, by simp [slotOf, ParticleTile.realParticles, ParticleTile.ghosts],
      by simp [slotOf, ParticleTile.realParticles], by simp [slotOf, ParticleTile.realParticles]⟩

theorem sortGrid_defined (cfg : Config) (nm : NeighborMask) (st : ParticleState) (g : Nat)
    (h : ∀ p, p ∈ (st.plev g).realParticles →
      (nm.m_neighbor_mask g).box.contains (cellOf cfg p) = true) :
    ∃ st', sortGrid cfg nm st g = .ok st' := by
  obtain ⟨codes, hc⟩ := codesOf_defined cfg (nm.m_neighbor_mask g) _ h
  simp only [ParticleTile.realParticles] at hc
  unfold sortGrid
  simp only [hc]
  exact ⟨_, rfl⟩

theorem sortParticles_slots (cfg : Config) (nm : NeighborMask) (myProc : Nat)
    (st st' : ParticleState) (h : sortParticlesByNeighborDest cfg nm myProc st = .ok st') :
    (∀ g, g ∈ localGrids cfg myProc → SortedFrom cfg nm g (slotOf st g) (slotOf st' g)) ∧
      (∀ g, g ∉ localGrids cfg myProc → slotOf st' g = slotOf st g) :=
  forEach_slots (sortGrid cfg nm) slotOf (SortedFrom cfg nm) (sortGrid_frame cfg nm)
    (sortGrid_at cfg nm) _ (localGrids_nodup cfg myProc) st st' h

theorem take_append_drop_real (t : ParticleTile) : t.realParticles ++ t.ghosts = t.m_data := by
  simp [ParticleTile.realParticles, ParticleTile.ghosts]

theorem length_realParticles (t : ParticleTile) :
    t.realParticles.length = t.numRealParticles := by
  simp [ParticleTile.realParticles, numRealParticles_le]

theorem SortedFrom.facts {cfg : Config} {nm : NeighborMask} {g : Nat}
    {before after : ParticleTile × List Int × List Int} (h : SortedFrom cfg nm g before after) :
    after.1.m_data.Perm before.1.m_data ∧
      after.1.m_num_neighbor_particles = before.1.m_num_neighbor_particles ∧
      after.1.numRealParticles = before.1.numRealParticles ∧
      after.1.realParticles.Perm before.1.realParticles ∧
      after.1.ghosts = before.1.ghosts := by
  obtain ⟨codes, hc, h1, -, -⟩ := h
  have hlen := codesOf_length _ _ _ _ hc
  have hperm := sort_by_key_perm codes before.1.realParticles hlen
  have hl : (sort_by_key codes before.1.realParticles).2.length = before.1.numRealParticles := by
    rw [hperm.length_eq, length_realParticles]
  have hle := numRealParticles_le before.1
  have hnum : after.1.numRealParticles = before.1.numRealParticles := by
    rw [h1]
    simp only [ParticleTile.numRealParticles, List.length_append, hl, ParticleTile.ghosts,
      List.length_drop]
    simp only [ParticleTile.numRealParticles] at hle ⊢
    omega
  refine ⟨?_, by rw [h1], hnum, ?_, ?_⟩
  · rw [h1, ← take_append_drop_real before.1]
    exact hperm.append_right _
  · rw [ParticleTile.realParticles, hnum, h1, ← hl, List.take_left']
    · exact hperm
    · rfl
  · rw [ParticleTile.ghosts, hnum, h1, ← hl, List.drop_left']
    rfl

/-- C3. The sort of a rank is defined whenever the cell of every real particle
of every grid of the rank lies in the box of the mask of the grid; and whenever
it is defined, the array of every grid is a permutation of the array before, of
the same length, the real particles are a permutation of the real particles
before, and the ghost segment and its length are as before. -/
theorem C3_sort_is_permutation (cfg : Config) (nm : NeighborMask) (myProc : Nat)
    (st : ParticleState) :
    ((∀ g, g ∈ localGrids cfg myProc → ∀ p, p ∈ (st.plev g).realParticles →
        (nm.m_neighbor_mask g).box.contains (cellOf cfg p) = true) →
      ∃ st', sortParticlesByNeighborDest cfg nm myProc st = .ok st') ∧
    (∀ st', sortParticlesByNeighborDest cfg nm myProc st = .ok st' →
      ∀ g, (st'.plev g).m_data.Perm (st.plev g).m_data ∧
        (st'.plev g).m_data.length = (st.plev g).m_data.length ∧
        (st'.plev g).realParticles.Perm (st.plev g).realParticles ∧
        (st'.plev g).ghosts = (st.plev g).ghosts ∧
        (st'.plev g).m_num_neighbor_particles = (st.plev g).m_num_neighbor_particles) := by
  refine ⟨fun hin => ?_, fun st' h g => ?_⟩
  · exact forEach_defined (sortGrid cfg nm) slotOf
      (fun g s => ∀ p, p ∈ s.1.realParticles →
        (nm.m_neighbor_mask g).box.contains (cellOf cfg p) = true)
      (sortGrid_frame cfg nm) (fun s g hD => sortGrid_defined cfg nm s g hD) _
      (localGrids_nodup cfg myProc) st hin
  · obtain ⟨h1, h2⟩ := sortParticles_slots cfg nm myProc st st' h
    by_cases hg : g ∈ localGrids cfg myProc
    · obtain ⟨f1, f2, -, f4, f5⟩ := (h1 g hg).facts
      exact ⟨f1, f1.length_eq, f4, f5, f2⟩
    · have := h2 g hg
      simp only [slotOf, Prod.mk.injEq] at this
      rw [this.1]
      exact ⟨List.Perm.refl _, rfl, List.Perm.refl _, rfl, rfl⟩

/-! ### Binary search -/

theorem sorted_getD (a : List Int) (hs : List.Sorted (fun x y => x ≤ y) a) (i j : Nat)
    (hij : i ≤ j) (hj : j < a.length) : a.getD i 0 ≤ a.getD j 0 := by
  rcases Nat.eq_or_lt_of_le hij with rfl | hlt
  · exact Int.le_refl _
  · have h := List.pairwise_iff_getElem.mp hs i j (by omega) hj hlt
    simpa [List.getD_eq_getElem?_getD, List.getElem?_eq_getElem, hj, show i < a.length by omega]
      using h

theorem lowerBoundLoop_spec (a : List Int) (v : Int) (hs : List.Sorted (fun x y => x ≤ y) a) :
    ∀ fuel first count, count ≤ fuel → first + count ≤ a.length →
      (∀ i, i < first → a.getD i 0 < v) →
      (∀ i, first + count ≤ i → i < a.length → v ≤ a.getD i 0) →
      lowerBoundLoop a v fuel first count ≤ a.length ∧
        (∀ i, i < lowerBoundLoop a v fuel first count → a.getD i 0 < v) ∧
        (∀ i, lowerBoundLoop a v fuel first count ≤ i → i < a.length → v ≤ a.getD i 0) := by
  intro fuel
  induction fuel with
  | zero =>
    intro first count hc hlen hlo hhi
    have : count = 0 := by omega
    subst this
    exact ⟨by simpa [lowerBoundLoop] using hlen, by simpa [lowerBoundLoop] using hlo,
      by simpa [lowerBoundLoop] using hhi⟩
  | succ fuel ih =>
    intro first count hc hlen hlo hhi
    simp only [lowerBoundLoop]
    by_cases h0 : count = 0
    · subst h0
      simp only [if_true]
      exact ⟨by omega, hlo, by simpa using hhi⟩
    · simp only [h0, if_false]
      have hstep : count / 2 < count := Nat.div_lt_self (by omega) (by omega)
      by_cases hlt : a.getD (first + count / 2) 0 < v
      · simp only [hlt, if_true]
        apply ih
        · omega
        · omega
        · intro i hi
          have := sorted_getD a hs i (first + count / 2) (by omega) (by omega)
          omega
        · intro i hi hil
          exact hhi i (by omega) hil
      · simp only [hlt, if_false]
        apply ih
        · omega
        · omega
        · exact hlo
        · intro i hi hil
          have := sorted_getD a hs (first + count / 2) i hi hil
          omega

theorem upperBoundLoop_spec (a : List Int) (v : Int) (hs : List.Sorted (fun x y => x ≤ y) a) :
    ∀ fuel first count, count ≤ fuel → first + count ≤ a.length →
      (∀ i, i < first → a.getD i 0 ≤ v) →
      (∀ i, first + count ≤ i → i < a.length → v < a.getD i 0) →
      upperBoundLoop a v fuel first count ≤ a.length ∧
        (∀ i, i < upperBoundLoop a v fuel first count → a.getD i 0 ≤ v) ∧
        (∀ i, upperBoundLoop a v fuel first count ≤ i → i < a.length → v < a.getD i 0) := by
  intro fuel
  induction fuel with
  | zero =>
    intro first count hc hlen hlo hhi
    have : count = 0 := by omega
    subst this
    exact ⟨by simpa [upperBoundLoop] using hlen, by simpa [upperBoundLoop] using hlo,
      by simpa [upperBoundLoop] using hhi⟩
  | succ fuel ih =>
    intro first count hc hlen hlo hhi
    simp only [upperBoundLoop]
    by_cases h0 : count = 0
    · subst h0
      simp only [if_true]
      exact ⟨by omega, hlo, by simpa using hhi⟩
    · simp only [h0, if_false]
      have hstep : count / 2 < count := Nat.div_lt_self (by omega) (by omega)
      by_cases hlt : v < a.getD (first + count / 2) 0
      · simp only [hlt, if_true]
        apply ih
        · omega
        · omega
        · exact hlo
        · intro i hi hil
          have := sorted_getD a hs (first + count / 2) i hi hil
          omega
      · simp only [hlt, if_false]
        apply ih
        · omega
        · omega
        · intro i hi
          have := sorted_getD a hs i (first + count / 2) (by omega) (by omega)
          omega
        · intro i hi hil
          exact hhi i (by omega) hil

theorem lower_bound_spec (a : List Int) (v : Int) (hs : List.Sorted (fun x y => x ≤ y) a) :
    lower_bound a v ≤ a.length ∧
      ∀ i, i < a.length → (i < lower_bound a v ↔ a.getD i 0 < v) := by
  obtain ⟨h1, h2, h3⟩ := lowerBoundLoop_spec a v hs a.length 0 a.length (Nat.le_refl _)
    (by omega) (fun i hi => by omega) (fun i hi hil => by omega)
  refine ⟨h1, fun i hi => ⟨h2 i, fun hlt => ?_⟩⟩
  by_contra hge
  have := h3 i (by simpa [lower_bound] using hge) hi
  omega

theorem upper_bound_spec (a : List Int) (v : Int) (hs : List.Sorted (fun x y => x ≤ y) a) :
    upper_bound a v ≤ a.length ∧
      ∀ i, i < a.length → (i < upper_bound a v ↔ a.getD i 0 ≤ v) := by
  obtain ⟨h1, h2, h3⟩ := upperBoundLoop_spec a v hs a.length 0 a.length (Nat.le_refl _)
    (by omega) (fun i hi => by omega) (fun i hi hil => by omega)
  refine ⟨h1, fun i hi => ⟨h2 i, fun hlt => ?_⟩⟩
  by_contra hge
  have := h3 i (by simpa [upper_bound] using hge) hi
  omega

theorem boundary_unique (n r1 r2 : Nat) (P : Nat → Prop) (h1 : r1 ≤ n) (h2 : r2 ≤ n)
    (p1 : ∀ i, i < n → (i < r1 ↔ P i)) (p2 : ∀ i, i < n → (i < r2 ↔ P i)) : r1 = r2 := by
  rcases Nat.lt_trichotomy r1 r2 with h | h | h
  · have := (p1 r1 (by omega)).2 ((p2 r1 (by omega)).1 h)
    omega
  · exact h
  · have := (p2 r2 (by omega)).2 ((p1 r2 (by omega)).1 h)
    omega

theorem upper_eq_lower_succ (a : List Int) (v : Int) (hs : List.Sorted (fun x y => x ≤ y) a) :
    upper_bound a v = lower_bound a (v + 1) := by
  obtain ⟨u1, u2⟩ := upper_bound_spec a v hs
  obtain ⟨l1, l2⟩ := lower_bound_spec a (v + 1) hs
  refine boundary_unique a.length _ _ (fun i => a.getD i 0 ≤ v) u1 l1 u2 (fun i hi => ?_)
  rw [l2 i hi]
  omega

theorem lower_le_upper (a : List Int) (v : Int) (hs : List.Sorted (fun x y => x ≤ y) a) :
    lower_bound a v ≤ upper_bound a v := by
  obtain ⟨u1, u2⟩ := upper_bound_spec a v hs
  obtain ⟨l1, l2⟩ := lower_bound_spec a v hs
  by_contra h
  have hu : upper_bound a v < a.length := by omega
  have h1 := (l2 _ hu).1 (by omega)
  have h2 := (u2 _ hu).2 (by omega)
  omega

theorem lower_bound_eq_zero (a : List Int) (v : Int) (hs : List.Sorted (fun x y => x ≤ y) a)
    (h : ∀ i, i < a.length → v ≤ a.getD i 0) : lower_bound a v = 0 := by
  obtain ⟨l1, l2⟩ := lower_bound_spec a v hs
  by_contra hne
  have h0 : 0 < a.length := by omega
  have := (l2 0 h0).1 (by omega)
  have := h 0 h0
  omega

theorem upper_bound_eq_length (a : List Int) (v : Int) (hs : List.Sorted (fun x y => x ≤ y) a)
    (h : ∀ i, i < a.length → a.getD i 0 ≤ v) : upper_bound a v = a.length := by
  obtain ⟨u1, u2⟩ := upper_bound_spec a v hs
  by_contra hne
  have hu : upper_bound a v < a.length := by omega
  have := (u2 _ hu).2 (h _ hu)
  omega

/-! ### The mask builder -/

theorem stampFold_succ (isec_bl bl : List Box) (n : Nat) (fab0 : BaseFab) :
    stampFold isec_bl bl (n + 1) fab0 =
      if (intersections isec_bl (bl.getD n default) 0).isEmpty then stampFold isec_bl bl n fab0
      else (stampFold isec_bl bl n fab0).setVal n (bl.getD n default) := by
  simp [stampFold, List.range_succ, List.foldl_append]

theorem stampFold_box (isec_bl bl : List Box) (n : Nat) (fab0 : BaseFab) :
    (stampFold isec_bl bl n fab0).box = fab0.box := by
  induction n with
  | zero => rfl
  | succ n ih =>
    rw [stampFold_succ]
    split
    · exact ih
    · simpa [BaseFab.setVal] using ih

theorem setVal_val (f : BaseFab) (v : Int) (bx : Box) (iv : IntVect) :
    (f.setVal v bx).val iv = if bx.contains iv = true then v else f.val iv := rfl

theorem stampFold_val_cases (isec_bl bl : List Box) (n : Nat) (fab0 : BaseFab) (iv : IntVect) :
    (stampFold isec_bl bl n fab0).val iv = fab0.val iv ∨
      ∃ i, i < n ∧ (stampFold isec_bl bl n fab0).val iv = (i : Int) ∧ Stamped isec_bl bl i ∧
        (bl.getD i default).contains iv = true := by
  induction n with
  | zero => exact Or.inl rfl
  | succ n ih =>
    rw [stampFold_succ]
    by_cases hs : (intersections isec_bl (bl.getD n default) 0).isEmpty = true
    · rw [if_pos hs]
      rcases ih with h | ⟨i, hi, h1, h2, h3⟩
      · exact Or.inl h
      · exact Or.inr ⟨i, by omega, h1, h2, h3⟩
    · rw [if_neg hs, setVal_val]
      by_cases hc : (bl.getD n default).contains iv = true
      · rw [if_pos hc]
        exact Or.inr ⟨n, by omega, rfl, by simpa only [Stamped, Bool.not_eq_true] using hs, hc⟩
      · rw [if_neg hc]
        rcases ih with h | ⟨i, hi, h1, h2, h3⟩
        · exact Or.inl h
        · exact Or.inr ⟨i, by omega, h1, h2, h3⟩

theorem stampFold_val_of_last (isec_bl bl : List Box) (n : Nat) (fab0 : BaseFab) (iv : IntVect)
    (i : Nat) (hi : i < n) (hs : Stamped isec_bl bl i) (hc : (bl.getD i default).contains iv = true)
    (hlast : ∀ j, i < j → j < n → Stamped isec_bl bl j → (bl.getD j default).contains iv = false) :
    (stampFold isec_bl bl n fab0).val iv = (i : Int) := by
  induction n with
  | zero => omega
  | succ n ih =>
    rw [stampFold_succ]
    rcases Nat.eq_or_lt_of_le (Nat.le_of_lt_succ hi) with rfl | hlt
    · have : ¬ (intersections isec_bl (bl.getD i default) 0).isEmpty = true := by
        rw [show (intersections isec_bl (bl.getD i default) 0).isEmpty = false from hs]
        simp
      rw [if_neg this, setVal_val, if_pos hc]
    · have ih' := ih hlt (fun j hj hjn => hlast j hj (by omega))
      by_cases hsn : (intersections isec_bl (bl.getD n default) 0).isEmpty = true
      · rw [if_pos hsn]
        exact ih'
      · have hcn := hlast n hlt (by omega) (by simpa only [Stamped, Bool.not_eq_true] using hsn)
        rw [if_neg hsn, setVal_val, if_neg (by rw [hcn]; simp)]
        exact ih'

theorem stampFold_val_of_none (isec_bl bl : List Box) (n : Nat) (fab0 : BaseFab) (iv : IntVect)
    (hnone : ∀ j, j < n → Stamped isec_bl bl j → (bl.getD j default).contains iv = false) :
    (stampFold isec_bl bl n fab0).val iv = fab0.val iv := by
  rcases stampFold_val_cases isec_bl bl n fab0 iv with h | ⟨i, hi, -, h2, h3⟩
  · exact h
  · rw [hnone i hi h2] at h3
    simp at h3

theorem buildNeighborMaskGrid_ok (cfg : Config) (grid : Nat) (r : BaseFab × List (List Nat))
    (h : buildNeighborMaskGrid cfg grid = .ok r) :
    ∃ bl, getBoundaryBoxes cfg.dim ((cfg.ba.getD grid default).grow (-cfg.ncells)) cfg.ncells
        = .ok bl ∧
      r.1 = stampFold (isecBoxes cfg grid) bl bl.length
        { box := cfg.ba.getD grid default, val := fun _ => -1 } ∧
      r.2 = (List.range bl.length).map fun i =>
        (intersections (isecBoxes cfg grid) (bl.getD i default) 0).map fun isec =>
          (isecGrids cfg grid).getD isec.1 0 := by
  dsimp only [buildNeighborMaskGrid] at h
  split at h
  · simp at h
  · rename_i bl hbl
    simp only [Except.ok.injEq] at h
    subst h
    exact ⟨bl, hbl, rfl, rfl⟩

theorem buildNeighborMaskFrom_spec (cfg : Config) (l : List Nat) (hnd : l.Nodup)
    (nm0 nm : NeighborMask) (h : buildNeighborMaskFrom cfg l nm0 = .ok nm) :
    (∀ g, g ∈ l →
        buildNeighborMaskGrid cfg g = .ok (nm.m_neighbor_mask g, nm.m_grid_map g)) ∧
      (∀ g, g ∉ l → nm.m_neighbor_mask g = nm0.m_neighbor_mask g ∧
        nm.m_grid_map g = nm0.m_grid_map g) := by
  induction l generalizing nm0 with
  | nil =>
    simp only [buildNeighborMaskFrom, Except.ok.injEq] at h
    subst h
    simp
  | cons a as ih =>
    simp only [buildNeighborMaskFrom] at h
    cases hb : buildNeighborMaskGrid cfg a with
    | error e => simp [hb] at h
    | ok r =>
      simp only [hb] at h
      have hnd' := List.nodup_cons.mp hnd
      obtain ⟨ih1, ih2⟩ := ih hnd'.2 _ h
      refine ⟨fun g hg => ?_, fun g hg => ?_⟩
      · rcases List.mem_cons.mp hg with rfl | hg'
        · obtain ⟨e1, e2⟩ := ih2 g hnd'.1
          rw [e1, e2]
          simpa using hb
        · exact ih1 g hg'
      · have hne : g ≠ a := fun e => hg (e ▸ List.mem_cons_self _ _)
        obtain ⟨e1, e2⟩ := ih2 g (fun e => hg (List.mem_cons_of_mem _ e))
        rw [e1, e2]
        simp [Function.update_noteq hne]

theorem buildNeighborMask_grid (cfg : Config) (nm : NeighborMask)
    (h : buildNeighborMask cfg = .ok nm) (g : Nat) (hg : g < cfg.ba.length) :
    buildNeighborMaskGrid cfg g = .ok (nm.m_neighbor_mask g, nm.m_grid_map g) :=
  (buildNeighborMaskFrom_spec cfg _ (List.nodup_range _) _ nm h).1 g (List.mem_range.mpr hg)

theorem mask_value_range (cfg : Config) (nm : NeighborMask)
    (h : buildNeighborMask cfg = .ok nm) (g : Nat) (hg : g < cfg.ba.length) (iv : IntVect) :
    -1 ≤ (nm.m_neighbor_mask g).val iv ∧
      (nm.m_neighbor_mask g).val iv < ((nm.m_grid_map g).length : Int) := by
  obtain ⟨bl, -, h1, h2⟩ := buildNeighborMaskGrid_ok cfg g _ (buildNeighborMask_grid cfg nm h g hg)
  simp only at h1 h2
  rw [h1, h2]
  simp only [List.length_map, List.length_range]
  rcases stampFold_val_cases (isecBoxes cfg g) bl bl.length
      { box := cfg.ba.getD g default, val := fun _ => -1 } iv with hv | ⟨i, hi, hv, -, -⟩
  · rw [hv]
    constructor <;> simp
    omega
  · rw [hv]
    constructor <;> omega

theorem mask_box (cfg : Config) (nm : NeighborMask)
    (h : buildNeighborMask cfg = .ok nm) (g : Nat) (hg : g < cfg.ba.length) :
    (nm.m_neighbor_mask g).box = cfg.ba.getD g default := by
  obtain ⟨bl, -, h1, -⟩ := buildNeighborMaskGrid_ok cfg g _ (buildNeighborMask_grid cfg nm h g hg)
  simp only at h1
  rw [h1, stampFold_box]

/-! ### The runs of the codes -/

theorem probes_map_getD (n : Nat) (f : Int → Int) (k : Nat) (hk : k ≤ n) :
    ((probes n).map f).getD k 0 = f ((k : Int) - 1) := by
  unfold probes
  rw [List.map_map, List.getD_eq_getElem?_getD, List.getElem?_map,
    List.getElem?_range (show k < n + 1 by omega)]
  rfl

theorem probes_map_length (n : Nat) (f : Int → Int) : ((probes n).map f).length = n + 1 := by
  unfold probes
  rw [List.length_map, List.length_map, List.length_range]

theorem telescope (n : Nat) (f g : Nat → Int) (h : ∀ k, k < n → g k = f (k + 1)) :
    ((List.range (n + 1)).map fun k => g k - f k).sum = g n - f 0 := by
  induction n with
  | zero => simp [List.range_succ]
  | succ n ih =>
    rw [List.range_succ, List.map_append, List.sum_append, ih (fun k hk => h k (by omega))]
    simp only [List.map_cons, List.map_nil, List.sum_cons, List.sum_nil]
    have := h n (by omega)
    omega

theorem forall₂_right_mem {α β : Type} {R : α → β → Prop} {l1 : List α} {l2 : List β}
    (h : List.Forall₂ R l1 l2) : ∀ c, c ∈ l2 → ∃ p, p ∈ l1 ∧ R p c := by
  induction h with
  | nil => simp
  | cons h1 _ ih =>
    intro c hc
    rcases List.mem_cons.mp hc with rfl | hc'
    · exact ⟨_, List.mem_cons_self _ _, h1⟩
    · obtain ⟨p, hp, hr⟩ := ih c hc'
      exact ⟨p, List.mem_cons_of_mem _ hp, hr⟩

theorem getD_mem_of_lt (a : List Int) (i : Nat) (h : i < a.length) : a.getD i 0 ∈ a := by
  rw [List.getD_eq_getElem?_getD, List.getElem?_eq_getElem h]
  exact List.getElem_mem h

theorem SortedFrom.realParticles_eq {cfg : Config} {nm : NeighborMask} {g : Nat}
    {before after : ParticleTile × List Int × List Int} (h : SortedFrom cfg nm g before after) :
    ∃ codes, codesOf cfg (nm.m_neighbor_mask g) before.1.realParticles = .ok codes ∧
      after.1.realParticles = (sort_by_key codes before.1.realParticles).2 ∧
      after.2.1 = (probes (nm.m_grid_map g).length).map
        (fun v => (lower_bound (sort_by_key codes before.1.realParticles).1 v : Int)) ∧
      after.2.2 = (probes (nm.m_grid_map g).length).map
        (fun v => (upper_bound (sort_by_key codes before.1.realParticles).1 v : Int)) := by
  have hf := h.facts
  obtain ⟨codes, hc, h1, h2, h3⟩ := h
  refine ⟨codes, hc, ?_, h2, h3⟩
  have hlen := codesOf_length _ _ _ _ hc
  have hperm := sort_by_key_perm codes before.1.realParticles hlen
  have hl : (sort_by_key codes before.1.realParticles).2.length = before.1.numRealParticles := by
    rw [hperm.length_eq, length_realParticles]
  rw [ParticleTile.realParticles, hf.2.2.1, h1, ← hl, List.take_left']
  rfl

/-- C4. After the sort of a rank, with the mask and table of
`buildNeighborMask`, for every grid of the rank: the codes of the real
particles are in non-decreasing order; `m_start` and `m_stop` have an entry for
each of the `numCodes + 1` codes from `-1` on; position `i` lies in the run
`[m_start[k], m_stop[k])` exactly when it holds a real particle of code
`k - 1`; the first run starts at `0`, every run ends where the next starts, the
last run ends at the number of real particles, and the lengths of the runs add
up to that number. -/
theorem C4_runs_by_code (cfg : Config) (nm : NeighborMask) (myProc : Nat)
    (st st' : ParticleState) (hnm : buildNeighborMask cfg = .ok nm)
    (h : sortParticlesByNeighborDest cfg nm myProc st = .ok st') (g : Nat)
    (hg : g < cfg.ba.length) (hd : cfg.dmap g = myProc) :
    ∃ codes, codesOf cfg (nm.m_neighbor_mask g) (st'.plev g).realParticles = .ok codes ∧
      List.Sorted (fun x y => x ≤ y) codes ∧
      (st'.m_start g).length = (nm.m_grid_map g).length + 1 ∧
      (st'.m_stop g).length = (nm.m_grid_map g).length + 1 ∧
      (∀ k, k ≤ (nm.m_grid_map g).length → ∀ i : Nat,
        (((st'.m_start g).getD k 0 ≤ (i : Int) ∧ (i : Int) < (st'.m_stop g).getD k 0) ↔
          (i < (st'.plev g).numRealParticles ∧ codes.getD i 0 = (k : Int) - 1))) ∧
      (st'.m_start g).getD 0 0 = 0 ∧
      (∀ k, k < (nm.m_grid_map g).length →
        (st'.m_stop g).getD k 0 = (st'.m_start g).getD (k + 1) 0) ∧
      (st'.m_stop g).getD (nm.m_grid_map g).length 0 = ((st'.plev g).numRealParticles : Int) ∧
      ((List.range ((nm.m_grid_map g).length + 1)).map fun k =>
        (st'.m_stop g).getD k 0 - (st'.m_start g).getD k 0).sum
        = ((st'.plev g).numRealParticles : Int) := by
  have hloc : g ∈ localGrids cfg myProc := (mem_localGrids cfg myProc g).2 ⟨hg, hd⟩
  have hS := (sortParticles_slots cfg nm myProc st st' h).1 g hloc
  obtain ⟨codes0, hc0, hreal, hstart, hstop⟩ := hS.realParticles_eq
  simp only [slotOf] at hc0 hreal hstart hstop
  have hcs := sort_by_key_codes cfg _ _ _ hc0
  have hsorted := sort_by_key_sorted codes0 (st.plev g).realParticles
  generalize hcsdef : (sort_by_key codes0 (st.plev g).realParticles).1 = cs at hcs hsorted hstart hstop
  rw [← hreal] at hcs
  have hlen : cs.length = (st'.plev g).numRealParticles := by
    rw [codesOf_length _ _ _ _ hcs, length_realParticles]
  have hrange : ∀ i, i < cs.length →
      -1 ≤ cs.getD i 0 ∧ cs.getD i 0 ≤ ((nm.m_grid_map g).length : Int) - 1 := by
    intro i hi
    obtain ⟨p, -, hp⟩ := forall₂_right_mem ((codesOf_ok_iff _ _ _ _).1 hcs) _ (getD_mem_of_lt cs i hi)
    simp only [BaseFab.get] at hp
    split at hp
    · simp only [Except.ok.injEq] at hp
      have := mask_value_range cfg nm hnm g hg (cellOf cfg p)
      omega
    · simp at hp
  have hS0 : ∀ k, k ≤ (nm.m_grid_map g).length →
      (st'.m_start g).getD k 0 = (lower_bound cs ((k : Int) - 1) : Int) := by
    intro k hk
    rw [hstart, probes_map_getD _ _ k hk]
  have hT0 : ∀ k, k ≤ (nm.m_grid_map g).length →
      (st'.m_stop g).getD k 0 = (upper_bound cs ((k : Int) - 1) : Int) := by
    intro k hk
    rw [hstop, probes_map_getD _ _ k hk]
  have hcont : ∀ k, k < (nm.m_grid_map g).length →
      (st'.m_stop g).getD k 0 = (st'.m_start g).getD (k + 1) 0 := by
    intro k hk
    rw [hT0 k (by omega), hS0 (k + 1) (by omega), upper_eq_lower_succ cs _ hsorted]
    congr 2
    push_cast
    omega
  have hfirst : (st'.m_start g).getD 0 0 = 0 := by
    rw [hS0 0 (by omega), lower_bound_eq_zero cs _ hsorted (fun i hi => by
      have := (hrange i hi).1
      simpa using this)]
    rfl
  have hlast : (st'.m_stop g).getD (nm.m_grid_map g).length 0
      = ((st'.plev g).numRealParticles : Int) := by
    rw [hT0 _ (Nat.le_refl _), upper_bound_eq_length cs _ hsorted (fun i hi => (hrange i hi).2),
      hlen]
  refine ⟨cs, hcs, hsorted, by rw [hstart]; exact probes_map_length _ _, by rw [hstop]; exact probes_map_length _ _,
    fun k hk i => ?_, hfirst, hcont, hlast, ?_⟩
  · rw [hS0 k hk, hT0 k hk, ← hlen]
    obtain ⟨l1, l2⟩ := lower_bound_spec cs ((k : Int) - 1) hsorted
    obtain ⟨u1, u2⟩ := upper_bound_spec cs ((k : Int) - 1) hsorted
    constructor
    · rintro ⟨ha, hb⟩
      have hi : i < cs.length := by omega
      have h1 := (l2 i hi).not.1 (by omega)
      have h2 := (u2 i hi).1 (by omega)
      exact ⟨hi, by omega⟩
    · rintro ⟨hi, hc⟩
      have h1 := (l2 i hi).not.2 (by omega)
      have h2 := (u2 i hi).2 (by omega)
      omega
  · rw [telescope _ (fun k => (st'.m_start g).getD k 0) (fun k => (st'.m_stop g).getD k 0) hcont,
      hfirst, hlast]
    omega

/-! ### The check of the destination rank -/

/-- C9, as stated, fails: rank `0` of three ranks receives from rank `1` a
message whose only group has run length `0` and names rank `2`; the group is
walked over by the unpack loop, and `fillNeighborsMPIGPU` ends without a
failure. -/
theorem C9_counterexample :
    groupHeaders threeRanks strayMessage 1 sizeof_size_t = [(0, 0, 2)] ∧
      (2 : Int) ≠ ((0 : Nat) : Int) ∧
      isOk (fillNeighborsMPIGPU threeRanks 0 straySends emptyState) = true := by
  decide

theorem unpackGroups_all_match (cfg : Config) (myProc : Nat) (buf : List MemVal) :
    ∀ n pos st st', unpackGroups cfg myProc buf n pos st = .ok st' →
      ∀ h, h ∈ groupHeaders cfg buf n pos → h.1 = 0 ∨ h.2.2 = (myProc : Int) := by
  intro n
  induction n with
  | zero => intro pos st st' _ h hh; simp [groupHeaders] at hh
  | succ n ih =>
    intro pos st st' hok h hh
    simp only [unpackGroups] at hok
    simp only [groupHeaders] at hh
    cases h1 : readSizeT buf pos with
    | error e => simp [h1] at hh
    | ok k =>
      cases h2 : readInt buf (pos + sizeof_size_t) with
      | error e => simp [h1, h2] at hh
      | ok gid =>
        cases h3 : readInt buf (pos + sizeof_size_t + sizeof_int) with
        | error e => simp [h1, h2, h3] at hh
        | ok pid =>
          simp only [h1, h2, h3, List.mem_cons] at hh hok
          by_cases hk : k = 0
          · subst hk
            rcases hh with rfl | hh
            · exact Or.inl rfl
            · simp only [if_true] at hok
              simp only [Nat.zero_mul, Nat.add_zero] at hh
              exact ih _ _ _ hok h hh
          · simp only [hk, if_false] at hok
            by_cases hp : pid = (myProc : Int)
            · rcases hh with rfl | hh
              · exact Or.inr hp
              · have hp' : ¬ pid ≠ (myProc : Int) := fun c => c hp
                simp only [hp', if_false] at hok
                split at hok
                · simp at hok
                · split at hok
                  · simp at hok
                  · exact ih _ _ _ hok h hh
            · have hp' : pid ≠ (myProc : Int) := hp
              simp [hp'] at hok

/-- C9, amended. In the unpack loop a group of non-zero run length whose
destination rank differs from the receiving rank stops the process with the
failed assertion; a group of run length zero is skipped before the assertion,
whatever its destination rank; and whenever the loop ends without a failure,
every group that it walked over has run length zero or names the receiving
rank. -/
theorem C9_unpack_rank_check (cfg : Config) (myProc : Nat) (buf : List MemVal) :
    (∀ n pos st k gid pid, readSizeT buf pos = .ok k →
        readInt buf (pos + sizeof_size_t) = .ok gid →
        readInt buf (pos + sizeof_size_t + sizeof_int) = .ok pid →
        k ≠ 0 → pid ≠ (myProc : Int) →
        unpackGroups cfg myProc buf (n + 1) pos st
          = .error (.abort "pid == ParallelDescriptor::MyProc()")) ∧
      (∀ n pos st gid pid, readSizeT buf pos = .ok 0 →
        readInt buf (pos + sizeof_size_t) = .ok gid →
        readInt buf (pos + sizeof_size_t + sizeof_int) = .ok pid →
        unpackGroups cfg myProc buf (n + 1) pos st
          = unpackGroups cfg myProc buf n (pos + sizeof_size_t + sizeof_int + sizeof_int) st) ∧
      (∀ n pos st st', unpackGroups cfg myProc buf n pos st = .ok st' →
        ∀ h, h ∈ groupHeaders cfg buf n pos → h.1 = 0 ∨ h.2.2 = (myProc : Int)) := by
  refine ⟨?_, ?_, unpackGroups_all_match cfg myProc buf⟩
  · intro n pos st k gid pid h1 h2 h3 hk hp
    simp [unpackGroups, h1, h2, h3, hk, hp]
  · intro n pos st gid pid h1 h2 h3
    simp [unpackGroups, h1, h2, h3]

/-- An instance of C9 as amended: a buffer whose first group has run length `1`
and names rank `2` stops rank `0`. -/
theorem C9_unpack_rank_check_witness :
    unpackGroups threeRanks 0
        (storeObj sizeof_size_t (.sizeT 1) ++ storeObj sizeof_int (.int 0) ++
          storeObj sizeof_int (.int 2)) 1 0 emptyState
      = .error (.abort "pid == ParallelDescriptor::MyProc()") :=
  (C9_unpack_rank_check threeRanks 0 _).1 0 0 emptyState 1 0 2 (by decide) (by decide)
    (by decide) (by decide) (by decide)

/-! ### Lists by index -/

theorem allLE_iff (a b : List Int) (h : a.length = b.length) :
    IntVect.allLE a b = true ↔ ∀ i, i < a.length → a.getD i 0 ≤ b.getD i 0 := by
  induction a generalizing b with
  | nil => simp [IntVect.allLE]
  | cons x xs ih =>
    cases b with
    | nil => simp at h
    | cons y ys =>
      simp only [List.length_cons, Nat.add_right_cancel_iff] at h
      have ih' := ih ys h
      simp only [IntVect.allLE, List.zipWith_cons_cons, List.all_cons, id_eq, Bool.and_eq_true,
        decide_eq_true_eq, List.length_cons] at ih' ⊢
      rw [ih']
      constructor
      · rintro ⟨h0, hr⟩ i hi
        cases i with
        | zero => simpa using h0
        | succ j => simpa using hr j (by omega)
      · intro hall
        refine ⟨by simpa using hall 0 (by omega), fun i hi => ?_⟩
        simpa using hall (i + 1) (by omega)

theorem contains_iff (b : Box) (iv : IntVect) (dim : Nat) (hlo : b.smallend.length = dim)
    (hhi : b.bigend.length = dim) (hiv : iv.length = dim) :
    b.contains iv = true ↔
      ∀ a, a < dim → b.smallend.getD a 0 ≤ iv.getD a 0 ∧ iv.getD a 0 ≤ b.bigend.getD a 0 := by
  simp only [Box.contains, Bool.and_eq_true]
  rw [allLE_iff _ _ (by omega), allLE_iff _ _ (by omega), hlo, hiv]
  exact ⟨fun h a ha => ⟨h.1 a ha, h.2 a ha⟩, fun h => ⟨fun a ha => (h a ha).1, fun a ha => (h a ha).2⟩⟩

theorem getD_set (l : List Int) (i a : Nat) (v : Int) :
    (l.set i v).getD a 0 = if a = i ∧ i < l.length then v else l.getD a 0 := by
  simp only [List.getD_eq_getElem?_getD, List.getElem?_set]
  by_cases h : i = a
  · subst h
    by_cases hl : i < l.length
    · simp [hl]
    · simp [hl, List.getElem?_eq_none (Nat.le_of_not_lt hl)]
  · have h' : ¬ a = i := fun e => h e.symm
    simp [h, h']

theorem list_ext_getD (l1 l2 : List Int) (hlen : l1.length = l2.length)
    (h : ∀ a, a < l1.length → l1.getD a 0 = l2.getD a 0) : l1 = l2 := by
  apply List.ext_getElem hlen
  intro a h1 h2
  have := h a h1
  simpa [List.getD_eq_getElem?_getD, List.getElem?_eq_getElem, h1, h2] using this

theorem getD_map_sub (l : List Int) (n : Int) (a : Nat) (h : a < l.length) :
    (l.map fun x => x - n).getD a 0 = l.getD a 0 - n := by
  simp [List.getD_eq_getElem?_getD, List.getElem?_map, h]

theorem getD_map_add (l : List Int) (n : Int) (a : Nat) (h : a < l.length) :
    (l.map fun x => x + n).getD a 0 = l.getD a 0 + n := by
  simp [List.getD_eq_getElem?_getD, List.getElem?_map, h]

theorem grow_grow (g : Box) (n : Int) : (g.grow (-n)).grow n = g := by
  cases g with
  | mk lo hi t =>
    simp only [Box.grow, List.map_map, Box.mk.injEq, and_true]
    constructor
    · conv_rhs => rw [← List.map_id lo]
      apply List.map_congr_left
      intro x _
      simp
    · conv_rhs => rw [← List.map_id hi]
      apply List.map_congr_left
      intro x _
      simp

/-! ### The boundary boxes as regions around the box -/

theorem isRegion_self (box : Box) (n : Int) (dim : Nat) (hlo : box.smallend.length = dim)
    (hhi : box.bigend.length = dim) : IsRegion box n dim (fun _ => 0) box :=
  ⟨hlo, hhi, rfl, fun a _ => by simp [sideLo, sideHi]⟩

theorem isRegion_adjSide (box : Box) (n : Int) (dim : Nat) (dir : Nat → Int) (b : Box)
    (h : IsRegion box n dim dir b) (i : Nat) (hi : i < dim) (h0 : dir i = 0) (s : Int)
    (hs : s = 1 ∨ s = -1) :
    IsRegion box n dim (Function.update dir i s) (adjSide s b i n) := by
  obtain ⟨hlo, hhi, ht, hax⟩ := h
  have hi0 := hax i hi
  rw [h0] at hi0
  simp only [sideLo, sideHi, if_true] at hi0
  rcases hs with rfl | rfl
  · refine ⟨by simp [adjSide, adjCellHi, hlo], by simp [adjSide, adjCellHi, hhi],
      by simp [adjSide, adjCellHi, ht], fun a ha => ?_⟩
    simp only [adjSide, if_true, adjCellHi, getD_set, hlo, hhi]
    by_cases hai : a = i
    · subst hai
      simp [-List.getD_eq_getElem?_getD, hi, sideLo, sideHi, hi0.2]
    · simp only [hai, false_and, if_false, Function.update_noteq hai]
      exact hax a ha
  · refine ⟨by simp [adjSide, adjCellLo, hlo], by simp [adjSide, adjCellLo, hhi],
      by simp [adjSide, adjCellLo, ht], fun a ha => ?_⟩
    simp only [adjSide, show ¬ ((-1 : Int) = 1) by decide, if_false, adjCellLo, getD_set, hlo, hhi]
    by_cases hai : a = i
    · subst hai
      simp [-List.getD_eq_getElem?_getD, hi, sideLo, sideHi, hi0.1]
    · simp only [hai, false_and, if_false, Function.update_noteq hai]
      exact hax a ha

theorem isRegion_contains (box : Box) (n : Int) (dim : Nat) (dir : Nat → Int) (b : Box)
    (h : IsRegion box n dim dir b) (iv : IntVect) (hiv : iv.length = dim) :
    b.contains iv = true ↔ ∀ a, a < dim →
      sideLo (box.smallend.getD a 0) (box.bigend.getD a 0) n (dir a) ≤ iv.getD a 0 ∧
        iv.getD a 0 ≤ sideHi (box.smallend.getD a 0) (box.bigend.getD a 0) n (dir a) := by
  obtain ⟨hlo, hhi, -, hax⟩ := h
  rw [contains_iff b iv dim hlo hhi hiv]
  refine forall_congr' fun a => forall_congr' fun ha => ?_
  rw [(hax a ha).1, (hax a ha).2]

theorem isRegion_unique (box : Box) (n : Int) (dim : Nat) (dir1 dir2 : Nat → Int) (b1 b2 : Box)
    (h1 : IsRegion box n dim dir1 b1) (h2 : IsRegion box n dim dir2 b2)
    (hd : ∀ a, a < dim → dir1 a = dir2 a) : b1 = b2 := by
  obtain ⟨l1, u1, t1, a1⟩ := h1
  obtain ⟨l2, u2, t2, a2⟩ := h2
  cases b1 with
  | mk lo1 hi1 ty1 =>
    cases b2 with
    | mk lo2 hi2 ty2 =>
      simp only at l1 u1 t1 a1 l2 u2 t2 a2
      simp only [Box.mk.injEq]
      refine ⟨list_ext_getD _ _ (by omega) fun a ha => ?_,
        list_ext_getD _ _ (by omega) fun a ha => ?_, by rw [t1, t2]⟩
      · rw [(a1 a (by omega)).1, (a2 a (by omega)).1, hd a (by omega)]
      · rw [(a1 a (by omega)).2, (a2 a (by omega)).2, hd a (by omega)]

theorem mem_raw_iff (dim : Nat) (box : Box) (n : Int) (b : Box) :
    b ∈ rawBoundaryBoxes dim box n ↔
      ∃ i, i < dim ∧ ∃ s1 : Int, (s1 = 1 ∨ s1 = -1) ∧
        (b = adjSide s1 box i n ∨
          ∃ j, j < dim ∧ i ≠ j ∧ ∃ s2 : Int, (s2 = 1 ∨ s2 = -1) ∧
            (b = adjSide s2 (adjSide s1 box i n) j n ∨
              ∃ k, k < dim ∧ j ≠ k ∧ i ≠ k ∧ ∃ s3 : Int, (s3 = 1 ∨ s3 = -1) ∧
                b = adjSide s3 (adjSide s2 (adjSide s1 box i n) j n) k n)) := by
  simp only [rawBoundaryBoxes, List.mem_flatMap, List.mem_range, List.mem_append, List.mem_cons,
    List.mem_singleton, List.not_mem_nil, or_false, adjSide]
  constructor
  · rintro ⟨i, hi, h⟩
    refine ⟨i, hi, ?_⟩
    rcases h with (rfl | rfl) | ⟨face, hface, j, hj, h⟩
    · exact ⟨1, Or.inl rfl, Or.inl (by simp)⟩
    · exact ⟨-1, Or.inr rfl, Or.inl (by simp)⟩
    · by_cases hij : i = j
      · simp [hij] at h
      · simp only [hij, if_false, List.mem_append, List.mem_cons, List.mem_singleton,
          List.not_mem_nil, or_false, List.mem_flatMap, List.mem_range] at h
        have key : ∀ s1 : Int, (s1 = 1 ∨ s1 = -1) →
            face = (if s1 = 1 then adjCellHi box i n else adjCellLo box i n) →
            ∃ s1 : Int, (s1 = 1 ∨ s1 = -1) ∧
              (b = (if s1 = 1 then adjCellHi box i n else adjCellLo box i n) ∨
              ∃ j, j < dim ∧ i ≠ j ∧ ∃ s2 : Int, (s2 = 1 ∨ s2 = -1) ∧
                (b = (if s2 = 1 then adjCellHi (if s1 = 1 then adjCellHi box i n else adjCellLo box i n) j n
                    else adjCellLo (if s1 = 1 then adjCellHi box i n else adjCellLo box i n) j n) ∨
                ∃ k, k < dim ∧ j ≠ k ∧ i ≠ k ∧ ∃ s3 : Int, (s3 = 1 ∨ s3 = -1) ∧
                  b = (if s3 = 1 then
                    adjCellHi (if s2 = 1 then adjCellHi (if s1 = 1 then adjCellHi box i n else adjCellLo box i n) j n
                      else adjCellLo (if s1 = 1 then adjCellHi box i n else adjCellLo box i n) j n) k n
                    else adjCellLo (if s2 = 1 then adjCellHi (if s1 = 1 then adjCellHi box i n else adjCellLo box i n) j n
                      else adjCellLo (if s1 = 1 then adjCellHi box i n else adjCellLo box i n) j n) k n))) := by
          intro s1 hs1 hf
          refine ⟨s1, hs1, Or.inr ⟨j, hj, hij, ?_⟩⟩
          rw [← hf]
          rcases h with (rfl | rfl) | ⟨edge, hedge, k, hk, h⟩
          · exact ⟨1, Or.inl rfl, Or.inl (by simp)⟩
          · exact ⟨-1, Or.inr rfl, Or.inl (by simp)⟩
          · by_cases hjk : j = k ∨ i = k
            · simp [hjk] at h
            · simp only [hjk, if_false, List.mem_cons, List.mem_singleton, List.not_mem_nil,
                or_false] at h
              push_neg at hjk
              rcases hedge with rfl | rfl
              · refine ⟨1, Or.inl rfl, Or.inr ⟨k, hk, hjk.1, hjk.2, ?_⟩⟩
                rcases h with rfl | rfl
                · exact ⟨1, Or.inl rfl, by simp⟩
                · exact ⟨-1, Or.inr rfl, by simp⟩
              · refine ⟨-1, Or.inr rfl, Or.inr ⟨k, hk, hjk.1, hjk.2, ?_⟩⟩
                rcases h with rfl | rfl
                · exact ⟨1, Or.inl rfl, by simp⟩
                · exact ⟨-1, Or.inr rfl, by simp⟩
        rcases hface with rfl | rfl
        · exact key 1 (Or.inl rfl) (by simp)
        · exact key (-1) (Or.inr rfl) (by simp)
  · rintro ⟨i, hi, s1, hs1, h⟩
    refine ⟨i, hi, ?_⟩
    rcases h with rfl | ⟨j, hj, hij, s2, hs2, h⟩
    · rcases hs1 with rfl | rfl <;> simp
    · refine Or.inr ⟨adjSide s1 box i n, by rcases hs1 with rfl | rfl <;> simp [adjSide],
        j, hj, ?_⟩
      simp only [hij, if_false, List.mem_append, List.mem_cons, List.mem_singleton,
        List.not_mem_nil, or_false, List.mem_flatMap, List.mem_range, adjSide]
      rcases h with rfl | ⟨k, hk, hjk, hik, s3, hs3, rfl⟩
      · rcases hs2 with rfl | rfl <;> simp
      · refine Or.inr ⟨adjSide s2 (adjSide s1 box i n) j n,
          by rcases hs2 with rfl | rfl <;> simp [adjSide], k, hk, ?_⟩
        have : ¬ (j = k ∨ i = k) := by push_neg; exact ⟨hjk, hik⟩
        simp only [this, if_false, List.mem_cons, List.mem_singleton, List.not_mem_nil, or_false,
          adjSide]
        rcases hs3 with rfl | rfl <;> simp

theorem update_sign_cases (dir : Nat → Int) (i : Nat) (s : Int) (hs : s = 1 ∨ s = -1)
    (h : ∀ a, dir a = -1 ∨ dir a = 0 ∨ dir a = 1) :
    ∀ a, Function.update dir i s a = -1 ∨ Function.update dir i s a = 0 ∨
      Function.update dir i s a = 1 := by
  intro a
  by_cases hai : a = i
  · subst hai
    rw [Function.update_same]
    rcases hs with rfl | rfl <;> simp
  · rw [Function.update_noteq hai]
    exact h a

theorem raw_isRegion (dim : Nat) (box : Box) (n : Int) (hlo : box.smallend.length = dim)
    (hhi : box.bigend.length = dim) (b : Box) (hb : b ∈ rawBoundaryBoxes dim box n) :
    ∃ dir, ShellDir dim dir ∧ IsRegion box n dim dir b := by
  have h0 := isRegion_self box n dim hlo hhi
  have z : ∀ a, (fun _ : Nat => (0 : Int)) a = -1 ∨ (fun _ : Nat => (0 : Int)) a = 0 ∨
      (fun _ : Nat => (0 : Int)) a = 1 := fun a => Or.inr (Or.inl rfl)
  obtain ⟨i, hi, s1, hs1, h⟩ := (mem_raw_iff dim box n b).1 hb
  have h1 := isRegion_adjSide box n dim _ _ h0 i hi rfl s1 hs1
  have z1 := update_sign_cases _ i s1 hs1 z
  have n1 : s1 ≠ 0 := by rcases hs1 with rfl | rfl <;> decide
  rcases h with rfl | ⟨j, hj, hij, s2, hs2, h⟩
  · exact ⟨_, ⟨z1, i, hi, by rw [Function.update_same]; exact n1⟩, h1⟩
  · have h2 := isRegion_adjSide box n dim _ _ h1 j hj
      (by rw [Function.update_noteq (Ne.symm hij)]) s2 hs2
    have z2 := update_sign_cases _ j s2 hs2 z1
    rcases h with rfl | ⟨k, hk, hjk, hik, s3, hs3, rfl⟩
    · exact ⟨_, ⟨z2, i, hi, by
        rw [Function.update_noteq hij, Function.update_same]; exact n1⟩, h2⟩
    · have h3 := isRegion_adjSide box n dim _ _ h2 k hk
        (by rw [Function.update_noteq (Ne.symm hjk), Function.update_noteq (Ne.symm hik)]) s3 hs3
      have z3 := update_sign_cases _ k s3 hs3 z2
      exact ⟨_, ⟨z3, i, hi, by
        rw [Function.update_noteq hik, Function.update_noteq hij, Function.update_same]
        exact n1⟩, h3⟩

theorem sign_of_ne_zero (dir : Nat → Int) (h : ∀ a, dir a = -1 ∨ dir a = 0 ∨ dir a = 1) (a : Nat)
    (hne : dir a ≠ 0) : dir a = 1 ∨ dir a = -1 := by
  rcases h a with h | h | h
  · exact Or.inr h
  · exact absurd h hne
  · exact Or.inl h

theorem raw_of_dir (dim : Nat) (hdim : dim ≤ 3) (box : Box) (n : Int)
    (hlo : box.smallend.length = dim) (hhi : box.bigend.length = dim) (dir : Nat → Int)
    (hd : ShellDir dim dir) :
    ∃ b, b ∈ rawBoundaryBoxes dim box n ∧ ∃ dir', IsRegion box n dim dir' b ∧
      ∀ a, a < dim → dir' a = dir a := by
  have hcases := hd.1
  have h0 := isRegion_self box n dim hlo hhi
  -- the axes below `dim` where the direction is not zero, in increasing order
  have step1 : ∀ i, i < dim → dir i ≠ 0 → (∀ a, a < dim → a ≠ i → dir a = 0) →
      ∃ b, b ∈ rawBoundaryBoxes dim box n ∧ ∃ dir', IsRegion box n dim dir' b ∧
        ∀ a, a < dim → dir' a = dir a := by
    intro i hi hne hrest
    have hs := sign_of_ne_zero dir hcases i hne
    refine ⟨adjSide (dir i) box i n, (mem_raw_iff dim box n _).2 ⟨i, hi, dir i, hs, Or.inl rfl⟩,
      _, isRegion_adjSide box n dim _ _ h0 i hi rfl (dir i) hs, fun a ha => ?_⟩
    by_cases hai : a = i
    · subst hai; rw [Function.update_same]
    · rw [Function.update_noteq hai, hrest a ha hai]
  have step2 : ∀ i j, i < dim → j < dim → i ≠ j → dir i ≠ 0 → dir j ≠ 0 →
      (∀ a, a < dim → a ≠ i → a ≠ j → dir a = 0) →
      ∃ b, b ∈ rawBoundaryBoxes dim box n ∧ ∃ dir', IsRegion box n dim dir' b ∧
        ∀ a, a < dim → dir' a = dir a := by
    intro i j hi hj hij hni hnj hrest
    have hsi := sign_of_ne_zero dir hcases i hni
    have hsj := sign_of_ne_zero dir hcases j hnj
    have h1 := isRegion_adjSide box n dim _ _ h0 i hi rfl (dir i) hsi
    have h2 := isRegion_adjSide box n dim _ _ h1 j hj
      (by rw [Function.update_noteq (Ne.symm hij)]) (dir j) hsj
    refine ⟨_, (mem_raw_iff dim box n _).2
      ⟨i, hi, dir i, hsi, Or.inr ⟨j, hj, hij, dir j, hsj, Or.inl rfl⟩⟩, _, h2, fun a ha => ?_⟩
    by_cases haj : a = j
    · subst haj; rw [Function.update_same]
    · rw [Function.update_noteq haj]
      by_cases hai : a = i
      · subst hai; rw [Function.update_same]
      · rw [Function.update_noteq hai, hrest a ha hai haj]
  have step3 : ∀ i j k, i < dim → j < dim → k < dim → i ≠ j → j ≠ k → i ≠ k →
      dir i ≠ 0 → dir j ≠ 0 → dir k ≠ 0 →
      (∀ a, a < dim → a ≠ i → a ≠ j → a ≠ k → dir a = 0) →
      ∃ b, b ∈ rawBoundaryBoxes dim box n ∧ ∃ dir', IsRegion box n dim dir' b ∧
        ∀ a, a < dim → dir' a = dir a := by
    intro i j k hi hj hk hij hjk hik hni hnj hnk hrest
    have hsi := sign_of_ne_zero dir hcases i hni
    have hsj := sign_of_ne_zero dir hcases j hnj
    have hsk := sign_of_ne_zero dir hcases k hnk
    have h1 := isRegion_adjSide box n dim _ _ h0 i hi rfl (dir i) hsi
    have h2 := isRegion_adjSide box n dim _ _ h1 j hj
      (by rw [Function.update_noteq (Ne.symm hij)]) (dir j) hsj
    have h3 := isRegion_adjSide box n dim _ _ h2 k hk
      (by rw [Function.update_noteq (Ne.symm hjk), Function.update_noteq (Ne.symm hik)])
      (dir k) hsk
    refine ⟨_, (mem_raw_iff dim box n _).2
      ⟨i, hi, dir i, hsi, Or.inr ⟨j, hj, hij, dir j, hsj,
        Or.inr ⟨k, hk, hjk, hik, dir k, hsk, rfl⟩⟩⟩, _, h3, fun a ha => ?_⟩
    by_cases hak : a = k
    · subst hak; rw [Function.update_same]
    · rw [Function.update_noteq hak]
      by_cases haj : a = j
      · subst haj; rw [Function.update_same]
      · rw [Function.update_noteq haj]
        by_cases hai : a = i
        · subst hai; rw [Function.update_same]
        · rw [Function.update_noteq hai, hrest a ha hai haj hak]
  obtain ⟨-, a0, ha0, hne0⟩ := hd
  by_cases d0 : dir 0 = 0 <;> by_cases d1 : dir 1 = 0 <;> by_cases d2 : dir 2 = 0
  · exfalso
    have : a0 = 0 ∨ a0 = 1 ∨ a0 = 2 := by omega
    rcases this with rfl | rfl | rfl <;> contradiction
  · have h2 : 2 < dim := by
      by_contra hc
      have : a0 = 0 ∨ a0 = 1 := by omega
      rcases this with rfl | rfl <;> contradiction
    exact step1 2 h2 d2 (fun a ha hne => by
      have : a = 0 ∨ a = 1 := by omega
      rcases this with rfl | rfl <;> assumption)
  · have h1 : 1 < dim := by
      by_contra hc
      have : a0 = 0 := by omega
      subst this; contradiction
    exact step1 1 h1 d1 (fun a ha hne => by
      have : a = 0 ∨ a = 2 := by omega
      rcases this with rfl | rfl <;> assumption)
  · by_cases h2 : 2 < dim
    · exact step2 1 2 (by omega) h2 (by decide) d1 d2 (fun a ha h1 h2 => by
        have : a = 0 := by omega
        subst this; assumption)
    · have h1 : 1 < dim := by
        by_contra hc
        have : a0 = 0 := by omega
        subst this; contradiction
      exact step1 1 h1 d1 (fun a ha hne => by
        have : a = 0 := by omega
        subst this; assumption)
  · exact step1 0 (by omega) d0 (fun a ha hne => by
      have : a = 1 ∨ a = 2 := by omega
      rcases this with rfl | rfl <;> assumption)
  · by_cases h2 : 2 < dim
    · exact step2 0 2 (by omega) h2 (by decide) d0 d2 (fun a ha h1 h2 => by
        have : a = 1 := by omega
        subst this; assumption)
    · exact step1 0 (by omega) d0 (fun a ha hne => by
        have : a = 1 := by omega
        subst this; assumption)
  · by_cases h1 : 1 < dim
    · exact step2 0 1 (by omega) h1 (by decide) d0 d1 (fun a ha h1 h2 => by
        have : a = 2 := by omega
        subst this; assumption)
    · exact step1 0 (by omega) d0 (fun a ha hne => by omega)
  · by_cases h2 : 2 < dim
    · exact step3 0 1 2 (by omega) (by omega) h2 (by decide) (by decide) (by decide) d0 d1 d2
        (fun a ha h0 h1 h2 => by omega)
    · by_cases h1 : 1 < dim
      · exact step2 0 1 (by omega) h1 (by decide) d0 d1 (fun a ha h1 h2 => by omega)
      · exact step1 0 (by omega) d0 (fun a ha hne => by omega)

/-! ### The boundary boxes tile the shell -/

theorem side_cases (lo hi n s x : Int) (hs : s = -1 ∨ s = 0 ∨ s = 1) (hn : 1 ≤ n)
    (hbox : lo ≤ hi + 1) :
    (sideLo lo hi n s ≤ x ∧ x ≤ sideHi lo hi n s) ↔
      (s = (if x < lo then -1 else if hi < x then 1 else 0) ∧ lo - n ≤ x ∧ x ≤ hi + n) := by
  rcases hs with rfl | rfl | rfl
  · rw [show sideLo lo hi n (-1) = lo - n by simp [sideLo],
      show sideHi lo hi n (-1) = lo - 1 by simp [sideHi]]
    by_cases h1 : x < lo
    · rw [if_pos h1]; exact ⟨fun h => ⟨rfl, by omega, by omega⟩, fun h => ⟨by omega, by omega⟩⟩
    · rw [if_neg h1]
      constructor
      · intro h; omega
      · intro h
        have := h.1
        split_ifs at this
  · rw [show sideLo lo hi n 0 = lo by simp [sideLo], show sideHi lo hi n 0 = hi by simp [sideHi]]
    by_cases h1 : x < lo
    · rw [if_pos h1]
      constructor
      · intro h; omega
      · intro h; have := h.1; exact absurd this (by decide)
    · rw [if_neg h1]
      by_cases h2 : hi < x
      · rw [if_pos h2]
        constructor
        · intro h; omega
        · intro h; have := h.1; exact absurd this (by decide)
      · rw [if_neg h2]
        exact ⟨fun h => ⟨rfl, by omega, by omega⟩, fun h => ⟨by omega, by omega⟩⟩
  · rw [show sideLo lo hi n 1 = hi + 1 by simp [sideLo],
      show sideHi lo hi n 1 = hi + n by simp [sideHi]]
    by_cases h1 : x < lo
    · rw [if_pos h1]
      constructor
      · intro h; omega
      · intro h; have := h.1; exact absurd this (by decide)
    · rw [if_neg h1]
      by_cases h2 : hi < x
      · rw [if_pos h2]
        exact ⟨fun h => ⟨rfl, by omega, by omega⟩, fun h => ⟨by omega, by omega⟩⟩
      · rw [if_neg h2]
        constructor
        · intro h; omega
        · intro h; have := h.1; exact absurd this (by decide)

theorem raw_contains_dir (dim : Nat) (box : Box) (n : Int) (hn : 1 ≤ n)
    (hbox : ∀ a, a < dim → box.smallend.getD a 0 ≤ box.bigend.getD a 0 + 1)
    (dir : Nat → Int) (hd : ShellDir dim dir) (b : Box) (hb : IsRegion box n dim dir b)
    (iv : IntVect) (hiv : iv.length = dim) (hc : b.contains iv = true) :
    ∀ a, a < dim → dir a = dirOf box iv a ∧
      box.smallend.getD a 0 - n ≤ iv.getD a 0 ∧ iv.getD a 0 ≤ box.bigend.getD a 0 + n := by
  intro a ha
  have h := (isRegion_contains box n dim dir b hb iv hiv).1 hc a ha
  exact (side_cases _ _ n (dir a) _ (hd.1 a) hn (hbox a ha)).1 h

theorem raw_disjoint (dim : Nat) (box : Box) (n : Int) (hn : 1 ≤ n)
    (hlo : box.smallend.length = dim) (hhi : box.bigend.length = dim)
    (hbox : ∀ a, a < dim → box.smallend.getD a 0 ≤ box.bigend.getD a 0 + 1)
    (b1 b2 : Box) (h1 : b1 ∈ rawBoundaryBoxes dim box n) (h2 : b2 ∈ rawBoundaryBoxes dim box n)
    (iv : IntVect) (hiv : iv.length = dim) (c1 : b1.contains iv = true)
    (c2 : b2.contains iv = true) : b1 = b2 := by
  obtain ⟨d1, s1, r1⟩ := raw_isRegion dim box n hlo hhi b1 h1
  obtain ⟨d2, s2, r2⟩ := raw_isRegion dim box n hlo hhi b2 h2
  refine isRegion_unique box n dim d1 d2 b1 b2 r1 r2 fun a ha => ?_
  rw [(raw_contains_dir dim box n hn hbox d1 s1 b1 r1 iv hiv c1 a ha).1,
    (raw_contains_dir dim box n hn hbox d2 s2 b2 r2 iv hiv c2 a ha).1]

theorem raw_length (dim : Nat) (box : Box) (n : Int) (hlo : box.smallend.length = dim)
    (hhi : box.bigend.length = dim) (b : Box) (hb : b ∈ rawBoundaryBoxes dim box n) :
    b.smallend.length = dim ∧ b.bigend.length = dim := by
  obtain ⟨d, -, r⟩ := raw_isRegion dim box n hlo hhi b hb
  exact ⟨r.1, r.2.1⟩

theorem raw_in_shell (dim : Nat) (box : Box) (n : Int) (hn : 1 ≤ n)
    (hlo : box.smallend.length = dim) (hhi : box.bigend.length = dim)
    (hbox : ∀ a, a < dim → box.smallend.getD a 0 ≤ box.bigend.getD a 0 + 1)
    (b : Box) (hb : b ∈ rawBoundaryBoxes dim box n) (iv : IntVect) (hiv : iv.length = dim)
    (hc : b.contains iv = true) :
    (box.grow n).contains iv = true ∧ box.contains iv = false := by
  obtain ⟨d, s, r⟩ := raw_isRegion dim box n hlo hhi b hb
  have key := raw_contains_dir dim box n hn hbox d s b r iv hiv hc
  constructor
  · rw [contains_iff _ iv dim (by simp [Box.grow, hlo]) (by simp [Box.grow, hhi]) hiv]
    intro a ha
    have := key a ha
    simp only [Box.grow]
    rw [getD_map_sub _ _ _ (by omega), getD_map_add _ _ _ (by omega)]
    omega
  · obtain ⟨-, a, ha, hne⟩ := s
    have := key a ha
    cases hcb : box.contains iv with
    | false => rfl
    | true =>
      have hb' := (contains_iff box iv dim hlo hhi hiv).1 hcb a ha
      rw [this.1] at hne
      simp only [dirOf] at hne
      split_ifs at hne <;> omega

theorem raw_covers (dim : Nat) (hdim : dim ≤ 3) (box : Box) (n : Int) (hn : 1 ≤ n)
    (hlo : box.smallend.length = dim) (hhi : box.bigend.length = dim)
    (hbox : ∀ a, a < dim → box.smallend.getD a 0 ≤ box.bigend.getD a 0 + 1)
    (iv : IntVect) (hiv : iv.length = dim) (hg : (box.grow n).contains iv = true)
    (hb : box.contains iv = false) :
    ∃ b, b ∈ rawBoundaryBoxes dim box n ∧ b.contains iv = true := by
  have hg' := (contains_iff _ iv dim (by simp [Box.grow, hlo]) (by simp [Box.grow, hhi]) hiv).1 hg
  have hsd : ShellDir dim (dirOf box iv) := by
    refine ⟨fun a => by simp only [dirOf]; split_ifs <;> simp, ?_⟩
    by_contra hall
    push_neg at hall
    have : box.contains iv = true := by
      rw [contains_iff box iv dim hlo hhi hiv]
      intro a ha
      have := hall a ha
      simp only [dirOf] at this
      split_ifs at this <;> omega
    rw [hb] at this
    exact absurd this (by decide)
  obtain ⟨b, hbm, dir', hreg, hagree⟩ := raw_of_dir dim hdim box n hlo hhi _ hsd
  refine ⟨b, hbm, (isRegion_contains box n dim dir' b hreg iv hiv).2 fun a ha => ?_⟩
  have h1 := hg' a ha
  simp only [Box.grow] at h1
  rw [getD_map_sub _ _ _ (by omega), getD_map_add _ _ _ (by omega)] at h1
  rw [hagree a ha]
  exact (side_cases _ _ n _ _ (hsd.1 a) hn (hbox a ha)).2 ⟨rfl, by omega, by omega⟩

/-! ### Removal of duplicates -/

theorem mem_unique {α : Type} [DecidableEq α] (x : α) : ∀ l : List α, x ∈ unique l ↔ x ∈ l
  | [] => by simp [unique]
  | [a] => by simp [unique]
  | a :: b :: l => by
    have ih := mem_unique x (b :: l)
    simp only [unique]
    split
    · rename_i hab
      subst hab
      rw [ih]
      simp
    · rw [List.mem_cons, ih]
      simp

theorem unique_nodup {α : Type} [DecidableEq α] (r : α → α → Prop)
    (hanti : ∀ a b, r a b → r b a → a = b) :
    ∀ l : List α, l.Pairwise r → (unique l).Nodup
  | [], _ => by simp [unique]
  | [a], _ => by simp [unique]
  | a :: b :: l, h => by
    have hp := List.pairwise_cons.mp h
    have ih := unique_nodup r hanti (b :: l) hp.2
    simp only [unique]
    split
    · exact ih
    · rename_i hab
      refine List.nodup_cons.mpr ⟨fun hmem => ?_, ih⟩
      have hmem' := (mem_unique a (b :: l)).1 hmem
      have hab' : r a b := hp.1 b (List.mem_cons_self _ _)
      rcases List.mem_cons.mp hmem' with e | hl
      · exact hab e
      · have hba : r b a := (List.pairwise_cons.mp hp.2).1 a hl
        exact hab (hanti a b hab' hba)

theorem mem_RemoveDuplicates {α : Type} [DecidableEq α] (lt : α → α → Bool) (l : List α)
    (x : α) : x ∈ RemoveDuplicates lt l ↔ x ∈ l := by
  unfold RemoveDuplicates
  rw [mem_unique]
  exact (List.perm_insertionSort _ l).mem_iff

theorem RemoveDuplicates_nodup {α : Type} [DecidableEq α] (lt : α → α → Bool)
    (htotal : ∀ a b, lt b a = false ∨ lt a b = false)
    (htrans : ∀ a b c, lt b a = false → lt c b = false → lt c a = false)
    (hanti : ∀ a b, lt b a = false → lt a b = false → a = b) (l : List α) :
    (RemoveDuplicates lt l).Nodup := by
  haveI : IsTotal α (fun a b => lt b a = false) := ⟨htotal⟩
  haveI : IsTrans α (fun a b => lt b a = false) := ⟨htrans⟩
  exact unique_nodup (fun a b => lt b a = false) hanti _
    (List.sorted_insertionSort (fun a b => lt b a = false) l)

/-! ### The order of the boxes -/

theorem lexLT_irrefl : ∀ a : List Int, IntVect.lexLT a a = false
  | [] => rfl
  | x :: xs => by simp [IntVect.lexLT, lexLT_irrefl xs]

theorem lexLT_asymm : ∀ a b : List Int, IntVect.lexLT a b = true → IntVect.lexLT b a = false
  | [], [] => by simp [IntVect.lexLT]
  | [], _ :: _ => by simp [IntVect.lexLT]
  | _ :: _, [] => by simp [IntVect.lexLT]
  | x :: xs, y :: ys => by
    have ih := lexLT_asymm xs ys
    simp only [IntVect.lexLT, Bool.or_eq_true, decide_eq_true_eq, Bool.and_eq_true,
      Bool.or_eq_false_iff, decide_eq_false_iff_not, Bool.and_eq_false_imp]
    rintro (h | ⟨rfl, h⟩)
    · exact ⟨by omega, fun e => by omega⟩
    · exact ⟨by omega, fun _ => ih h⟩

theorem lexLT_connex : ∀ a b : List Int,
    IntVect.lexLT a b = false → IntVect.lexLT b a = false → a = b
  | [], [] => by simp
  | [], _ :: _ => by simp [IntVect.lexLT]
  | _ :: _, [] => by simp [IntVect.lexLT]
  | x :: xs, y :: ys => by
    have ih := lexLT_connex xs ys
    simp only [IntVect.lexLT, Bool.or_eq_false_iff, decide_eq_false_iff_not,
      Bool.and_eq_false_imp, decide_eq_true_eq, List.cons.injEq]
    rintro ⟨h1, h2⟩ ⟨h3, h4⟩
    have hxy : x = y := by omega
    exact ⟨hxy, ih (h2 hxy) (h4 hxy.symm)⟩

theorem lexLT_trans : ∀ a b c : List Int,
    IntVect.lexLT a b = true → IntVect.lexLT b c = true → IntVect.lexLT a c = true
  | [], [], _ => by simp [IntVect.lexLT]
  | [], _ :: _, [] => by simp [IntVect.lexLT]
  | [], _ :: _, _ :: _ => by simp [IntVect.lexLT]
  | _ :: _, [], _ => by simp [IntVect.lexLT]
  | _ :: _, _ :: _, [] => by simp [IntVect.lexLT]
  | x :: xs, y :: ys, z :: zs => by
    have ih := lexLT_trans xs ys zs
    simp only [IntVect.lexLT, Bool.or_eq_true, decide_eq_true_eq, Bool.and_eq_true]
    rintro (h1 | ⟨rfl, h1⟩) (h2 | ⟨rfl, h2⟩)
    · exact Or.inl (by omega)
    · exact Or.inl h1
    · exact Or.inl h2
    · exact Or.inr ⟨rfl, ih h1 h2⟩

theorem ivlt_asymm (a b : IntVect) (h : IntVect.lt a b = true) : IntVect.lt b a = false :=
  lexLT_asymm _ _ h

theorem ivlt_connex (a b : IntVect) (h1 : IntVect.lt a b = false) (h2 : IntVect.lt b a = false) :
    a = b :=
  List.reverse_injective (lexLT_connex _ _ h1 h2)

theorem ivlt_trans (a b c : IntVect) (h1 : IntVect.lt a b = true) (h2 : IntVect.lt b c = true) :
    IntVect.lt a c = true :=
  lexLT_trans _ _ _ h1 h2

theorem ivlt_irrefl (a : IntVect) : IntVect.lt a a = false := lexLT_irrefl _

theorem boxlt_iff (a b : Box) :
    Box.lt a b = true ↔ a.btype < b.btype ∨ (a.btype = b.btype ∧
      (IntVect.lt a.smallend b.smallend = true ∨
        (a.smallend = b.smallend ∧ IntVect.lt a.bigend b.bigend = true))) := by
  simp [Box.lt]

theorem boxlt_asymm (a b : Box) (h : Box.lt a b = true) : Box.lt b a = false := by
  rw [boxlt_iff] at h
  cases hba : Box.lt b a with
  | false => rfl
  | true =>
    rw [boxlt_iff] at hba
    exfalso
    rcases h with h | ⟨ht, h | ⟨hl, h⟩⟩
    · rcases hba with h' | ⟨ht', -⟩ <;> omega
    · rcases hba with h' | ⟨-, h' | ⟨hl', -⟩⟩
      · omega
      · rw [ivlt_asymm _ _ h] at h'; exact absurd h' (by decide)
      · rw [hl', ivlt_irrefl] at h; exact absurd h (by decide)
    · rcases hba with h' | ⟨-, h' | ⟨-, h'⟩⟩
      · omega
      · rw [hl, ivlt_irrefl] at h'; exact absurd h' (by decide)
      · rw [ivlt_asymm _ _ h] at h'; exact absurd h' (by decide)

theorem boxlt_connex (a b : Box) (h1 : Box.lt a b = false) (h2 : Box.lt b a = false) : a = b := by
  have n1 : ¬ Box.lt a b = true := by rw [h1]; decide
  have n2 : ¬ Box.lt b a = true := by rw [h2]; decide
  rw [boxlt_iff] at n1 n2
  push_neg at n1 n2
  have ht : a.btype = b.btype := by omega
  have hl : a.smallend = b.smallend :=
    ivlt_connex _ _ (by simpa using (n1.2 ht).1) (by simpa using (n2.2 ht.symm).1)
  have hh : a.bigend = b.bigend :=
    ivlt_connex _ _ (by simpa using (n1.2 ht).2 hl) (by simpa using (n2.2 ht.symm).2 hl.symm)
  cases a; cases b
  simp_all

theorem boxlt_trans (a b c : Box) (h1 : Box.lt a b = true) (h2 : Box.lt b c = true) :
    Box.lt a c = true := by
  rw [boxlt_iff] at h1 h2 ⊢
  rcases h1 with h1 | ⟨t1, h1⟩
  · rcases h2 with h2 | ⟨t2, -⟩
    · exact Or.inl (by omega)
    · exact Or.inl (by omega)
  · rcases h2 with h2 | ⟨t2, h2⟩
    · exact Or.inl (by omega)
    · refine Or.inr ⟨by omega, ?_⟩
      rcases h1 with h1 | ⟨l1, h1⟩
      · rcases h2 with h2 | ⟨l2, -⟩
        · exact Or.inl (ivlt_trans _ _ _ h1 h2)
        · exact Or.inl (l2 ▸ h1)
      · rcases h2 with h2 | ⟨l2, h2⟩
        · exact Or.inl (l1 ▸ h2)
        · exact Or.inr ⟨l1.trans l2, ivlt_trans _ _ _ h1 h2⟩

theorem RemoveDuplicates_box_nodup (l : List Box) : (RemoveDuplicates Box.lt l).Nodup := by
  apply RemoveDuplicates_nodup
  · intro a b
    cases h : Box.lt b a with
    | false => exact Or.inl rfl
    | true => exact Or.inr (boxlt_asymm _ _ h)
  · intro a b c h1 h2
    cases h : Box.lt c a with
    | false => rfl
    | true =>
      exfalso
      cases hab : Box.lt a b with
      | false =>
        have := boxlt_connex a b hab h1
        subst this
        rw [h] at h2
        exact absurd h2 (by decide)
      | true =>
        rw [boxlt_trans _ _ _ h hab] at h2
        exact absurd h2 (by decide)
  · intro a b h1 h2
    exact boxlt_connex a b h2 h1

/-! ### The result of `getBoundaryBoxes` -/

theorem getBoundaryBoxes_ok (dim : Nat) (box : Box) (n : Int) (bl : List Box)
    (h : getBoundaryBoxes dim box n = .ok bl) :
    IntVect.allGT box.size (IntVect.scale 2 (IntVect.const dim n)) = true ∧
      box.cellCentered = true ∧ bl = RemoveDuplicates Box.lt (rawBoundaryBoxes dim box n) := by
  unfold getBoundaryBoxes at h
  split at h
  · simp at h
  · split at h
    · simp at h
    · rename_i h1 h2
      simp only [Except.ok.injEq] at h
      exact ⟨by simpa using h1, by simpa using h2, h.symm⟩

theorem shrunk_nonempty (dim : Nat) (grid : Box) (n : Int) (hn : 1 ≤ n)
    (hlo : grid.smallend.length = dim) (hhi : grid.bigend.length = dim)
    (h : IntVect.allGT (grid.grow (-n)).size (IntVect.scale 2 (IntVect.const dim n)) = true) :
    ∀ a, a < dim →
      (grid.grow (-n)).smallend.getD a 0 ≤ (grid.grow (-n)).bigend.getD a 0 + 1 := by
  intro a ha
  have h1 := (grow_size_allGT dim grid n hlo hhi).1 h a ha
  rw [size_getD grid a (by omega) (by omega)] at h1
  simp only [Box.grow]
  rw [getD_map_sub _ _ _ (by omega), getD_map_add _ _ _ (by omega)]
  omega

theorem boundary_tiling (dim : Nat) (hdim : dim ≤ 3) (grid : Box) (n : Int) (hn : 1 ≤ n)
    (hlo : grid.smallend.length = dim) (hhi : grid.bigend.length = dim) (bl : List Box)
    (h : getBoundaryBoxes dim (grid.grow (-n)) n = .ok bl) :
    bl.Nodup ∧
      (∀ b1 b2, b1 ∈ bl → b2 ∈ bl → ∀ iv : IntVect, iv.length = dim →
        b1.contains iv = true → b2.contains iv = true → b1 = b2) ∧
      (∀ iv : IntVect, iv.length = dim →
        ((∃ b, b ∈ bl ∧ b.contains iv = true) ↔ inShell grid n iv)) := by
  obtain ⟨hsz, -, hbl⟩ := getBoundaryBoxes_ok dim _ n bl h
  have hlo' : (grid.grow (-n)).smallend.length = dim := by simp [Box.grow, hlo]
  have hhi' : (grid.grow (-n)).bigend.length = dim := by simp [Box.grow, hhi]
  have hbox := shrunk_nonempty dim grid n hn hlo hhi hsz
  have hmem : ∀ b, b ∈ bl ↔ b ∈ rawBoundaryBoxes dim (grid.grow (-n)) n := fun b => by
    rw [hbl]; exact mem_RemoveDuplicates _ _ _
  refine ⟨by rw [hbl]; exact RemoveDuplicates_box_nodup _, ?_, ?_⟩
  · intro b1 b2 h1 h2 iv hiv c1 c2
    exact raw_disjoint dim _ n hn hlo' hhi' hbox b1 b2 ((hmem b1).1 h1) ((hmem b2).1 h2) iv hiv
      c1 c2
  · intro iv hiv
    constructor
    · rintro ⟨b, hb, hc⟩
      have := raw_in_shell dim _ n hn hlo' hhi' hbox b ((hmem b).1 hb) iv hiv hc
      rw [grow_grow] at this
      exact this
    · rintro ⟨h1, h2⟩
      obtain ⟨b, hb, hc⟩ := raw_covers dim hdim _ n hn hlo' hhi' hbox iv hiv
        (by rw [grow_grow]; exact h1) h2
      exact ⟨b, (hmem b).2 hb, hc⟩

theorem getD_mem_box (bl : List Box) (i : Nat) (h : i < bl.length) : bl.getD i default ∈ bl := by
  rw [List.getD_eq_getElem?_getD, List.getElem?_eq_getElem h]
  exact List.getElem_mem h

theorem nodup_getD_inj (bl : List Box) (hnd : bl.Nodup) (i j : Nat) (hi : i < bl.length)
    (hj : j < bl.length) (h : bl.getD i default = bl.getD j default) : i = j := by
  rw [List.getD_eq_getElem?_getD, List.getD_eq_getElem?_getD, List.getElem?_eq_getElem hi,
    List.getElem?_eq_getElem hj] at h
  simp only [Option.getD_some] at h
  exact (List.Nodup.getElem_inj_iff hnd).1 h

/-! ### Coverage of the shell by the mask -/

/-- C7, as stated, fails: in a domain without periodicity cut into two grids of
ten cells, with shell depth `1`, the cell `0` lies in the shell of grid `0`,
and after `buildNeighborMask` it holds `-1`, not a code. -/
theorem C7_counterexample :
    (twoGrids 1 fun _ => 0).period = [0] ∧
      inShell ((twoGrids 1 fun _ => 0).ba.getD 0 default) 1 [0] ∧
      maskAt (twoGrids 1 fun _ => 0) 0 [0] = .ok (-1) := by
  decide

theorem table_getD (cfg : Config) (nm : NeighborMask) (h : buildNeighborMask cfg = .ok nm)
    (g : Nat) (hg : g < cfg.ba.length) (bl : List Box)
    (hbl : getBoundaryBoxes cfg.dim ((cfg.ba.getD g default).grow (-cfg.ncells)) cfg.ncells
      = .ok bl) :
    nm.m_neighbor_mask g = stampFold (isecBoxes cfg g) bl bl.length
        { box := cfg.ba.getD g default, val := fun _ => -1 } ∧
      (nm.m_grid_map g).length = bl.length ∧
      ∀ i, i < bl.length → (nm.m_grid_map g).getD i [] =
        (intersections (isecBoxes cfg g) (bl.getD i default) 0).map fun isec =>
          (isecGrids cfg g).getD isec.1 0 := by
  obtain ⟨bl', hbl', h1, h2⟩ := buildNeighborMaskGrid_ok cfg g _ (buildNeighborMask_grid cfg nm h g hg)
  rw [hbl] at hbl'
  simp only [Except.ok.injEq] at hbl'
  subst hbl'
  simp only at h1 h2
  refine ⟨h1, by rw [h2]; simp, fun i hi => ?_⟩
  rw [h2, List.getD_eq_getElem?_getD, List.getElem?_map, List.getElem?_range hi]
  rfl

theorem stamped_iff_entry (cfg : Config) (g : Nat) (bl : List Box) (i : Nat) :
    Stamped (isecBoxes cfg g) bl i ↔
      ((intersections (isecBoxes cfg g) (bl.getD i default) 0).map fun isec =>
        (isecGrids cfg g).getD isec.1 0) ≠ [] := by
  unfold Stamped
  cases intersections (isecBoxes cfg g) (bl.getD i default) 0 <;> simp

/-- C7, amended. For a grid of at most three dimensions that
`buildNeighborMask` accepts, with a shell depth of at least `1`, with or
without periodic neighbours: the boundary boxes are distinct, no cell lies in
two of them, and a cell lies in one of them exactly when it lies in the shell
of the grid; the table has one entry per boundary box; a cell of the `i`-th
boundary box holds the code `i` when the entry of `i` in the table lists a
neighbour and `-1` when it lists none; and a cell outside the shell holds
`-1`. -/
theorem C7_mask_covers_shell (cfg : Config) (nm : NeighborMask) (g : Nat)
    (hdim : cfg.dim ≤ 3) (hn : 1 ≤ cfg.ncells) (hg : g < cfg.ba.length)
    (hlo : (cfg.ba.getD g default).smallend.length = cfg.dim)
    (hhi : (cfg.ba.getD g default).bigend.length = cfg.dim)
    (h : buildNeighborMask cfg = .ok nm) :
    ∃ bl, getBoundaryBoxes cfg.dim ((cfg.ba.getD g default).grow (-cfg.ncells)) cfg.ncells
        = .ok bl ∧
      bl.Nodup ∧ (nm.m_grid_map g).length = bl.length ∧
      (∀ i j, i < bl.length → j < bl.length → i ≠ j → ∀ iv : IntVect, iv.length = cfg.dim →
        ¬ ((bl.getD i default).contains iv = true ∧ (bl.getD j default).contains iv = true)) ∧
      (∀ iv : IntVect, iv.length = cfg.dim →
        ((∃ i, i < bl.length ∧ (bl.getD i default).contains iv = true) ↔
          inShell (cfg.ba.getD g default) cfg.ncells iv)) ∧
      (∀ iv : IntVect, iv.length = cfg.dim → ∀ i, i < bl.length →
        (bl.getD i default).contains iv = true →
        (nm.m_neighbor_mask g).val iv
          = if (nm.m_grid_map g).getD i [] = [] then -1 else (i : Int)) ∧
      (∀ iv : IntVect, iv.length = cfg.dim → ¬ inShell (cfg.ba.getD g default) cfg.ncells iv →
        (nm.m_neighbor_mask g).val iv = -1) := by
  obtain ⟨bl, hbl, -, -⟩ := buildNeighborMaskGrid_ok cfg g _ (buildNeighborMask_grid cfg nm h g hg)
  obtain ⟨hnd, hdisj, hcover⟩ := boundary_tiling cfg.dim hdim _ cfg.ncells hn hlo hhi bl hbl
  obtain ⟨hmask, hlen, htab⟩ := table_getD cfg nm h g hg bl hbl
  have hidx : ∀ i j, i < bl.length → j < bl.length → ∀ iv : IntVect, iv.length = cfg.dim →
      (bl.getD i default).contains iv = true → (bl.getD j default).contains iv = true →
      i = j := fun i j hi hj iv hiv c1 c2 =>
    nodup_getD_inj bl hnd i j hi hj
      (hdisj _ _ (getD_mem_box bl i hi) (getD_mem_box bl j hj) iv hiv c1 c2)
  have hcover' : ∀ iv : IntVect, iv.length = cfg.dim →
      ((∃ i, i < bl.length ∧ (bl.getD i default).contains iv = true) ↔
        inShell (cfg.ba.getD g default) cfg.ncells iv) := by
    intro iv hiv
    rw [← hcover iv hiv]
    constructor
    · rintro ⟨i, hi, hc⟩
      exact ⟨_, getD_mem_box bl i hi, hc⟩
    · rintro ⟨b, hb, hc⟩
      obtain ⟨i, hi, rfl⟩ := List.getElem_of_mem hb
      refine ⟨i, hi, ?_⟩
      rw [List.getD_eq_getElem?_getD, List.getElem?_eq_getElem hi]
      exact hc
  refine ⟨bl, hbl, hnd, hlen, ?_, hcover', ?_, ?_⟩
  · rintro i j hi hj hij iv hiv ⟨c1, c2⟩
    exact hij (hidx i j hi hj iv hiv c1 c2)
  · intro iv hiv i hi hc
    rw [hmask, htab i hi]
    by_cases hs : Stamped (isecBoxes cfg g) bl i
    · rw [if_neg ((stamped_iff_entry cfg g bl i).1 hs)]
      apply stampFold_val_of_last _ _ _ _ _ i hi hs hc
      intro j hij hj _
      cases hcj : (bl.getD j default).contains iv with
      | false => rfl
      | true => exact absurd (hidx i j hi hj iv hiv hc hcj) (by omega)
    · rw [if_pos (by
        by_contra hne
        exact hs ((stamped_iff_entry cfg g bl i).2 hne))]
      apply stampFold_val_of_none
      intro j hj hsj
      cases hcj : (bl.getD j default).contains iv with
      | false => rfl
      | true =>
        have := hidx i j hi hj iv hiv hc hcj
        subst this
        exact absurd hsj hs
  · intro iv hiv hns
    rw [hmask]
    apply stampFold_val_of_none
    intro j hj _
    cases hcj : (bl.getD j default).contains iv with
    | false => rfl
    | true => exact absurd ((hcover' iv hiv).1 ⟨j, hj, hcj⟩) hns

/-! ### The example of two grids on a periodic axis -/

set_option maxRecDepth 100000 in
/-- C6, as stated, fails: for two grids of four cells and a shell of depth `1`
the grid shrunk by the shell has two cells, which does not exceed twice the
depth, so `buildNeighborMask` stops at the assertion of `getBoundaryBoxes` and
no ghost is delivered, on one rank as on two. -/
theorem C6_counterexample :
    isAbort (buildNeighborMask (periodicPair 4 1 fun _ => 0)) = true ∧
      isAbort (buildNeighborMask (periodicPair 4 2 fun g => g)) = true ∧
      isAbort (idsAfterFill (periodicPair 4 1 fun _ => 0) (onlyGridZero [particleAt 7 [3]]) 1 1)
        = true := by
  decide

set_option maxRecDepth 100000 in
/-- C6, amended to two grids of five cells (grid `0` is cells `0..4`, grid `1`
is cells `5..9`). With one particle of identifier `7` in cell `4` of grid `0`:
after `buildNeighborMask` and `fillNeighbors` the ghost segment of grid `1`
holds exactly one particle, of identifier `7`, and has no real particle; grid
`0` holds its real particle and no ghost; and a second `fillNeighbors` gives
the same. This holds with both grids on one rank and with one grid per rank. -/
theorem C6_two_grids_of_five :
    idsAfterFill (periodicPair 5 1 fun _ => 0) (onlyGridZero [particleAt 7 [4]]) 1 1
        = .ok ([], [7]) ∧
      idsAfterFill (periodicPair 5 1 fun _ => 0) (onlyGridZero [particleAt 7 [4]]) 1 0
        = .ok ([7], []) ∧
      idsAfterFill (periodicPair 5 1 fun _ => 0) (onlyGridZero [particleAt 7 [4]]) 2 1
        = .ok ([], [7]) ∧
      idsAfterFill (periodicPair 5 1 fun _ => 0) (onlyGridZero [particleAt 7 [4]]) 2 0
        = .ok ([7], []) ∧
      idsAfterFill (periodicPair 5 2 fun g => g) (onlyGridZero [particleAt 7 [4]]) 1 1
        = .ok ([], [7]) ∧
      idsAfterFill (periodicPair 5 2 fun g => g) (onlyGridZero [particleAt 7 [4]]) 1 0
        = .ok ([7], []) ∧
      idsAfterFill (periodicPair 5 2 fun g => g) (onlyGridZero [particleAt 7 [4]]) 2 1
        = .ok ([], [7]) ∧
      idsAfterFill (periodicPair 5 2 fun g => g) (onlyGridZero [particleAt 7 [4]]) 2 0
        = .ok ([7], []) := by
  decide

/-! ### Two counterexamples of the exchange -/

set_option maxRecDepth 100000 in
/-- C1, as stated, fails: in a strip that is periodic on the second axis, grid
`1` meets the corner box of code `2` of grid `0` both directly and through the
periodic shift, so the table lists grid `1` twice under that code; the run of
code `2` of grid `0` holds one particle, of identifier `7`, and after
`fillNeighbors` the ghost segment of grid `1` holds that record twice, on one
rank (local copies) as on two ranks (packed and sent). -/
theorem C1_counterexample :
    (tableAt (periodicStrip 1 fun _ => 0) 0).map (fun t => t.getD 2 []) = .ok [1, 1] ∧
      (runsAfterFill (periodicStrip 1 fun _ => 0) (onlyGridZero [particleAt 7 [9, 0]]) 0).map
          (fun r => (r.1.getD 3 0, r.2.getD 3 0)) = .ok (0, 1) ∧
      idsAfterFill (periodicStrip 1 fun _ => 0) (onlyGridZero [particleAt 7 [9, 0]]) 1 1
        = .ok ([], [7, 7]) ∧
      idsAfterFill (periodicStrip 2 fun g => g) (onlyGridZero [particleAt 7 [9, 0]]) 1 1
        = .ok ([], [7, 7]) := by
  decide

set_option maxRecDepth 100000 in
/-- C2, as stated, fails: with a grid of ten by ten cells next to two grids of
ten by five cells and no periodicity, the particle of grid `0` in cell
`(9, 8)` does not lie within one cell of grid `1`, whose box grown by one cell
ends at row `5`, and yet after `buildNeighborMask` and `fillNeighbors` it is a
ghost of grid `1`: the face box of grid `0` that holds the cell meets the shell
around grid `1` elsewhere. -/
theorem C2_counterexample :
    shiftIntVect (unevenGrids 1 fun _ => 0).period = [[0, 0]] ∧
      (((unevenGrids 1 fun _ => 0).ba.getD 1 default).grow 1).contains [9, 8] = false ∧
      ((unevenGrids 1 fun _ => 0).ba.getD 0 default).contains [9, 8] = true ∧
      idsAfterFill (unevenGrids 1 fun _ => 0) (onlyGridZero [particleAt 7 [9, 8]]) 1 1
        = .ok ([], [7]) := by
  decide

/-! ### Related runs of a loop -/

theorem ExceptRel.of_ok {α : Type} {R : α → α → Prop} {x y : Except Err α} {a : α}
    (h : ExceptRel R x y) (hx : x = .ok a) : ∃ b, y = .ok b ∧ R a b := by
  subst hx
  cases y with
  | error e => exact absurd h (by simp [ExceptRel])
  | ok b => exact ⟨b, rfl, h⟩

theorem ExceptRel.mono {α : Type} {R S : α → α → Prop} {x y : Except Err α}
    (h : ExceptRel R x y) (hRS : ∀ a b, R a b → S a b) : ExceptRel S x y := by
  cases x <;> cases y <;> simp_all [ExceptRel]

theorem forEach_sim {σ β : Type} (body : σ → β → Except Err σ) (sim : σ → σ → Prop)
    (l : List β)
    (h : ∀ a b x, x ∈ l → sim a b → ExceptRel sim (body a x) (body b x)) :
    ∀ a b, sim a b → ExceptRel sim (forEach body l a) (forEach body l b) := by
  induction l with
  | nil => intro a b hab; simpa [forEach, ExceptRel] using hab
  | cons x xs ih =>
    intro a b hab
    have hx := h a b x (List.mem_cons_self _ _) hab
    simp only [forEach]
    cases ha : body a x with
    | error e =>
      cases hb : body b x with
      | error e' => rw [ha, hb] at hx; simpa [ExceptRel] using hx
      | ok b' => rw [ha, hb] at hx; exact absurd hx (by simp [ExceptRel])
    | ok a' =>
      cases hb : body b x with
      | error e' => rw [ha, hb] at hx; exact absurd hx (by simp [ExceptRel])
      | ok b' =>
        rw [ha, hb] at hx
        exact ih (fun a b y hy => h a b y (List.mem_cons_of_mem _ hy)) a' b' hx

/-! ### Ghosts added to a tile -/

theorem length_writeAt_resized (t : ParticleTile) (recs : List ParticleType) :
    (addNeighbors t recs).m_data.length
      = t.numRealParticles + (t.getNumNeighbors + recs.length) := by
  simp only [addNeighbors, writeAt, ParticleTile.setNumNeighbors, List.length_append,
    List.length_take, List.length_drop, length_resize]
  omega

theorem numRealParticles_addNeighbors (t : ParticleTile) (recs : List ParticleType) :
    (addNeighbors t recs).numRealParticles = t.numRealParticles := by
  rw [ParticleTile.numRealParticles, length_writeAt_resized]
  simp [addNeighbors]

theorem realParticles_addNeighbors (t : ParticleTile) (recs : List ParticleType) :
    (addNeighbors t recs).realParticles = t.realParticles := by
  rw [ParticleTile.realParticles, numRealParticles_addNeighbors]
  simp only [addNeighbors, writeAt, ParticleTile.setNumNeighbors, ParticleTile.realParticles]
  have hle := numRealParticles_le t
  rw [List.append_assoc, List.take_append_of_le_length
    (by simp [length_resize]), List.take_take,
    Nat.min_eq_left (Nat.le_add_right _ _)]
  exact take_resize _ _ _ (by omega) hle

/-! ### The copy or pack step -/

theorem recordsBetween_length (data : List ParticleType) (start stop : Int)
    (recs : List ParticleType) (h : recordsBetween data start stop = .ok recs) :
    recs.length = (stop - start).toNat := by
  unfold recordsBetween at h
  split at h
  · rename_i hc
    simp only [Except.ok.injEq] at h
    subst h
    simp only [List.length_take, List.length_drop]
    omega
  · simp at h

theorem copyOrPack_local (cfg : Config) (myProc : Nat) (gc : Nat → Nat) (src : Nat)
    (start stop : Int) (ps : PackState) (dst : Nat) (hd : cfg.dmap dst = myProc) :
    copyOrPack cfg myProc gc src start stop (stop - start).toNat ps dst =
      match recordsBetween
        ((Function.update ps.st.plev dst
          ((ps.st.plev dst).setNumNeighbors
            ((ps.st.plev dst).getNumNeighbors + (stop - start).toNat))) src).m_data
        start stop with
      | .error e => .error e
      | .ok recs =>
        .ok { ps with st := { ps.st with
          plev := Function.update ps.st.plev dst (addNeighbors (ps.st.plev dst) recs) } } := by
  simp only [copyOrPack, hd, if_true]
  cases hr : recordsBetween
      ((Function.update ps.st.plev dst
        ((ps.st.plev dst).setNumNeighbors
          ((ps.st.plev dst).getNumNeighbors + (stop - start).toNat))) src).m_data
      start stop with
  | error e => rfl
  | ok recs =>
    have hl := recordsBetween_length _ _ _ _ hr
    simp only [Function.update_same, Function.update_idem, addNeighbors, hl,
      ParticleTile.setNumNeighbors]

theorem copyOrPack_remote (cfg : Config) (myProc : Nat) (gc : Nat → Nat) (src : Nat)
    (start stop : Int) (k : Nat) (ps : PackState) (dst : Nat) (hd : cfg.dmap dst ≠ myProc) :
    copyOrPack cfg myProc gc src start stop k ps dst =
      match recordsBetween (ps.st.plev src).m_data start stop with
      | .error e => .error e
      | .ok recs =>
        .ok { ps with
          not_ours :=
            { buf := Function.update ps.not_ours.buf (cfg.dmap dst)
                (packGroup cfg (ps.not_ours.buf (cfg.dmap dst)) (gc (cfg.dmap dst)) k dst
                  (cfg.dmap dst) recs)
              keys :=
                if cfg.dmap dst ∈ ps.not_ours.keys then ps.not_ours.keys
                else ps.not_ours.keys ++ [cfg.dmap dst] } } := by
  simp only [copyOrPack, hd, if_false]

theorem copyOrPack_sim (cfg : Config) (r : Nat) (gc : Nat → Nat) (src : Nat)
    (start stop : Int) (a b : PackState) (dst : Nat) (hsrc : LocalTo cfg r src)
    (hdst : dst < cfg.ba.length) (hab : PackSim cfg r a b) :
    ExceptRel (PackSim cfg r)
      (copyOrPack cfg r gc src start stop (stop - start).toNat a dst)
      (copyOrPack cfg r gc src start stop (stop - start).toNat b dst) := by
  obtain ⟨⟨hs, ht, hp⟩, hn⟩ := hab
  by_cases hd : cfg.dmap dst = r
  · have hdl : LocalTo cfg r dst := ⟨hdst, hd⟩
    rw [copyOrPack_local _ _ _ _ _ _ _ _ hd, copyOrPack_local _ _ _ _ _ _ _ _ hd]
    have e1 : (Function.update a.st.plev dst
          ((a.st.plev dst).setNumNeighbors
            ((a.st.plev dst).getNumNeighbors + (stop - start).toNat))) src
        = (Function.update b.st.plev dst
          ((b.st.plev dst).setNumNeighbors
            ((b.st.plev dst).getNumNeighbors + (stop - start).toNat))) src := by
      by_cases hsd : src = dst
      · subst hsd
        simp [hp src hsrc]
      · simp [Function.update_noteq hsd, hp src hsrc]
    rw [e1]
    cases hr : recordsBetween _ start stop with
    | error e => simp [ExceptRel]
    | ok recs =>
      simp only [ExceptRel]
      refine ⟨⟨hs, ht, fun g hg => ?_⟩, hn⟩
      by_cases hgd : g = dst
      · subst hgd
        simp [hp g hg]
      · simp [Function.update_noteq hgd, hp g hg]
  · rw [copyOrPack_remote _ _ _ _ _ _ _ _ _ hd, copyOrPack_remote _ _ _ _ _ _ _ _ _ hd,
      hp src hsrc, hn]
    cases recordsBetween (b.st.plev src).m_data start stop with
    | error e => simp [ExceptRel]
    | ok recs => exact ⟨⟨hs, ht, hp⟩, rfl⟩

theorem Frame.refl (P : Nat → Prop) (a : ParticleState) : Frame P a a :=
  ⟨rfl, rfl, fun _ => ⟨rfl, rfl⟩, fun _ _ => rfl⟩

theorem Frame.trans {P : Nat → Prop} {a b c : ParticleState} (h1 : Frame P a b)
    (h2 : Frame P b c) : Frame P a c :=
  ⟨h2.1.trans h1.1, h2.2.1.trans h1.2.1,
    fun g => ⟨(h2.2.2.1 g).1.trans (h1.2.2.1 g).1, (h2.2.2.1 g).2.trans (h1.2.2.1 g).2⟩,
    fun g hg => (h2.2.2.2 g hg).trans (h1.2.2.2 g hg)⟩

theorem copyOrPack_frame (cfg : Config) (r : Nat) (gc : Nat → Nat) (src : Nat)
    (start stop : Int) (ps ps' : PackState) (dst : Nat) (hdst : dst < cfg.ba.length)
    (h : copyOrPack cfg r gc src start stop (stop - start).toNat ps dst = .ok ps') :
    Frame (LocalTo cfg r) ps.st ps'.st := by
  by_cases hd : cfg.dmap dst = r
  · rw [copyOrPack_local _ _ _ _ _ _ _ _ hd] at h
    split at h
    · simp at h
    · simp only [Except.ok.injEq] at h
      subst h
      refine ⟨rfl, rfl, fun g => ?_, fun g hg => ?_⟩
      · by_cases hgd : g = dst
        · subst hgd
          simp [realParticles_addNeighbors, numRealParticles_addNeighbors]
        · simp [Function.update_noteq hgd]
      · have hgd : g ≠ dst := fun e => hg (e ▸ ⟨hdst, hd⟩)
        simp [Function.update_noteq hgd]
  · rw [copyOrPack_remote _ _ _ _ _ _ _ _ _ hd] at h
    split at h
    · simp at h
    · simp only [Except.ok.injEq] at h
      subst h
      exact Frame.refl _ _

/-! ### The first part of `updateNeighbors` on one rank -/

theorem exportCode_sim (cfg : Config) (nm : NeighborMask) (r : Nat) (gc : Nat → Nat)
    (src : Nat) (hT : TableValid cfg nm) (hsrc : LocalTo cfg r src) (a b : PackState) (i : Nat)
    (hab : PackSim cfg r a b) :
    ExceptRel (PackSim cfg r) (exportCode cfg nm r gc src a i) (exportCode cfg nm r gc src b i) := by
  unfold exportCode
  rw [hab.1.1, hab.1.2.1]
  cases (b.st.m_start src)[i]? with
  | none => simp [ExceptRel]
  | some start =>
    cases (b.st.m_stop src)[i]? with
    | none => simp [ExceptRel]
    | some stop =>
      exact forEach_sim _ _ _
        (fun a b dst hdst hab => copyOrPack_sim cfg r gc src start stop a b dst hsrc
          (hT src (i - 1) dst hdst) hab) a b hab

theorem exportCode_frame (cfg : Config) (nm : NeighborMask) (r : Nat) (gc : Nat → Nat)
    (src : Nat) (hT : TableValid cfg nm) (ps ps' : PackState) (i : Nat)
    (h : exportCode cfg nm r gc src ps i = .ok ps') : Frame (LocalTo cfg r) ps.st ps'.st := by
  unfold exportCode at h
  split at h
  · rename_i start stop _ _
    exact forEach_rel _ (fun a b : PackState => Frame (LocalTo cfg r) a.st b.st)
      (fun _ => Frame.refl _ _) (fun _ _ _ h1 h2 => Frame.trans h1 h2) _
      (fun s dst s' hdst hs => copyOrPack_frame cfg r gc src start stop s s' dst
        (hT src (i - 1) dst hdst) hs) ps ps' h
  · simp at h

theorem exportGrid_sim (cfg : Config) (nm : NeighborMask) (r : Nat) (gc : Nat → Nat)
    (hT : TableValid cfg nm) (a b : PackState) (src : Nat) (hsrc : LocalTo cfg r src)
    (hab : PackSim cfg r a b) :
    ExceptRel (PackSim cfg r) (exportGrid cfg nm r gc a src) (exportGrid cfg nm r gc b src) :=
  forEach_sim _ _ _ (fun a b i _ hab => exportCode_sim cfg nm r gc src hT hsrc a b i hab) a b hab

theorem exportGrid_frame (cfg : Config) (nm : NeighborMask) (r : Nat) (gc : Nat → Nat)
    (hT : TableValid cfg nm) (ps ps' : PackState) (src : Nat)
    (h : exportGrid cfg nm r gc ps src = .ok ps') : Frame (LocalTo cfg r) ps.st ps'.st :=
  forEach_rel _ (fun a b : PackState => Frame (LocalTo cfg r) a.st b.st)
    (fun _ => Frame.refl _ _) (fun _ _ _ h1 h2 => Frame.trans h1 h2) _
    (fun s i s' _ hs => exportCode_frame cfg nm r gc src hT s s' i hs) ps ps' h

theorem clearNeighbors_frame (cfg : Config) (r : Nat) (st : ParticleState) :
    Frame (LocalTo cfg r) st (clearNeighbors cfg r st) := by
  refine ⟨clearNeighbors_m_start cfg r st, clearNeighbors_m_stop cfg r st, fun g => ?_,
    fun g hg => ?_⟩
  · rw [clearNeighbors_plev]
    split
    · exact ⟨realParticles_setNumNeighbors _ _, numRealParticles_setNumNeighbors _ _⟩
    · exact ⟨rfl, rfl⟩
  · rw [clearNeighbors_plev, if_neg (fun hm => hg ((mem_localGrids cfg r g).1 hm))]

theorem clearNeighbors_sameOn (cfg : Config) (r : Nat) (a b : ParticleState)
    (h : SameReal (LocalTo cfg r) a b) :
    SameOn (LocalTo cfg r) (clearNeighbors cfg r a) (clearNeighbors cfg r b) := by
  refine ⟨by rw [clearNeighbors_m_start, clearNeighbors_m_start, h.1],
    by rw [clearNeighbors_m_stop, clearNeighbors_m_stop, h.2.1], fun g hg => ?_⟩
  have hm := (mem_localGrids cfg r g).2 hg
  rw [clearNeighbors_plev, clearNeighbors_plev, if_pos hm, if_pos hm, setNumNeighbors_zero,
    setNumNeighbors_zero, h.2.2 g hg]

theorem updateNeighborsPack_sim (cfg : Config) (nm : NeighborMask) (r : Nat)
    (hT : TableValid cfg nm) (a b : ParticleState) (h : SameReal (LocalTo cfg r) a b) :
    ExceptRel (PackSim cfg r) (updateNeighborsPack cfg nm r a) (updateNeighborsPack cfg nm r b) :=
  forEach_sim _ _ _
    (fun a b src hsrc hab => exportGrid_sim cfg nm r _ hT a b src
      ((mem_localGrids cfg r src).1 hsrc) hab) _ _
    ⟨clearNeighbors_sameOn cfg r a b h, rfl⟩

theorem updateNeighborsPack_frame (cfg : Config) (nm : NeighborMask) (r : Nat)
    (hT : TableValid cfg nm) (st : ParticleState) (ps : PackState)
    (h : updateNeighborsPack cfg nm r st = .ok ps) : Frame (LocalTo cfg r) st ps.st :=
  Frame.trans (clearNeighbors_frame cfg r st)
    (forEach_rel _ (fun a b : PackState => Frame (LocalTo cfg r) a.st b.st)
      (fun _ => Frame.refl _ _) (fun _ _ _ h1 h2 => Frame.trans h1 h2) _
      (fun s src s' _ hs => exportGrid_frame cfg nm r _ hT s s' src hs) _ ps h)

/-! ### The unpack on one rank -/

theorem readParticles_length (cfg : Config) (buf : List MemVal) :
    ∀ n pos recs, readParticles cfg buf n pos = .ok recs → recs.length = n := by
  intro n
  induction n with
  | zero => intro pos recs h; simp only [readParticles, Except.ok.injEq] at h; subst h; rfl
  | succ n ih =>
    intro pos recs h
    simp only [readParticles] at h
    split at h
    · split at h
      · simp at h
      · rename_i ps hps
        simp only [Except.ok.injEq] at h
        subst h
        simp [ih _ _ hps]
    · simp at h

theorem unpackGroups_step (cfg : Config) (myProc : Nat) (buf : List MemVal) (n pos : Nat)
    (st : ParticleState) :
    unpackGroups cfg myProc buf (n + 1) pos st =
      match readSizeT buf pos with
      | .error e => .error e
      | .ok num_particles =>
        match readInt buf (pos + sizeof_size_t) with
        | .error e => .error e
        | .ok gid =>
          match readInt buf (pos + sizeof_size_t + sizeof_int) with
          | .error e => .error e
          | .ok pid =>
            if num_particles = 0 then
              unpackGroups cfg myProc buf n (pos + sizeof_size_t + sizeof_int + sizeof_int) st
            else if pid ≠ (myProc : Int) then
              .error (.abort "pid == ParallelDescriptor::MyProc()")
            else if gid < 0 then .error .undefined
            else
              match readParticles cfg buf num_particles
                (pos + sizeof_size_t + sizeof_int + sizeof_int) with
              | .error e => .error e
              | .ok records =>
                unpackGroups cfg myProc buf n
                  (pos + sizeof_size_t + sizeof_int + sizeof_int
                    + num_particles * cfg.sizeofParticleType)
                  { st with
                    plev := Function.update st.plev gid.toNat
                      (addNeighbors (st.plev gid.toNat) records) } := by
  simp only [unpackGroups]
  cases readSizeT buf pos with
  | error e => rfl
  | ok k =>
    cases readInt buf (pos + sizeof_size_t) with
    | error e => rfl
    | ok gid =>
      cases readInt buf (pos + sizeof_size_t + sizeof_int) with
      | error e => rfl
      | ok pid =>
        simp only
        split
        · rfl
        · split
          · rfl
          · split
            · rfl
            · cases hr : readParticles cfg buf k (pos + sizeof_size_t + sizeof_int + sizeof_int) with
              | error e => rfl
              | ok records =>
                have hl := readParticles_length cfg buf _ _ _ hr
                simp only [addNeighbors, hl, ParticleTile.setNumNeighbors,
                  ParticleTile.getNumNeighbors]

theorem sameGrids_update (cfg : Config) (a b : ParticleState) (g : Nat)
    (f : ParticleTile → ParticleTile) (h : SameGrids cfg a b) :
    SameGrids cfg { a with plev := Function.update a.plev g (f (a.plev g)) }
      { b with plev := Function.update b.plev g (f (b.plev g)) } := by
  refine ⟨h.1, h.2.1, fun g' hg' => ?_⟩
  by_cases e : g' = g
  · subst e
    simp [h.2.2 g' hg']
  · simp [Function.update_noteq e, h.2.2 g' hg']

theorem unpackGroups_sim (cfg : Config) (myProc : Nat) (buf : List MemVal) :
    ∀ n pos a b, SameGrids cfg a b →
      ExceptRel (SameGrids cfg) (unpackGroups cfg myProc buf n pos a)
        (unpackGroups cfg myProc buf n pos b) := by
  intro n
  induction n with
  | zero => intro pos a b hab; simpa [unpackGroups, ExceptRel] using hab
  | succ n ih =>
    intro pos a b hab
    rw [unpackGroups_step, unpackGroups_step]
    cases readSizeT buf pos with
    | error e => simp [ExceptRel]
    | ok k =>
      cases readInt buf (pos + sizeof_size_t) with
      | error e => simp [ExceptRel]
      | ok gid =>
        cases readInt buf (pos + sizeof_size_t + sizeof_int) with
        | error e => simp [ExceptRel]
        | ok pid =>
          simp only
          split
          · exact ih _ a b hab
          · split
            · simp [ExceptRel]
            · split
              · simp [ExceptRel]
              · cases readParticles cfg buf k (pos + sizeof_size_t + sizeof_int + sizeof_int) with
                | error e => simp [ExceptRel]
                | ok records =>
                  exact ih _ _ _
                    (sameGrids_update cfg a b gid.toNat (fun t => addNeighbors t records) hab)

theorem frame_addNeighbors (st : ParticleState) (g : Nat) (recs : List ParticleType) :
    Frame (fun _ => True) st
      { st with plev := Function.update st.plev g (addNeighbors (st.plev g) recs) } := by
  refine ⟨rfl, rfl, fun g' => ?_, fun g' hg => absurd trivial hg⟩
  by_cases e : g' = g
  · subst e
    simp [realParticles_addNeighbors, numRealParticles_addNeighbors]
  · simp [Function.update_noteq e]

theorem unpackGroups_frame (cfg : Config) (myProc : Nat) (buf : List MemVal) :
    ∀ n pos st st', unpackGroups cfg myProc buf n pos st = .ok st' →
      Frame (fun _ => True) st st' := by
  intro n
  induction n with
  | zero =>
    intro pos st st' h
    simp only [unpackGroups, Except.ok.injEq] at h
    subst h
    exact Frame.refl _ _
  | succ n ih =>
    intro pos st st' h
    rw [unpackGroups_step] at h
    cases h1 : readSizeT buf pos with
    | error e => simp [h1] at h
    | ok k =>
      cases h2 : readInt buf (pos + sizeof_size_t) with
      | error e => simp [h1, h2] at h
      | ok gid =>
        cases h3 : readInt buf (pos + sizeof_size_t + sizeof_int) with
        | error e => simp [h1, h2, h3] at h
        | ok pid =>
          simp only [h1, h2, h3] at h
          split at h
          · exact ih _ _ _ h
          · split at h
            · simp at h
            · split at h
              · simp at h
              · cases h4 : readParticles cfg buf k
                    (pos + sizeof_size_t + sizeof_int + sizeof_int) with
                | error e => simp [h4] at h
                | ok records =>
                  simp only [h4] at h
                  exact Frame.trans (frame_addNeighbors st gid.toNat records) (ih _ _ _ h)

theorem unpackPeer_sim (cfg : Config) (myProc : Nat) (buf : List MemVal) (rOffset : List Nat)
    (a b : ParticleState) (i : Nat) (hab : SameGrids cfg a b) :
    ExceptRel (SameGrids cfg) (unpackPeer cfg myProc buf rOffset a i)
      (unpackPeer cfg myProc buf rOffset b i) := by
  unfold unpackPeer
  simp only
  split
  · simp [ExceptRel]
  · cases readSizeT buf (toInt32 (rOffset.getD i 0)).toNat with
    | error e => simp [ExceptRel]
    | ok k => exact unpackGroups_sim cfg myProc buf k _ a b hab

theorem unpackPeer_frame (cfg : Config) (myProc : Nat) (buf : List MemVal) (rOffset : List Nat)
    (st st' : ParticleState) (i : Nat) (h : unpackPeer cfg myProc buf rOffset st i = .ok st') :
    Frame (fun _ => True) st st' := by
  unfold unpackPeer at h
  simp only at h
  split at h
  · simp at h
  · split at h
    · simp at h
    · exact unpackGroups_frame cfg myProc buf _ _ _ _ h

theorem fillNeighborsMPIGPU_sim (cfg : Config) (myProc : Nat) (sends : Nat → SendMap)
    (a b : ParticleState) (hab : SameGrids cfg a b) :
    ExceptRel (SameGrids cfg) (fillNeighborsMPIGPU cfg myProc sends a)
      (fillNeighborsMPIGPU cfg myProc sends b) := by
  unfold fillNeighborsMPIGPU
  simp only
  split
  · simp [ExceptRel]
  · split
    · simpa [ExceptRel] using hab
    · split
      · simp [ExceptRel]
      · split
        · simp [ExceptRel]
        · split
          · simp [ExceptRel]
          · split
            · exact forEach_sim _ _ _ (fun a b i _ hab => unpackPeer_sim cfg myProc _ _ a b i hab)
                a b hab
            · simpa [ExceptRel] using hab

theorem fillNeighborsMPIGPU_frame (cfg : Config) (myProc : Nat) (sends : Nat → SendMap)
    (st st' : ParticleState) (h : fillNeighborsMPIGPU cfg myProc sends st = .ok st') :
    Frame (fun _ => True) st st' := by
  unfold fillNeighborsMPIGPU at h
  simp only at h
  split at h
  · simp at h
  · split at h
    · simp only [Except.ok.injEq] at h
      subst h
      exact Frame.refl _ _
    · split at h
      · simp at h
      · split at h
        · simp at h
        · split at h
          · simp at h
          · split at h
            · exact forEach_rel _ (Frame (fun _ => True)) (fun s => Frame.refl _ _)
                (fun _ _ _ h1 h2 => Frame.trans h1 h2) _
                (fun s i s' _ hs => unpackPeer_frame cfg myProc _ _ s s' i hs) st st' h
            · simp only [Except.ok.injEq] at h
              subst h
              exact Frame.refl _ _

/-! ### The exchange on all ranks -/

theorem Frame.weaken {P Q : Nat → Prop} {a b : ParticleState} (h : Frame P a b)
    (hPQ : ∀ g, P g → Q g) : Frame Q a b :=
  ⟨h.1, h.2.1, h.2.2.1, fun g hg => h.2.2.2 g (fun hp => hg (hPQ g hp))⟩

theorem packAll_sim_aux (cfg : Config) (nm : NeighborMask) (hT : TableValid cfg nm)
    (rs : List Nat) :
    ∀ (D : Nat → Prop) (A B : Packed), PackInv cfg D A B →
      ExceptRel (PackInv cfg fun w => D w ∨ w ∈ rs)
        (forEach (packStep cfg nm) rs A) (forEach (packStep cfg nm) rs B) := by
  induction rs with
  | nil =>
    intro D A B h
    simp only [forEach, ExceptRel, List.not_mem_nil, or_false]
    exact h
  | cons r rs ih =>
    intro D A B h
    obtain ⟨hs, hreal, htile⟩ := h
    have hsim := updateNeighborsPack_sim cfg nm r hT A.st B.st
      ⟨hreal.1, hreal.2.1, fun g hg => hreal.2.2 g hg.1⟩
    simp only [forEach, packStep]
    cases ha : updateNeighborsPack cfg nm r A.st with
    | error e =>
      cases hb : updateNeighborsPack cfg nm r B.st with
      | error e' => rw [ha, hb] at hsim; simpa [ExceptRel] using hsim
      | ok pb => rw [ha, hb] at hsim; exact absurd hsim (by simp [ExceptRel])
    | ok pa =>
      cases hb : updateNeighborsPack cfg nm r B.st with
      | error e' => rw [ha, hb] at hsim; exact absurd hsim (by simp [ExceptRel])
      | ok pb =>
        rw [ha, hb] at hsim
        simp only [ExceptRel] at hsim
        have fa := updateNeighborsPack_frame cfg nm r hT A.st pa ha
        have fb := updateNeighborsPack_frame cfg nm r hT B.st pb hb
        have hinv : PackInv cfg (fun w => D w ∨ w = r)
            { st := pa.st, sends := Function.update A.sends r pa.not_ours }
            { st := pb.st, sends := Function.update B.sends r pb.not_ours } := by
          refine ⟨by simp only [hs, hsim.2], ⟨?_, ?_, fun g hg => ?_⟩, fun g hg hD => ?_⟩
          · simp only [fa.1, fb.1, hreal.1]
          · simp only [fa.2.1, fb.2.1, hreal.2.1]
          · simp only [(fa.2.2.1 g).1, (fb.2.2.1 g).1, hreal.2.2 g hg]
          · by_cases hr : cfg.dmap g = r
            · exact hsim.1.2.2 g ⟨hg, hr⟩
            · have hD' : D (cfg.dmap g) := by
                rcases hD with hD | hD
                · exact hD
                · exact absurd hD hr
              simp only [fa.2.2.2 g (fun hl => hr hl.2), fb.2.2.2 g (fun hl => hr hl.2),
                htile g hg hD']
        have := ih (fun w => D w ∨ w = r) _ _ hinv
        refine this.mono fun X Y hXY => ⟨hXY.1, hXY.2.1, fun g hg hD => hXY.2.2 g hg ?_⟩
        rcases hD with hD | hD
        · exact Or.inl (Or.inl hD)
        · rcases List.mem_cons.mp hD with e | e
          · exact Or.inl (Or.inr e)
          · exact Or.inr e

theorem packAll_frame (cfg : Config) (nm : NeighborMask) (hT : TableValid cfg nm)
    (rs : List Nat) (st : ParticleState) (packed : Packed)
    (h : packAll cfg nm rs st = .ok packed) : Frame (fun _ => True) st packed.st := by
  unfold packAll at h
  refine forEach_rel _ (fun A B : Packed => Frame (fun _ => True) A.st B.st)
    (fun s => Frame.refl _ _) (fun _ _ _ h1 h2 => Frame.trans h1 h2) rs
    (fun A r A' _ hA => ?_) _ packed h
  simp only [packStep] at hA
  split at hA
  · simp at hA
  · rename_i ps hps
    simp only [Except.ok.injEq] at hA
    subst hA
    exact (updateNeighborsPack_frame cfg nm r hT A.st ps hps).weaken fun _ _ => trivial

theorem updateNeighbors_sim (cfg : Config) (nm : NeighborMask) (hT : TableValid cfg nm)
    (hdmap : ∀ g, g < cfg.ba.length → cfg.dmap g < cfg.nprocs) (a b : ParticleState)
    (h : SameReal (fun g => g < cfg.ba.length) a b) :
    ExceptRel (SameGrids cfg) (updateNeighbors cfg nm a) (updateNeighbors cfg nm b) := by
  have hp := packAll_sim_aux cfg nm hT (List.range cfg.nprocs) (fun _ => False)
    { st := a, sends := fun _ => { buf := fun _ => [], keys := [] } }
    { st := b, sends := fun _ => { buf := fun _ => [], keys := [] } }
    ⟨rfl, h, fun _ _ hD => absurd hD id⟩
  unfold updateNeighbors packAll
  cases ha : forEach (packStep cfg nm) (List.range cfg.nprocs)
      ({ st := a, sends := fun _ => { buf := fun _ => [], keys := [] } } : Packed) with
  | error e =>
    cases hb : forEach (packStep cfg nm) (List.range cfg.nprocs)
        ({ st := b, sends := fun _ => { buf := fun _ => [], keys := [] } } : Packed) with
    | error e' => rw [ha, hb] at hp; simpa [ExceptRel] using hp
    | ok B => rw [ha, hb] at hp; exact absurd hp (by simp [ExceptRel])
  | ok A =>
    cases hb : forEach (packStep cfg nm) (List.range cfg.nprocs)
        ({ st := b, sends := fun _ => { buf := fun _ => [], keys := [] } } : Packed) with
    | error e' => rw [ha, hb] at hp; exact absurd hp (by simp [ExceptRel])
    | ok B =>
      rw [ha, hb] at hp
      simp only [ExceptRel] at hp
      obtain ⟨hs, hreal, htile⟩ := hp
      have hAB : SameGrids cfg A.st B.st :=
        ⟨hreal.1, hreal.2.1, fun g hg =>
          htile g hg (Or.inr (List.mem_range.mpr (hdmap g hg)))⟩
      simp only
      rw [hs]
      split
      · split
        · simpa [ExceptRel] using hAB
        · simp [ExceptRel]
      · exact forEach_sim _ _ _
          (fun a b r _ hab => fillNeighborsMPIGPU_sim cfg r B.sends a b hab) _ _ hAB

theorem updateNeighbors_frame (cfg : Config) (nm : NeighborMask) (hT : TableValid cfg nm)
    (st st' : ParticleState) (h : updateNeighbors cfg nm st = .ok st') :
    Frame (fun _ => True) st st' := by
  unfold updateNeighbors at h
  split at h
  · simp at h
  · rename_i packed hp
    have f1 := packAll_frame cfg nm hT _ st packed hp
    split at h
    · split at h
      · simp only [Except.ok.injEq] at h
        subst h
        exact f1
      · simp at h
    · exact Frame.trans f1
        (forEach_rel _ (Frame (fun _ => True)) (fun s => Frame.refl _ _)
          (fun _ _ _ h1 h2 => Frame.trans h1 h2) _
          (fun s r s' _ hs => fillNeighborsMPIGPU_frame cfg r _ s s' hs) _ st' h)

/-! ### The sort on all ranks -/

theorem forEach_flatMap {σ α β : Type} (body : σ → β → Except Err σ) (f : α → List β)
    (l : List α) (s : σ) :
    forEach (fun s x => forEach body (f x) s) l s = forEach body (l.flatMap f) s := by
  induction l generalizing s with
  | nil => rfl
  | cons x xs ih =>
    simp only [forEach, List.flatMap_cons, forEach_append]
    cases forEach body (f x) s with
    | error e => rfl
    | ok s1 => exact ih s1

theorem mem_allLocalGrids (cfg : Config) (g : Nat) :
    g ∈ allLocalGrids cfg ↔ g < cfg.ba.length ∧ cfg.dmap g < cfg.nprocs := by
  simp only [allLocalGrids, List.mem_flatMap, List.mem_range, mem_localGrids]
  constructor
  · rintro ⟨r, hr, hg, rfl⟩
    exact ⟨hg, hr⟩
  · rintro ⟨hg, hr⟩
    exact ⟨_, hr, hg, rfl⟩

theorem allLocalGrids_nodup (cfg : Config) : (allLocalGrids cfg).Nodup := by
  unfold allLocalGrids
  rw [List.nodup_flatMap]
  refine ⟨fun r _ => localGrids_nodup cfg r, ?_⟩
  refine List.Pairwise.imp ?_ (List.nodup_range cfg.nprocs)
  intro r1 r2 hne
  simp only [Function.onFun, List.disjoint_left]
  intro g h1 h2
  exact hne (((mem_localGrids cfg r1 g).1 h1).2.symm.trans ((mem_localGrids cfg r2 g).1 h2).2)

theorem sortAll_eq (cfg : Config) (nm : NeighborMask) (st : ParticleState) :
    sortAll cfg nm st = forEach (sortGrid cfg nm) (allLocalGrids cfg) st := by
  unfold sortAll allLocalGrids
  exact forEach_flatMap (sortGrid cfg nm) (fun r => localGrids cfg r) _ st

theorem sortAll_slots (cfg : Config) (nm : NeighborMask) (st st' : ParticleState)
    (h : sortAll cfg nm st = .ok st') :
    (∀ g, g ∈ allLocalGrids cfg → SortedFrom cfg nm g (slotOf st g) (slotOf st' g)) ∧
      (∀ g, g ∉ allLocalGrids cfg → slotOf st' g = slotOf st g) := by
  rw [sortAll_eq] at h
  exact forEach_slots (sortGrid cfg nm) slotOf (SortedFrom cfg nm) (sortGrid_frame cfg nm)
    (sortGrid_at cfg nm) _ (allLocalGrids_nodup cfg) st st' h

theorem SortedFrom.sortedSlot {cfg : Config} {nm : NeighborMask} {g : Nat}
    {before after : ParticleTile × List Int × List Int} (h : SortedFrom cfg nm g before after) :
    SortedSlot cfg nm g after := by
  obtain ⟨codes0, hc0, hreal, hstart, hstop⟩ := h.realParticles_eq
  refine ⟨(sort_by_key codes0 before.1.realParticles).1, ?_, sort_by_key_sorted _ _, hstart,
    hstop⟩
  rw [hreal]
  exact sort_by_key_codes cfg _ _ _ hc0

theorem sort_by_key_of_sorted (cfg : Config) (mask : BaseFab) (ps : List ParticleType)
    (codes : List Int) (hc : codesOf cfg mask ps = .ok codes)
    (hs : List.Sorted (fun x y => x ≤ y) codes) : sort_by_key codes ps = (codes, ps) := by
  have hlen := codesOf_length cfg mask ps codes hc
  have hz : List.Sorted keyLE (codes.zip ps) := by
    have : (codes.zip ps).map Prod.fst = codes := List.map_fst_zip _ _ (by omega)
    rw [← this] at hs
    show List.Pairwise (fun a b : Int × ParticleType => a.1 ≤ b.1) _
    exact List.pairwise_map.mp hs
  simp only [sort_by_key, hz.insertionSort_eq]
  rw [List.map_fst_zip _ _ (by omega), List.map_snd_zip _ _ (by omega)]

theorem sortGrid_of_sorted (cfg : Config) (nm : NeighborMask) (st : ParticleState) (g : Nat)
    (h : SortedSlot cfg nm g (slotOf st g)) : sortGrid cfg nm st g = .ok st := by
  obtain ⟨codes, hc, hs, hstart, hstop⟩ := h
  simp only [slotOf, ParticleTile.realParticles] at hc hstart hstop
  have hk := sort_by_key_of_sorted cfg _ _ codes hc hs
  dsimp only [sortGrid]
  rw [hc]
  simp only [hk, List.take_append_drop, ← hstart, ← hstop]
  simp [Function.update_eq_self]

theorem forEach_fixed {σ β : Type} (body : σ → β → Except Err σ) (l : List β) (s : σ)
    (h : ∀ x, x ∈ l → body s x = .ok s) : forEach body l s = .ok s := by
  induction l with
  | nil => rfl
  | cons x xs ih =>
    simp only [forEach, h x (List.mem_cons_self _ _)]
    exact ih fun y hy => h y (List.mem_cons_of_mem _ hy)

theorem sortAll_of_sorted (cfg : Config) (nm : NeighborMask) (st : ParticleState)
    (h : ∀ g, g ∈ allLocalGrids cfg → SortedSlot cfg nm g (slotOf st g)) :
    sortAll cfg nm st = .ok st := by
  rw [sortAll_eq]
  exact forEach_fixed _ _ _ fun g hg => sortGrid_of_sorted cfg nm st g (h g hg)

theorem sortedSlot_congr (cfg : Config) (nm : NeighborMask) (g : Nat) (a b : ParticleState)
    (hs : a.m_start = b.m_start) (ht : a.m_stop = b.m_stop)
    (hr : (a.plev g).realParticles = (b.plev g).realParticles)
    (h : SortedSlot cfg nm g (slotOf b g)) : SortedSlot cfg nm g (slotOf a g) := by
  obtain ⟨codes, hc, hsorted, h1, h2⟩ := h
  exact ⟨codes, by simpa [slotOf, hr] using hc, hsorted, by simpa [slotOf, hs] using h1,
    by simpa [slotOf, ht] using h2⟩

/-! ### The neighbours in the table -/

theorem mem_intersections (ba : List Box) (bx : Box) (ng : Int) (p : Nat × Box) :
    p ∈ intersections ba bx ng ↔
      p.1 < ba.length ∧ (bx.intersect ((ba.getD p.1 default).grow ng)).ok = true ∧
        p.2 = bx.intersect ((ba.getD p.1 default).grow ng) := by
  simp only [intersections, List.mem_filterMap, List.mem_range]
  constructor
  · rintro ⟨idx, hidx, h⟩
    split at h
    · rename_i hok
      simp only [Option.some.injEq] at h
      subst h
      exact ⟨hidx, hok, rfl⟩
    · simp at h
  · rintro ⟨h1, h2, h3⟩
    refine ⟨p.1, h1, ?_⟩
    rw [if_pos h2, ← h3]

theorem mem_neighborGrids (cfg : Config) (grid : Nat) (p : Nat × Box) :
    p ∈ neighborGrids cfg grid ↔
      ∃ pit, pit ∈ shiftIntVect cfg.period ∧ p.1 < cfg.ba.length ∧ grid ≠ p.1 ∧
        (((cfg.ba.getD grid default).shift pit).intersect
          ((cfg.ba.getD p.1 default).grow cfg.ncells)).ok = true ∧
        p.2 = (((cfg.ba.getD grid default).shift pit).intersect
          ((cfg.ba.getD p.1 default).grow cfg.ncells)).unshift pit := by
  unfold neighborGrids
  rw [mem_RemoveDuplicates]
  simp only [List.mem_flatMap, List.mem_filterMap]
  constructor
  · rintro ⟨pit, hpit, isec, hisec, h⟩
    obtain ⟨h1, h2, h3⟩ := (mem_intersections _ _ _ _).1 hisec
    split at h
    · rename_i hne
      simp only [Option.some.injEq] at h
      subst h
      exact ⟨pit, hpit, h1, hne, h2, by rw [h3]⟩
    · simp at h
  · rintro ⟨pit, hpit, h1, hne, h2, h3⟩
    refine ⟨pit, hpit, (p.1, ((cfg.ba.getD grid default).shift pit).intersect
      ((cfg.ba.getD p.1 default).grow cfg.ncells)), (mem_intersections _ _ _ _).2 ⟨h1, h2, rfl⟩, ?_⟩
    simp only [hne, ne_eq, not_false_eq_true, if_true, ← h3]

theorem isecGrids_getD (cfg : Config) (grid idx : Nat) (h : idx < (isecBoxes cfg grid).length) :
    ((isecGrids cfg grid).getD idx 0, (isecBoxes cfg grid).getD idx default)
      ∈ neighborGrids cfg grid := by
  simp only [isecBoxes, List.length_map] at h
  simp only [isecGrids, isecBoxes, List.getD_eq_getElem?_getD, List.getElem?_map,
    List.getElem?_eq_getElem h, Option.map_some', Option.getD_some]
  exact List.getElem_mem h

theorem mem_table_entry (cfg : Config) (nm : NeighborMask) (h : buildNeighborMask cfg = .ok nm)
    (s k d : Nat) (hd : d ∈ (nm.m_grid_map s).getD k []) :
    s < cfg.ba.length ∧ ∃ bl,
      getBoundaryBoxes cfg.dim ((cfg.ba.getD s default).grow (-cfg.ncells)) cfg.ncells = .ok bl ∧
      k < bl.length ∧ ∃ ibox, (d, ibox) ∈ neighborGrids cfg s ∧
        ((bl.getD k default).intersect ibox).ok = true := by
  by_cases hs : s < cfg.ba.length
  · refine ⟨hs, ?_⟩
    obtain ⟨bl, hbl, -, -⟩ := buildNeighborMaskGrid_ok cfg s _ (buildNeighborMask_grid cfg nm h s hs)
    obtain ⟨-, hlen, htab⟩ := table_getD cfg nm h s hs bl hbl
    refine ⟨bl, hbl, ?_⟩
    by_cases hk : k < bl.length
    · refine ⟨hk, ?_⟩
      rw [htab k hk] at hd
      obtain ⟨isec, hisec, rfl⟩ := List.mem_map.mp hd
      obtain ⟨h1, h2, -⟩ := (mem_intersections _ _ _ _).1 hisec
      refine ⟨(isecBoxes cfg s).getD isec.1 default, isecGrids_getD cfg s isec.1 h1, ?_⟩
      have hg0 : ((isecBoxes cfg s).getD isec.1 default).grow 0
          = (isecBoxes cfg s).getD isec.1 default := by
        cases (isecBoxes cfg s).getD isec.1 default
        simp [Box.grow]
      rw [hg0] at h2
      exact h2
    · exfalso
      rw [List.getD_eq_getElem?_getD, List.getElem?_eq_none (by omega)] at hd
      simp at hd
  · exfalso
    have := ((buildNeighborMaskFrom_spec cfg _ (List.nodup_range _) _ nm h).2 s
      (by simpa using hs)).2
    rw [this] at hd
    simp at hd

theorem tableValid_of_build (cfg : Config) (nm : NeighborMask)
    (h : buildNeighborMask cfg = .ok nm) : TableValid cfg nm := by
  intro s k d hd
  obtain ⟨-, bl, -, -, ibox, hmem, -⟩ := mem_table_entry cfg nm h s k d hd
  obtain ⟨pit, -, h1, -⟩ := (mem_neighborGrids cfg s (d, ibox)).1 hmem
  exact h1

/-! ### Idempotence of the exchange -/

theorem clearAll_frame (cfg : Config) (st : ParticleState) :
    Frame (fun _ => True) st (clearAll cfg st) := by
  unfold clearAll
  generalize List.range cfg.nprocs = rs
  induction rs generalizing st with
  | nil => exact Frame.refl _ _
  | cons r rs ih =>
    simp only [List.foldl_cons]
    exact Frame.trans ((clearNeighbors_frame cfg r st).weaken fun _ _ => trivial) (ih _)

theorem fillNeighbors_ok (cfg : Config) (nm : NeighborMask) (st st1 : ParticleState)
    (h : fillNeighbors cfg nm st = .ok st1) :
    ∃ st0, sortAll cfg nm st = .ok st0 ∧ updateNeighbors cfg nm st0 = .ok st1 := by
  unfold fillNeighbors at h
  split at h
  · simp at h
  · rename_i st0 h0
    exact ⟨st0, h0, h⟩

theorem fillNeighbors_again (cfg : Config) (nm : NeighborMask)
    (hT : TableValid cfg nm) (hdmap : ∀ g, g < cfg.ba.length → cfg.dmap g < cfg.nprocs)
    (st0 st1 c : ParticleState)
    (hsorted : ∀ g, g ∈ allLocalGrids cfg → SortedSlot cfg nm g (slotOf st0 g))
    (h1 : updateNeighbors cfg nm st0 = .ok st1) (hc : Frame (fun _ => True) st0 c) :
    ∃ st2, fillNeighbors cfg nm c = .ok st2 ∧ SameGrids cfg st1 st2 := by
  have hsort : sortAll cfg nm c = .ok c :=
    sortAll_of_sorted cfg nm c fun g hg =>
      sortedSlot_congr cfg nm g c st0 hc.1 hc.2.1 (hc.2.2.1 g).1 (hsorted g hg)
  have hsim := updateNeighbors_sim cfg nm hT hdmap st0 c
    ⟨hc.1.symm, hc.2.1.symm, fun g _ => ((hc.2.2.1 g).1).symm⟩
  obtain ⟨st2, h2, hs⟩ := hsim.of_ok h1
  exact ⟨st2, by simp [fillNeighbors, hsort, h2], hs⟩

/-- C5. With the mask and table of `buildNeighborMask` and every grid owned by
one of the ranks: when `fillNeighbors` has ended without a failure, a second
`fillNeighbors`, directly or after `clearNeighbors` on every rank, ends without
a failure as well and leaves every grid of the box array with the same tile as
the first call, hence with the same ghost segment and the same number of
ghosts; the real particles and the runs are those of the first call. -/
theorem C5_fillNeighbors_idempotent (cfg : Config) (nm : NeighborMask) (st st1 : ParticleState)
    (hnm : buildNeighborMask cfg = .ok nm)
    (hdmap : ∀ g, g < cfg.ba.length → cfg.dmap g < cfg.nprocs)
    (h : fillNeighbors cfg nm st = .ok st1) :
    (∃ st2, fillNeighbors cfg nm st1 = .ok st2 ∧
        (∀ g, g < cfg.ba.length → st2.plev g = st1.plev g ∧
          (st2.plev g).ghosts = (st1.plev g).ghosts) ∧
        st2.m_start = st1.m_start ∧ st2.m_stop = st1.m_stop) ∧
      (∃ st3, fillNeighbors cfg nm (clearAll cfg st1) = .ok st3 ∧
        (∀ g, g < cfg.ba.length → st3.plev g = st1.plev g ∧
          (st3.plev g).ghosts = (st1.plev g).ghosts) ∧
        st3.m_start = st1.m_start ∧ st3.m_stop = st1.m_stop) := by
  have hT := tableValid_of_build cfg nm hnm
  obtain ⟨st0, h0, h1⟩ := fillNeighbors_ok cfg nm st st1 h
  have hsorted : ∀ g, g ∈ allLocalGrids cfg → SortedSlot cfg nm g (slotOf st0 g) :=
    fun g hg => ((sortAll_slots cfg nm st st0 h0).1 g hg).sortedSlot
  have f1 := updateNeighbors_frame cfg nm hT st0 st1 h1
  constructor
  · obtain ⟨st2, h2, hs⟩ := fillNeighbors_again cfg nm hT hdmap st0 st1 st1 hsorted h1 f1
    exact ⟨st2, h2, fun g hg => ⟨(hs.2.2 g hg).symm, by rw [hs.2.2 g hg]⟩, hs.1.symm,
      hs.2.1.symm⟩
  · obtain ⟨st3, h3, hs⟩ := fillNeighbors_again cfg nm hT hdmap st0 st1 (clearAll cfg st1)
      hsorted h1 (Frame.trans f1 (clearAll_frame cfg st1))
    exact ⟨st3, h3, fun g hg => ⟨(hs.2.2 g hg).symm, by rw [hs.2.2 g hg]⟩, hs.1.symm,
      hs.2.1.symm⟩

/-! ### Tiles as real particles and ghosts -/

theorem mkTile_numReal (real G : List ParticleType) :
    (mkTile real G).numRealParticles = real.length := by
  simp [mkTile, ParticleTile.numRealParticles]

theorem mkTile_real (real G : List ParticleType) : (mkTile real G).realParticles = real := by
  rw [ParticleTile.realParticles, mkTile_numReal]
  simp [mkTile]

theorem mkTile_ghosts (real G : List ParticleType) : (mkTile real G).ghosts = G := by
  rw [ParticleTile.ghosts, mkTile_numReal]
  simp [mkTile]

theorem mkTile_clear (t : ParticleTile) : t.setNumNeighbors 0 = mkTile t.realParticles [] := by
  rw [setNumNeighbors_zero]
  simp [mkTile]

theorem mkTile_addNeighbors (real G recs : List ParticleType) :
    addNeighbors (mkTile real G) recs = mkTile real (G ++ recs) := by
  have hX : ((mkTile real G).setNumNeighbors
        ((mkTile real G).getNumNeighbors + recs.length)).m_data
      = (real ++ G) ++ List.replicate recs.length default := by
    simp only [ParticleTile.setNumNeighbors, mkTile_numReal, ParticleTile.getNumNeighbors,
      resize]
    simp only [mkTile, List.length_append]
    rw [List.take_of_length_le (by simp only [List.length_append]; omega)]
    congr 2
    omega
  simp only [addNeighbors, hX, mkTile_numReal, writeAt]
  simp only [mkTile, ParticleTile.getNumNeighbors, ParticleTile.mk.injEq, List.length_append,
    and_true]
  rw [List.take_append_of_le_length (by simp only [List.length_append]; omega),
    List.take_of_length_le (by simp only [List.length_append]; omega),
    List.drop_of_length_le (by simp only [List.length_append, List.length_replicate]; omega)]
  simp

theorem recordsBetween_real (real rest : List ParticleType) (a b : Int) (ha : 0 ≤ a) (hab : a ≤ b)
    (hb : b ≤ (real.length : Int)) :
    recordsBetween (real ++ rest) a b = .ok ((real.drop a.toNat).take (b - a).toNat) := by
  unfold recordsBetween
  rw [if_pos ⟨ha, hab, by simp; omega⟩]
  congr 1
  rw [List.drop_append_of_le_length (by omega), List.take_append_of_le_length]
  simp only [List.length_drop]
  omega

/-! ### The bytes of a group -/

theorem length_storeObj (sz : Nat) (o : Obj) : (storeObj sz o).length = sz := by
  simp [storeObj]

theorem length_storeParticles (cfg : Config) (recs : List ParticleType) :
    (storeParticles cfg recs).length = recs.length * cfg.sizeofParticleType := by
  induction recs with
  | nil => simp [storeParticles]
  | cons p ps ih =>
    simp only [storeParticles, List.flatMap_cons, List.length_append, length_storeObj,
      List.length_cons] at ih ⊢
    rw [ih, Nat.add_mul, Nat.one_mul, Nat.add_comm]

theorem writeAt_pad (pre xs : List MemVal) (m p : Nat) (hp : p = pre.length) :
    writeAt (pre ++ List.replicate m none) p xs
      = (pre ++ xs) ++ List.replicate (m - xs.length) none := by
  subst hp
  unfold writeAt
  rw [List.take_left, List.drop_append, List.drop_replicate]

theorem resizeBuf_grow (buf : List MemVal) (n : Nat) (h : buf.length ≤ n) :
    resizeBuf buf n = buf ++ List.replicate (n - buf.length) none := by
  simp [resizeBuf, List.take_of_length_le h]

theorem packGroup_eq (cfg : Config) (buf : List MemVal) (gc d w : Nat)
    (recs : List ParticleType) :
    packGroup cfg buf gc recs.length d w recs =
      (if buf = [] then storeObj sizeof_size_t (.sizeT gc) else buf)
        ++ encodeGroup cfg recs.length d w recs := by
  have hP := length_storeParticles cfg recs
  by_cases hb : buf = []
  · subst hb
    simp only [packGroup, List.length_nil, if_true, Nat.zero_add]
    rw [resizeBuf_grow _ _ (by simp)]
    rw [writeAt_pad [] _ _ _ (by simp)]
    rw [writeAt_pad _ _ _ _ (by simp [length_storeObj, Nat.add_assoc])]
    rw [writeAt_pad _ _ _ _ (by simp [length_storeObj, Nat.add_assoc])]
    rw [writeAt_pad _ _ _ _ (by simp [length_storeObj, Nat.add_assoc])]
    rw [writeAt_pad _ _ _ _ (by simp [length_storeObj, Nat.add_assoc])]
    simp only [hP, length_storeObj, encodeGroup, sizeof_size_t, sizeof_int, List.append_assoc,
      List.nil_append, List.length_nil]
    rw [show recs.length * cfg.sizeofParticleType + 8 + 2 * 4 + 8 - 0 - 8 - 8 - 4 - 4
      - recs.length * cfg.sizeofParticleType = 0 by omega]
    simp
  · have hlen : buf.length ≠ 0 := fun h => hb (List.length_eq_zero.mp h)
    simp only [packGroup, hlen, if_false, hb]
    rw [resizeBuf_grow _ _ (by omega)]
    rw [writeAt_pad _ _ _ _ rfl]
    rw [writeAt_pad _ _ _ _ (by simp [length_storeObj, Nat.add_assoc])]
    rw [writeAt_pad _ _ _ _ (by simp [length_storeObj, Nat.add_assoc])]
    rw [writeAt_pad _ _ _ _ (by simp [length_storeObj, Nat.add_assoc])]
    simp only [hP, length_storeObj, encodeGroup, sizeof_size_t, sizeof_int, List.append_assoc]
    rw [show buf.length + recs.length * cfg.sizeofParticleType + 8 + 2 * 4 - buf.length - 8 - 4 - 4
      - recs.length * cfg.sizeofParticleType = 0 by omega]
    simp

/-! ### The first part of `updateNeighbors`, export by export -/

theorem forEach_acc {σ β τ : Type} (body : σ → β → Except Err σ) (g : β → List τ)
    (Inv : List τ → σ → Prop) (l : List β)
    (hstep : ∀ pre x s, x ∈ l → Inv pre s → ∃ s', body s x = .ok s' ∧ Inv (pre ++ g x) s')
    (pre : List τ) (s : σ) (h : Inv pre s) :
    ∃ s', forEach body l s = .ok s' ∧ Inv (pre ++ l.flatMap g) s' := by
  induction l generalizing pre s with
  | nil => exact ⟨s, rfl, by simpa using h⟩
  | cons x xs ih =>
    obtain ⟨s1, h1, hi1⟩ := hstep pre x s (List.mem_cons_self _ _) h
    obtain ⟨s2, h2, hi2⟩ := ih (fun pre y s hy => hstep pre y s (List.mem_cons_of_mem _ hy))
      (pre ++ g x) s1 hi1
    refine ⟨s2, ?_, ?_⟩
    · simp only [forEach, h1, h2]
    · simpa [List.flatMap_cons, List.append_assoc] using hi2

theorem setNumNeighbors_data (t : ParticleTile) (n : Nat) :
    ∃ rest, (t.setNumNeighbors n).m_data = t.realParticles ++ rest :=
  ⟨(t.setNumNeighbors n).ghosts, by
    rw [← realParticles_setNumNeighbors t n, take_append_drop_real]⟩

theorem deliveredTo_append (st : ParticleState) (g : Nat) (ts us : List (Nat × Nat × Nat)) :
    deliveredTo st g (ts ++ us) = deliveredTo st g ts ++ deliveredTo st g us := by
  simp [deliveredTo]

theorem groupsBytes_append (cfg : Config) (st : ParticleState) (w : Nat)
    (ts us : List (Nat × Nat × Nat)) :
    groupsBytes cfg st w (ts ++ us) = groupsBytes cfg st w ts ++ groupsBytes cfg st w us := by
  simp [groupsBytes]

theorem encodeGroup_ne_nil (cfg : Config) (k d w : Nat) (recs : List ParticleType) :
    encodeGroup cfg k d w recs ≠ [] := by
  intro h
  have := congrArg List.length h
  simp [encodeGroup, length_storeObj, sizeof_size_t] at this

theorem storeObj_ne_nil (o : Obj) : storeObj sizeof_size_t o ≠ [] := by
  intro h
  have := congrArg List.length h
  simp [length_storeObj, sizeof_size_t] at this

theorem runOf_length (st : ParticleState) (s i : Nat) (a b : Int)
    (ha : (st.m_start s)[i]? = some a) (hb : (st.m_stop s)[i]? = some b)
    (h0 : 0 ≤ a) (hbn : b ≤ ((st.plev s).numRealParticles : Int)) :
    (runOf st s i).length = (b - a).toNat := by
  have e1 : (st.m_start s).getD i 0 = a := by simp [List.getD, ha]
  have e2 : (st.m_stop s).getD i 0 = b := by simp [List.getD, hb]
  simp only [runOf, e1, e2, List.length_take, List.length_drop, length_realParticles]
  omega

theorem copyOrPack_acc (cfg : Config) (st base : ParticleState)
    (gc : Nat → Nat) (r s i d : Nat) (a b : Int) (hs : LocalTo cfg r s)
    (ha : (st.m_start s)[i]? = some a) (hb : (st.m_stop s)[i]? = some b)
    (h0 : 0 ≤ a) (hab : a ≤ b) (hbn : b ≤ ((st.plev s).numRealParticles : Int))
    (hd : d < cfg.ba.length) (ts : List (Nat × Nat × Nat)) (ps : PackState)
    (h : PackedAfter cfg st base gc r ts ps) :
    ∃ ps', copyOrPack cfg r gc s a b (b - a).toNat ps d = .ok ps' ∧
      PackedAfter cfg st base gc r (ts ++ [(s, i, d)]) ps' := by
  obtain ⟨h1, h2, h3, h4, h5, h6⟩ := h
  have e1 : (st.m_start s).getD i 0 = a := by simp [List.getD, ha]
  have e2 : (st.m_stop s).getD i 0 = b := by simp [List.getD, hb]
  have hlr : ((st.plev s).realParticles.length : Int) = (st.plev s).numRealParticles := by
    rw [length_realParticles]
  have hrun : ((st.plev s).realParticles.drop a.toNat).take (b - a).toNat = runOf st s i := by
    simp only [runOf, e1, e2]
  have hlen := runOf_length st s i a b ha hb h0 hbn
  have hdel : ∀ g, deliveredTo st g (ts ++ [(s, i, d)])
      = deliveredTo st g ts ++ (if d = g then runOf st s i else []) := fun g => by
    rw [deliveredTo_append]
    simp [deliveredTo]
  have hgb : ∀ w, groupsBytes cfg st w (ts ++ [(s, i, d)])
      = groupsBytes cfg st w ts ++
        (if cfg.dmap d = w then
          encodeGroup cfg (runOf st s i).length d w (runOf st s i) else []) := fun w => by
    rw [groupsBytes_append]
    simp [groupsBytes]
  have hmsg : ∀ w, cfg.dmap d ≠ w →
      messageTo cfg st (gc w) w (ts ++ [(s, i, d)]) = messageTo cfg st (gc w) w ts := fun w hw => by
    unfold messageTo
    rw [hgb, if_neg hw, List.append_nil]
  by_cases hdr : cfg.dmap d = r
  · -- local copy
    have hld : LocalTo cfg r d := ⟨hd, hdr⟩
    rw [copyOrPack_local cfg r gc s a b ps d hdr]
    have hdata : ∃ rest, ((Function.update ps.st.plev d
        ((ps.st.plev d).setNumNeighbors
          ((ps.st.plev d).getNumNeighbors + (b - a).toNat))) s).m_data
          = (st.plev s).realParticles ++ rest := by
      by_cases hsd : s = d
      · subst hsd
        rw [Function.update_same]
        obtain ⟨rest, hrest⟩ := setNumNeighbors_data (ps.st.plev s)
          ((ps.st.plev s).getNumNeighbors + (b - a).toNat)
        refine ⟨rest, ?_⟩
        rw [hrest, h3 s hs, mkTile_real]
      · rw [Function.update_noteq hsd, h3 s hs]
        exact ⟨_, rfl⟩
    obtain ⟨rest, hrest⟩ := hdata
    rw [hrest, recordsBetween_real _ _ a b h0 hab (by rw [hlr]; exact hbn), hrun]
    refine ⟨_, rfl, h1, h2, ?_, ?_, ?_, ?_⟩
    rotate_left 2
    · intro w
      show ps.not_ours.buf w = _
      rw [h5]
      by_cases hwr : w = r
      · simp [hwr]
      · rw [if_neg hwr, if_neg hwr, hmsg w (fun e => hwr (e.symm.trans hdr))]
    · intro w hw
      obtain ⟨hwr, t, ht, htw⟩ := h6 w hw
      exact ⟨hwr, t, List.mem_append_left _ ht, htw⟩
    · intro g hg
      by_cases hgd : g = d
      · subst hgd
        simp only [Function.update_same]
        rw [h3 g hg, mkTile_addNeighbors, hdel, if_pos rfl]
      · simp only [Function.update_noteq hgd]
        rw [h3 g hg, hdel, if_neg (fun e => hgd e.symm), List.append_nil]
    · intro g hg
      have hgd : g ≠ d := fun e => hg (e ▸ hld)
      simp only [Function.update_noteq hgd]
      exact h4 g hg
  · -- packed group
    rw [copyOrPack_remote cfg r gc s a b (b - a).toNat ps d hdr]
    have hdata : (ps.st.plev s).m_data
        = (st.plev s).realParticles ++ deliveredTo st s ts := by
      rw [h3 s hs]
      rfl
    rw [hdata, recordsBetween_real _ _ a b h0 hab (by rw [hlr]; exact hbn), hrun]
    refine ⟨_, rfl, h1, h2, ?_, h4, ?_, ?_⟩
    · intro g hg
      show ps.st.plev g = _
      rw [h3 g hg, hdel, if_neg (fun e : d = g => hdr (e ▸ hg.2)), List.append_nil]
    · intro w
      show Function.update ps.not_ours.buf (cfg.dmap d) _ w = _
      by_cases hw : w = cfg.dmap d
      · subst hw
        rw [Function.update_same, if_neg hdr, ← hlen, packGroup_eq, h5, if_neg hdr]
        unfold messageTo
        rw [hgb, if_pos rfl]
        have hne : groupsBytes cfg st (cfg.dmap d) ts ++
            encodeGroup cfg (runOf st s i).length d (cfg.dmap d) (runOf st s i) ≠ [] := by
          intro e
          exact encodeGroup_ne_nil _ _ _ _ _ (List.append_eq_nil.mp e).2
        rw [if_neg hne]
        by_cases hg0 : groupsBytes cfg st (cfg.dmap d) ts = []
        · simp [hg0]
        · have hne2 : storeObj sizeof_size_t (Obj.sizeT (gc (cfg.dmap d))) ++
              groupsBytes cfg st (cfg.dmap d) ts ≠ [] := by
            intro e
            exact hg0 (List.append_eq_nil.mp e).2
          simp [hg0, hne2]
      · rw [Function.update_noteq hw, h5]
        by_cases hwr : w = r
        · simp [hwr]
        · rw [if_neg hwr, if_neg hwr, hmsg w (fun e => hw e.symm)]
    · intro w hw
      have hw' : w ∈ ps.not_ours.keys ∨ w = cfg.dmap d := by
        revert hw
        show w ∈ (if cfg.dmap d ∈ ps.not_ours.keys then ps.not_ours.keys
          else ps.not_ours.keys ++ [cfg.dmap d]) → _
        split
        · exact fun h => Or.inl h
        · intro h
          rcases List.mem_append.mp h with h | h
          · exact Or.inl h
          · exact Or.inr (List.mem_singleton.mp h)
      rcases hw' with hw' | hw'
      · obtain ⟨hwr, t, ht, htw⟩ := h6 w hw'
        exact ⟨hwr, t, List.mem_append_left _ ht, htw⟩
      · subst hw'
        exact ⟨hdr, (s, i, d), by simp, rfl⟩

theorem flatMap_singleton_eq_map {α β : Type} (f : α → β) (l : List α) :
    l.flatMap (fun x => [f x]) = l.map f := by
  induction l with
  | nil => rfl
  | cons x xs ih => simp [List.flatMap_cons, ih]

theorem exportCode_acc (cfg : Config) (nm : NeighborMask) (st base : ParticleState)
    (gc : Nat → Nat) (r s i : Nat) (hs : LocalTo cfg r s) (hi : 1 ≤ i)
    (hin : i ≤ (nm.m_grid_map s).length) (hrv : RunsValid cfg nm st) (htv : TableValid cfg nm)
    (ts : List (Nat × Nat × Nat)) (ps : PackState) (h : PackedAfter cfg st base gc r ts ps) :
    ∃ ps', exportCode cfg nm r gc s ps i = .ok ps' ∧
      PackedAfter cfg st base gc r (ts ++ codeTriples nm s i) ps' := by
  obtain ⟨a, b, ha, hb, h0, hab, hbn⟩ := hrv s hs.1 i hi hin
  have e : exportCode cfg nm r gc s ps i =
      forEach (copyOrPack cfg r gc s a b (b - a).toNat) ((nm.m_grid_map s).getD (i - 1) []) ps := by
    simp only [exportCode, h.1, h.2.1, ha, hb]
  rw [e, codeTriples, ← flatMap_singleton_eq_map]
  exact forEach_acc _ (fun d => [(s, i, d)]) (PackedAfter cfg st base gc r) _
    (fun pre d ps0 hd h0' =>
      copyOrPack_acc cfg st base gc r s i d a b hs ha hb h0 hab hbn (htv s (i - 1) d hd) pre ps0 h0')
    ts ps h

theorem exportGrid_acc (cfg : Config) (nm : NeighborMask) (st base : ParticleState)
    (gc : Nat → Nat) (r s : Nat) (hs : LocalTo cfg r s) (hrv : RunsValid cfg nm st)
    (htv : TableValid cfg nm) (ts : List (Nat × Nat × Nat)) (ps : PackState)
    (h : PackedAfter cfg st base gc r ts ps) :
    ∃ ps', exportGrid cfg nm r gc ps s = .ok ps' ∧
      PackedAfter cfg st base gc r (ts ++ gridTriples nm s) ps' := by
  unfold exportGrid gridTriples
  refine forEach_acc _ (codeTriples nm s) (PackedAfter cfg st base gc r) _
    (fun pre i ps0 hi h0 => ?_) ts ps h
  obtain ⟨k, hk, rfl⟩ := List.mem_map.mp hi
  exact exportCode_acc cfg nm st base gc r s (k + 1) hs (by omega)
    (by have := List.mem_range.mp hk; omega) hrv htv pre ps0 h0

theorem updateNeighborsPack_acc (cfg : Config) (nm : NeighborMask) (st base : ParticleState)
    (r : Nat) (hrv : RunsValid cfg nm st) (htv : TableValid cfg nm)
    (h1 : base.m_start = st.m_start) (h2 : base.m_stop = st.m_stop)
    (h3 : ∀ g, LocalTo cfg r g → (base.plev g).realParticles = (st.plev g).realParticles) :
    ∃ ps, updateNeighborsPack cfg nm r base = .ok ps ∧
      PackedAfter cfg st base (gridCounts cfg nm r) r (rankTriples cfg nm r) ps := by
  have h0 : PackedAfter cfg st base (gridCounts cfg nm r) r []
      { st := clearNeighbors cfg r base, not_ours := { buf := fun _ => [], keys := [] } } := by
    refine ⟨?_, ?_, ?_, ?_, ?_, ?_⟩
    · rw [clearNeighbors_m_start, h1]
    · rw [clearNeighbors_m_stop, h2]
    · intro g hg
      show (clearNeighbors cfg r base).plev g = _
      rw [clearNeighbors_plev, if_pos ((mem_localGrids cfg r g).mpr hg), mkTile_clear, h3 g hg]
      rfl
    · intro g hg
      show (clearNeighbors cfg r base).plev g = _
      rw [clearNeighbors_plev, if_neg (fun hm => hg ((mem_localGrids cfg r g).mp hm))]
    · intro w
      simp [messageTo, groupsBytes]
    · intro w hw
      simp at hw
  have := forEach_acc (exportGrid cfg nm r (gridCounts cfg nm r)) (gridTriples nm)
    (PackedAfter cfg st base (gridCounts cfg nm r) r) (localGrids cfg r)
    (fun pre s ps0 hs hp =>
      exportGrid_acc cfg nm st base _ r s ((mem_localGrids cfg r s).mp hs) hrv htv pre ps0 hp)
    [] _ h0
  simpa [updateNeighborsPack, rankTriples] using this

/-! ### The first part of `updateNeighbors` on all ranks -/

theorem packStep_acc (cfg : Config) (nm : NeighborMask) (st : ParticleState)
    (hrv : RunsValid cfg nm st) (htv : TableValid cfg nm) (pre : List Nat) (r : Nat)
    (hr : r ∉ pre) (acc : Packed) (h : PackedRanks cfg nm st pre acc) :
    ∃ acc', packStep cfg nm acc r = .ok acc' ∧ PackedRanks cfg nm st (pre ++ [r]) acc' := by
  obtain ⟨h1, h2, h3, h4, h5, h6, h7⟩ := h
  have hloc : ∀ g, LocalTo cfg r g → acc.st.plev g = st.plev g := fun g hg =>
    h4 g (fun hc => hr (hg.2 ▸ hc.2))
  obtain ⟨ps, hps, q1, q2, q3, q4, q5, q6⟩ :=
    updateNeighborsPack_acc cfg nm st acc.st r hrv htv h1 h2 (fun g hg => by rw [hloc g hg])
  refine ⟨{ st := ps.st, sends := Function.update acc.sends r ps.not_ours },
    by simp only [packStep, hps], q1, q2, ?_, ?_, ?_, ?_, ?_⟩
  · intro g hg hm
    show ps.st.plev g = _
    by_cases hgr : cfg.dmap g = r
    · rw [q3 g ⟨hg, hgr⟩, hgr]
    · rw [q4 g (fun hc => hgr hc.2)]
      rcases List.mem_append.mp hm with hm | hm
      · exact h3 g hg hm
      · exact absurd (List.mem_singleton.mp hm) hgr
  · intro g hg
    show ps.st.plev g = _
    have hgr : ¬ LocalTo cfg r g := fun hc => hg ⟨hc.1, by simp [hc.2]⟩
    rw [q4 g hgr]
    exact h4 g (fun hc => hg ⟨hc.1, List.mem_append_left _ hc.2⟩)
  · intro r' hr' w
    show (Function.update acc.sends r ps.not_ours r').buf w = _
    by_cases e : r' = r
    · subst e
      rw [Function.update_same, q5]
      rfl
    · rw [Function.update_noteq e]
      rcases List.mem_append.mp hr' with hm | hm
      · exact h5 r' hm w
      · exact absurd (List.mem_singleton.mp hm) e
  · intro r' hr' w
    show w ∈ (Function.update acc.sends r ps.not_ours r').keys → _
    by_cases e : r' = r
    · subst e
      rw [Function.update_same]
      exact q6 w
    · rw [Function.update_noteq e]
      rcases List.mem_append.mp hr' with hm | hm
      · exact h6 r' hm w
      · exact absurd (List.mem_singleton.mp hm) e
  · intro r' hr'
    show Function.update acc.sends r ps.not_ours r' = _
    have e : r' ≠ r := fun e => hr' (by simp [e])
    rw [Function.update_noteq e]
    exact h7 r' (fun hm => hr' (List.mem_append_left _ hm))

theorem packAll_acc (cfg : Config) (nm : NeighborMask) (st : ParticleState)
    (hrv : RunsValid cfg nm st) (htv : TableValid cfg nm) (rs : List Nat) (hnd : rs.Nodup)
    (pre : List Nat) (hpre : ∀ r, r ∈ rs → r ∉ pre) (acc : Packed)
    (h : PackedRanks cfg nm st pre acc) :
    ∃ acc', forEach (packStep cfg nm) rs acc = .ok acc' ∧
      PackedRanks cfg nm st (pre ++ rs) acc' := by
  induction rs generalizing pre acc with
  | nil => exact ⟨acc, rfl, by simpa using h⟩
  | cons r rs ih =>
    obtain ⟨a1, e1, i1⟩ := packStep_acc cfg nm st hrv htv pre r
      (hpre r (List.mem_cons_self _ _)) acc h
    have hnd' := List.nodup_cons.mp hnd
    obtain ⟨a2, e2, i2⟩ := ih hnd'.2 (pre ++ [r]) (fun x hx hm => by
      rcases List.mem_append.mp hm with hm | hm
      · exact hpre x (List.mem_cons_of_mem _ hx) hm
      · exact hnd'.1 (List.mem_singleton.mp hm ▸ hx)) a1 i1
    refine ⟨a2, by simp only [forEach, e1, e2], ?_⟩
    simpa [List.append_assoc] using i2

theorem packAll_spec (cfg : Config) (nm : NeighborMask) (st : ParticleState)
    (hrv : RunsValid cfg nm st) (htv : TableValid cfg nm) :
    ∃ packed, packAll cfg nm (List.range cfg.nprocs) st = .ok packed ∧
      PackedRanks cfg nm st (List.range cfg.nprocs) packed := by
  have h0 : PackedRanks cfg nm st []
      { st := st, sends := fun _ => { buf := fun _ => [], keys := [] } } :=
    ⟨rfl, rfl, fun _ _ hm => by simp at hm, fun _ _ => rfl, fun _ hm => by simp at hm,
      fun _ hm => by simp at hm, fun _ _ => rfl⟩
  simpa [packAll] using
    packAll_acc cfg nm st hrv htv (List.range cfg.nprocs) (List.nodup_range _) []
      (fun _ _ hm => by simp at hm) _ h0

/-! ### Reading what was packed -/

theorem loadObj_drop (sz : Nat) (buf rest : List MemVal) (pos : Nat) (o : Obj) (hsz : 0 < sz)
    (h : buf.drop pos = storeObj sz o ++ rest) : loadObj sz buf pos = some o := by
  have h0 : buf.getD pos none = some (o, 0) := by
    have : (buf.drop pos)[0]? = some (some (o, 0)) := by
      rw [h]
      obtain ⟨k, rfl⟩ : ∃ k, sz = k + 1 := ⟨sz - 1, by omega⟩
      simp [storeObj, List.range_succ_eq_map]
    rw [List.getElem?_drop, Nat.add_zero] at this
    simp [List.getD, this]
  have h1 : (buf.drop pos).take sz = storeObj sz o := by
    rw [h, List.take_left' (length_storeObj sz o)]
  unfold loadObj
  rw [h0]
  simp only [h1, hsz, and_self, if_true]

theorem readSizeT_drop (buf rest : List MemVal) (pos n : Nat)
    (h : buf.drop pos = storeObj sizeof_size_t (.sizeT n) ++ rest) :
    readSizeT buf pos = .ok n := by
  unfold readSizeT
  rw [loadObj_drop _ _ _ _ _ (by decide) h]

theorem readInt_drop (buf rest : List MemVal) (pos : Nat) (i : Int)
    (h : buf.drop pos = storeObj sizeof_int (.int i) ++ rest) :
    readInt buf pos = .ok i := by
  unfold readInt
  rw [loadObj_drop _ _ _ _ _ (by decide) h]

theorem drop_add_of_drop {α : Type} (buf pre rest : List α) (pos k : Nat)
    (h : buf.drop pos = pre ++ rest) (hk : pre.length = k) : buf.drop (pos + k) = rest := by
  rw [← List.drop_drop, h, List.drop_left' hk]

theorem readParticles_drop (cfg : Config) (hsz : 0 < cfg.sizeofParticleType) (buf : List MemVal) :
    ∀ (recs : List ParticleType) (rest : List MemVal) (pos : Nat),
      buf.drop pos = storeParticles cfg recs ++ rest →
      readParticles cfg buf recs.length pos = .ok recs := by
  intro recs
  induction recs with
  | nil => intro rest pos _; rfl
  | cons p ps ih =>
    intro rest pos h
    have h' : buf.drop pos = storeObj cfg.sizeofParticleType (.particle p) ++
        (storeParticles cfg ps ++ rest) := by
      rw [h]
      simp [storeParticles, List.flatMap_cons, List.append_assoc]
    simp only [List.length_cons, readParticles]
    rw [loadObj_drop _ _ _ _ _ hsz h']
    rw [ih rest (pos + cfg.sizeofParticleType)
      (drop_add_of_drop _ _ _ _ _ h' (length_storeObj _ _))]

theorem unpackGroups_acc (cfg : Config) (st : ParticleState) (r : Nat)
    (hsz : 0 < cfg.sizeofParticleType) (buf : List MemVal) :
    ∀ (ts : List (Nat × Nat × Nat)) (post : List MemVal) (pos : Nat) (S : ParticleState)
      (G : Nat → List ParticleType),
      buf.drop pos = groupsBytes cfg st r ts ++ post →
      (∀ t, t ∈ ts → cfg.dmap t.2.2 = r → t.2.2 < cfg.ba.length) →
      (∀ g, LocalTo cfg r g → S.plev g = mkTile (st.plev g).realParticles (G g)) →
      ∃ S', unpackGroups cfg r buf (ts.countP fun t => decide (cfg.dmap t.2.2 = r)) pos S
            = .ok S' ∧
        S'.m_start = S.m_start ∧ S'.m_stop = S.m_stop ∧
        (∀ g, LocalTo cfg r g →
          S'.plev g = mkTile (st.plev g).realParticles (G g ++ deliveredTo st g ts)) ∧
        ∀ g, ¬ LocalTo cfg r g → S'.plev g = S.plev g := by
  intro ts
  induction ts with
  | nil =>
    intro post pos S G _ _ hS
    exact ⟨S, rfl, rfl, rfl, fun g hg => by simp [deliveredTo, hS g hg], fun _ _ => rfl⟩
  | cons t ts ih =>
    intro post pos S G hbuf hval hS
    obtain ⟨s, i, d⟩ := t
    have hdel : ∀ g, deliveredTo st g ((s, i, d) :: ts)
        = (if d = g then runOf st s i else []) ++ deliveredTo st g ts := fun g => by
      simp [deliveredTo, List.flatMap_cons]
    by_cases hd : cfg.dmap d = r
    · have hgb : groupsBytes cfg st r ((s, i, d) :: ts)
          = encodeGroup cfg (runOf st s i).length d r (runOf st s i)
            ++ groupsBytes cfg st r ts := by
        simp [groupsBytes, List.flatMap_cons, hd]
      rw [hgb] at hbuf
      have hdl : LocalTo cfg r d := ⟨hval _ (List.mem_cons_self _ _) hd, hd⟩
      have b1 : buf.drop pos = storeObj sizeof_size_t (.sizeT (runOf st s i).length) ++
          (storeObj sizeof_int (.int d) ++ (storeObj sizeof_int (.int r) ++
            (storeParticles cfg (runOf st s i) ++ (groupsBytes cfg st r ts ++ post)))) := by
        rw [hbuf]
        simp [encodeGroup, List.append_assoc]
      have b2 := drop_add_of_drop _ _ _ _ _ b1 (length_storeObj _ _)
      have b3 := drop_add_of_drop _ _ _ _ _ b2 (length_storeObj _ _)
      have b4 := drop_add_of_drop _ _ _ _ _ b3 (length_storeObj _ _)
      have b5 := drop_add_of_drop _ _ _ _ _ b4 (length_storeParticles cfg _)
      have hc : ((s, i, d) :: ts).countP (fun t => decide (cfg.dmap t.2.2 = r))
          = ts.countP (fun t => decide (cfg.dmap t.2.2 = r)) + 1 := by
        rw [List.countP_cons_of_pos]
        simpa using hd
      rw [hc, unpackGroups_step, readSizeT_drop _ _ _ _ b1, readInt_drop _ _ _ _ b2,
        readInt_drop _ _ _ _ b3]
      simp only
      by_cases hk : (runOf st s i).length = 0
      · rw [if_pos hk]
        have hnil : runOf st s i = [] := List.length_eq_zero.mp hk
        rw [hnil] at b4
        simp only [storeParticles, List.flatMap_nil, List.nil_append] at b4
        obtain ⟨S', e, q1, q2, q3, q4⟩ := ih post _ S G b4
          (fun t ht => hval t (List.mem_cons_of_mem _ ht)) hS
        refine ⟨S', e, q1, q2, fun g hg => ?_, q4⟩
        rw [q3 g hg, hdel, hnil]
        simp
      · rw [if_neg hk, if_neg (by simp), if_neg (by omega), Int.toNat_ofNat,
          readParticles_drop cfg hsz buf _ _ _ b4]
        simp only
        obtain ⟨S', e, q1, q2, q3, q4⟩ := ih post _
          { S with plev := Function.update S.plev d (addNeighbors (S.plev d) (runOf st s i)) }
          (fun g => G g ++ if d = g then runOf st s i else []) b5
          (fun t ht => hval t (List.mem_cons_of_mem _ ht))
          (fun g hg => by
            show Function.update S.plev d _ g = _
            by_cases e : g = d
            · subst e
              rw [Function.update_same, hS g hg, mkTile_addNeighbors]
              simp only [if_true]
            · rw [Function.update_noteq e, hS g hg]
              simp only [if_neg (fun e' : d = g => e e'.symm), List.append_nil])
        refine ⟨S', e, q1, q2, fun g hg => ?_, fun g hg => ?_⟩
        · rw [q3 g hg, hdel, List.append_assoc]
        · rw [q4 g hg]
          show Function.update S.plev d _ g = _
          rw [Function.update_noteq (fun e : g = d => hg (e ▸ hdl))]
    · have hgb : groupsBytes cfg st r ((s, i, d) :: ts) = groupsBytes cfg st r ts := by
        simp [groupsBytes, List.flatMap_cons, hd]
      rw [hgb] at hbuf
      have hc : ((s, i, d) :: ts).countP (fun t => decide (cfg.dmap t.2.2 = r))
          = ts.countP (fun t => decide (cfg.dmap t.2.2 = r)) := by
        rw [List.countP_cons_of_neg]
        simpa using hd
      rw [hc]
      obtain ⟨S', e, q1, q2, q3, q4⟩ := ih post pos S G hbuf
        (fun t ht => hval t (List.mem_cons_of_mem _ ht)) hS
      refine ⟨S', e, q1, q2, fun g hg => ?_, q4⟩
      rw [q3 g hg, hdel, if_neg (fun e : d = g => hd (e ▸ hg.2)), List.nil_append]

/-! ### The number of groups announced to a rank -/

theorem foldl_flatMap_eq {α β γ : Type} (f : γ → β → γ) (h : α → List β) (l : List α) (c : γ) :
    l.foldl (fun c x => (h x).foldl f c) c = (l.flatMap h).foldl f c := by
  induction l generalizing c with
  | nil => rfl
  | cons x xs ih => simp [List.flatMap_cons, List.foldl_append, ih]

theorem countStep_foldl (cfg : Config) (r : Nat) (l : List Nat) (gc : Nat → Nat) (w : Nat) :
    (l.foldl (fun gc dst_grid =>
        if cfg.dmap dst_grid ≠ r then
          Function.update gc (cfg.dmap dst_grid) (gc (cfg.dmap dst_grid) + 1)
        else gc) gc) w
      = gc w + l.countP (fun d => decide (cfg.dmap d = w ∧ w ≠ r)) := by
  induction l generalizing gc with
  | nil => simp
  | cons d ds ih =>
    rw [List.foldl_cons, ih, List.countP_cons]
    by_cases hd : cfg.dmap d = r
    · have : ¬ (cfg.dmap d = w ∧ w ≠ r) := fun h => h.2 (h.1 ▸ hd)
      simp [hd]
      exact fun e => e.symm
    · rw [if_pos hd]
      by_cases hw : cfg.dmap d = w
      · subst hw
        rw [Function.update_same]
        simp [hd]
        omega
      · rw [Function.update_noteq (fun e => hw e.symm)]
        simp [hw]

theorem gridCounts_eq (cfg : Config) (nm : NeighborMask) (r w : Nat) (hw : w ≠ r) :
    gridCounts cfg nm r w
      = (rankTriples cfg nm r).countP (fun t => decide (cfg.dmap t.2.2 = w)) := by
  have e : gridCounts cfg nm r =
      ((localGrids cfg r).flatMap fun s =>
        ((List.range (nm.m_grid_map s).length).map fun k => k + 1).flatMap fun i =>
          (nm.m_grid_map s).getD (i - 1) []).foldl
        (fun gc dst_grid =>
          if cfg.dmap dst_grid ≠ r then
            Function.update gc (cfg.dmap dst_grid) (gc (cfg.dmap dst_grid) + 1)
          else gc) (fun _ => 0) := by
    unfold gridCounts
    rw [← foldl_flatMap_eq]
    congr 1
    funext gc s
    rw [← foldl_flatMap_eq]
  have hm : (rankTriples cfg nm r).map (fun t => t.2.2) =
      (localGrids cfg r).flatMap fun s =>
        ((List.range (nm.m_grid_map s).length).map fun k => k + 1).flatMap fun i =>
          (nm.m_grid_map s).getD (i - 1) [] := by
    simp only [rankTriples, gridTriples, codeTriples, List.map_flatMap, List.map_map]
    congr 1
    funext s
    congr 1
    funext i
    simp [Function.comp_def]
  rw [e, countStep_foldl, ← hm, List.countP_map]
  simp only [Nat.zero_add]
  congr 1
  funext t
  simp [hw]

/-! ### The layout of the receive buffer -/

theorem offsetsFrom_snoc (T : Nat) (lens : List Nat) (x : Nat) :
    offsetsFrom T (lens ++ [x]) = offsetsFrom T lens ++ [T + lens.sum] := by
  induction lens generalizing T with
  | nil => simp [offsetsFrom]
  | cons y ys ih => simp [offsetsFrom, ih, Nat.add_assoc]

theorem offsetsFrom_getD (lens : List Nat) (T k : Nat) (hk : k < lens.length) :
    (offsetsFrom T lens).getD k 0 = T + (lens.take k).sum := by
  induction lens generalizing T k with
  | nil => simp at hk
  | cons y ys ih =>
    cases k with
    | zero => simp [offsetsFrom]
    | succ k =>
      simp only [List.length_cons, Nat.add_lt_add_iff_right] at hk
      simp only [offsetsFrom, List.getD_cons_succ, List.take_succ_cons, List.sum_cons]
      rw [ih _ _ hk]
      omega

theorem recvLayout_fold (c : Nat → Nat) (l P : List Nat) :
    l.foldl
        (fun (acc : List Nat × List Nat × Nat) i =>
          if 0 < c i then (acc.1 ++ [i], acc.2.1 ++ [acc.2.2], acc.2.2 + c i) else acc)
        (P, offsetsFrom 0 (P.map c), (P.map c).sum)
      = (P ++ l.filter (fun i => decide (0 < c i)),
          offsetsFrom 0 ((P ++ l.filter (fun i => decide (0 < c i))).map c),
          ((P ++ l.filter (fun i => decide (0 < c i))).map c).sum) := by
  induction l generalizing P with
  | nil => simp
  | cons x xs ih =>
    rw [List.foldl_cons]
    by_cases hx : 0 < c x
    · rw [if_pos hx]
      have e : (P ++ [x], offsetsFrom 0 (List.map c P) ++ [(List.map c P).sum],
            (List.map c P).sum + c x)
          = (P ++ [x], offsetsFrom 0 ((P ++ [x]).map c), ((P ++ [x]).map c).sum) := by
        simp [offsetsFrom_snoc]
      rw [e, ih]
      simp [List.filter_cons, hx]
    · rw [if_neg hx, ih]
      simp [List.filter_cons, hx]

theorem recvLayout_eq (Rcvs : List Nat) :
    recvLayout Rcvs =
      ((List.range Rcvs.length).filter (fun i => decide (0 < Rcvs.getD i 0)),
        offsetsFrom 0 (((List.range Rcvs.length).filter
          (fun i => decide (0 < Rcvs.getD i 0))).map (fun i => Rcvs.getD i 0)),
        (((List.range Rcvs.length).filter
          (fun i => decide (0 < Rcvs.getD i 0))).map (fun i => Rcvs.getD i 0)).sum) := by
  have := recvLayout_fold (fun i => Rcvs.getD i 0) (List.range Rcvs.length) []
  simpa [recvLayout, offsetsFrom] using this

theorem length_flatMap_eq {α β : Type} (m : α → List β) (F : List α) :
    (F.flatMap m).length = (F.map fun j => (m j).length).sum := by
  induction F with
  | nil => rfl
  | cons x xs ih => simp [List.flatMap_cons, ih]

theorem recvBuffer_eq (m : Nat → List MemVal) (F : List Nat) (Tot k : Nat) (hk : k ≤ F.length) :
    (List.range k).foldl
        (fun b i =>
          writeAt b ((offsetsFrom 0 (F.map fun j => (m j).length)).getD i 0) (m (F.getD i 0)))
        (List.replicate Tot none)
      = (F.take k).flatMap m ++ List.replicate (Tot - ((F.take k).flatMap m).length) none := by
  induction k with
  | zero => simp
  | succ k ih =>
    rw [List.range_succ, List.foldl_append, ih (by omega)]
    simp only [List.foldl_cons, List.foldl_nil]
    have hoff : (offsetsFrom 0 (F.map fun j => (m j).length)).getD k 0
        = ((F.take k).flatMap m).length := by
      rw [offsetsFrom_getD _ _ _ (by simp; omega), length_flatMap_eq, List.map_take]
      simp
    rw [writeAt_pad _ _ _ _ hoff]
    have hF : F.take (k + 1) = F.take k ++ [F.getD k 0] := by
      rw [List.take_succ]
      have : F[k]? = some (F.getD k 0) := by
        rw [List.getD_eq_getElem?_getD, List.getElem?_eq_getElem (by omega)]
        rfl
      rw [this]
      rfl
    rw [hF]
    simp only [List.flatMap_append, List.flatMap_cons, List.flatMap_nil, List.append_nil,
      List.length_append]
    congr 2
    omega

/-! ### What an empty message means -/

theorem groupsBytes_eq_nil (cfg : Config) (st : ParticleState) (w : Nat)
    (ts : List (Nat × Nat × Nat)) (h : groupsBytes cfg st w ts = []) :
    ∀ t, t ∈ ts → cfg.dmap t.2.2 ≠ w := by
  intro t ht hd
  unfold groupsBytes at h
  rw [List.flatMap_eq_nil_iff] at h
  have := h t ht
  rw [if_pos hd] at this
  exact encodeGroup_ne_nil _ _ _ _ _ this

theorem messageTo_eq_nil (cfg : Config) (st : ParticleState) (count w : Nat)
    (ts : List (Nat × Nat × Nat)) (h : messageTo cfg st count w ts = []) :
    groupsBytes cfg st w ts = [] := by
  unfold messageTo at h
  by_contra hne
  rw [if_neg hne] at h
  exact storeObj_ne_nil _ (List.append_eq_nil.mp h).1

theorem deliveredTo_of_no_dest (st : ParticleState) (g : Nat) (ts : List (Nat × Nat × Nat))
    (h : ∀ t, t ∈ ts → t.2.2 ≠ g) : deliveredTo st g ts = [] := by
  unfold deliveredTo
  rw [List.flatMap_eq_nil_iff]
  intro t ht
  rw [if_neg (h t ht)]

theorem deliveredTo_of_empty (cfg : Config) (nm : NeighborMask) (st : ParticleState)
    (i r g : Nat) (hir : i ≠ r) (hg : cfg.dmap g = r) (h : sendBuf cfg nm st i r = []) :
    deliveredTo st g (rankTriples cfg nm i) = [] := by
  unfold sendBuf at h
  rw [if_neg (fun e => hir e.symm)] at h
  have h2 := groupsBytes_eq_nil _ _ _ _ (messageTo_eq_nil _ _ _ _ _ h)
  exact deliveredTo_of_no_dest _ _ _ fun t ht e => h2 t ht (e ▸ hg)

theorem deliveredTo_flatMap (st : ParticleState) (g : Nat) (l : List Nat)
    (f : Nat → List (Nat × Nat × Nat)) :
    deliveredTo st g (l.flatMap f) = l.flatMap fun j => deliveredTo st g (f j) := by
  induction l with
  | nil => rfl
  | cons x xs ih => simp [List.flatMap_cons, deliveredTo_append, ih]

theorem flatMap_filter_of_nil {α β : Type} (p : α → Bool) (f : α → List β) (l : List α)
    (h : ∀ x, x ∈ l → p x = false → f x = []) : (l.filter p).flatMap f = l.flatMap f := by
  induction l with
  | nil => rfl
  | cons x xs ih =>
    have ih' := ih fun y hy => h y (List.mem_cons_of_mem _ hy)
    cases hp : p x with
    | true => simp [List.filter_cons, hp, List.flatMap_cons, ih']
    | false =>
      simp [List.filter_cons, hp, List.flatMap_cons, ih', h x (List.mem_cons_self _ _) hp]

theorem mem_rankTriples (cfg : Config) (nm : NeighborMask) (r : Nat) (t : Nat × Nat × Nat)
    (h : t ∈ rankTriples cfg nm r) :
    LocalTo cfg r t.1 ∧ 1 ≤ t.2.1 ∧ t.2.1 ≤ (nm.m_grid_map t.1).length ∧
      t.2.2 ∈ (nm.m_grid_map t.1).getD (t.2.1 - 1) [] := by
  simp only [rankTriples, gridTriples, codeTriples, List.mem_flatMap, List.mem_map,
    List.mem_range] at h
  obtain ⟨s, hs, i, ⟨k, hk, rfl⟩, d, hd, rfl⟩ := h
  exact ⟨(mem_localGrids cfg r s).mp hs, by simp, by simp; omega, hd⟩

theorem foldl_max_eq_zero (l : List Nat) (h : l.foldl max 0 = 0) : ∀ x, x ∈ l → x = 0 := by
  have key : ∀ (l : List Nat) (a : Nat), l.foldl max a = 0 → a = 0 ∧ ∀ x, x ∈ l → x = 0 := by
    intro l
    induction l with
    | nil => intro a h; exact ⟨h, fun _ hx => by simp at hx⟩
    | cons y ys ih =>
      intro a h
      obtain ⟨h1, h2⟩ := ih _ h
      have : a = 0 ∧ y = 0 := by omega
      refine ⟨this.1, fun x hx => ?_⟩
      rcases List.mem_cons.mp hx with rfl | hx
      · exact this.2
      · exact h2 x hx
  exact (key l 0 h).2

theorem le_sum_of_mem_nat (l : List Nat) (x : Nat) (h : x ∈ l) : x ≤ l.sum := by
  induction l with
  | nil => simp at h
  | cons y ys ih =>
    rcases List.mem_cons.mp h with rfl | h
    · simp
    · have := ih h
      simp only [List.sum_cons]
      omega

theorem toInt32_of_lt (n : Nat) (h : n < 2 ^ 31) : toInt32 n = n := by
  unfold toInt32
  rw [Nat.mod_eq_of_lt (by omega), if_pos h]

theorem range_map_getD (F : List Nat) : (List.range F.length).flatMap (fun i => [F.getD i 0]) = F := by
  rw [flatMap_singleton_eq_map]
  apply List.ext_getElem
  · simp
  · intro n h1 h2
    simp [List.getD_eq_getElem?_getD, List.getElem?_eq_getElem h2]

/-! ### The unpack of the message of one peer -/

theorem unpackPeer_acc (cfg : Config) (nm : NeighborMask) (st : ParticleState) (r : Nat)
    (hsz : 0 < cfg.sizeofParticleType) (htv : TableValid cfg nm) (F : List Nat)
    (hF : ∀ j, j ∈ F → j ≠ r ∧ sendBuf cfg nm st j r ≠ [])
    (i : Nat) (hi : i < F.length)
    (hoffi : (offsetsFrom 0 (F.map fun j => (sendBuf cfg nm st j r).length)).getD i 0 < 2 ^ 31)
    (S : ParticleState) (G : Nat → List ParticleType)
    (hS : ∀ g, LocalTo cfg r g → S.plev g = mkTile (st.plev g).realParticles (G g)) :
    ∃ S', unpackPeer cfg r (F.flatMap fun j => sendBuf cfg nm st j r)
          (offsetsFrom 0 (F.map fun j => (sendBuf cfg nm st j r).length)) S i = .ok S' ∧
      S'.m_start = S.m_start ∧ S'.m_stop = S.m_stop ∧
      (∀ g, LocalTo cfg r g →
        S'.plev g = mkTile (st.plev g).realParticles
          (G g ++ deliveredTo st g (rankTriples cfg nm (F.getD i 0)))) ∧
      ∀ g, ¬ LocalTo cfg r g → S'.plev g = S.plev g := by
  have hget : F[i]? = some (F.getD i 0) := by
    rw [List.getD_eq_getElem?_getD, List.getElem?_eq_getElem hi]
    rfl
  have hmem : F.getD i 0 ∈ F := by
    rw [List.getD_eq_getElem?_getD, List.getElem?_eq_getElem hi]
    exact List.getElem_mem hi
  obtain ⟨hjr, hne⟩ := hF _ hmem
  have hsplit : F = F.take i ++ (F.getD i 0 :: F.drop (i + 1)) := by
    conv_lhs => rw [← List.take_append_drop i F]
    congr 1
    rw [List.drop_eq_getElem_cons hi]
    congr 1
    rw [List.getD_eq_getElem?_getD, List.getElem?_eq_getElem hi]
    rfl
  have hoff : (offsetsFrom 0 (F.map fun j => (sendBuf cfg nm st j r).length)).getD i 0
      = ((F.take i).flatMap fun j => sendBuf cfg nm st j r).length := by
    rw [offsetsFrom_getD _ _ _ (by simpa using hi), length_flatMap_eq, List.map_take]
    simp
  have hle : ((F.take i).flatMap fun j => sendBuf cfg nm st j r).length < 2 ^ 31 := by
    rw [← hoff]
    exact hoffi
  have hmsg : sendBuf cfg nm st (F.getD i 0) r
      = storeObj sizeof_size_t
          (.sizeT ((rankTriples cfg nm (F.getD i 0)).countP
            fun t => decide (cfg.dmap t.2.2 = r)))
        ++ groupsBytes cfg st r (rankTriples cfg nm (F.getD i 0)) := by
    have h0 := hne
    unfold sendBuf at h0 ⊢
    rw [if_neg (fun e => hjr e.symm)] at h0 ⊢
    have hgb : groupsBytes cfg st r (rankTriples cfg nm (F.getD i 0)) ≠ [] := by
      intro e
      apply h0
      unfold messageTo
      rw [if_pos e]
    unfold messageTo
    rw [if_neg hgb, gridCounts_eq cfg nm _ r (fun e => hjr e.symm)]
  have hdrop : (F.flatMap fun j => sendBuf cfg nm st j r).drop
        ((F.take i).flatMap fun j => sendBuf cfg nm st j r).length
      = storeObj sizeof_size_t
          (.sizeT ((rankTriples cfg nm (F.getD i 0)).countP
            fun t => decide (cfg.dmap t.2.2 = r)))
        ++ (groupsBytes cfg st r (rankTriples cfg nm (F.getD i 0))
          ++ (F.drop (i + 1)).flatMap fun j => sendBuf cfg nm st j r) := by
    have key : ∀ A B : List Nat, ((A ++ B).flatMap fun j => sendBuf cfg nm st j r).drop
        (A.flatMap fun j => sendBuf cfg nm st j r).length
        = B.flatMap fun j => sendBuf cfg nm st j r := fun A B => by
      rw [List.flatMap_append, List.drop_left]
    have := key (F.take i) (F.getD i 0 :: F.drop (i + 1))
    rw [← hsplit] at this
    rw [this, List.flatMap_cons, hmsg, List.append_assoc]
  unfold unpackPeer
  rw [hoff, toInt32_of_lt _ hle]
  simp only [Int.toNat_ofNat]
  rw [if_neg (by omega), readSizeT_drop _ _ _ _ hdrop]
  simp only
  exact unpackGroups_acc cfg st r hsz _ (rankTriples cfg nm (F.getD i 0)) _ _ S G
    (drop_add_of_drop _ _ _ _ _ hdrop (length_storeObj _ _))
    (fun t ht _ => htv _ _ _ (mem_rankTriples cfg nm _ t ht).2.2.2) hS

/-! ### The receive phase on one rank -/

theorem fillNeighborsMPIGPU_acc (cfg : Config) (nm : NeighborMask) (st : ParticleState)
    (sends : Nat → SendMap) (r : Nat) (hr : r < cfg.nprocs)
    (hsz : 0 < cfg.sizeofParticleType) (htv : TableValid cfg nm)
    (hbuf : ∀ i, i < cfg.nprocs → ∀ w, (sends i).buf w = sendBuf cfg nm st i w)
    (hkeys : ∀ w, w ∈ (sends r).keys → w < cfg.nprocs)
    (hrecv : ∀ i, i < cfg.nprocs → (sendBuf cfg nm st i r).length < INT_MAX)
    (hsend : ∀ who, who ∈ (sends r).keys → (sendBuf cfg nm st r who).length < INT_MAX)
    (hoffs : ∀ i, i < ((List.range cfg.nprocs).filter
          (fun i => decide (0 < (sendBuf cfg nm st i r).length))).length →
      (offsetsFrom 0 (((List.range cfg.nprocs).filter
          (fun i => decide (0 < (sendBuf cfg nm st i r).length))).map
            fun j => (sendBuf cfg nm st j r).length)).getD i 0 < 2 ^ 31)
    (S : ParticleState) (G : Nat → List ParticleType)
    (hS : ∀ g, LocalTo cfg r g → S.plev g = mkTile (st.plev g).realParticles (G g)) :
    ∃ S', fillNeighborsMPIGPU cfg r sends S = .ok S' ∧
      S'.m_start = S.m_start ∧ S'.m_stop = S.m_stop ∧
      (∀ g, LocalTo cfg r g →
        S'.plev g = mkTile (st.plev g).realParticles
          (G g ++ deliveredTo st g
            (((List.range cfg.nprocs).filter fun i => decide (i ≠ r)).flatMap
              (rankTriples cfg nm)))) ∧
      ∀ g, ¬ LocalTo cfg r g → S'.plev g = S.plev g := by
  -- the messages for this rank
  have hRcvs : ((List.range cfg.nprocs).map fun i => ((sends i).buf r).length)
      = (List.range cfg.nprocs).map fun i => (sendBuf cfg nm st i r).length :=
    List.map_congr_left fun i hi => by rw [hbuf i (List.mem_range.mp hi)]
  have hself : sendBuf cfg nm st r r = [] := by simp [sendBuf]
  have hgetD : ∀ i, i < cfg.nprocs →
      ((List.range cfg.nprocs).map fun i => (sendBuf cfg nm st i r).length).getD i 0
        = (sendBuf cfg nm st i r).length := fun i hi => by
    rw [List.getD_eq_getElem?_getD, List.getElem?_eq_getElem (by simpa using hi)]
    simp
  have hF : ∀ j, j ∈ (List.range cfg.nprocs).filter
        (fun i => decide (0 < (sendBuf cfg nm st i r).length)) →
      j < cfg.nprocs ∧ j ≠ r ∧ sendBuf cfg nm st j r ≠ [] := fun j hj => by
    rw [List.mem_filter] at hj
    have h2 : 0 < (sendBuf cfg nm st j r).length := by simpa using hj.2
    refine ⟨List.mem_range.mp hj.1, fun e => ?_, fun e => ?_⟩
    · rw [e, hself] at h2
      simp at h2
    · rw [e] at h2
      simp at h2
  have hlay : recvLayout ((List.range cfg.nprocs).map fun i => (sendBuf cfg nm st i r).length)
      = ((List.range cfg.nprocs).filter (fun i => decide (0 < (sendBuf cfg nm st i r).length)),
          offsetsFrom 0 (((List.range cfg.nprocs).filter
            (fun i => decide (0 < (sendBuf cfg nm st i r).length))).map
              fun j => (sendBuf cfg nm st j r).length),
          (((List.range cfg.nprocs).filter
            (fun i => decide (0 < (sendBuf cfg nm st i r).length))).flatMap
              fun j => sendBuf cfg nm st j r).length) := by
    rw [recvLayout_eq, length_flatMap_eq]
    simp only [List.length_map, List.length_range]
    have e1 : (List.range cfg.nprocs).filter (fun i => decide (0 <
          ((List.range cfg.nprocs).map fun i => (sendBuf cfg nm st i r).length).getD i 0))
        = (List.range cfg.nprocs).filter
          (fun i => decide (0 < (sendBuf cfg nm st i r).length)) :=
      List.filter_congr fun i hi => by rw [hgetD i (List.mem_range.mp hi)]
    rw [e1]
    have e2 : ((List.range cfg.nprocs).filter
          (fun i => decide (0 < (sendBuf cfg nm st i r).length))).map (fun i =>
          ((List.range cfg.nprocs).map fun i => (sendBuf cfg nm st i r).length).getD i 0)
        = ((List.range cfg.nprocs).filter
          (fun i => decide (0 < (sendBuf cfg nm st i r).length))).map
            fun j => (sendBuf cfg nm st j r).length :=
      List.map_congr_left fun i hi => hgetD i (hF i hi).1
    rw [e2]
  unfold fillNeighborsMPIGPU
  simp only [hRcvs, hlay]
  rw [if_neg (by
    simp only [List.any_eq_true, decide_eq_true_eq, not_exists, not_and, Nat.not_le]
    exact hkeys)]
  by_cases hmax : List.foldl max 0
      (List.map (fun r => (List.map (fun who => ((sends r).buf who).length)
        (List.range cfg.nprocs)).sum) (List.range cfg.nprocs)) = 0
  · rw [if_pos hmax]
    refine ⟨S, rfl, rfl, rfl, fun g hg => ?_, fun _ _ => rfl⟩
    have hnil : ∀ i, i < cfg.nprocs → sendBuf cfg nm st i r = [] := fun i hi => by
      have h1 := foldl_max_eq_zero _ hmax _
        (List.mem_map.mpr ⟨i, List.mem_range.mpr hi, rfl⟩)
      have h2 : ((sends i).buf r).length ≤ 0 := by
        rw [← h1]
        exact le_sum_of_mem_nat _ _ (List.mem_map.mpr ⟨r, List.mem_range.mpr hr, rfl⟩)
      rw [← hbuf i hi]
      exact List.length_eq_zero.mp (by omega)
    rw [hS g hg, deliveredTo_flatMap]
    have : ((List.range cfg.nprocs).filter fun i => decide (i ≠ r)).flatMap
        (fun j => deliveredTo st g (rankTriples cfg nm j)) = [] := by
      rw [List.flatMap_eq_nil_iff]
      intro i hi
      rw [List.mem_filter] at hi
      exact deliveredTo_of_empty cfg nm st i r g (by simpa using hi.2) hg.2
        (hnil i (List.mem_range.mp hi.1))
    rw [this, List.append_nil]
  · rw [if_neg hmax, if_neg (by rw [hgetD r hr, hself]; simp)]
    rw [if_neg (by
      simp only [List.any_eq_true, decide_eq_true_eq, not_exists, not_and, Nat.not_le]
      intro who hwho
      rw [hgetD who (hF who hwho).1]
      exact hrecv who (hF who hwho).1)]
    rw [if_neg (by
      simp only [List.any_eq_true, decide_eq_true_eq, not_exists, not_and, Nat.not_le]
      intro who hwho
      rw [hbuf r hr]
      exact hsend who hwho)]
    generalize hFdef : (List.range cfg.nprocs).filter
      (fun i => decide (0 < (sendBuf cfg nm st i r).length)) = F at hF hoffs
    have hbuffer : List.foldl
        (fun buffer i =>
          writeAt buffer
            ((offsetsFrom 0 (F.map fun j => (sendBuf cfg nm st j r).length)).getD i 0)
            ((sends (F.getD i 0)).buf r))
        (List.replicate (F.flatMap fun j => sendBuf cfg nm st j r).length none)
        (List.range F.length)
        = F.flatMap fun j => sendBuf cfg nm st j r := by
      have e1 := List.foldl_ext
        (fun buffer i =>
          writeAt buffer
            ((offsetsFrom 0 (F.map fun j => (sendBuf cfg nm st j r).length)).getD i 0)
            ((sends (F.getD i 0)).buf r))
        (fun buffer i =>
          writeAt buffer
            ((offsetsFrom 0 (F.map fun j => (sendBuf cfg nm st j r).length)).getD i 0)
            ((fun j => sendBuf cfg nm st j r) (F.getD i 0)))
        (List.replicate (F.flatMap fun j => sendBuf cfg nm st j r).length none)
        (l := List.range F.length)
        (fun b i hi => by
          have hi' := List.mem_range.mp hi
          have hm : F.getD i 0 ∈ F := by
            rw [List.getD_eq_getElem?_getD, List.getElem?_eq_getElem hi']
            exact List.getElem_mem hi'
          simp only [hbuf _ (hF _ hm).1])
      rw [e1, recvBuffer_eq (fun j => sendBuf cfg nm st j r) F _ F.length (Nat.le_refl _)]
      simp
    simp only [hbuffer]
    have hif : ∀ (body : ParticleState → Nat → Except Err ParticleState),
        (if 0 < F.length then forEach body (List.range F.length) S else Except.ok S)
          = forEach body (List.range F.length) S := fun body => by
      split
      · rfl
      · rename_i h0
        have : F.length = 0 := by omega
        rw [this]
        rfl
    rw [hif]
    obtain ⟨S', e, hinv⟩ := forEach_acc
      (unpackPeer cfg r (F.flatMap fun j => sendBuf cfg nm st j r)
        (offsetsFrom 0 (F.map fun j => (sendBuf cfg nm st j r).length)))
      (fun i => [F.getD i 0])
      (fun (pre : List Nat) (S' : ParticleState) =>
        S'.m_start = S.m_start ∧ S'.m_stop = S.m_stop ∧
        (∀ g, LocalTo cfg r g →
          S'.plev g = mkTile (st.plev g).realParticles
            (G g ++ deliveredTo st g (pre.flatMap (rankTriples cfg nm)))) ∧
        ∀ g, ¬ LocalTo cfg r g → S'.plev g = S.plev g)
      (List.range F.length)
      (fun pre i S1 hi hI => by
        obtain ⟨S2, e2, q1, q2, q3, q4⟩ := unpackPeer_acc cfg nm st r hsz htv F
          (fun j hj => (hF j hj).2) i (List.mem_range.mp hi) (hoffs i (List.mem_range.mp hi))
          S1 _ hI.2.2.1
        refine ⟨S2, e2, q1.trans hI.1, q2.trans hI.2.1, fun g hg => ?_, fun g hg => ?_⟩
        · rw [q3 g hg, List.flatMap_append, deliveredTo_append, List.append_assoc]
          simp
        · rw [q4 g hg, hI.2.2.2 g hg])
      [] S ⟨rfl, rfl, fun g hg => by simp [deliveredTo, hS g hg], fun _ _ => rfl⟩
    refine ⟨S', e, hinv.1, hinv.2.1, fun g hg => ?_, hinv.2.2.2⟩
    rw [hinv.2.2.1 g hg, List.nil_append, range_map_getD]
    congr 2
    rw [deliveredTo_flatMap, deliveredTo_flatMap, ← hFdef]
    have e3 : (List.range cfg.nprocs).filter
          (fun i => decide (0 < (sendBuf cfg nm st i r).length))
        = ((List.range cfg.nprocs).filter fun i => decide (i ≠ r)).filter
          (fun i => decide (0 < (sendBuf cfg nm st i r).length)) := by
      rw [List.filter_filter]
      refine List.filter_congr fun i _ => ?_
      by_cases hir : i = r
      · subst hir
        simp [hself]
      · simp [hir]
    rw [e3]
    refine flatMap_filter_of_nil _ _ _ fun i hi hp => ?_
    rw [List.mem_filter] at hi
    refine deliveredTo_of_empty cfg nm st i r g (by simpa using hi.2) hg.2 ?_
    exact List.length_eq_zero.mp (by simpa using hp)

/-! ### `updateNeighbors` on all ranks -/

theorem forEach_nodup_acc {σ : Type} (body : σ → Nat → Except Err σ)
    (Inv : List Nat → σ → Prop) (l : List Nat) (hnd : l.Nodup)
    (hstep : ∀ pre x s, x ∈ l → x ∉ pre → Inv pre s →
      ∃ s', body s x = .ok s' ∧ Inv (pre ++ [x]) s')
    (pre : List Nat) (hpre : ∀ x, x ∈ l → x ∉ pre) (s : σ) (h : Inv pre s) :
    ∃ s', forEach body l s = .ok s' ∧ Inv (pre ++ l) s' := by
  induction l generalizing pre s with
  | nil => exact ⟨s, rfl, by simpa using h⟩
  | cons x xs ih =>
    obtain ⟨s1, e1, i1⟩ := hstep pre x s (List.mem_cons_self _ _)
      (hpre x (List.mem_cons_self _ _)) h
    have hnd' := List.nodup_cons.mp hnd
    obtain ⟨s2, e2, i2⟩ := ih hnd'.2
      (fun pre y s hy hyp hI => hstep pre y s (List.mem_cons_of_mem _ hy) hyp hI)
      (pre ++ [x]) (fun y hy hm => by
        rcases List.mem_append.mp hm with hm | hm
        · exact hpre y (List.mem_cons_of_mem _ hy) hm
        · exact hnd'.1 (List.mem_singleton.mp hm ▸ hy)) s1 i1
    refine ⟨s2, by simp only [forEach, e1, e2], ?_⟩
    simpa [List.append_assoc] using i2

/-- A condition under which `updateNeighbors` returns: the bytes sent to any one
rank total fewer than `INT_MAX`. -/
theorem updateNeighbors_spec (cfg : Config) (nm : NeighborMask) (st : ParticleState)
    (htv : TableValid cfg nm) (hrv : RunsValid cfg nm st)
    (hdm : ∀ g, g < cfg.ba.length → cfg.dmap g < cfg.nprocs)
    (hsz : 0 < cfg.sizeofParticleType)
    (hsize : ∀ w, w < cfg.nprocs →
      ((List.range cfg.nprocs).map fun i => (sendBuf cfg nm st i w).length).sum < INT_MAX) :
    ∃ st', updateNeighbors cfg nm st = .ok st' ∧
      st'.m_start = st.m_start ∧ st'.m_stop = st.m_stop ∧
      ∀ d, d < cfg.ba.length →
        st'.plev d = mkTile (st.plev d).realParticles
          (deliveredTo st d (arrivalOrder cfg nm (cfg.dmap d))) := by
  obtain ⟨packed, hpack, p1, p2, p3, p4, p5, p6, p7⟩ := packAll_spec cfg nm st hrv htv
  have hkeys : ∀ r, r < cfg.nprocs → ∀ w, w ∈ (packed.sends r).keys → w ≠ r ∧ w < cfg.nprocs :=
    fun r hr w hw => by
      obtain ⟨hwr, t, ht, htw⟩ := p6 r (List.mem_range.mpr hr) w hw
      exact ⟨hwr, htw ▸ hdm _ (htv _ _ _ (mem_rankTriples cfg nm r t ht).2.2.2)⟩
  unfold updateNeighbors
  rw [hpack]
  simp only
  by_cases h1 : cfg.nprocs = 1
  · rw [if_pos h1]
    have hk : (packed.sends 0).keys = [] := by
      apply List.eq_nil_iff_forall_not_mem.mpr
      intro w hw
      have := hkeys 0 (by omega) w hw
      omega
    rw [hk]
    refine ⟨packed.st, rfl, p1, p2, fun d hd => ?_⟩
    have hd0 : cfg.dmap d = 0 := by have := hdm d hd; omega
    rw [p3 d hd (List.mem_range.mpr (hdm d hd)), hd0]
    have hf : (List.range 1).filter (fun i => decide (i ≠ 0)) = [] := by decide
    simp only [arrivalOrder, h1, hf, List.flatMap_nil, List.append_nil]
  · rw [if_neg h1]
    obtain ⟨S', e, q1, q2, q3, -⟩ := forEach_nodup_acc
      (fun st r => fillNeighborsMPIGPU cfg r packed.sends st)
      (fun (pre : List Nat) (S : ParticleState) =>
        S.m_start = st.m_start ∧ S.m_stop = st.m_stop ∧
        (∀ g, g < cfg.ba.length → cfg.dmap g ∈ pre →
          S.plev g = mkTile (st.plev g).realParticles
            (deliveredTo st g (arrivalOrder cfg nm (cfg.dmap g)))) ∧
        ∀ g, ¬ (g < cfg.ba.length ∧ cfg.dmap g ∈ pre) → S.plev g = packed.st.plev g)
      (List.range cfg.nprocs) (List.nodup_range _)
      (fun pre r S hr hrp hI => by
        have hr' := List.mem_range.mp hr
        obtain ⟨a1, a2, a3, a4⟩ := hI
        obtain ⟨S2, e2, b1, b2, b3, b4⟩ := fillNeighborsMPIGPU_acc cfg nm st packed.sends r hr'
          hsz htv (fun i hi w => p5 i (List.mem_range.mpr hi) w)
          (fun w hw => (hkeys r hr' w hw).2)
          (fun i hi => Nat.lt_of_le_of_lt
            (le_sum_of_mem_nat _ _ (List.mem_map.mpr ⟨i, List.mem_range.mpr hi, rfl⟩))
            (hsize r hr'))
          (fun who hw => Nat.lt_of_le_of_lt
            (le_sum_of_mem_nat _ _ (List.mem_map.mpr ⟨r, List.mem_range.mpr hr', rfl⟩))
            (hsize who (hkeys r hr' who hw).2))
          (fun i hi => by
            rw [offsetsFrom_getD _ _ _ (by simpa using hi)]
            have h1 := (List.take_sublist i (((List.range cfg.nprocs).filter
              (fun i => decide (0 < (sendBuf cfg nm st i r).length))).map
                fun j => (sendBuf cfg nm st j r).length)).sum_le_sum (fun _ _ => Nat.zero_le _)
            have h2 := (List.Sublist.map (fun j => (sendBuf cfg nm st j r).length)
              (List.filter_sublist (p := fun i => decide (0 < (sendBuf cfg nm st i r).length))
                (List.range cfg.nprocs))).sum_le_sum
                (fun _ _ => Nat.zero_le _)
            have h3 := hsize r hr'
            unfold INT_MAX at h3
            omega)
          S
          (fun g => deliveredTo st g (rankTriples cfg nm r))
          (fun g hg => by
            rw [a4 g (fun hc => hrp (hg.2 ▸ hc.2)),
              p3 g hg.1 (List.mem_range.mpr (hdm g hg.1)), hg.2])
        refine ⟨S2, e2, b1.trans a1, b2.trans a2, fun g hg hm => ?_, fun g hg => ?_⟩
        · by_cases hgr : cfg.dmap g = r
          · rw [b3 g ⟨hg, hgr⟩, hgr, arrivalOrder, deliveredTo_append]
          · rw [b4 g (fun hc => hgr hc.2)]
            rcases List.mem_append.mp hm with hm | hm
            · exact a3 g hg hm
            · exact absurd (List.mem_singleton.mp hm) hgr
        · rw [b4 g (fun hc => hg ⟨hc.1, by simp [hc.2]⟩)]
          exact a4 g (fun hc => hg ⟨hc.1, List.mem_append_left _ hc.2⟩))
      [] (fun _ _ hm => by simp at hm) packed.st
      ⟨p1, p2, fun _ _ hm => by simp at hm, fun _ _ => rfl⟩
    exact ⟨S', e, q1, q2, fun d hd => q3 d hd (by simpa using hdm d hd)⟩

/-! ### Every listing of the table is exported once -/

theorem arrivalOrder_perm (cfg : Config) (nm : NeighborMask) (r : Nat) (hr : r < cfg.nprocs)
    (hdm : ∀ g, g < cfg.ba.length → cfg.dmap g < cfg.nprocs) :
    (arrivalOrder cfg nm r).Perm ((List.range cfg.ba.length).flatMap (gridTriples nm)) := by
  have h1 : arrivalOrder cfg nm r
      = (r :: (List.range cfg.nprocs).filter fun i => decide (i ≠ r)).flatMap
          (rankTriples cfg nm) := by
    simp [arrivalOrder, List.flatMap_cons]
  have h2 : (r :: (List.range cfg.nprocs).filter fun i => decide (i ≠ r)).Perm
      (List.range cfg.nprocs) := by
    have := List.perm_cons_erase (List.mem_range.mpr hr)
    rw [(List.nodup_range cfg.nprocs).erase_eq_filter] at this
    refine List.Perm.trans (List.Perm.of_eq ?_) this.symm
    congr 1
    refine List.filter_congr fun i _ => ?_
    by_cases hir : i = r <;> simp [hir]
  have h3 : (List.range cfg.nprocs).flatMap (rankTriples cfg nm)
      = (allLocalGrids cfg).flatMap (gridTriples nm) := by
    simp only [allLocalGrids, List.flatMap_assoc]
    rfl
  have h4 : (allLocalGrids cfg).Perm (List.range cfg.ba.length) := by
    rw [List.perm_ext_iff_of_nodup (allLocalGrids_nodup cfg) (List.nodup_range _)]
    intro g
    rw [mem_allLocalGrids, List.mem_range]
    exact ⟨fun h => h.1, fun h => ⟨h, hdm g h⟩⟩
  rw [h1]
  exact (h2.flatMap_right _).trans (h3 ▸ h4.flatMap_right _)

/-! ### Instances -/

/-- C8, as stated, fails: a cell-centered grid of eight cells with a shell of
depth `2`, which is less than half of the extent, is rejected, because the
check compares the grid already shrunk by the shell with twice the depth. -/
theorem C8_counterexample :
    (Box.mk [0] [7] 0).cellCentered = true ∧ (Box.mk [0] [7] 0).size = [8] ∧
      (2 : Int) * 2 < 8 ∧
      isAbort (getBoundaryBoxes 1 ((Box.mk [0] [7] 0).grow (-2)) 2) = true ∧
      isAbort (buildNeighborMask (oneGrid 8 2)) = true := by
  decide

/-- Witness of C8 (amended): the grid of eight cells with a shell of depth `2`. -/
theorem C8_check_witness :
    (isAbort (getBoundaryBoxes 1 ((Box.mk [0] [7] 0).grow (-2)) 2) = true ↔
        ((Box.mk [0] [7] 0).cellCentered = false ∨
          ∃ a, a < 1 ∧ (Box.mk [0] [7] 0).size.getD a 0 ≤ 4 * 2)) ∧
      (isOk (getBoundaryBoxes 1 ((Box.mk [0] [7] 0).grow (-2)) 2) = true ↔
        ((Box.mk [0] [7] 0).cellCentered = true ∧
          ∀ a, a < 1 → 4 * 2 < (Box.mk [0] [7] 0).size.getD a 0)) :=
  C8_check 1 (Box.mk [0] [7] 0) 2 rfl rfl

set_option maxRecDepth 100000 in
/-- Witness of C5: two grids of five cells on a periodic axis, one per rank, and
one particle in cell `4`. -/
theorem C5_fillNeighbors_idempotent_witness :
    (∃ st2, fillNeighbors (periodicPair 5 2 fun g => g)
          (valueOr noMask (buildNeighborMask (periodicPair 5 2 fun g => g)))
          (valueOr emptyState (fillNeighbors (periodicPair 5 2 fun g => g)
            (valueOr noMask (buildNeighborMask (periodicPair 5 2 fun g => g)))
            (onlyGridZero [particleAt 7 [4]]))) = .ok st2 ∧
        (∀ g, g < (periodicPair 5 2 fun g => g).ba.length →
          st2.plev g = (valueOr emptyState (fillNeighbors (periodicPair 5 2 fun g => g)
            (valueOr noMask (buildNeighborMask (periodicPair 5 2 fun g => g)))
            (onlyGridZero [particleAt 7 [4]]))).plev g ∧
          (st2.plev g).ghosts = ((valueOr emptyState (fillNeighbors (periodicPair 5 2 fun g => g)
            (valueOr noMask (buildNeighborMask (periodicPair 5 2 fun g => g)))
            (onlyGridZero [particleAt 7 [4]]))).plev g).ghosts) ∧
        st2.m_start = (valueOr emptyState (fillNeighbors (periodicPair 5 2 fun g => g)
            (valueOr noMask (buildNeighborMask (periodicPair 5 2 fun g => g)))
            (onlyGridZero [particleAt 7 [4]]))).m_start ∧
        st2.m_stop = (valueOr emptyState (fillNeighbors (periodicPair 5 2 fun g => g)
            (valueOr noMask (buildNeighborMask (periodicPair 5 2 fun g => g)))
            (onlyGridZero [particleAt 7 [4]]))).m_stop) :=
  (C5_fillNeighbors_idempotent (periodicPair 5 2 fun g => g)
    (valueOr noMask (buildNeighborMask (periodicPair 5 2 fun g => g)))
    (onlyGridZero [particleAt 7 [4]])
    (valueOr emptyState (fillNeighbors (periodicPair 5 2 fun g => g)
      (valueOr noMask (buildNeighborMask (periodicPair 5 2 fun g => g)))
      (onlyGridZero [particleAt 7 [4]])))
    (eq_ok_of_isOk _ _ (by decide))
    (fun g hg => hg)
    (eq_ok_of_isOk _ _ (by decide))).1

set_option maxRecDepth 100000 in
/-- Witness of C3: the sort of rank `0` for two grids of ten cells, where grid
`0` holds a particle of its high face box before a particle of no region. -/
theorem C3_sort_is_permutation_witness :
    ∃ st', sortParticlesByNeighborDest (twoGrids 1 fun _ => 0) (valueOr noMask (buildNeighborMask (twoGrids 1 fun _ => 0))) 0 (onlyGridZero [particleAt 7 [9], particleAt 3 [4]]) = .ok st' ∧
      ∀ g, (st'.plev g).m_data.Perm ((onlyGridZero [particleAt 7 [9], particleAt 3 [4]]).plev g).m_data ∧
        (st'.plev g).m_data.length = ((onlyGridZero [particleAt 7 [9], particleAt 3 [4]]).plev g).m_data.length ∧
        (st'.plev g).realParticles.Perm ((onlyGridZero [particleAt 7 [9], particleAt 3 [4]]).plev g).realParticles ∧
        (st'.plev g).ghosts = ((onlyGridZero [particleAt 7 [9], particleAt 3 [4]]).plev g).ghosts ∧
        (st'.plev g).m_num_neighbor_particles
          = ((onlyGridZero [particleAt 7 [9], particleAt 3 [4]]).plev g).m_num_neighbor_particles :=
  ((C3_sort_is_permutation (twoGrids 1 fun _ => 0) (valueOr noMask (buildNeighborMask (twoGrids 1 fun _ => 0))) 0 (onlyGridZero [particleAt 7 [9], particleAt 3 [4]])).1 (by decide)).imp fun st' h =>
    ⟨h, (C3_sort_is_permutation (twoGrids 1 fun _ => 0) (valueOr noMask (buildNeighborMask (twoGrids 1 fun _ => 0))) 0 (onlyGridZero [particleAt 7 [9], particleAt 3 [4]])).2 st' h⟩

set_option maxRecDepth 100000 in
/-- Witness of C4: the same sort; grid `0` has two regions, so three runs. -/
theorem C4_runs_by_code_witness :
    ∃ codes, codesOf (twoGrids 1 fun _ => 0) ((valueOr noMask (buildNeighborMask (twoGrids 1 fun _ => 0))).m_neighbor_mask 0) ((valueOr emptyState (sortParticlesByNeighborDest (twoGrids 1 fun _ => 0) (valueOr noMask (buildNeighborMask (twoGrids 1 fun _ => 0))) 0 (onlyGridZero [particleAt 7 [9], particleAt 3 [4]]))).plev 0).realParticles = .ok codes ∧
      List.Sorted (fun x y => x ≤ y) codes ∧
      ((valueOr emptyState (sortParticlesByNeighborDest (twoGrids 1 fun _ => 0) (valueOr noMask (buildNeighborMask (twoGrids 1 fun _ => 0))) 0 (onlyGridZero [particleAt 7 [9], particleAt 3 [4]]))).m_start 0).length = ((valueOr noMask (buildNeighborMask (twoGrids 1 fun _ => 0))).m_grid_map 0).length + 1 ∧
      ((valueOr emptyState (sortParticlesByNeighborDest (twoGrids 1 fun _ => 0) (valueOr noMask (buildNeighborMask (twoGrids 1 fun _ => 0))) 0 (onlyGridZero [particleAt 7 [9], particleAt 3 [4]]))).m_stop 0).length = ((valueOr noMask (buildNeighborMask (twoGrids 1 fun _ => 0))).m_grid_map 0).length + 1 ∧
      (∀ k, k ≤ ((valueOr noMask (buildNeighborMask (twoGrids 1 fun _ => 0))).m_grid_map 0).length → ∀ i : Nat,
        ((((valueOr emptyState (sortParticlesByNeighborDest (twoGrids 1 fun _ => 0) (valueOr noMask (buildNeighborMask (twoGrids 1 fun _ => 0))) 0 (onlyGridZero [particleAt 7 [9], particleAt 3 [4]]))).m_start 0).getD k 0 ≤ (i : Int) ∧ (i : Int) < ((valueOr emptyState (sortParticlesByNeighborDest (twoGrids 1 fun _ => 0) (valueOr noMask (buildNeighborMask (twoGrids 1 fun _ => 0))) 0 (onlyGridZero [particleAt 7 [9], particleAt 3 [4]]))).m_stop 0).getD k 0) ↔
          (i < ((valueOr emptyState (sortParticlesByNeighborDest (twoGrids 1 fun _ => 0) (valueOr noMask (buildNeighborMask (twoGrids 1 fun _ => 0))) 0 (onlyGridZero [particleAt 7 [9], particleAt 3 [4]]))).plev 0).numRealParticles ∧ codes.getD i 0 = (k : Int) - 1))) ∧
      ((valueOr emptyState (sortParticlesByNeighborDest (twoGrids 1 fun _ => 0) (valueOr noMask (buildNeighborMask (twoGrids 1 fun _ => 0))) 0 (onlyGridZero [particleAt 7 [9], particleAt 3 [4]]))).m_start 0).getD 0 0 = 0 ∧
      (∀ k, k < ((valueOr noMask (buildNeighborMask (twoGrids 1 fun _ => 0))).m_grid_map 0).length →
        ((valueOr emptyState (sortParticlesByNeighborDest (twoGrids 1 fun _ => 0) (valueOr noMask (buildNeighborMask (twoGrids 1 fun _ => 0))) 0 (onlyGridZero [particleAt 7 [9], particleAt 3 [4]]))).m_stop 0).getD k 0 = ((valueOr emptyState (sortParticlesByNeighborDest (twoGrids 1 fun _ => 0) (valueOr noMask (buildNeighborMask (twoGrids 1 fun _ => 0))) 0 (onlyGridZero [particleAt 7 [9], particleAt 3 [4]]))).m_start 0).getD (k + 1) 0) ∧
      ((valueOr emptyState (sortParticlesByNeighborDest (twoGrids 1 fun _ => 0) (valueOr noMask (buildNeighborMask (twoGrids 1 fun _ => 0))) 0 (onlyGridZero [particleAt 7 [9], particleAt 3 [4]]))).m_stop 0).getD ((valueOr noMask (buildNeighborMask (twoGrids 1 fun _ => 0))).m_grid_map 0).length 0
        = (((valueOr emptyState (sortParticlesByNeighborDest (twoGrids 1 fun _ => 0) (valueOr noMask (buildNeighborMask (twoGrids 1 fun _ => 0))) 0 (onlyGridZero [particleAt 7 [9], particleAt 3 [4]]))).plev 0).numRealParticles : Int) ∧
      ((List.range (((valueOr noMask (buildNeighborMask (twoGrids 1 fun _ => 0))).m_grid_map 0).length + 1)).map fun k =>
        ((valueOr emptyState (sortParticlesByNeighborDest (twoGrids 1 fun _ => 0) (valueOr noMask (buildNeighborMask (twoGrids 1 fun _ => 0))) 0 (onlyGridZero [particleAt 7 [9], particleAt 3 [4]]))).m_stop 0).getD k 0 - ((valueOr emptyState (sortParticlesByNeighborDest (twoGrids 1 fun _ => 0) (valueOr noMask (buildNeighborMask (twoGrids 1 fun _ => 0))) 0 (onlyGridZero [particleAt 7 [9], particleAt 3 [4]]))).m_start 0).getD k 0).sum
        = (((valueOr emptyState (sortParticlesByNeighborDest (twoGrids 1 fun _ => 0) (valueOr noMask (buildNeighborMask (twoGrids 1 fun _ => 0))) 0 (onlyGridZero [particleAt 7 [9], particleAt 3 [4]]))).plev 0).numRealParticles : Int) :=
  C4_runs_by_code (twoGrids 1 fun _ => 0) (valueOr noMask (buildNeighborMask (twoGrids 1 fun _ => 0))) 0 (onlyGridZero [particleAt 7 [9], particleAt 3 [4]]) (valueOr emptyState (sortParticlesByNeighborDest (twoGrids 1 fun _ => 0) (valueOr noMask (buildNeighborMask (twoGrids 1 fun _ => 0))) 0 (onlyGridZero [particleAt 7 [9], particleAt 3 [4]])))
    (eq_ok_of_isOk _ _ (by decide)) (eq_ok_of_isOk _ _ (by decide)) 0 (by decide) rfl

set_option maxRecDepth 100000 in
/-- Witness of C7 (amended): grid `0` of two grids of ten cells, whose low face
box has no neighbour and whose high face box faces grid `1`. -/
theorem C7_mask_covers_shell_witness :
    ∃ bl, getBoundaryBoxes (twoGrids 1 fun _ => 0).dim
          (((twoGrids 1 fun _ => 0).ba.getD 0 default).grow (-(twoGrids 1 fun _ => 0).ncells)) (twoGrids 1 fun _ => 0).ncells = .ok bl ∧
      bl.Nodup ∧ ((valueOr noMask (buildNeighborMask (twoGrids 1 fun _ => 0))).m_grid_map 0).length = bl.length ∧
      (∀ i j, i < bl.length → j < bl.length → i ≠ j → ∀ iv : IntVect,
        iv.length = (twoGrids 1 fun _ => 0).dim →
        ¬ ((bl.getD i default).contains iv = true ∧ (bl.getD j default).contains iv = true)) ∧
      (∀ iv : IntVect, iv.length = (twoGrids 1 fun _ => 0).dim →
        ((∃ i, i < bl.length ∧ (bl.getD i default).contains iv = true) ↔
          inShell ((twoGrids 1 fun _ => 0).ba.getD 0 default) (twoGrids 1 fun _ => 0).ncells iv)) ∧
      (∀ iv : IntVect, iv.length = (twoGrids 1 fun _ => 0).dim → ∀ i, i < bl.length →
        (bl.getD i default).contains iv = true →
        ((valueOr noMask (buildNeighborMask (twoGrids 1 fun _ => 0))).m_neighbor_mask 0).val iv
          = if ((valueOr noMask (buildNeighborMask (twoGrids 1 fun _ => 0))).m_grid_map 0).getD i [] = [] then -1 else (i : Int)) ∧
      (∀ iv : IntVect, iv.length = (twoGrids 1 fun _ => 0).dim →
        ¬ inShell ((twoGrids 1 fun _ => 0).ba.getD 0 default) (twoGrids 1 fun _ => 0).ncells iv →
        ((valueOr noMask (buildNeighborMask (twoGrids 1 fun _ => 0))).m_neighbor_mask 0).val iv = -1) :=
  C7_mask_covers_shell (twoGrids 1 fun _ => 0) (valueOr noMask (buildNeighborMask (twoGrids 1 fun _ => 0))) 0 (by decide) (by decide) (by decide) rfl rfl
    (eq_ok_of_isOk _ _ (by decide))

/-- Witness of C10: `clearNeighbors` on rank `0` of two ranks, where grid `0`
holds one real particle and one ghost. -/
theorem C10_clearNeighbors_witness :
    ((clearNeighbors (twoGrids 2 fun g => g) 0
        { plev := fun _ => { m_data := [particleAt 7 [9], particleAt 8 [10]],
                             m_num_neighbor_particles := 1 },
          m_start := fun _ => [], m_stop := fun _ => [] }).plev 0).ghosts = [] ∧
      ((clearNeighbors (twoGrids 2 fun g => g) 0
        { plev := fun _ => { m_data := [particleAt 7 [9], particleAt 8 [10]],
                             m_num_neighbor_particles := 1 },
          m_start := fun _ => [], m_stop := fun _ => [] }).plev 0).realParticles
        = [particleAt 7 [9]] :=
  ⟨((C10_clearNeighbors (twoGrids 2 fun g => g) 0 _).1 0 (by decide) rfl).2,
    ((C10_clearNeighbors (twoGrids 2 fun g => g) 0 _).2 0).2⟩

/-! ### Cells of shifted boxes and of intersections -/

theorem getD_zipWith (f : Int → Int → Int) (a b : List Int) (i : Nat) (h1 : i < a.length)
    (h2 : i < b.length) : (List.zipWith f a b).getD i 0 = f (a.getD i 0) (b.getD i 0) := by
  simp [List.getD_eq_getElem?_getD, List.getElem?_zipWith, List.getElem?_eq_getElem, h1, h2]

theorem shiftIntVect_length (period : IntVect) :
    ∀ pit, pit ∈ shiftIntVect period → pit.length = period.length := by
  induction period with
  | nil => intro pit h; simp [shiftIntVect] at h; simp [h]
  | cons p ps ih =>
    intro pit h
    simp only [shiftIntVect, List.mem_flatMap, List.mem_map] at h
    obtain ⟨i, -, r, hr, rfl⟩ := h
    simp [ih r hr]

theorem length_add (a b : IntVect) (dim : Nat) (ha : a.length = dim) (hb : b.length = dim) :
    (IntVect.add a b).length = dim := by
  simp [IntVect.add, ha, hb]

theorem contains_shift (b : Box) (pit iv : IntVect) (dim : Nat) (hlo : b.smallend.length = dim)
    (hhi : b.bigend.length = dim) (hp : pit.length = dim) (hiv : iv.length = dim) :
    (b.shift pit).contains (iv.add pit) = true ↔ b.contains iv = true := by
  rw [contains_iff _ _ dim (by simp [Box.shift, IntVect.add, hlo, hp])
    (by simp [Box.shift, IntVect.add, hhi, hp]) (length_add _ _ _ hiv hp),
    contains_iff _ _ dim hlo hhi hiv]
  refine forall_congr' fun a => forall_congr' fun ha => ?_
  simp only [Box.shift, IntVect.add]
  rw [getD_zipWith _ _ _ _ (by omega) (by omega), getD_zipWith _ _ _ _ (by omega) (by omega),
    getD_zipWith _ _ _ _ (by omega) (by omega)]
  constructor <;> intro h <;> omega

theorem contains_unshift (b : Box) (pit iv : IntVect) (dim : Nat)
    (hlo : b.smallend.length = dim) (hhi : b.bigend.length = dim) (hp : pit.length = dim)
    (hiv : iv.length = dim) :
    (b.unshift pit).contains iv = true ↔ b.contains (iv.add pit) = true := by
  rw [contains_iff _ _ dim (by simp [Box.unshift, IntVect.sub, hlo, hp])
    (by simp [Box.unshift, IntVect.sub, hhi, hp]) hiv,
    contains_iff _ _ dim hlo hhi (length_add _ _ _ hiv hp)]
  refine forall_congr' fun a => forall_congr' fun ha => ?_
  simp only [Box.unshift, IntVect.sub, IntVect.add]
  rw [getD_zipWith _ _ _ _ (by omega) (by omega), getD_zipWith _ _ _ _ (by omega) (by omega),
    getD_zipWith _ _ _ _ (by omega) (by omega)]
  constructor <;> intro h <;> omega

theorem contains_intersect (a b : Box) (iv : IntVect) (dim : Nat)
    (halo : a.smallend.length = dim) (hahi : a.bigend.length = dim)
    (hblo : b.smallend.length = dim) (hbhi : b.bigend.length = dim) (hiv : iv.length = dim) :
    (a.intersect b).contains iv = true ↔ a.contains iv = true ∧ b.contains iv = true := by
  rw [contains_iff _ _ dim (by simp [Box.intersect, halo, hblo])
    (by simp [Box.intersect, hahi, hbhi]) hiv,
    contains_iff _ _ dim halo hahi hiv, contains_iff _ _ dim hblo hbhi hiv]
  simp only [Box.intersect]
  constructor
  · intro h
    refine ⟨fun x hx => ?_, fun x hx => ?_⟩ <;>
    · have := h x hx
      rw [getD_zipWith _ _ _ _ (by omega) (by omega),
        getD_zipWith _ _ _ _ (by omega) (by omega)] at this
      omega
  · rintro ⟨h1, h2⟩ x hx
    have := h1 x hx
    have := h2 x hx
    rw [getD_zipWith _ _ _ _ (by omega) (by omega), getD_zipWith _ _ _ _ (by omega) (by omega)]
    omega

theorem intersect_ok_iff (a b : Box) (dim : Nat)
    (halo : a.smallend.length = dim) (hahi : a.bigend.length = dim)
    (hblo : b.smallend.length = dim) (hbhi : b.bigend.length = dim) :
    (a.intersect b).ok = true ↔
      ∃ iv : IntVect, iv.length = dim ∧ a.contains iv = true ∧ b.contains iv = true := by
  have hl : (a.intersect b).smallend.length = dim := by simp [Box.intersect, halo, hblo]
  have hh : (a.intersect b).bigend.length = dim := by simp [Box.intersect, hahi, hbhi]
  constructor
  · intro h
    refine ⟨(a.intersect b).smallend, hl, ?_⟩
    rw [← contains_intersect a b _ dim halo hahi hblo hbhi hl, contains_iff _ _ dim hl hh hl]
    unfold Box.ok at h
    rw [allLE_iff _ _ (by omega), hl] at h
    exact fun x hx => ⟨Int.le_refl _, h x hx⟩
  · rintro ⟨iv, hiv, h⟩
    rw [← contains_intersect a b iv dim halo hahi hblo hbhi hiv,
      contains_iff _ _ dim hl hh hiv] at h
    unfold Box.ok
    rw [allLE_iff _ _ (by omega), hl]
    intro x hx
    have := h x hx
    omega

theorem grow_zero (b : Box) : b.grow 0 = b := by
  cases b with
  | mk lo hi t =>
    simp only [Box.grow, Box.mk.injEq, and_true]
    constructor
    · conv_rhs => rw [← List.map_id lo]
      apply List.map_congr_left
      intro x _
      simp
    · conv_rhs => rw [← List.map_id hi]
      apply List.map_congr_left
      intro x _
      simp

/-! ### The neighbour table in terms of cells -/

theorem boundary_box_facts (dim : Nat) (grid : Box) (n : Int) (hn : 1 ≤ n)
    (hlo : grid.smallend.length = dim) (hhi : grid.bigend.length = dim) (bl : List Box)
    (h : getBoundaryBoxes dim (grid.grow (-n)) n = .ok bl) (b : Box) (hb : b ∈ bl) :
    b.smallend.length = dim ∧ b.bigend.length = dim ∧
      ∀ iv : IntVect, iv.length = dim → b.contains iv = true → inShell grid n iv := by
  obtain ⟨hsz, -, hbl⟩ := getBoundaryBoxes_ok dim _ n bl h
  have hlo' : (grid.grow (-n)).smallend.length = dim := by simp [Box.grow, hlo]
  have hhi' : (grid.grow (-n)).bigend.length = dim := by simp [Box.grow, hhi]
  have hbox := shrunk_nonempty dim grid n hn hlo hhi hsz
  have hraw : b ∈ rawBoundaryBoxes dim (grid.grow (-n)) n := by
    rw [hbl] at hb
    exact (mem_RemoveDuplicates _ _ _).1 hb
  obtain ⟨dir, -, hreg⟩ := raw_isRegion dim _ n hlo' hhi' b hraw
  refine ⟨hreg.1, hreg.2.1, fun iv hiv hc => ?_⟩
  have := raw_in_shell dim _ n hn hlo' hhi' hbox b hraw iv hiv hc
  rw [grow_grow] at this
  exact this

theorem length_shift (b : Box) (pit : IntVect) (dim : Nat) (hlo : b.smallend.length = dim)
    (hhi : b.bigend.length = dim) (hp : pit.length = dim) :
    (b.shift pit).smallend.length = dim ∧ (b.shift pit).bigend.length = dim := by
  simp [Box.shift, IntVect.add, hlo, hhi, hp]

theorem length_unshift (b : Box) (pit : IntVect) (dim : Nat) (hlo : b.smallend.length = dim)
    (hhi : b.bigend.length = dim) (hp : pit.length = dim) :
    (b.unshift pit).smallend.length = dim ∧ (b.unshift pit).bigend.length = dim := by
  simp [Box.unshift, IntVect.sub, hlo, hhi, hp]

theorem length_grow (b : Box) (n : Int) (dim : Nat) (hlo : b.smallend.length = dim)
    (hhi : b.bigend.length = dim) :
    (b.grow n).smallend.length = dim ∧ (b.grow n).bigend.length = dim := by
  simp [Box.grow, hlo, hhi]

theorem length_intersect (a b : Box) (dim : Nat) (halo : a.smallend.length = dim)
    (hahi : a.bigend.length = dim) (hblo : b.smallend.length = dim)
    (hbhi : b.bigend.length = dim) :
    (a.intersect b).smallend.length = dim ∧ (a.intersect b).bigend.length = dim := by
  simp [Box.intersect, halo, hahi, hblo, hbhi]

theorem mem_table_of_neighbor (cfg : Config) (nm : NeighborMask)
    (h : buildNeighborMask cfg = .ok nm) (s : Nat) (hs : s < cfg.ba.length) (bl : List Box)
    (hbl : getBoundaryBoxes cfg.dim ((cfg.ba.getD s default).grow (-cfg.ncells)) cfg.ncells
      = .ok bl)
    (k : Nat) (hk : k < bl.length) (d : Nat) (ibox : Box)
    (hmem : (d, ibox) ∈ neighborGrids cfg s)
    (hok : ((bl.getD k default).intersect ibox).ok = true) :
    d ∈ (nm.m_grid_map s).getD k [] := by
  obtain ⟨-, -, htab⟩ := table_getD cfg nm h s hs bl hbl
  rw [htab k hk]
  obtain ⟨idx, hidx, hget⟩ := List.getElem_of_mem hmem
  have hidx' : idx < (isecBoxes cfg s).length := by simpa [isecBoxes] using hidx
  have hb : (isecBoxes cfg s).getD idx default = ibox := by
    simp [isecBoxes, List.getD_eq_getElem?_getD, List.getElem?_map,
      List.getElem?_eq_getElem hidx, hget]
  have hg : (isecGrids cfg s).getD idx 0 = d := by
    simp [isecGrids, List.getD_eq_getElem?_getD, List.getElem?_map,
      List.getElem?_eq_getElem hidx, hget]
  refine List.mem_map.mpr
    ⟨(idx, (bl.getD k default).intersect (((isecBoxes cfg s).getD idx default).grow 0)), ?_, hg⟩
  rw [mem_intersections]
  refine ⟨hidx', ?_, rfl⟩
  show ((bl.getD k default).intersect (((isecBoxes cfg s).getD idx default).grow 0)).ok = true
  rw [hb, grow_zero]
  exact hok

theorem table_entry_iff (cfg : Config) (nm : NeighborMask) (h : buildNeighborMask cfg = .ok nm)
    (hn : 1 ≤ cfg.ncells) (hper : cfg.period.length = cfg.dim)
    (hboxes : ∀ g, g < cfg.ba.length → (cfg.ba.getD g default).smallend.length = cfg.dim ∧
      (cfg.ba.getD g default).bigend.length = cfg.dim)
    (s : Nat) (hs : s < cfg.ba.length) (bl : List Box)
    (hbl : getBoundaryBoxes cfg.dim ((cfg.ba.getD s default).grow (-cfg.ncells)) cfg.ncells
      = .ok bl)
    (k : Nat) (hk : k < bl.length) (d : Nat) :
    d ∈ (nm.m_grid_map s).getD k [] ↔
      d < cfg.ba.length ∧ s ≠ d ∧ ∃ pit, pit ∈ shiftIntVect cfg.period ∧
        ∃ iv : IntVect, iv.length = cfg.dim ∧ (bl.getD k default).contains iv = true ∧
          ((cfg.ba.getD d default).grow cfg.ncells).contains (iv.add pit) = true := by
  obtain ⟨hslo, hshi⟩ := hboxes s hs
  obtain ⟨hklo, hkhi, hkin⟩ := boundary_box_facts cfg.dim _ cfg.ncells hn hslo hshi bl hbl _
    (getD_mem_box bl k hk)
  -- the box cut out of grid `s` by the neighbour `d` under the shift `pit`
  have hcut : ∀ pit, pit ∈ shiftIntVect cfg.period → d < cfg.ba.length →
      ((((cfg.ba.getD s default).shift pit).intersect
        ((cfg.ba.getD d default).grow cfg.ncells)).unshift pit).smallend.length = cfg.dim ∧
      ((((cfg.ba.getD s default).shift pit).intersect
        ((cfg.ba.getD d default).grow cfg.ncells)).unshift pit).bigend.length = cfg.dim ∧
      ∀ iv : IntVect, iv.length = cfg.dim →
        (((((cfg.ba.getD s default).shift pit).intersect
          ((cfg.ba.getD d default).grow cfg.ncells)).unshift pit).contains iv = true ↔
          (cfg.ba.getD s default).contains iv = true ∧
            ((cfg.ba.getD d default).grow cfg.ncells).contains (iv.add pit) = true) := by
    intro pit hpit hd
    have hp : pit.length = cfg.dim := (shiftIntVect_length _ pit hpit).trans hper
    obtain ⟨hdlo, hdhi⟩ := hboxes d hd
    obtain ⟨e1, e2⟩ := length_shift _ pit cfg.dim hslo hshi hp
    obtain ⟨e3, e4⟩ := length_grow _ cfg.ncells cfg.dim hdlo hdhi
    obtain ⟨e5, e6⟩ := length_intersect _ _ cfg.dim e1 e2 e3 e4
    obtain ⟨e7, e8⟩ := length_unshift _ pit cfg.dim e5 e6 hp
    refine ⟨e7, e8, fun iv hiv => ?_⟩
    rw [contains_unshift _ _ _ cfg.dim e5 e6 hp hiv,
      contains_intersect _ _ _ cfg.dim e1 e2 e3 e4 (length_add _ _ _ hiv hp),
      contains_shift _ _ _ cfg.dim hslo hshi hp hiv]
  constructor
  · intro hd
    obtain ⟨-, bl', hbl', -, ibox, hmem, hok⟩ := mem_table_entry cfg nm h s k d hd
    rw [hbl] at hbl'
    simp only [Except.ok.injEq] at hbl'
    subst hbl'
    obtain ⟨pit, hpit, hdl, hne, -, hib⟩ := (mem_neighborGrids cfg s (d, ibox)).1 hmem
    simp only at hdl hne hib
    obtain ⟨c1, c2, c3⟩ := hcut pit hpit hdl
    rw [← hib] at c1 c2 c3
    obtain ⟨iv, hiv, i1, i2⟩ := (intersect_ok_iff _ _ cfg.dim hklo hkhi c1 c2).1 hok
    exact ⟨hdl, hne, pit, hpit, iv, hiv, i1, ((c3 iv hiv).1 i2).2⟩
  · rintro ⟨hdl, hne, pit, hpit, iv, hiv, i1, i2⟩
    have hp : pit.length = cfg.dim := (shiftIntVect_length _ pit hpit).trans hper
    obtain ⟨hdlo, hdhi⟩ := hboxes d hdl
    obtain ⟨c1, c2, c3⟩ := hcut pit hpit hdl
    have hin : (cfg.ba.getD s default).contains iv = true := (hkin iv hiv i1).1
    have hmem : (d, (((cfg.ba.getD s default).shift pit).intersect
        ((cfg.ba.getD d default).grow cfg.ncells)).unshift pit) ∈ neighborGrids cfg s := by
      rw [mem_neighborGrids]
      refine ⟨pit, hpit, hdl, hne, ?_, rfl⟩
      rw [intersect_ok_iff _ _ cfg.dim (length_shift _ pit cfg.dim hslo hshi hp).1
        (length_shift _ pit cfg.dim hslo hshi hp).2 (length_grow _ _ cfg.dim hdlo hdhi).1
        (length_grow _ _ cfg.dim hdlo hdhi).2]
      exact ⟨iv.add pit, length_add _ _ _ hiv hp,
        (contains_shift _ _ _ cfg.dim hslo hshi hp hiv).2 hin, i2⟩
    refine mem_table_of_neighbor cfg nm h s hs bl hbl k hk d _ hmem ?_
    rw [intersect_ok_iff _ _ cfg.dim hklo hkhi c1 c2]
    exact ⟨iv, hiv, i1, (c3 iv hiv).2 ⟨hin, i2⟩⟩

/-! ### The code of a cell and the run of a code -/

theorem mask_code_iff (cfg : Config) (nm : NeighborMask) (h : buildNeighborMask cfg = .ok nm)
    (hdim : cfg.dim ≤ 3) (hn : 1 ≤ cfg.ncells) (s : Nat) (hs : s < cfg.ba.length)
    (hlo : (cfg.ba.getD s default).smallend.length = cfg.dim)
    (hhi : (cfg.ba.getD s default).bigend.length = cfg.dim) (bl : List Box)
    (hbl : getBoundaryBoxes cfg.dim ((cfg.ba.getD s default).grow (-cfg.ncells)) cfg.ncells
      = .ok bl)
    (iv : IntVect) (hiv : iv.length = cfg.dim) (k : Nat) (hk : k < bl.length) :
    (nm.m_neighbor_mask s).val iv = (k : Int) ↔
      (bl.getD k default).contains iv = true ∧ (nm.m_grid_map s).getD k [] ≠ [] := by
  obtain ⟨hnd, hdisj, -⟩ := boundary_tiling cfg.dim hdim _ cfg.ncells hn hlo hhi bl hbl
  obtain ⟨hmask, -, htab⟩ := table_getD cfg nm h s hs bl hbl
  rw [hmask, htab k hk]
  constructor
  · intro hv
    rcases stampFold_val_cases (isecBoxes cfg s) bl bl.length
        { box := cfg.ba.getD s default, val := fun _ => -1 } iv with h0 | ⟨i, hi, h1, h2, h3⟩
    · rw [hv] at h0
      simp only at h0
      omega
    · rw [hv] at h1
      have : k = i := by omega
      subst this
      exact ⟨h3, (stamped_iff_entry cfg s bl k).1 h2⟩
  · rintro ⟨hc, hne⟩
    have hst := (stamped_iff_entry cfg s bl k).2 hne
    apply stampFold_val_of_last _ _ _ _ _ k hk hst hc
    intro j hkj hj _
    cases hcj : (bl.getD j default).contains iv with
    | false => rfl
    | true =>
      have := nodup_getD_inj bl hnd k j hk hj
        (hdisj _ _ (getD_mem_box bl k hk) (getD_mem_box bl j hj) iv hiv hc hcj)
      omega

theorem mem_slice {α : Type} (l : List α) (a b : Nat) (p : α) :
    p ∈ (l.drop a).take (b - a) ↔ ∃ j, a ≤ j ∧ j < b ∧ l[j]? = some p := by
  rw [List.mem_iff_getElem?]
  constructor
  · rintro ⟨n, hn⟩
    rw [List.getElem?_take] at hn
    split at hn
    · rw [List.getElem?_drop] at hn
      exact ⟨a + n, by omega, by omega, hn⟩
    · simp at hn
  · rintro ⟨j, h1, h2, h3⟩
    refine ⟨j - a, ?_⟩
    rw [List.getElem?_take, if_pos (by omega), List.getElem?_drop]
    rw [show a + (j - a) = j by omega]
    exact h3

theorem sortedSlot_runs (cfg : Config) (nm : NeighborMask) (st : ParticleState) (s : Nat)
    (h : SortedSlot cfg nm s (slotOf st s)) (i : Nat) (hi : i ≤ (nm.m_grid_map s).length) :
    ∃ codes, codesOf cfg (nm.m_neighbor_mask s) (st.plev s).realParticles = .ok codes ∧
      List.Sorted (fun x y => x ≤ y) codes ∧
      (st.m_start s)[i]? = some (lower_bound codes ((i : Int) - 1) : Int) ∧
      (st.m_stop s)[i]? = some (upper_bound codes ((i : Int) - 1) : Int) := by
  obtain ⟨codes, hc, hsorted, h1, h2⟩ := h
  simp only [slotOf] at hc h1 h2
  refine ⟨codes, hc, hsorted, ?_, ?_⟩
  · have hl : i < (st.m_start s).length := by rw [h1, probes_map_length]; omega
    have := probes_map_getD (nm.m_grid_map s).length
      (fun v => (lower_bound codes v : Int)) i hi
    rw [← h1, List.getD_eq_getElem?_getD, List.getElem?_eq_getElem hl] at this
    rw [List.getElem?_eq_getElem hl]
    simpa using this
  · have hl : i < (st.m_stop s).length := by rw [h2, probes_map_length]; omega
    have := probes_map_getD (nm.m_grid_map s).length
      (fun v => (upper_bound codes v : Int)) i hi
    rw [← h2, List.getD_eq_getElem?_getD, List.getElem?_eq_getElem hl] at this
    rw [List.getElem?_eq_getElem hl]
    simpa using this

theorem runsValid_of_sorted (cfg : Config) (nm : NeighborMask) (st : ParticleState)
    (h : ∀ s, s < cfg.ba.length → SortedSlot cfg nm s (slotOf st s)) : RunsValid cfg nm st := by
  intro s hs i _ hi
  obtain ⟨codes, hc, hsorted, h1, h2⟩ := sortedSlot_runs cfg nm st s (h s hs) i hi
  have hlen := codesOf_length _ _ _ _ hc
  rw [length_realParticles] at hlen
  have hu := (upper_bound_spec codes ((i : Int) - 1) hsorted).1
  have hlu := lower_le_upper codes ((i : Int) - 1) hsorted
  exact ⟨_, _, h1, h2, by omega, by omega, by omega⟩

theorem mem_runOf_iff (cfg : Config) (nm : NeighborMask) (st : ParticleState) (s : Nat)
    (h : SortedSlot cfg nm s (slotOf st s)) (i : Nat) (hi : i ≤ (nm.m_grid_map s).length)
    (p : ParticleType) :
    p ∈ runOf st s i ↔
      p ∈ (st.plev s).realParticles ∧
        (nm.m_neighbor_mask s).get (cellOf cfg p) = .ok ((i : Int) - 1) := by
  obtain ⟨codes, hc, hsorted, h1, h2⟩ := sortedSlot_runs cfg nm st s h i hi
  have hlen := codesOf_length _ _ _ _ hc
  have hf := (codesOf_ok_iff _ _ _ _).1 hc
  obtain ⟨u1, u2⟩ := upper_bound_spec codes ((i : Int) - 1) hsorted
  obtain ⟨l1, l2⟩ := lower_bound_spec codes ((i : Int) - 1) hsorted
  have e1 : (st.m_start s).getD i 0 = (lower_bound codes ((i : Int) - 1) : Int) := by
    simp [List.getD, h1]
  have e2 : (st.m_stop s).getD i 0 = (upper_bound codes ((i : Int) - 1) : Int) := by
    simp [List.getD, h2]
  have hrun : runOf st s i = ((st.plev s).realParticles.drop
      (lower_bound codes ((i : Int) - 1))).take
        (upper_bound codes ((i : Int) - 1) - lower_bound codes ((i : Int) - 1)) := by
    simp only [runOf, e1, e2, Int.toNat_ofNat]
    congr 1
    omega
  have hcode : ∀ j (hj : j < (st.plev s).realParticles.length),
      (nm.m_neighbor_mask s).get (cellOf cfg ((st.plev s).realParticles[j]))
        = .ok (codes.getD j 0) := fun j hj => by
    have := hf.get hj (by omega)
    simpa [List.getD_eq_getElem?_getD, List.getElem?_eq_getElem (show j < codes.length by omega)]
      using this
  rw [hrun, mem_slice]
  constructor
  · rintro ⟨j, hj1, hj2, hj3⟩
    have hj : j < (st.plev s).realParticles.length := by omega
    rw [List.getElem?_eq_getElem hj, Option.some.injEq] at hj3
    have hc' := hcode j hj
    rw [hj3] at hc'
    have a1 := (l2 j (by omega)).not.1 (by omega)
    have a2 := (u2 j (by omega)).1 hj2
    refine ⟨hj3 ▸ List.getElem_mem hj, ?_⟩
    rw [hc']
    congr 1
    omega
  · rintro ⟨hp, hm⟩
    obtain ⟨j, hj, rfl⟩ := List.getElem_of_mem hp
    have hc' := hcode j hj
    rw [hm] at hc'
    simp only [Except.ok.injEq] at hc'
    refine ⟨j, ?_, ?_, List.getElem?_eq_getElem hj⟩
    · by_contra hlt
      have := (l2 j (by omega)).1 (by omega)
      omega
    · exact (u2 j (by omega)).2 (by omega)

/-! ### A cell near another grid lies in the shell of its own grid -/

theorem getD_range_map (dim : Nat) (f : Nat → Int) (a : Nat) (ha : a < dim) :
    ((List.range dim).map f).getD a 0 = f a := by
  simp [List.getD_eq_getElem?_getD, List.getElem?_map, List.getElem?_range ha]

theorem in_shell_of_near (dim : Nat) (S D : Box) (n : Int) (hn : 0 ≤ n)
    (hSlo : S.smallend.length = dim) (hShi : S.bigend.length = dim)
    (hDlo : D.smallend.length = dim) (hDhi : D.bigend.length = dim)
    (pit c : IntVect) (hp : pit.length = dim) (hc : c.length = dim)
    (hD : ∀ a, a < dim → D.smallend.getD a 0 ≤ D.bigend.getD a 0)
    (hin : S.contains c = true) (hnear : (D.grow n).contains (c.add pit) = true)
    (hdisj : ∀ iv : IntVect, iv.length = dim →
      ¬ (S.contains iv = true ∧ D.contains (iv.add pit) = true)) :
    inShell S n c := by
  refine ⟨hin, ?_⟩
  cases hsh : (S.grow (-n)).contains c with
  | false => rfl
  | true =>
    exfalso
    obtain ⟨g1, g2⟩ := length_grow S (-n) dim hSlo hShi
    obtain ⟨g3, g4⟩ := length_grow D n dim hDlo hDhi
    have h1 := (contains_iff _ _ dim g1 g2 hc).1 hsh
    have h2 := (contains_iff _ _ dim g3 g4 (length_add _ _ _ hc hp)).1 hnear
    have hlen : ((List.range dim).map fun a =>
        max (D.smallend.getD a 0 - pit.getD a 0)
          (min (D.bigend.getD a 0 - pit.getD a 0) (c.getD a 0))).length = dim := by simp
    apply hdisj _ hlen
    constructor
    · rw [contains_iff _ _ dim hSlo hShi hlen]
      intro a ha
      rw [getD_range_map _ _ _ ha]
      have a1 := h1 a ha
      have a2 := h2 a ha
      have a3 := hD a ha
      simp only [Box.grow, IntVect.add] at a1 a2
      rw [getD_map_sub _ _ _ (by omega), getD_map_add _ _ _ (by omega)] at a1 a2
      rw [getD_zipWith _ _ _ _ (by omega) (by omega)] at a2
      omega
    · rw [contains_iff _ _ dim hDlo hDhi (length_add _ _ _ hlen hp)]
      intro a ha
      simp only [IntVect.add]
      rw [getD_zipWith _ _ _ _ (by omega) (by omega), getD_range_map _ _ _ ha]
      have a3 := hD a ha
      omega

theorem grid_nonempty (cfg : Config) (nm : NeighborMask) (h : buildNeighborMask cfg = .ok nm)
    (hn : 1 ≤ cfg.ncells) (d : Nat) (hd : d < cfg.ba.length)
    (hlo : (cfg.ba.getD d default).smallend.length = cfg.dim)
    (hhi : (cfg.ba.getD d default).bigend.length = cfg.dim) :
    ∀ a, a < cfg.dim →
      (cfg.ba.getD d default).smallend.getD a 0 ≤ (cfg.ba.getD d default).bigend.getD a 0 := by
  intro a ha
  obtain ⟨bl, hbl, -, -⟩ := buildNeighborMaskGrid_ok cfg d _ (buildNeighborMask_grid cfg nm h d hd)
  obtain ⟨hsz, -, -⟩ := getBoundaryBoxes_ok cfg.dim _ cfg.ncells bl hbl
  have h1 := (grow_size_allGT cfg.dim _ cfg.ncells hlo hhi).1 hsz a ha
  rw [size_getD _ a (by omega) (by omega)] at h1
  omega

/-! ### The ghosts of a grid in terms of cells -/

theorem mem_deliveredTo (st : ParticleState) (g : Nat) (ts : List (Nat × Nat × Nat))
    (p : ParticleType) :
    p ∈ deliveredTo st g ts ↔ ∃ t, t ∈ ts ∧ t.2.2 = g ∧ p ∈ runOf st t.1 t.2.1 := by
  simp only [deliveredTo, List.mem_flatMap]
  constructor
  · rintro ⟨t, ht, hp⟩
    split at hp
    · rename_i h
      exact ⟨t, ht, h, hp⟩
    · simp at hp
  · rintro ⟨t, ht, h, hp⟩
    exact ⟨t, ht, by rw [if_pos h]; exact hp⟩

theorem mem_allTriples (cfg : Config) (nm : NeighborMask) (t : Nat × Nat × Nat) :
    t ∈ (List.range cfg.ba.length).flatMap (gridTriples nm) ↔
      t.1 < cfg.ba.length ∧ 1 ≤ t.2.1 ∧ t.2.1 ≤ (nm.m_grid_map t.1).length ∧
        t.2.2 ∈ (nm.m_grid_map t.1).getD (t.2.1 - 1) [] := by
  simp only [gridTriples, codeTriples, List.mem_flatMap, List.mem_map, List.mem_range]
  constructor
  · rintro ⟨s, hs, i, ⟨k, hk, rfl⟩, d, hd, rfl⟩
    exact ⟨hs, by simp, by simp; omega, hd⟩
  · rintro ⟨h1, h2, h3, h4⟩
    obtain ⟨s, i, d⟩ := t
    simp only at h1 h2 h3 h4
    exact ⟨s, h1, i, ⟨i - 1, by omega, by omega⟩, d, h4, rfl⟩

theorem length_cellOf (cfg : Config) (hdom : cfg.domain.smallend.length = cfg.dim)
    (p : ParticleType) : (cellOf cfg p).length = cfg.dim := by
  simp [cellOf, IntVect.add, hdom]

theorem mask_get_iff (cfg : Config) (nm : NeighborMask) (h : buildNeighborMask cfg = .ok nm)
    (hdim : cfg.dim ≤ 3) (hn : 1 ≤ cfg.ncells) (s : Nat) (hs : s < cfg.ba.length)
    (hlo : (cfg.ba.getD s default).smallend.length = cfg.dim)
    (hhi : (cfg.ba.getD s default).bigend.length = cfg.dim) (bl : List Box)
    (hbl : getBoundaryBoxes cfg.dim ((cfg.ba.getD s default).grow (-cfg.ncells)) cfg.ncells
      = .ok bl)
    (iv : IntVect) (hiv : iv.length = cfg.dim) (k : Nat) (hk : k < bl.length) :
    (nm.m_neighbor_mask s).get iv = .ok (k : Int) ↔
      (bl.getD k default).contains iv = true ∧ (nm.m_grid_map s).getD k [] ≠ [] := by
  have hcode := mask_code_iff cfg nm h hdim hn s hs hlo hhi bl hbl iv hiv k hk
  unfold BaseFab.get
  rw [mask_box cfg nm h s hs]
  constructor
  · intro hg
    split at hg
    · simp only [Except.ok.injEq] at hg
      exact hcode.1 hg
    · simp at hg
  · intro hc
    have hin := ((boundary_box_facts cfg.dim _ cfg.ncells hn hlo hhi bl hbl _
      (getD_mem_box bl k hk)).2.2 iv hiv hc.1).1
    rw [if_pos hin, hcode.2 hc]

theorem ghost_iff_listed (cfg : Config) (nm : NeighborMask) (st st1 st' : ParticleState)
    (hnm : buildNeighborMask cfg = .ok nm) (hdim : cfg.dim ≤ 3) (hn : 1 ≤ cfg.ncells)
    (hdom : cfg.domain.smallend.length = cfg.dim)
    (hboxes : ∀ g, g < cfg.ba.length → (cfg.ba.getD g default).smallend.length = cfg.dim ∧
      (cfg.ba.getD g default).bigend.length = cfg.dim)
    (hdm : ∀ g, g < cfg.ba.length → cfg.dmap g < cfg.nprocs)
    (hsort : sortAll cfg nm st = .ok st1)
    (htile : ∀ d, d < cfg.ba.length →
      (st'.plev d).ghosts = deliveredTo st1 d (arrivalOrder cfg nm (cfg.dmap d))) :
    ∀ d, d < cfg.ba.length → ∀ p,
      (p ∈ (st'.plev d).ghosts ↔
        ∃ s, s < cfg.ba.length ∧ p ∈ (st.plev s).realParticles ∧
          ∃ bl, getBoundaryBoxes cfg.dim ((cfg.ba.getD s default).grow (-cfg.ncells))
              cfg.ncells = .ok bl ∧
            ∃ k, k < bl.length ∧ (bl.getD k default).contains (cellOf cfg p) = true ∧
              d ∈ (nm.m_grid_map s).getD k []) := by
  have hall : ∀ g, g < cfg.ba.length → g ∈ allLocalGrids cfg := fun g hg =>
    (mem_allLocalGrids cfg g).2 ⟨hg, hdm g hg⟩
  have hfrom := (sortAll_slots cfg nm st st1 hsort).1
  have hslot : ∀ s, s < cfg.ba.length → SortedSlot cfg nm s (slotOf st1 s) := fun s hs =>
    (hfrom s (hall s hs)).sortedSlot
  have hperm : ∀ s, s < cfg.ba.length →
      (st1.plev s).realParticles.Perm (st.plev s).realParticles := fun s hs =>
    (hfrom s (hall s hs)).facts.2.2.2.1
  intro d hd p
  rw [htile d hd]
  have hpm : p ∈ deliveredTo st1 d (arrivalOrder cfg nm (cfg.dmap d)) ↔
      p ∈ deliveredTo st1 d ((List.range cfg.ba.length).flatMap (gridTriples nm)) :=
    ((arrivalOrder_perm cfg nm _ (hdm d hd) hdm).flatMap_right _).mem_iff
  rw [hpm, mem_deliveredTo]
  constructor
  · rintro ⟨⟨s, i, d'⟩, ht, rfl, hp⟩
    obtain ⟨hs, hi1, hi2, hd'⟩ := (mem_allTriples cfg nm _).1 ht
    simp only at hs hi1 hi2 hd' hp
    obtain ⟨bl, hbl, -, -⟩ := buildNeighborMaskGrid_ok cfg s _
      (buildNeighborMask_grid cfg nm hnm s hs)
    obtain ⟨-, hlen, -⟩ := table_getD cfg nm hnm s hs bl hbl
    obtain ⟨hreal, hget⟩ := (mem_runOf_iff cfg nm st1 s (hslot s hs) i hi2 p).1 hp
    have hk : i - 1 < bl.length := by omega
    have hcast : ((i : Int) - 1) = ((i - 1 : Nat) : Int) := by omega
    rw [hcast] at hget
    have := (mask_get_iff cfg nm hnm hdim hn s hs (hboxes s hs).1 (hboxes s hs).2 bl hbl _
      (length_cellOf cfg hdom p) (i - 1) hk).1 hget
    exact ⟨s, hs, (hperm s hs).mem_iff.1 hreal, bl, hbl, i - 1, hk, this.1, hd'⟩
  · rintro ⟨s, hs, hreal, bl, hbl, k, hk, hc, hd'⟩
    obtain ⟨-, hlen, -⟩ := table_getD cfg nm hnm s hs bl hbl
    refine ⟨(s, k + 1, d), (mem_allTriples cfg nm _).2 ⟨hs, by simp, by simp; omega, hd'⟩, rfl, ?_⟩
    rw [mem_runOf_iff cfg nm st1 s (hslot s hs) (k + 1) (by omega) p]
    refine ⟨(hperm s hs).mem_iff.2 hreal, ?_⟩
    have hcast : (((k + 1 : Nat) : Int) - 1) = (k : Int) := by omega
    rw [hcast]
    exact (mask_get_iff cfg nm hnm hdim hn s hs (hboxes s hs).1 (hboxes s hs).2 bl hbl _
      (length_cellOf cfg hdom p) k hk).2 ⟨hc, List.ne_nil_of_mem hd'⟩

theorem codesOf_contains (cfg : Config) (mask : BaseFab) (ps : List ParticleType)
    (codes : List Int) (h : codesOf cfg mask ps = .ok codes) (p : ParticleType) (hp : p ∈ ps) :
    mask.box.contains (cellOf cfg p) = true := by
  have hf := (codesOf_ok_iff cfg mask ps codes).1 h
  obtain ⟨j, hj, rfl⟩ := List.getElem_of_mem hp
  have hj' : j < codes.length := by rw [← hf.length_eq]; exact hj
  have hc := hf.get hj hj'
  simp only [List.get_eq_getElem] at hc
  unfold BaseFab.get at hc
  split at hc
  · assumption
  · simp at hc

/-! ### No grid is its own neighbour -/

/-- C20. After `buildNeighborMask`, no entry of the table of a grid lists the
grid itself: for every grid `g` and every code `c`, `g` does not occur in
`m_grid_map[g][c]`, whatever the periodicity; so no export of
`updateNeighbors` has a grid as source and as destination. -/
theorem C20_no_self_neighbor (cfg : Config) (nm : NeighborMask)
    (h : buildNeighborMask cfg = .ok nm) :
    (∀ g c, g ∉ (nm.m_grid_map g).getD c []) ∧
      ∀ g t, t ∈ gridTriples nm g → t.1 = g ∧ t.2.2 ≠ g := by
  have key : ∀ g c, g ∉ (nm.m_grid_map g).getD c [] := by
    intro g c hg
    obtain ⟨-, bl, -, -, ibox, hmem, -⟩ := mem_table_entry cfg nm h g c g hg
    obtain ⟨pit, -, -, hne, -⟩ := (mem_neighborGrids cfg g (g, ibox)).1 hmem
    exact hne rfl
  refine ⟨key, fun g t ht => ?_⟩
  simp only [gridTriples, codeTriples, List.mem_flatMap, List.mem_map] at ht
  obtain ⟨i, -, d, hd, rfl⟩ := ht
  exact ⟨rfl, fun e => key g (i - 1) (e ▸ hd)⟩

set_option maxRecDepth 100000 in
/-- Witness of C20: in the periodic domain of a single grid, the grid shifted by
the period meets the grid grown by the shell, and yet the two entries of the
table are empty and `fillNeighbors` leaves the grid without a ghost. -/
theorem C20_no_self_neighbor_witness :
    (((periodicOne.ba.getD 0 default).shift [10]).intersect
        ((periodicOne.ba.getD 0 default).grow periodicOne.ncells)).ok = true ∧
      tableAt periodicOne 0 = .ok [[], []] ∧
      idsAfterFill periodicOne (onlyGridZero [particleAt 7 [9]]) 1 0 = .ok ([7], []) ∧
      (0 ∉ ((valueOr noMask (buildNeighborMask periodicOne)).m_grid_map 0).getD 0 []) :=
  ⟨by decide, by decide, by decide,
    (C20_no_self_neighbor periodicOne (valueOr noMask (buildNeighborMask periodicOne))
      (eq_ok_of_isOk _ _ (by decide))).1 0 0⟩

/-! ### The test before the size exchange -/

theorem foldl_max_zero_iff (l : List Nat) : l.foldl max 0 = 0 ↔ l.sum = 0 := by
  constructor
  · intro h
    exact List.sum_eq_zero fun x hx => foldl_max_eq_zero l h x hx
  · intro h
    have hall : ∀ x, x ∈ l → x = 0 := fun x hx => by
      have := le_sum_of_mem_nat l x hx
      omega
    clear h
    induction l with
    | nil => rfl
    | cons y ys ih =>
      have hy := hall y (List.mem_cons_self _ _)
      subst hy
      simpa using ih fun x hx => hall x (List.mem_cons_of_mem _ hx)

/-- C19. The number that `fillNeighborsMPIGPU` tests, the largest over the ranks
of the bytes a rank has to send, is zero exactly when the bytes that all ranks
together have to send are zero; and `fillNeighborsMPIGPU` returns at the test,
leaving the particle data as it is, exactly in that case: otherwise it goes on
to the size exchange, the receives, the sends and the unpack. -/
theorem C19_skip_iff_nothing_to_send (cfg : Config) (sends : Nat → SendMap) :
    (numSndsMax cfg sends = 0 ↔ totalSnds cfg sends = 0) ∧
      ∀ myProc st, fillNeighborsMPIGPU cfg myProc sends st =
        if (sends myProc).keys.any (fun who => decide (cfg.nprocs ≤ who)) then
          .error .undefined
        else if totalSnds cfg sends = 0 then .ok st
        else exchangeAfterTest cfg myProc sends st := by
  have hiff : numSndsMax cfg sends = 0 ↔ totalSnds cfg sends = 0 := foldl_max_zero_iff _
  refine ⟨hiff, fun myProc st => ?_⟩
  have e : fillNeighborsMPIGPU cfg myProc sends st =
      if (sends myProc).keys.any (fun who => decide (cfg.nprocs ≤ who)) then
        .error .undefined
      else if numSndsMax cfg sends = 0 then .ok st
      else exchangeAfterTest cfg myProc sends st := rfl
  rw [e]
  by_cases h0 : totalSnds cfg sends = 0
  · rw [if_pos h0, if_pos (hiff.2 h0)]
  · rw [if_neg h0, if_neg (fun h => h0 (hiff.1 h))]

/-! ### Senders, offsets and total of the receive buffer -/

theorem sum_filter_pos (c : Nat → Nat) (l : List Nat) :
    ((l.filter fun i => decide (0 < c i)).map c).sum = (l.map c).sum := by
  induction l with
  | nil => rfl
  | cons x xs ih =>
    by_cases hx : 0 < c x
    · simp [List.filter_cons, hx, ih]
    · have : c x = 0 := by omega
      simp [List.filter_cons, hx, ih, this]

theorem sum_range_getD (l : List Nat) (m : Nat) :
    ((List.range m).map fun i => l.getD i 0).sum = (l.take m).sum := by
  induction m with
  | zero => simp
  | succ m ih =>
    rw [List.range_succ, List.map_append, List.sum_append, ih, List.take_succ]
    simp only [List.map_cons, List.map_nil, List.sum_cons, List.sum_nil, Nat.add_zero,
      List.sum_append]
    congr 1
    cases h : l[m]? with
    | none => simp [List.getD_eq_getElem?_getD, h]
    | some v => simp [List.getD_eq_getElem?_getD, h]

theorem take_filter_range (p : Nat → Bool) (n : Nat) :
    ∀ k, k < ((List.range n).filter p).length →
      ((List.range n).filter p).take k
        = (List.range (((List.range n).filter p).getD k 0)).filter p := by
  induction n with
  | zero => intro k hk; simp at hk
  | succ n ih =>
    intro k hk
    rw [List.range_succ, List.filter_append] at hk ⊢
    by_cases hlt : k < ((List.range n).filter p).length
    · rw [List.take_append_of_le_length (by omega), ih k hlt]
      congr 2
      simp only [List.getD_eq_getElem?_getD]
      rw [List.getElem?_append_left hlt]
    · have hk' : k = ((List.range n).filter p).length := by
        simp only [List.length_append] at hk
        have : ([n].filter p).length ≤ 1 := by
          by_cases hp : p n <;> simp [List.filter_cons, hp]
        omega
      have hp : p n = true := by
        by_contra hp
        simp [List.filter_cons, hp] at hk
        omega
      subst hk'
      rw [List.take_left]
      congr 2
      simp [List.getD_eq_getElem?_getD, List.filter_cons, hp]

theorem sum_take_succ (l : List Nat) (k : Nat) (hk : k < l.length) :
    (l.take (k + 1)).sum = (l.take k).sum + l.getD k 0 := by
  rw [List.take_succ, List.sum_append, List.getD_eq_getElem?_getD,
    List.getElem?_eq_getElem hk]
  simp

theorem sum_take_mono (l : List Nat) (j k : Nat) (hjk : j ≤ k) :
    (l.take j).sum ≤ (l.take k).sum := by
  induction k with
  | zero =>
    have : j = 0 := by omega
    subst this
    exact Nat.le_refl _
  | succ k ih =>
    rcases Nat.eq_or_lt_of_le hjk with rfl | hlt
    · exact Nat.le_refl _
    · have := ih (by omega)
      by_cases hk : k < l.length
      · rw [sum_take_succ l k hk]
        omega
      · rw [List.take_of_length_le (show l.length ≤ k + 1 by omega)]
        rw [List.take_of_length_le (show l.length ≤ k by omega)] at this
        exact this

/-- C18. For every vector `Rcvs` of announced byte counts, the layout loop of
`fillNeighborsMPIGPU` lists in `RcvProc` the ranks with a positive count, in
increasing order; gives each of them as offset the sum of the counts of all
lower ranks; and ends with `TotRcvBytes` equal to the sum of all counts. So the
first offset is `0`, every range `[offset, offset + count)` ends where the next
one starts, the last one ends at `TotRcvBytes`, and no two ranges overlap. -/
theorem C18_receive_layout (Rcvs : List Nat) :
    (recvLayout Rcvs).1
        = (List.range Rcvs.length).filter (fun i => decide (0 < Rcvs.getD i 0)) ∧
      List.Sorted (fun a b => a < b) (recvLayout Rcvs).1 ∧
      (recvLayout Rcvs).2.1.length = (recvLayout Rcvs).1.length ∧
      (recvLayout Rcvs).2.2 = Rcvs.sum ∧
      (∀ k, k < (recvLayout Rcvs).1.length →
        (recvLayout Rcvs).2.1.getD k 0 = (Rcvs.take ((recvLayout Rcvs).1.getD k 0)).sum) ∧
      (0 < (recvLayout Rcvs).1.length → (recvLayout Rcvs).2.1.getD 0 0 = 0) ∧
      (∀ k, k + 1 < (recvLayout Rcvs).1.length →
        (recvLayout Rcvs).2.1.getD k 0 + Rcvs.getD ((recvLayout Rcvs).1.getD k 0) 0
          = (recvLayout Rcvs).2.1.getD (k + 1) 0) ∧
      (∀ k, k + 1 = (recvLayout Rcvs).1.length →
        (recvLayout Rcvs).2.1.getD k 0 + Rcvs.getD ((recvLayout Rcvs).1.getD k 0) 0
          = (recvLayout Rcvs).2.2) ∧
      (∀ j k, j < k → k < (recvLayout Rcvs).1.length →
        (recvLayout Rcvs).2.1.getD j 0 + Rcvs.getD ((recvLayout Rcvs).1.getD j 0) 0
          ≤ (recvLayout Rcvs).2.1.getD k 0) := by
  rw [recvLayout_eq]
  simp only
  generalize hF : (List.range Rcvs.length).filter (fun i => decide (0 < Rcvs.getD i 0)) = F
  have hlen : (F.map fun i => Rcvs.getD i 0).length = F.length := List.length_map _ _
  have hoff : ∀ k, k < F.length →
      (offsetsFrom 0 (F.map fun i => Rcvs.getD i 0)).getD k 0
        = ((F.map fun i => Rcvs.getD i 0).take k).sum := fun k hk => by
    rw [offsetsFrom_getD _ _ _ (by omega), Nat.zero_add]
  have hget : ∀ k, k < F.length →
      (F.map fun i => Rcvs.getD i 0).getD k 0 = Rcvs.getD (F.getD k 0) 0 := fun k hk => by
    simp [List.getD_eq_getElem?_getD, List.getElem?_map, List.getElem?_eq_getElem hk]
  have hol : ∀ (lens : List Nat) (T : Nat), (offsetsFrom T lens).length = lens.length := by
    intro lens
    induction lens with
    | nil => intro T; rfl
    | cons x xs ih => intro T; simp [offsetsFrom, ih]
  have hstep : ∀ k, k < F.length →
      (offsetsFrom 0 (F.map fun i => Rcvs.getD i 0)).getD k 0 + Rcvs.getD (F.getD k 0) 0
        = ((F.map fun i => Rcvs.getD i 0).take (k + 1)).sum := fun k hk => by
    rw [hoff k hk, sum_take_succ _ k (by omega), hget k hk]
  refine ⟨trivial, ?_, ?_, ?_, ?_, ?_, ?_, ?_, ?_⟩
  · rw [← hF]
    exact List.Pairwise.filter _ (List.pairwise_lt_range _)
  · rw [hol, hlen]
  · rw [← hF, sum_filter_pos (fun i => Rcvs.getD i 0), sum_range_getD, List.take_length]
  · intro k hk
    rw [hoff k hk, ← List.map_take, ← hF,
      take_filter_range (fun i => decide (0 < Rcvs.getD i 0)) _ k (by rw [hF]; exact hk),
      sum_filter_pos (fun i => Rcvs.getD i 0), sum_range_getD]
  · intro h0
    rw [hoff 0 h0]
    rfl
  · intro k hk
    rw [hstep k (by omega), hoff (k + 1) hk]
  · intro k hk
    rw [hstep k (by omega), List.take_of_length_le (by omega)]
  · intro j k hjk hk
    rw [hstep j (by omega), hoff k hk]
    exact sum_take_mono _ _ _ (by omega)

/-! ### A single rank -/

theorem gridCounts_count (cfg : Config) (nm : NeighborMask) (r w : Nat) :
    gridCounts cfg nm r w
      = ((rankTriples cfg nm r).map fun t => t.2.2).countP
          (fun d => decide (cfg.dmap d = w ∧ w ≠ r)) := by
  have e : gridCounts cfg nm r =
      ((localGrids cfg r).flatMap fun s =>
        ((List.range (nm.m_grid_map s).length).map fun k => k + 1).flatMap fun i =>
          (nm.m_grid_map s).getD (i - 1) []).foldl
        (fun gc dst_grid =>
          if cfg.dmap dst_grid ≠ r then
            Function.update gc (cfg.dmap dst_grid) (gc (cfg.dmap dst_grid) + 1)
          else gc) (fun _ => 0) := by
    unfold gridCounts
    rw [← foldl_flatMap_eq]
    congr 1
    funext gc s
    rw [← foldl_flatMap_eq]
  have hm : (rankTriples cfg nm r).map (fun t => t.2.2) =
      (localGrids cfg r).flatMap fun s =>
        ((List.range (nm.m_grid_map s).length).map fun k => k + 1).flatMap fun i =>
          (nm.m_grid_map s).getD (i - 1) [] := by
    simp only [rankTriples, gridTriples, codeTriples, List.map_flatMap, List.map_map]
    congr 1
    funext s
    congr 1
    funext i
    simp [Function.comp_def]
  rw [e, countStep_foldl, ← hm]
  simp only [Nat.zero_add]

theorem copyOrPack_keeps_sends (cfg : Config) (r : Nat) (gc : Nat → Nat) (src : Nat)
    (start stop : Int) (n : Nat) (ps ps' : PackState) (d : Nat) (hd : cfg.dmap d = r)
    (h : copyOrPack cfg r gc src start stop n ps d = .ok ps') : ps'.not_ours = ps.not_ours := by
  unfold copyOrPack at h
  simp only [hd, if_true] at h
  split at h
  · exact absurd h (by simp)
  · simp only [Except.ok.injEq] at h
    rw [← h]

theorem exportGrid_keeps_sends (cfg : Config) (nm : NeighborMask) (r : Nat) (gc : Nat → Nat)
    (hown : ∀ s k d, d ∈ (nm.m_grid_map s).getD k [] → cfg.dmap d = r)
    (ps ps' : PackState) (src : Nat)
    (h : exportGrid cfg nm r gc ps src = .ok ps') : ps'.not_ours = ps.not_ours := by
  unfold exportGrid at h
  refine forEach_rel _ (fun a b : PackState => b.not_ours = a.not_ours) (fun _ => rfl)
    (fun a b c h1 h2 => h2.trans h1) _ ?_ ps ps' h
  intro s i s' _ hs
  unfold exportCode at hs
  split at hs
  · refine forEach_rel _ (fun a b : PackState => b.not_ours = a.not_ours) (fun _ => rfl)
      (fun a b c h1 h2 => h2.trans h1) _ ?_ s s' hs
    intro a d a' hd ha
    exact copyOrPack_keeps_sends cfg r gc src _ _ _ a a' d (hown _ _ _ hd) ha
  · exact absurd hs (by simp)

theorem updateNeighborsPack_keeps_sends (cfg : Config) (nm : NeighborMask) (r : Nat)
    (hown : ∀ s k d, d ∈ (nm.m_grid_map s).getD k [] → cfg.dmap d = r)
    (st : ParticleState) (ps : PackState)
    (h : updateNeighborsPack cfg nm r st = .ok ps) :
    ps.not_ours.keys = [] ∧ ∀ w, ps.not_ours.buf w = [] := by
  unfold updateNeighborsPack at h
  have := forEach_rel _ (fun a b : PackState => b.not_ours = a.not_ours) (fun _ => rfl)
    (fun a b c h1 h2 => h2.trans h1) _
    (fun s g s' _ hs => exportGrid_keeps_sends cfg nm r _ hown s s' g hs) _ ps h
  rw [this]
  exact ⟨rfl, fun _ => rfl⟩

/-- C12: with a single rank (`nprocs = 1`, the calling rank is `0`) that owns
every grid listed in the neighbour table, `updateNeighbors` takes the local
path only: `grid_counts` is `0` for every rank, the part of the rank that
copies and packs leaves `not_ours` without a key and without a byte for any
rank, the assertion `not_ours.empty()` holds, and the outcome of
`updateNeighbors` is the outcome of that part alone, without the exchange
`fillNeighborsMPIGPU`; this for every mask, table and particle data. -/
theorem C12_single_rank_local_only (cfg : Config) (nm : NeighborMask) (st : ParticleState)
    (h1 : cfg.nprocs = 1)
    (hown : ∀ s k d, d ∈ (nm.m_grid_map s).getD k [] → cfg.dmap d = 0) :
    (∀ w, gridCounts cfg nm 0 w = 0) ∧
      (∀ ps, updateNeighborsPack cfg nm 0 st = .ok ps →
        ps.not_ours.keys = [] ∧ ∀ w, ps.not_ours.buf w = []) ∧
      updateNeighbors cfg nm st =
        match updateNeighborsPack cfg nm 0 st with
        | .ok ps => .ok ps.st
        | .error e => .error e := by
  refine ⟨?_, fun ps h => updateNeighborsPack_keeps_sends cfg nm 0 hown st ps h, ?_⟩
  · intro w
    rw [gridCounts_count, List.countP_eq_zero]
    intro d hd
    simp only [List.mem_map] at hd
    obtain ⟨t, ht, rfl⟩ := hd
    obtain ⟨_, _, _, hmem⟩ := mem_rankTriples cfg nm 0 t ht
    have := hown _ _ _ hmem
    simp only [decide_eq_true_eq, not_and, not_not]
    intro e
    rw [← e, this]
  · unfold updateNeighbors packAll
    rw [h1]
    have hr : List.range 1 = [0] := rfl
    rw [hr]
    simp only [forEach, packStep]
    cases hp : updateNeighborsPack cfg nm 0 st with
    | error e => rfl
    | ok ps =>
      have hk := (updateNeighborsPack_keeps_sends cfg nm 0 hown st ps hp).1
      simp [hk]

theorem C12_single_rank_local_only_witness :
    (twoGrids 1 fun _ => 0).nprocs = 1 ∧
      (∀ s k d, d ∈ (faceTable.m_grid_map s).getD k [] → (twoGrids 1 fun _ => 0).dmap d = 0) ∧
      ((∀ w, gridCounts (twoGrids 1 fun _ => 0) faceTable 0 w = 0) ∧
        (∀ ps, updateNeighborsPack (twoGrids 1 fun _ => 0) faceTable 0 sortedPair = .ok ps →
          ps.not_ours.keys = [] ∧ ∀ w, ps.not_ours.buf w = []) ∧
        updateNeighbors (twoGrids 1 fun _ => 0) faceTable sortedPair =
          match updateNeighborsPack (twoGrids 1 fun _ => 0) faceTable 0 sortedPair with
          | .ok ps => .ok ps.st
          | .error e => .error e) :=
  ⟨rfl, fun _ _ _ _ => rfl,
    C12_single_rank_local_only (twoGrids 1 fun _ => 0) faceTable sortedPair rfl
      (fun _ _ _ _ => rfl)⟩

/-! ### Consistency of the mask and the table -/

/-- C16. After `buildNeighborMask`, for every grid `g` of the box array, with
`bl` the boundary boxes of the grid: the table has one entry per boundary box;
every value of the mask is `-1` or a code `c` below the length of the table
whose entry is not empty and whose boundary box holds the cell; the entry of a
code `c` lists exactly the grids of `neighbor_grids` whose intersection box
meets the boundary box `c`; and a boundary box that meets no intersection box
has an empty entry, is the value of no cell, and, the boundary boxes being
disjoint for a shell depth of at least `1`, leaves `-1` in its cells. -/
theorem C16_mask_table_consistent (cfg : Config) (nm : NeighborMask) (g : Nat)
    (hg : g < cfg.ba.length) (h : buildNeighborMask cfg = .ok nm) :
    ∃ bl, getBoundaryBoxes cfg.dim ((cfg.ba.getD g default).grow (-cfg.ncells)) cfg.ncells
        = .ok bl ∧
      (nm.m_grid_map g).length = bl.length ∧
      (∀ iv : IntVect, (nm.m_neighbor_mask g).val iv = -1 ∨
        ∃ c : Nat, (nm.m_neighbor_mask g).val iv = (c : Int) ∧ c < (nm.m_grid_map g).length ∧
          (nm.m_grid_map g).getD c [] ≠ [] ∧ (bl.getD c default).contains iv = true) ∧
      (∀ c, c < bl.length → ∀ d, d ∈ (nm.m_grid_map g).getD c [] ↔
        ∃ ibox, (d, ibox) ∈ neighborGrids cfg g ∧
          ((bl.getD c default).intersect ibox).ok = true) ∧
      ∀ c, c < bl.length →
        (∀ p, p ∈ neighborGrids cfg g → ((bl.getD c default).intersect p.2).ok = false) →
        (nm.m_grid_map g).getD c [] = [] ∧
          (∀ iv : IntVect, (nm.m_neighbor_mask g).val iv ≠ (c : Int)) ∧
          (1 ≤ cfg.ncells → (cfg.ba.getD g default).smallend.length = cfg.dim →
            (cfg.ba.getD g default).bigend.length = cfg.dim →
            ∀ iv : IntVect, iv.length = cfg.dim → (bl.getD c default).contains iv = true →
              (nm.m_neighbor_mask g).val iv = -1) := by
  obtain ⟨bl, hbl, -, -⟩ := buildNeighborMaskGrid_ok cfg g _ (buildNeighborMask_grid cfg nm h g hg)
  obtain ⟨hmask, hlen, htab⟩ := table_getD cfg nm h g hg bl hbl
  have hval : ∀ iv : IntVect, (nm.m_neighbor_mask g).val iv = -1 ∨
      ∃ c : Nat, (nm.m_neighbor_mask g).val iv = (c : Int) ∧ c < (nm.m_grid_map g).length ∧
        (nm.m_grid_map g).getD c [] ≠ [] ∧ (bl.getD c default).contains iv = true := by
    intro iv
    rcases stampFold_val_cases (isecBoxes cfg g) bl bl.length
        { box := cfg.ba.getD g default, val := fun _ => -1 } iv with h0 | ⟨i, hi, h1, h2, h3⟩
    · exact Or.inl (by rw [hmask, h0])
    · refine Or.inr ⟨i, by rw [hmask, h1], by omega, ?_, h3⟩
      rw [htab i hi]
      exact (stamped_iff_entry cfg g bl i).1 h2
  have hentry : ∀ c, c < bl.length → ∀ d, d ∈ (nm.m_grid_map g).getD c [] ↔
      ∃ ibox, (d, ibox) ∈ neighborGrids cfg g ∧
        ((bl.getD c default).intersect ibox).ok = true := by
    intro c hc d
    constructor
    · intro hd
      obtain ⟨-, bl', hbl', -, ibox, hmem, hok⟩ := mem_table_entry cfg nm h g c d hd
      rw [hbl] at hbl'
      simp only [Except.ok.injEq] at hbl'
      subst hbl'
      exact ⟨ibox, hmem, hok⟩
    · rintro ⟨ibox, hmem, hok⟩
      exact mem_table_of_neighbor cfg nm h g hg bl hbl c hc d ibox hmem hok
  refine ⟨bl, hbl, hlen, hval, hentry, fun c hc hnone => ?_⟩
  have hempty : (nm.m_grid_map g).getD c [] = [] := by
    apply List.eq_nil_iff_forall_not_mem.2
    intro d hd
    obtain ⟨ibox, hmem, hok⟩ := (hentry c hc d).1 hd
    rw [hnone _ hmem] at hok
    exact absurd hok (by decide)
  refine ⟨hempty, fun iv hv => ?_, fun hn hlo hhi iv hiv hcont => ?_⟩
  · rcases hval iv with h0 | ⟨c', h1, -, h2, -⟩
    · rw [h0] at hv
      omega
    · rw [hv] at h1
      have : c = c' := by omega
      subst this
      exact h2 hempty
  · rcases hval iv with h0 | ⟨c', -, h1, h2, h3⟩
    · exact h0
    · exfalso
      obtain ⟨hnd, hdisj⟩ : bl.Nodup ∧ ∀ b1 b2, b1 ∈ bl → b2 ∈ bl → ∀ iv : IntVect,
          iv.length = cfg.dim → b1.contains iv = true → b2.contains iv = true → b1 = b2 := by
        obtain ⟨hsz, -, hbl'⟩ := getBoundaryBoxes_ok cfg.dim _ cfg.ncells bl hbl
        have hlo' : ((cfg.ba.getD g default).grow (-cfg.ncells)).smallend.length = cfg.dim :=
          (by simp only [Box.grow, List.length_map]; exact hlo)
        have hhi' : ((cfg.ba.getD g default).grow (-cfg.ncells)).bigend.length = cfg.dim :=
          (by simp only [Box.grow, List.length_map]; exact hhi)
        have hbox := shrunk_nonempty cfg.dim _ cfg.ncells hn hlo hhi hsz
        have hmem : ∀ b, b ∈ bl ↔
            b ∈ rawBoundaryBoxes cfg.dim ((cfg.ba.getD g default).grow (-cfg.ncells))
              cfg.ncells := fun b => by
          rw [hbl']; exact mem_RemoveDuplicates _ _ _
        refine ⟨by rw [hbl']; exact RemoveDuplicates_box_nodup _, ?_⟩
        intro b1 b2 m1 m2 iv hiv c1 c2
        exact raw_disjoint cfg.dim _ cfg.ncells hn hlo' hhi' hbox b1 b2 ((hmem b1).1 m1)
          ((hmem b2).1 m2) iv hiv c1 c2
      have hc' : c' < bl.length := by omega
      have := nodup_getD_inj bl hnd c c' hc hc'
        (hdisj _ _ (getD_mem_box bl c hc) (getD_mem_box bl c' hc') iv hiv hcont h3)
      subst this
      exact h2 hempty

set_option maxRecDepth 100000 in
/-- Witness of C16: grid `0` of two grids of ten cells on one rank, whose low
face box meets no neighbour and whose high face box faces grid `1`. -/
theorem C16_mask_table_consistent_witness :
    ∃ bl, getBoundaryBoxes (twoGrids 1 fun _ => 0).dim
          (((twoGrids 1 fun _ => 0).ba.getD 0 default).grow (-(twoGrids 1 fun _ => 0).ncells)) (twoGrids 1 fun _ => 0).ncells = .ok bl ∧
      ((valueOr noMask (buildNeighborMask (twoGrids 1 fun _ => 0))).m_grid_map 0).length = bl.length ∧
      (∀ iv : IntVect, ((valueOr noMask (buildNeighborMask (twoGrids 1 fun _ => 0))).m_neighbor_mask 0).val iv = -1 ∨
        ∃ c : Nat, ((valueOr noMask (buildNeighborMask (twoGrids 1 fun _ => 0))).m_neighbor_mask 0).val iv = (c : Int) ∧
          c < ((valueOr noMask (buildNeighborMask (twoGrids 1 fun _ => 0))).m_grid_map 0).length ∧
          ((valueOr noMask (buildNeighborMask (twoGrids 1 fun _ => 0))).m_grid_map 0).getD c [] ≠ [] ∧ (bl.getD c default).contains iv = true) ∧
      (∀ c, c < bl.length → ∀ d, d ∈ ((valueOr noMask (buildNeighborMask (twoGrids 1 fun _ => 0))).m_grid_map 0).getD c [] ↔
        ∃ ibox, (d, ibox) ∈ neighborGrids (twoGrids 1 fun _ => 0) 0 ∧
          ((bl.getD c default).intersect ibox).ok = true) ∧
      ∀ c, c < bl.length →
        (∀ p, p ∈ neighborGrids (twoGrids 1 fun _ => 0) 0 → ((bl.getD c default).intersect p.2).ok = false) →
        ((valueOr noMask (buildNeighborMask (twoGrids 1 fun _ => 0))).m_grid_map 0).getD c [] = [] ∧
          (∀ iv : IntVect, ((valueOr noMask (buildNeighborMask (twoGrids 1 fun _ => 0))).m_neighbor_mask 0).val iv ≠ (c : Int)) ∧
          (1 ≤ (twoGrids 1 fun _ => 0).ncells → ((twoGrids 1 fun _ => 0).ba.getD 0 default).smallend.length = (twoGrids 1 fun _ => 0).dim →
            ((twoGrids 1 fun _ => 0).ba.getD 0 default).bigend.length = (twoGrids 1 fun _ => 0).dim →
            ∀ iv : IntVect, iv.length = (twoGrids 1 fun _ => 0).dim → (bl.getD c default).contains iv = true →
              ((valueOr noMask (buildNeighborMask (twoGrids 1 fun _ => 0))).m_neighbor_mask 0).val iv = -1) :=
  C16_mask_table_consistent (twoGrids 1 fun _ => 0) (valueOr noMask (buildNeighborMask (twoGrids 1 fun _ => 0))) 0 (by decide) (eq_ok_of_isOk _ _ (by decide))

/-! ### The run of the interior is not exported -/

theorem upper_le_lower_of_lt (a : List Int) (u v : Int) (huv : u < v)
    (hs : List.Sorted (fun x y => x ≤ y) a) : upper_bound a u ≤ lower_bound a v := by
  obtain ⟨u1, u2⟩ := upper_bound_spec a u hs
  obtain ⟨l1, l2⟩ := lower_bound_spec a v hs
  by_contra h
  have hj : lower_bound a v < a.length := by omega
  have h1 := (u2 _ hj).1 (by omega)
  have h2 := (l2 _ hj).not.1 (by omega)
  omega

/-! ### The exchange only adds ghosts -/

theorem GhostsAdded.added_refl (a : ParticleTile) : GhostsAdded a a :=
  ⟨rfl, rfl, Nat.le_refl _, fun h => ⟨h, [], by simp⟩⟩

theorem GhostsAdded.added_trans {a b c : ParticleTile} (h1 : GhostsAdded a b) (h2 : GhostsAdded b c) :
    GhostsAdded a c := by
  refine ⟨h2.1.trans h1.1, h2.2.1.trans h1.2.1, Nat.le_trans h1.2.2.1 h2.2.2.1, fun h => ?_⟩
  obtain ⟨hb, r1, e1⟩ := h1.2.2.2 h
  obtain ⟨hc, r2, e2⟩ := h2.2.2.2 hb
  exact ⟨hc, r1 ++ r2, by rw [e2, e1, List.append_assoc]⟩

theorem GhostsGrow.grow_refl (a : ParticleState) : GhostsGrow a a :=
  ⟨rfl, rfl, fun _ => GhostsAdded.added_refl _⟩

theorem GhostsGrow.grow_trans {a b c : ParticleState} (h1 : GhostsGrow a b) (h2 : GhostsGrow b c) :
    GhostsGrow a c :=
  ⟨h2.1.trans h1.1, h2.2.1.trans h1.2.1, fun g => (h1.2.2 g).added_trans (h2.2.2 g)⟩

theorem tile_eq_mkTile (t : ParticleTile) (h : t.m_num_neighbor_particles ≤ t.m_data.length) :
    t = mkTile t.realParticles t.ghosts := by
  cases t with
  | mk data n =>
    simp only [mkTile, ParticleTile.realParticles, ParticleTile.ghosts,
      ParticleTile.numRealParticles, List.take_append_drop, List.length_drop,
      ParticleTile.mk.injEq, true_and]
    simp only at h
    omega

theorem ghostsAdded_addNeighbors (t : ParticleTile) (recs : List ParticleType) :
    GhostsAdded t (addNeighbors t recs) := by
  refine ⟨numRealParticles_addNeighbors t recs, realParticles_addNeighbors t recs,
    by simp [addNeighbors, ParticleTile.getNumNeighbors], fun h => ⟨?_, recs, ?_⟩⟩
  · have := length_writeAt_resized t recs
    rw [this]
    simp only [addNeighbors, ParticleTile.getNumNeighbors]
    omega
  · have e := tile_eq_mkTile t h
    have e2 : (addNeighbors t recs).m_data = (t.realParticles ++ t.ghosts) ++ recs := by
      conv_lhs => rw [e, mkTile_addNeighbors]
      simp [mkTile]
    rw [e2, take_append_drop_real]

theorem ghostsGrow_addNeighbors (st : ParticleState) (g : Nat) (recs : List ParticleType) :
    GhostsGrow st
      { st with plev := Function.update st.plev g (addNeighbors (st.plev g) recs) } := by
  refine ⟨rfl, rfl, fun g' => ?_⟩
  by_cases e : g' = g
  · subst e
    simp only [Function.update_same]
    exact ghostsAdded_addNeighbors _ _
  · simp only [Function.update_noteq e]
    exact GhostsAdded.added_refl _

theorem copyOrPack_grow (cfg : Config) (r : Nat) (gc : Nat → Nat) (src : Nat)
    (start stop : Int) (ps ps' : PackState) (dst : Nat)
    (h : copyOrPack cfg r gc src start stop (stop - start).toNat ps dst = .ok ps') :
    GhostsGrow ps.st ps'.st ∧ ∀ g, cfg.dmap g ≠ r → ps'.st.plev g = ps.st.plev g := by
  by_cases hd : cfg.dmap dst = r
  · rw [copyOrPack_local _ _ _ _ _ _ _ _ hd] at h
    split at h
    · simp at h
    · simp only [Except.ok.injEq] at h
      subst h
      refine ⟨ghostsGrow_addNeighbors _ _ _, fun g hg => ?_⟩
      have hgd : g ≠ dst := fun e => hg (e ▸ hd)
      simp [Function.update_noteq hgd]
  · rw [copyOrPack_remote _ _ _ _ _ _ _ _ _ hd] at h
    split at h
    · simp at h
    · simp only [Except.ok.injEq] at h
      subst h
      exact ⟨GhostsGrow.grow_refl _, fun _ _ => rfl⟩

theorem exportGrid_grow (cfg : Config) (nm : NeighborMask) (r : Nat) (gc : Nat → Nat)
    (ps ps' : PackState) (src : Nat) (h : exportGrid cfg nm r gc ps src = .ok ps') :
    GhostsGrow ps.st ps'.st ∧ ∀ g, cfg.dmap g ≠ r → ps'.st.plev g = ps.st.plev g := by
  have hrefl : ∀ s : PackState,
      GhostsGrow s.st s.st ∧ ∀ g, cfg.dmap g ≠ r → s.st.plev g = s.st.plev g :=
    fun s => ⟨GhostsGrow.grow_refl _, fun _ _ => rfl⟩
  have htrans : ∀ a b c : PackState,
      (GhostsGrow a.st b.st ∧ ∀ g, cfg.dmap g ≠ r → b.st.plev g = a.st.plev g) →
      (GhostsGrow b.st c.st ∧ ∀ g, cfg.dmap g ≠ r → c.st.plev g = b.st.plev g) →
      (GhostsGrow a.st c.st ∧ ∀ g, cfg.dmap g ≠ r → c.st.plev g = a.st.plev g) :=
    fun a b c h1 h2 => ⟨h1.1.grow_trans h2.1, fun g hg => (h2.2 g hg).trans (h1.2 g hg)⟩
  unfold exportGrid at h
  refine forEach_rel _ (fun a b : PackState =>
      GhostsGrow a.st b.st ∧ ∀ g, cfg.dmap g ≠ r → b.st.plev g = a.st.plev g)
    hrefl htrans _ ?_ ps ps' h
  intro s i s' _ hs
  unfold exportCode at hs
  split at hs
  · rename_i start stop _ _
    exact forEach_rel _ (fun a b : PackState =>
        GhostsGrow a.st b.st ∧ ∀ g, cfg.dmap g ≠ r → b.st.plev g = a.st.plev g)
      hrefl htrans _
      (fun a d a' _ ha => copyOrPack_grow cfg r gc src start stop a a' d ha) s s' hs
  · exact absurd hs (by simp)

theorem updateNeighborsPack_grow (cfg : Config) (nm : NeighborMask) (r : Nat)
    (st : ParticleState) (ps : PackState) (h : updateNeighborsPack cfg nm r st = .ok ps) :
    GhostsGrow (clearNeighbors cfg r st) ps.st ∧
      ∀ g, cfg.dmap g ≠ r → ps.st.plev g = st.plev g := by
  unfold updateNeighborsPack at h
  have := forEach_rel _ (fun a b : PackState =>
      GhostsGrow a.st b.st ∧ ∀ g, cfg.dmap g ≠ r → b.st.plev g = a.st.plev g)
    (fun s => ⟨GhostsGrow.grow_refl _, fun _ _ => rfl⟩)
    (fun a b c h1 h2 => ⟨h1.1.grow_trans h2.1, fun g hg => (h2.2 g hg).trans (h1.2 g hg)⟩) _
    (fun s g s' _ hs => exportGrid_grow cfg nm r _ s s' g hs) _ ps h
  refine ⟨this.1, fun g hg => ?_⟩
  rw [this.2 g hg]
  simp only
  rw [clearNeighbors_plev, if_neg (fun hm => hg ((mem_localGrids cfg r g).1 hm).2)]

theorem unpackGroups_grow (cfg : Config) (myProc : Nat) (buf : List MemVal) :
    ∀ n pos st st', unpackGroups cfg myProc buf n pos st = .ok st' → GhostsGrow st st' := by
  intro n
  induction n with
  | zero =>
    intro pos st st' h
    simp only [unpackGroups, Except.ok.injEq] at h
    subst h
    exact GhostsGrow.grow_refl _
  | succ n ih =>
    intro pos st st' h
    rw [unpackGroups_step] at h
    cases h1 : readSizeT buf pos with
    | error e => simp [h1] at h
    | ok k =>
      cases h2 : readInt buf (pos + sizeof_size_t) with
      | error e => simp [h1, h2] at h
      | ok gid =>
        cases h3 : readInt buf (pos + sizeof_size_t + sizeof_int) with
        | error e => simp [h1, h2, h3] at h
        | ok pid =>
          simp only [h1, h2, h3] at h
          split at h
          · exact ih _ _ _ h
          · split at h
            · simp at h
            · split at h
              · simp at h
              · cases h4 : readParticles cfg buf k
                    (pos + sizeof_size_t + sizeof_int + sizeof_int) with
                | error e => simp [h4] at h
                | ok records =>
                  simp only [h4] at h
                  exact (ghostsGrow_addNeighbors st gid.toNat records).grow_trans (ih _ _ _ h)

theorem fillNeighborsMPIGPU_grow (cfg : Config) (myProc : Nat) (sends : Nat → SendMap)
    (st st' : ParticleState) (h : fillNeighborsMPIGPU cfg myProc sends st = .ok st') :
    GhostsGrow st st' := by
  unfold fillNeighborsMPIGPU at h
  simp only at h
  split at h
  · simp at h
  · split at h
    · simp only [Except.ok.injEq] at h
      subst h
      exact GhostsGrow.grow_refl _
    · split at h
      · simp at h
      · split at h
        · simp at h
        · split at h
          · simp at h
          · split at h
            · refine forEach_rel _ GhostsGrow (fun s => GhostsGrow.grow_refl _)
                (fun _ _ _ h1 h2 => h1.grow_trans h2) _ (fun s i s' _ hs => ?_) st st' h
              unfold unpackPeer at hs
              simp only at hs
              split at hs
              · simp at hs
              · split at hs
                · simp at hs
                · exact unpackGroups_grow cfg myProc _ _ _ _ _ hs
            · simp only [Except.ok.injEq] at h
              subst h
              exact GhostsGrow.grow_refl _

theorem forEach_nodup_rel {σ : Type} (body : σ → Nat → Except Err σ)
    (Inv : List Nat → σ → Prop) (l : List Nat) (hnd : l.Nodup)
    (hstep : ∀ pre x s s', x ∈ l → x ∉ pre → Inv pre s → body s x = .ok s' →
      Inv (pre ++ [x]) s')
    (pre : List Nat) (hpre : ∀ x, x ∈ l → x ∉ pre) (s s' : σ) (h : Inv pre s)
    (hrun : forEach body l s = .ok s') : Inv (pre ++ l) s' := by
  induction l generalizing pre s with
  | nil =>
    simp only [forEach, Except.ok.injEq] at hrun
    subst hrun
    simpa using h
  | cons x xs ih =>
    simp only [forEach] at hrun
    cases hb : body s x with
    | error e => simp [hb] at hrun
    | ok s1 =>
      simp only [hb] at hrun
      have hnd' := List.nodup_cons.mp hnd
      have := ih hnd'.2
        (fun pre y t t' hy hyp hi ht => hstep pre y t t' (List.mem_cons_of_mem _ hy) hyp hi ht)
        (pre ++ [x])
        (fun y hy hm => by
          rcases List.mem_append.mp hm with hm | hm
          · exact hpre y (List.mem_cons_of_mem _ hy) hm
          · simp only [List.mem_singleton] at hm
            exact hnd'.1 (hm ▸ hy))
        s1 (hstep pre x s s1 (List.mem_cons_self _ _) (hpre x (List.mem_cons_self _ _)) h hb)
        hrun
      simpa [List.append_assoc] using this

theorem clearRanks_plev (cfg : Config) (rs : List Nat) (st : ParticleState) (g : Nat) :
    ((rs.foldl (fun st r => clearNeighbors cfg r st) st).plev g) =
      if g < cfg.ba.length ∧ cfg.dmap g ∈ rs then (st.plev g).setNumNeighbors 0
      else st.plev g := by
  induction rs generalizing st with
  | nil => simp
  | cons r rs ih =>
    simp only [List.foldl_cons, List.mem_cons]
    rw [ih, clearNeighbors_plev]
    by_cases hl : g ∈ localGrids cfg r
    · have hL := (mem_localGrids cfg r g).1 hl
      rw [if_pos hl, setNumNeighbors_zero_idem]
      simp [hL.1, hL.2]
    · rw [if_neg hl]
      have hne : ¬ (g < cfg.ba.length ∧ cfg.dmap g = r) := fun h =>
        hl ((mem_localGrids cfg r g).2 h)
      by_cases hg : g < cfg.ba.length
      · have : cfg.dmap g ≠ r := fun e => hne ⟨hg, e⟩
        simp [hg, this]
      · simp [hg]

theorem clearAll_plev (cfg : Config) (st : ParticleState) (g : Nat) :
    (clearAll cfg st).plev g =
      if g < cfg.ba.length ∧ cfg.dmap g < cfg.nprocs then (st.plev g).setNumNeighbors 0
      else st.plev g := by
  unfold clearAll
  rw [clearRanks_plev]
  simp only [List.mem_range]

theorem packAll_grow (cfg : Config) (nm : NeighborMask) (st : ParticleState) (rs : List Nat)
    (hnd : rs.Nodup) (packed : Packed) (h : packAll cfg nm rs st = .ok packed) :
    packed.st.m_start = st.m_start ∧ packed.st.m_stop = st.m_stop ∧
      ∀ g, GhostsAdded
        (if g < cfg.ba.length ∧ cfg.dmap g ∈ rs then (st.plev g).setNumNeighbors 0
          else st.plev g) (packed.st.plev g) := by
  have key := forEach_nodup_rel (packStep cfg nm)
    (fun done (acc : Packed) =>
      acc.st.m_start = st.m_start ∧ acc.st.m_stop = st.m_stop ∧
        ∀ g, GhostsAdded
            (if g < cfg.ba.length ∧ cfg.dmap g ∈ done then (st.plev g).setNumNeighbors 0
              else st.plev g) (acc.st.plev g) ∧
          (cfg.dmap g ∉ done → acc.st.plev g = st.plev g))
    rs hnd ?_ [] (fun _ _ hm => by simp at hm) _ packed
    ⟨rfl, rfl, fun g => ⟨by simpa using GhostsAdded.added_refl _, fun _ => rfl⟩⟩ h
  · simp only [List.nil_append] at key
    exact ⟨key.1, key.2.1, fun g => (key.2.2 g).1⟩
  · intro done x acc acc' _ hx hinv hstep
    unfold packStep at hstep
    cases hp : updateNeighborsPack cfg nm x acc.st with
    | error e => simp [hp] at hstep
    | ok ps =>
      simp only [hp, Except.ok.injEq] at hstep
      subst hstep
      obtain ⟨hg1, hg2⟩ := updateNeighborsPack_grow cfg nm x acc.st ps hp
      obtain ⟨i1, i2, i3⟩ := hinv
      refine ⟨by rw [hg1.1, clearNeighbors_m_start, i1],
        by rw [hg1.2.1, clearNeighbors_m_stop, i2], fun g => ?_⟩
      simp only [List.mem_append, List.mem_singleton]
      by_cases hgx : cfg.dmap g = x
      · have hnd : cfg.dmap g ∉ done := hgx ▸ hx
        have e := (i3 g).2 hnd
        have hG := hg1.2.2 g
        rw [clearNeighbors_plev, e] at hG
        refine ⟨?_, fun hn => absurd (Or.inr hgx) hn⟩
        by_cases hl : g < cfg.ba.length
        · rw [if_pos ((mem_localGrids cfg x g).2 ⟨hl, hgx⟩)] at hG
          rw [if_pos ⟨hl, Or.inr hgx⟩]
          exact hG
        · rw [if_neg (fun hm => hl ((mem_localGrids cfg x g).1 hm).1)] at hG
          rw [if_neg (fun hh => hl hh.1)]
          exact hG
      · simp only [hgx, or_false]
        rw [hg2 g hgx]
        exact i3 g

/-- C14. The exchange leaves the real segment of every grid as it was and only
adds ghosts. When `updateNeighbors` returns, the runs, the number of real
particles and the real particles of every grid are those before the call, and
the tile of every grid is the tile after the reset of the ghost segments with
records added behind it (`GhostsAdded`). Every local copy and every unpack on a
rank has the same effect on every tile (`GhostsGrow`): the number of real
particles and the real particles are unchanged, the ghost count does not
decrease, and the array is the array before followed by the new records, which
thus lie at the positions from `numReal + ghost count` on. -/
theorem C14_exchange_keeps_real_segment (cfg : Config) (nm : NeighborMask)
    (st st' : ParticleState) (h : updateNeighbors cfg nm st = .ok st') :
    (st'.m_start = st.m_start ∧ st'.m_stop = st.m_stop ∧
      ∀ g, (st'.plev g).numRealParticles = (st.plev g).numRealParticles ∧
        (st'.plev g).realParticles = (st.plev g).realParticles ∧
        GhostsAdded ((clearAll cfg st).plev g) (st'.plev g)) ∧
      (∀ r gc src start stop ps ps' d,
        copyOrPack cfg r gc src start stop (stop - start).toNat ps d = .ok ps' →
          GhostsGrow ps.st ps'.st) ∧
      ∀ r sends s s', fillNeighborsMPIGPU cfg r sends s = .ok s' → GhostsGrow s s' := by
  refine ⟨?_, fun r gc src start stop ps ps' d hc =>
      (copyOrPack_grow cfg r gc src start stop ps ps' d hc).1,
    fun r sends s s' hf => fillNeighborsMPIGPU_grow cfg r sends s s' hf⟩
  unfold updateNeighbors at h
  cases hp : packAll cfg nm (List.range cfg.nprocs) st with
  | error e => simp [hp] at h
  | ok packed =>
    simp only [hp] at h
    obtain ⟨p1, p2, p3⟩ := packAll_grow cfg nm st _ (List.nodup_range _) packed hp
    have hgrow : GhostsGrow packed.st st' := by
      split at h
      · split at h
        · simp only [Except.ok.injEq] at h
          subst h
          exact GhostsGrow.grow_refl _
        · simp at h
      · exact forEach_rel _ GhostsGrow (fun s => GhostsGrow.grow_refl _)
          (fun _ _ _ h1 h2 => h1.grow_trans h2) _
          (fun s r s' _ hs => fillNeighborsMPIGPU_grow cfg r packed.sends s s' hs) _ _ h
    have hall : ∀ g, GhostsAdded ((clearAll cfg st).plev g) (st'.plev g) := fun g => by
      have := (p3 g).added_trans (hgrow.2.2 g)
      rw [clearAll_plev]
      simpa only [List.mem_range] using this
    refine ⟨hgrow.1.trans p1, hgrow.2.1.trans p2, fun g => ?_⟩
    have hc := hall g
    have hf := (clearAll_frame cfg st).2.2.1 g
    exact ⟨hc.1.trans hf.2, hc.2.1.trans hf.1, hc⟩

set_option maxRecDepth 100000 in
/-- Witness of C14: two grids of ten cells on two ranks, where the particle `7`
of grid `0` reaches grid `1` in a message and the particle `8` of grid `1`
reaches grid `0`. -/
theorem C14_exchange_keeps_real_segment_witness :
    ((valueOr emptyState (updateNeighbors (twoGrids 2 fun g => g) faceTable sortedPair)).m_start = sortedPair.m_start ∧ (valueOr emptyState (updateNeighbors (twoGrids 2 fun g => g) faceTable sortedPair)).m_stop = sortedPair.m_stop ∧
      ∀ g, ((valueOr emptyState (updateNeighbors (twoGrids 2 fun g => g) faceTable sortedPair)).plev g).numRealParticles = (sortedPair.plev g).numRealParticles ∧
        ((valueOr emptyState (updateNeighbors (twoGrids 2 fun g => g) faceTable sortedPair)).plev g).realParticles = (sortedPair.plev g).realParticles ∧
        GhostsAdded ((clearAll (twoGrids 2 fun g => g) sortedPair).plev g) ((valueOr emptyState (updateNeighbors (twoGrids 2 fun g => g) faceTable sortedPair)).plev g)) ∧
      (∀ r gc src start stop ps ps' d,
        copyOrPack (twoGrids 2 fun g => g) r gc src start stop (stop - start).toNat ps d = .ok ps' →
          GhostsGrow ps.st ps'.st) ∧
      ∀ r sends s s', fillNeighborsMPIGPU (twoGrids 2 fun g => g) r sends s = .ok s' → GhostsGrow s s' :=
  C14_exchange_keeps_real_segment (twoGrids 2 fun g => g) faceTable sortedPair (valueOr emptyState (updateNeighbors (twoGrids 2 fun g => g) faceTable sortedPair))
    (eq_ok_of_isOk _ _ (by decide))

/-! ### The reset commutes with the sort and with the packing of other ranks -/

theorem copyOrPack_simOn (cfg : Config) (r : Nat) (gc : Nat → Nat) (src : Nat)
    (start stop : Int) (a b : PackState) (dst : Nat) (hsrc : cfg.dmap src = r)
    (hab : SameOn (fun g => cfg.dmap g = r) a.st b.st ∧ a.not_ours = b.not_ours) :
    ExceptRel (fun a b : PackState =>
        SameOn (fun g => cfg.dmap g = r) a.st b.st ∧ a.not_ours = b.not_ours)
      (copyOrPack cfg r gc src start stop (stop - start).toNat a dst)
      (copyOrPack cfg r gc src start stop (stop - start).toNat b dst) := by
  obtain ⟨⟨hs, ht, hp⟩, hn⟩ := hab
  by_cases hd : cfg.dmap dst = r
  · rw [copyOrPack_local _ _ _ _ _ _ _ _ hd, copyOrPack_local _ _ _ _ _ _ _ _ hd]
    have e1 : (Function.update a.st.plev dst
          ((a.st.plev dst).setNumNeighbors
            ((a.st.plev dst).getNumNeighbors + (stop - start).toNat))) src
        = (Function.update b.st.plev dst
          ((b.st.plev dst).setNumNeighbors
            ((b.st.plev dst).getNumNeighbors + (stop - start).toNat))) src := by
      by_cases hsd : src = dst
      · subst hsd
        simp [hp src hsrc]
      · simp [Function.update_noteq hsd, hp src hsrc]
    rw [e1]
    cases hr : recordsBetween _ start stop with
    | error e => simp [ExceptRel]
    | ok recs =>
      simp only [ExceptRel]
      refine ⟨⟨hs, ht, fun g hg => ?_⟩, hn⟩
      by_cases hgd : g = dst
      · subst hgd
        simp [hp g hg]
      · simp [Function.update_noteq hgd, hp g hg]
  · rw [copyOrPack_remote _ _ _ _ _ _ _ _ _ hd, copyOrPack_remote _ _ _ _ _ _ _ _ _ hd,
      hp src hsrc, hn]
    cases recordsBetween (b.st.plev src).m_data start stop with
    | error e => simp [ExceptRel]
    | ok recs =>
      simp only [ExceptRel]
      exact ⟨⟨hs, ht, hp⟩, trivial⟩

theorem exportGrid_simOn (cfg : Config) (nm : NeighborMask) (r : Nat) (gc : Nat → Nat)
    (a b : PackState) (src : Nat) (hsrc : cfg.dmap src = r)
    (hab : SameOn (fun g => cfg.dmap g = r) a.st b.st ∧ a.not_ours = b.not_ours) :
    ExceptRel (fun a b : PackState =>
        SameOn (fun g => cfg.dmap g = r) a.st b.st ∧ a.not_ours = b.not_ours)
      (exportGrid cfg nm r gc a src) (exportGrid cfg nm r gc b src) := by
  refine forEach_sim _ _ _ (fun a b i _ hab => ?_) a b hab
  unfold exportCode
  rw [hab.1.1, hab.1.2.1]
  cases (b.st.m_start src)[i]? with
  | none => simp [ExceptRel]
  | some start =>
    cases (b.st.m_stop src)[i]? with
    | none => simp [ExceptRel]
    | some stop =>
      exact forEach_sim _ _ _
        (fun a b dst _ hab => copyOrPack_simOn cfg r gc src start stop a b dst hsrc hab) a b hab

theorem exchangePack_simOn (cfg : Config) (nm : NeighborMask) (r : Nat)
    (a b : ParticleState) (h : SameOn (fun g => cfg.dmap g = r) a b) :
    ExceptRel (fun a b : PackState =>
        SameOn (fun g => cfg.dmap g = r) a.st b.st ∧ a.not_ours = b.not_ours)
      (exchangePack cfg nm r a) (exchangePack cfg nm r b) :=
  forEach_sim _ _ _
    (fun a b src hsrc hab => exportGrid_simOn cfg nm r _ a b src
      ((mem_localGrids cfg r src).1 hsrc).2 hab) _ _ ⟨h, rfl⟩

theorem exchangePack_grow (cfg : Config) (nm : NeighborMask) (r : Nat)
    (st : ParticleState) (ps : PackState) (h : exchangePack cfg nm r st = .ok ps) :
    ps.st.m_start = st.m_start ∧ ps.st.m_stop = st.m_stop ∧
      ∀ g, cfg.dmap g ≠ r → ps.st.plev g = st.plev g := by
  unfold exchangePack at h
  have := forEach_rel _ (fun a b : PackState =>
      GhostsGrow a.st b.st ∧ ∀ g, cfg.dmap g ≠ r → b.st.plev g = a.st.plev g)
    (fun s => ⟨GhostsGrow.grow_refl _, fun _ _ => rfl⟩)
    (fun a b c h1 h2 => ⟨h1.1.grow_trans h2.1, fun g hg => (h2.2 g hg).trans (h1.2 g hg)⟩) _
    (fun s g s' _ hs => exportGrid_grow cfg nm r _ s s' g hs) _ ps h
  exact ⟨this.1.1, this.1.2.1, this.2⟩

theorem clearRanks_runs (cfg : Config) (rs : List Nat) (st : ParticleState) :
    (rs.foldl (fun st r => clearNeighbors cfg r st) st).m_start = st.m_start ∧
      (rs.foldl (fun st r => clearNeighbors cfg r st) st).m_stop = st.m_stop := by
  induction rs generalizing st with
  | nil => exact ⟨rfl, rfl⟩
  | cons r rs ih =>
    simp only [List.foldl_cons]
    rw [(ih _).1, (ih _).2, clearNeighbors_m_start, clearNeighbors_m_stop]
    exact ⟨rfl, rfl⟩

theorem state_ext (a b : ParticleState) (h1 : a.m_start = b.m_start) (h2 : a.m_stop = b.m_stop)
    (h3 : ∀ g, a.plev g = b.plev g) : a = b := by
  cases a
  cases b
  simp only at h1 h2 h3
  simp only [ParticleState.mk.injEq]
  exact ⟨funext h3, h1, h2⟩

theorem pack_eq_exchange (cfg : Config) (nm : NeighborMask) (rs : List Nat) (hnd : rs.Nodup) :
    ∀ A B : Packed, B.sends = A.sends →
      B.st = rs.foldl (fun st r => clearNeighbors cfg r st) A.st →
      forEach (packStep cfg nm) rs A = forEach (exchangeStep cfg nm) rs B := by
  induction rs with
  | nil =>
    intro A B hs hst
    simp only [forEach, List.foldl_nil] at hst ⊢
    cases A
    cases B
    simp only at hs hst
    rw [hs, hst]
  | cons x rest ih =>
    intro A B hs hst
    have hnd' := List.nodup_cons.mp hnd
    simp only [List.foldl_cons] at hst
    have hsame : SameOn (fun g => cfg.dmap g = x) (clearNeighbors cfg x A.st) B.st := by
      rw [hst]
      refine ⟨(clearRanks_runs cfg rest _).1.symm, (clearRanks_runs cfg rest _).2.symm,
        fun g hg => ?_⟩
      rw [clearRanks_plev, if_neg (fun hh => hnd'.1 (hg ▸ hh.2))]
    have hsim := exchangePack_simOn cfg nm x _ _ hsame
    simp only [forEach, packStep, exchangeStep]
    have hup : updateNeighborsPack cfg nm x A.st
        = exchangePack cfg nm x (clearNeighbors cfg x A.st) := rfl
    rw [hup]
    cases ha : exchangePack cfg nm x (clearNeighbors cfg x A.st) with
    | error e =>
      cases hb : exchangePack cfg nm x B.st with
      | error e' =>
        rw [ha, hb] at hsim
        simp only [ExceptRel] at hsim
        rw [hsim]
      | ok pb => rw [ha, hb] at hsim; exact absurd hsim (by simp [ExceptRel])
    | ok pa =>
      cases hb : exchangePack cfg nm x B.st with
      | error e' => rw [ha, hb] at hsim; exact absurd hsim (by simp [ExceptRel])
      | ok pb =>
        rw [ha, hb] at hsim
        simp only [ExceptRel] at hsim
        obtain ⟨⟨s1, s2, s3⟩, hno⟩ := hsim
        obtain ⟨a1, a2, a3⟩ := exchangePack_grow cfg nm x _ pa ha
        obtain ⟨b1, b2, b3⟩ := exchangePack_grow cfg nm x _ pb hb
        refine ih hnd'.2 _ _ (by simp only [hs, hno]) ?_
        simp only
        refine state_ext _ _ ?_ ?_ fun g => ?_
        · rw [(clearRanks_runs cfg rest _).1, s1]
        · rw [(clearRanks_runs cfg rest _).2, s2]
        · rw [clearRanks_plev]
          by_cases hg : cfg.dmap g = x
          · rw [if_neg (fun hh => hnd'.1 (hg ▸ hh.2)), s3 g hg]
          · rw [b3 g hg, hst, clearRanks_plev, a3 g hg]

theorem updateNeighbors_eq_exchange (cfg : Config) (nm : NeighborMask) (st : ParticleState) :
    updateNeighbors cfg nm st = exchange cfg nm (clearAll cfg st) := by
  unfold updateNeighbors exchange packAll
  rw [pack_eq_exchange cfg nm (List.range cfg.nprocs) (List.nodup_range _)
    ({ st := st, sends := fun _ => { buf := fun _ => [], keys := [] } } : Packed)
    ({ st := clearAll cfg st, sends := fun _ => { buf := fun _ => [], keys := [] } } : Packed)
    rfl rfl]

theorem clearAll_runs (cfg : Config) (st : ParticleState) :
    (clearAll cfg st).m_start = st.m_start ∧ (clearAll cfg st).m_stop = st.m_stop :=
  clearRanks_runs cfg _ st

theorem forEach_commute {σ β : Type} (body : σ → β → Except Err σ) (F : σ → σ) (l : List β)
    (h : ∀ a x, x ∈ l → body (F a) x = Except.map F (body a x)) :
    ∀ a, forEach body l (F a) = Except.map F (forEach body l a) := by
  induction l with
  | nil => intro a; rfl
  | cons x xs ih =>
    intro a
    simp only [forEach]
    rw [h a x (List.mem_cons_self _ _)]
    cases body a x with
    | error e => rfl
    | ok a1 => exact ih (fun a y hy => h a y (List.mem_cons_of_mem _ hy)) a1

theorem real_of_sorted (t : ParticleTile) (s : List ParticleType)
    (hs : s.length = t.numRealParticles) :
    ({ m_data := s ++ t.m_data.drop t.numRealParticles,
       m_num_neighbor_particles := t.m_num_neighbor_particles } : ParticleTile).realParticles
      = s := by
  have hle := numRealParticles_le t
  simp only [ParticleTile.realParticles, ParticleTile.numRealParticles, List.length_append,
    List.length_drop]
  simp only [ParticleTile.numRealParticles] at hs hle
  rw [List.take_append_of_le_length (by omega), List.take_of_length_le (by omega)]

theorem sortGrid_clearAll (cfg : Config) (nm : NeighborMask) (a : ParticleState) (g : Nat)
    (hg : g ∈ allLocalGrids cfg) :
    sortGrid cfg nm (clearAll cfg a) g = Except.map (clearAll cfg) (sortGrid cfg nm a g) := by
  have hloc := (mem_allLocalGrids cfg g).1 hg
  have ht : (clearAll cfg a).plev g
      = { m_data := (a.plev g).realParticles, m_num_neighbor_particles := 0 } := by
    rw [clearAll_plev, if_pos hloc, setNumNeighbors_zero]
  have hreal : (a.plev g).m_data.take (a.plev g).numRealParticles = (a.plev g).realParticles :=
    rfl
  dsimp only [sortGrid]
  rw [ht, hreal]
  simp only [ParticleTile.numRealParticles, Nat.sub_zero, List.take_length, List.drop_length,
    List.append_nil]
  cases hc : codesOf cfg (nm.m_neighbor_mask g) (a.plev g).realParticles with
  | error e => rfl
  | ok codes =>
    simp only [Except.map, Except.ok.injEq]
    have hlen := codesOf_length _ _ _ _ hc
    have hperm := sort_by_key_perm codes (a.plev g).realParticles hlen
    have hl : (sort_by_key codes (a.plev g).realParticles).2.length
        = (a.plev g).numRealParticles := by
      rw [hperm.length_eq, length_realParticles]
    have hle := numRealParticles_le (a.plev g)
    refine state_ext _ _ ?_ ?_ fun g' => ?_
    · simp only [(clearAll_runs cfg a).1]
      rw [(clearAll_runs cfg _).1]
    · simp only [(clearAll_runs cfg a).2]
      rw [(clearAll_runs cfg _).2]
    · rw [clearAll_plev]
      by_cases e : g' = g
      · subst e
        simp only [Function.update_same]
        rw [if_pos hloc, setNumNeighbors_zero]
        simp only [ParticleTile.mk.injEq, and_true]
        exact (real_of_sorted _ _ hl).symm
      · simp only [Function.update_noteq e]
        rw [clearAll_plev]

theorem sortAll_clearAll (cfg : Config) (nm : NeighborMask) (st : ParticleState) :
    sortAll cfg nm (clearAll cfg st) = Except.map (clearAll cfg) (sortAll cfg nm st) := by
  rw [sortAll_eq, sortAll_eq]
  exact forEach_commute _ (clearAll cfg) _
    (fun a g hg => sortGrid_clearAll cfg nm a g hg) st

/-- C11. The call `fillNeighbors`, which in the source sorts, then resets the
ghost segments and exchanges, has the outcome of the sequence of the
specification, reset, then sort, then exchange (`clearSortExchange`): the same
particle data, or the same failure, for every configuration, mask, table and
particle data. -/
theorem C11_fillNeighbors_is_clear_sort_exchange (cfg : Config) (nm : NeighborMask)
    (st : ParticleState) : fillNeighbors cfg nm st = clearSortExchange cfg nm st := by
  unfold fillNeighbors clearSortExchange
  rw [sortAll_clearAll]
  cases sortAll cfg nm st with
  | error e => rfl
  | ok st1 => exact updateNeighbors_eq_exchange cfg nm st1

/-! ### The groups of a send buffer, packed and read back -/

theorem groupsBytes_eq_groupsOf (cfg : Config) (st : ParticleState) (w : Nat)
    (ts : List (Nat × Nat × Nat)) :
    groupsBytes cfg st w ts = (groupsOf cfg st w ts).flatMap (groupBytes cfg) := by
  induction ts with
  | nil => rfl
  | cons t ts ih =>
    have ih' : groupsBytes cfg st w ts = (groupsOf cfg st w ts).flatMap (groupBytes cfg) := ih
    unfold groupsBytes groupsOf at ih' ⊢
    simp only [List.flatMap_cons, List.filter_cons]
    by_cases hd : cfg.dmap t.2.2 = w
    · simp only [hd, if_true, decide_True, List.map_cons, List.flatMap_cons]
      rw [ih']
      rfl
    · simp only [hd, if_false, decide_False, List.nil_append]
      exact ih'

theorem length_groupBytes (cfg : Config) (g : Nat × Int × Int × List ParticleType) :
    (groupBytes cfg g).length
      = sizeof_size_t + 2 * sizeof_int + g.2.2.2.length * cfg.sizeofParticleType := by
  simp only [groupBytes, List.length_append, length_storeObj, length_storeParticles]
  omega

theorem length_flatMap_groupBytes (cfg : Config)
    (gs : List (Nat × Int × Int × List ParticleType)) (hk : ∀ g, g ∈ gs → g.1 = g.2.2.2.length) :
    (gs.flatMap (groupBytes cfg)).length
      = (gs.map fun g => sizeof_size_t + 2 * sizeof_int + g.1 * cfg.sizeofParticleType).sum := by
  induction gs with
  | nil => rfl
  | cons g gs ih =>
    simp only [List.flatMap_cons, List.length_append, List.map_cons, List.sum_cons,
      length_groupBytes]
    rw [ih (fun g' hg' => hk g' (List.mem_cons_of_mem _ hg')), hk g (List.mem_cons_self _ _)]

theorem readGroups_flatMap (cfg : Config) (hsz : 0 < cfg.sizeofParticleType)
    (buf : List MemVal) :
    ∀ (gs : List (Nat × Int × Int × List ParticleType)) (post : List MemVal) (pos : Nat),
      (∀ g, g ∈ gs → g.1 = g.2.2.2.length) →
      buf.drop pos = gs.flatMap (groupBytes cfg) ++ post →
      readGroups cfg buf gs.length pos
        = .ok (gs, pos + (gs.flatMap (groupBytes cfg)).length) := by
  intro gs
  induction gs with
  | nil => intro post pos _ _; rfl
  | cons g gs ih =>
    intro post pos hk hbuf
    obtain ⟨k, gid, pid, recs⟩ := g
    have hkr : k = recs.length := hk _ (List.mem_cons_self _ _)
    subst hkr
    have h1 : buf.drop pos = storeObj sizeof_size_t (.sizeT recs.length) ++
        (storeObj sizeof_int (.int gid) ++ (storeObj sizeof_int (.int pid) ++
          (storeParticles cfg recs ++ (gs.flatMap (groupBytes cfg) ++ post)))) := by
      rw [hbuf]
      simp [groupBytes, List.flatMap_cons, List.append_assoc]
    have h2 := drop_add_of_drop _ _ _ _ _ h1 (length_storeObj _ _)
    have h3 := drop_add_of_drop _ _ _ _ _ h2 (length_storeObj _ _)
    have h4 := drop_add_of_drop _ _ _ _ _ h3 (length_storeObj _ _)
    have h5 := drop_add_of_drop _ _ _ _ _ h4 (length_storeParticles cfg recs)
    simp only [List.length_cons, readGroups]
    rw [readSizeT_drop _ _ _ _ h1, readInt_drop _ _ _ _ h2, readInt_drop _ _ _ _ h3]
    simp only
    rw [readParticles_drop cfg hsz buf recs _ _ h4,
      ih post _ (fun g' hg' => hk g' (List.mem_cons_of_mem _ hg')) h5]
    simp only [List.flatMap_cons, List.length_append, length_groupBytes, Except.ok.injEq,
      Prod.mk.injEq, true_and]
    omega

theorem unpackGroups_of_read (cfg : Config) (myProc : Nat) (buf : List MemVal) :
    ∀ (n pos : Nat) (gs : List (Nat × Int × Int × List ParticleType)) (fin : Nat)
      (st : ParticleState), readGroups cfg buf n pos = .ok (gs, fin) →
      unpackGroups cfg myProc buf n pos st = applyGroups myProc gs st := by
  intro n
  induction n with
  | zero =>
    intro pos gs fin st h
    simp only [readGroups, Except.ok.injEq, Prod.mk.injEq] at h
    rw [← h.1]
    rfl
  | succ n ih =>
    intro pos gs fin st h
    rw [unpackGroups_step]
    simp only [readGroups] at h
    cases h1 : readSizeT buf pos with
    | error e => simp [h1] at h
    | ok k =>
      cases h2 : readInt buf (pos + sizeof_size_t) with
      | error e => simp [h1, h2] at h
      | ok gid =>
        cases h3 : readInt buf (pos + sizeof_size_t + sizeof_int) with
        | error e => simp [h1, h2, h3] at h
        | ok pid =>
          simp only [h1, h2, h3] at h ⊢
          cases h4 : readParticles cfg buf k (pos + sizeof_size_t + sizeof_int + sizeof_int) with
          | error e => simp [h4] at h
          | ok records =>
            simp only [h4] at h
            cases h5 : readGroups cfg buf n
                (pos + sizeof_size_t + sizeof_int + sizeof_int + k * cfg.sizeofParticleType) with
            | error e => simp [h5] at h
            | ok rest =>
              obtain ⟨gs', fin'⟩ := rest
              simp only [h5, Except.ok.injEq, Prod.mk.injEq] at h
              obtain ⟨hgs, -⟩ := h
              subst hgs
              simp only [applyGroups]
              by_cases hk : k = 0
              · subst hk
                simp only [if_true]
                rw [Nat.zero_mul, Nat.add_zero] at h5
                exact ih _ _ _ _ h5
              · simp only [hk, if_false]
                split
                · rfl
                · split
                  · rfl
                  · exact ih _ _ _ _ h5

/-- C13. The send buffers that rank `r` builds in `updateNeighbors` and the
unpack walk over them. With a table that lists grids of the box array, runs
that are well-formed and records of at least one byte, the first part of
`updateNeighbors` on rank `r` returns, and for every other rank `w`, with
`groupsOf` the groups of the exports of `r` to the grids of `w` in packing
order (empty runs included): without such a group the rank `w` has no buffer;
otherwise `grid_counts[w]` is the number of the groups, the buffer is this
number followed by the groups (run length, destination grid, destination rank,
records), its length is `sizeof(size_t)` plus the sum over the groups of
`sizeof(size_t) + 2 * sizeof(int) + run length * sizeof(ParticleType)`, the
header read at position `0` is the number of the groups, the reads of the
unpack loop from the position after the header give back the same groups in the
same order and end at the end of the buffer, and the unpack loop of rank `w`
acts on any particle data as `applyGroups` on these groups. -/
theorem C13_pack_unpack_round_trip (cfg : Config) (nm : NeighborMask) (st : ParticleState)
    (r : Nat) (htv : TableValid cfg nm) (hrv : RunsValid cfg nm st)
    (hsz : 0 < cfg.sizeofParticleType) :
    ∃ ps, updateNeighborsPack cfg nm r st = .ok ps ∧ ∀ w, w ≠ r →
      (∀ g, g ∈ groupsOf cfg st w (rankTriples cfg nm r) → g.1 = g.2.2.2.length) ∧
      (groupsOf cfg st w (rankTriples cfg nm r) = [] →
        ps.not_ours.buf w = [] ∧ w ∉ ps.not_ours.keys) ∧
      (groupsOf cfg st w (rankTriples cfg nm r) ≠ [] →
        gridCounts cfg nm r w = (groupsOf cfg st w (rankTriples cfg nm r)).length ∧
        ps.not_ours.buf w =
          storeObj sizeof_size_t (.sizeT (groupsOf cfg st w (rankTriples cfg nm r)).length) ++
            (groupsOf cfg st w (rankTriples cfg nm r)).flatMap (groupBytes cfg) ∧
        (ps.not_ours.buf w).length = sizeof_size_t +
          ((groupsOf cfg st w (rankTriples cfg nm r)).map fun g =>
            sizeof_size_t + 2 * sizeof_int + g.1 * cfg.sizeofParticleType).sum ∧
        readSizeT (ps.not_ours.buf w) 0
          = .ok (groupsOf cfg st w (rankTriples cfg nm r)).length ∧
        readGroups cfg (ps.not_ours.buf w) (groupsOf cfg st w (rankTriples cfg nm r)).length
            sizeof_size_t
          = .ok (groupsOf cfg st w (rankTriples cfg nm r), (ps.not_ours.buf w).length) ∧
        ∀ S, unpackGroups cfg w (ps.not_ours.buf w)
            (groupsOf cfg st w (rankTriples cfg nm r)).length sizeof_size_t S
          = applyGroups w (groupsOf cfg st w (rankTriples cfg nm r)) S) := by
  obtain ⟨ps, hps, -, -, -, -, hbuf, hkeys⟩ :=
    updateNeighborsPack_acc cfg nm st st r hrv htv rfl rfl (fun _ _ => rfl)
  refine ⟨ps, hps, fun w hw => ?_⟩
  have hk : ∀ g, g ∈ groupsOf cfg st w (rankTriples cfg nm r) → g.1 = g.2.2.2.length := by
    intro g hg
    simp only [groupsOf, List.mem_map] at hg
    obtain ⟨t, -, rfl⟩ := hg
    rfl
  have hb := hbuf w
  rw [if_neg hw] at hb
  have hcount : gridCounts cfg nm r w = (groupsOf cfg st w (rankTriples cfg nm r)).length := by
    rw [gridCounts_eq cfg nm r w hw, List.countP_eq_length_filter]
    simp [groupsOf]
  refine ⟨hk, fun hnil => ?_, fun hne => ?_⟩
  · have hg : groupsBytes cfg st w (rankTriples cfg nm r) = [] := by
      rw [groupsBytes_eq_groupsOf, hnil]
      rfl
    refine ⟨by rw [hb, messageTo, if_pos hg], fun hmem => ?_⟩
    obtain ⟨-, t, ht, hd⟩ := hkeys w hmem
    exact groupsBytes_eq_nil cfg st w _ hg t ht hd
  · have hg : groupsBytes cfg st w (rankTriples cfg nm r) ≠ [] := by
      rw [groupsBytes_eq_groupsOf]
      intro h0
      rw [List.flatMap_eq_nil_iff] at h0
      obtain ⟨g, gs, hgs⟩ := List.exists_cons_of_ne_nil hne
      have := h0 g (by rw [hgs]; exact List.mem_cons_self _ _)
      have hl := congrArg List.length this
      rw [length_groupBytes] at hl
      simp [sizeof_size_t] at hl
    have hlay : ps.not_ours.buf w =
        storeObj sizeof_size_t (.sizeT (groupsOf cfg st w (rankTriples cfg nm r)).length) ++
          (groupsOf cfg st w (rankTriples cfg nm r)).flatMap (groupBytes cfg) := by
      rw [hb, messageTo, if_neg hg, groupsBytes_eq_groupsOf, hcount]
    have hdrop : (ps.not_ours.buf w).drop sizeof_size_t =
        (groupsOf cfg st w (rankTriples cfg nm r)).flatMap (groupBytes cfg) ++ [] := by
      rw [hlay, List.drop_left' (length_storeObj _ _), List.append_nil]
    have hlen : (ps.not_ours.buf w).length = sizeof_size_t +
        ((groupsOf cfg st w (rankTriples cfg nm r)).flatMap (groupBytes cfg)).length := by
      rw [hlay, List.length_append, length_storeObj]
    have hread := readGroups_flatMap cfg hsz (ps.not_ours.buf w) _ [] sizeof_size_t hk hdrop
    rw [← hlen] at hread
    refine ⟨hcount, hlay, ?_, ?_, hread, fun S => ?_⟩
    · rw [hlen, length_flatMap_groupBytes cfg _ hk]
    · exact readSizeT_drop _ _ 0 _ (by rw [List.drop_zero]; exact hlay)
    · exact unpackGroups_of_read cfg w _ _ _ _ _ S hread

set_option maxRecDepth 100000 in
/-- Witness of C13: rank `0` of two grids of ten cells on two ranks, which
packs the particle `7` of its grid for rank `1`. -/
theorem C13_pack_unpack_round_trip_witness :
    ∃ ps, updateNeighborsPack (twoGrids 2 fun g => g) faceTable 0 sortedPair = .ok ps ∧ ∀ w, w ≠ 0 →
      (∀ g, g ∈ groupsOf (twoGrids 2 fun g => g) sortedPair w (rankTriples (twoGrids 2 fun g => g) faceTable 0) → g.1 = g.2.2.2.length) ∧
      (groupsOf (twoGrids 2 fun g => g) sortedPair w (rankTriples (twoGrids 2 fun g => g) faceTable 0) = [] → ps.not_ours.buf w = [] ∧ w ∉ ps.not_ours.keys) ∧
      (groupsOf (twoGrids 2 fun g => g) sortedPair w (rankTriples (twoGrids 2 fun g => g) faceTable 0) ≠ [] →
        gridCounts (twoGrids 2 fun g => g) faceTable 0 w = (groupsOf (twoGrids 2 fun g => g) sortedPair w (rankTriples (twoGrids 2 fun g => g) faceTable 0)).length ∧
        ps.not_ours.buf w =
          storeObj sizeof_size_t (.sizeT (groupsOf (twoGrids 2 fun g => g) sortedPair w (rankTriples (twoGrids 2 fun g => g) faceTable 0)).length) ++ (groupsOf (twoGrids 2 fun g => g) sortedPair w (rankTriples (twoGrids 2 fun g => g) faceTable 0)).flatMap (groupBytes (twoGrids 2 fun g => g)) ∧
        (ps.not_ours.buf w).length = sizeof_size_t +
          ((groupsOf (twoGrids 2 fun g => g) sortedPair w (rankTriples (twoGrids 2 fun g => g) faceTable 0)).map fun g =>
            sizeof_size_t + 2 * sizeof_int + g.1 * (twoGrids 2 fun g => g).sizeofParticleType).sum ∧
        readSizeT (ps.not_ours.buf w) 0 = .ok (groupsOf (twoGrids 2 fun g => g) sortedPair w (rankTriples (twoGrids 2 fun g => g) faceTable 0)).length ∧
        readGroups (twoGrids 2 fun g => g) (ps.not_ours.buf w) (groupsOf (twoGrids 2 fun g => g) sortedPair w (rankTriples (twoGrids 2 fun g => g) faceTable 0)).length sizeof_size_t
          = .ok (groupsOf (twoGrids 2 fun g => g) sortedPair w (rankTriples (twoGrids 2 fun g => g) faceTable 0), (ps.not_ours.buf w).length) ∧
        ∀ S, unpackGroups (twoGrids 2 fun g => g) w (ps.not_ours.buf w) (groupsOf (twoGrids 2 fun g => g) sortedPair w (rankTriples (twoGrids 2 fun g => g) faceTable 0)).length sizeof_size_t S
          = applyGroups w (groupsOf (twoGrids 2 fun g => g) sortedPair w (rankTriples (twoGrids 2 fun g => g) faceTable 0)) S) :=
  C13_pack_unpack_round_trip (twoGrids 2 fun g => g) faceTable sortedPair 0
    (by
      intro s k d h
      show d < 2
      simp only [faceTable] at h
      split_ifs at h
      · rcases k with _ | _ | k <;> simp at h
        omega
      · rcases k with _ | _ | k <;> simp at h
        omega
      · simp at h)
    (by
      intro s hs i h1 h2
      have hs2 : s < 2 := hs
      interval_cases s
      · have : i ≤ 2 := h2
        interval_cases i
        · exact ⟨1, 1, rfl, rfl, by decide, by decide, by decide⟩
        · exact ⟨1, 2, rfl, rfl, by decide, by decide, by decide⟩
      · have : i ≤ 2 := h2
        interval_cases i
        · exact ⟨0, 1, rfl, rfl, by decide, by decide, by decide⟩
        · exact ⟨1, 1, rfl, rfl, by decide, by decide, by decide⟩)
    (by decide)

/-! ### The number of the boundary boxes -/

theorem mem_dirList (d : Nat) (l : List Int) :
    l ∈ dirList d ↔ l.length = d ∧ ∀ x, x ∈ l → x = -1 ∨ x = 0 ∨ x = 1 := by
  induction d generalizing l with
  | zero =>
    simp only [dirList, List.mem_singleton]
    constructor
    · rintro rfl
      exact ⟨rfl, fun x hx => by simp at hx⟩
    · rintro ⟨h, -⟩
      exact List.length_eq_zero.mp h
  | succ d ih =>
    simp only [dirList, List.mem_flatMap, List.mem_map]
    constructor
    · rintro ⟨s, hs, l', hl', rfl⟩
      obtain ⟨h1, h2⟩ := (ih l').1 hl'
      refine ⟨by simp [h1], fun x hx => ?_⟩
      rcases List.mem_cons.mp hx with rfl | hx
      · simpa using hs
      · exact h2 x hx
    · rintro ⟨h1, h2⟩
      cases l with
      | nil => simp at h1
      | cons s l' =>
        refine ⟨s, by simpa using h2 s (List.mem_cons_self _ _), l', (ih l').2
          ⟨by simpa using h1, fun x hx => h2 x (List.mem_cons_of_mem _ hx)⟩, rfl⟩

theorem getD_dir_cases (l : List Int) (h : ∀ x, x ∈ l → x = -1 ∨ x = 0 ∨ x = 1) (a : Nat) :
    l.getD a 0 = -1 ∨ l.getD a 0 = 0 ∨ l.getD a 0 = 1 := by
  by_cases ha : a < l.length
  · rw [List.getD_eq_getElem?_getD, List.getElem?_eq_getElem ha]
    exact h _ (List.getElem_mem ha)
  · rw [List.getD_eq_getElem?_getD, List.getElem?_eq_none (by omega)]
    exact Or.inr (Or.inl rfl)

theorem shellDir_of_mem (dim : Nat) (l : List Int) (h : l ∈ shellDirs dim) :
    ShellDir dim (fun a => l.getD a 0) := by
  simp only [shellDirs, List.mem_filter, List.any_eq_true, decide_eq_true_eq] at h
  obtain ⟨hl, x, hx, hne⟩ := h
  obtain ⟨hlen, hc⟩ := (mem_dirList dim l).1 hl
  refine ⟨getD_dir_cases l hc, ?_⟩
  obtain ⟨a, ha, rfl⟩ := List.getElem_of_mem hx
  refine ⟨a, by omega, ?_⟩
  simp only [List.getD_eq_getElem?_getD, List.getElem?_eq_getElem ha, Option.getD_some]
  exact hne

theorem isRegion_regionBox (dim : Nat) (box : Box) (n : Int) (l : List Int) :
    IsRegion box n dim (fun a => l.getD a 0) (regionBox dim box n l) := by
  refine ⟨by simp [regionBox], by simp [regionBox], rfl, fun a ha => ?_⟩
  simp only [regionBox]
  rw [getD_range_map dim _ a ha, getD_range_map dim _ a ha]
  exact ⟨rfl, rfl⟩

theorem sideLo_inj (lo hi n s1 s2 : Int) (h1 : s1 = -1 ∨ s1 = 0 ∨ s1 = 1)
    (h2 : s2 = -1 ∨ s2 = 0 ∨ s2 = 1) (hn : 1 ≤ n) (hbox : lo ≤ hi)
    (h : sideLo lo hi n s1 = sideLo lo hi n s2) : s1 = s2 := by
  rcases h1 with rfl | rfl | rfl <;> rcases h2 with rfl | rfl | rfl <;>
    simp [sideLo] at h ⊢ <;> omega

theorem mem_raw_iff_dir (dim : Nat) (hdim : dim ≤ 3) (box : Box) (n : Int)
    (hlo : box.smallend.length = dim) (hhi : box.bigend.length = dim) (b : Box) :
    b ∈ rawBoundaryBoxes dim box n ↔ b ∈ (shellDirs dim).map (regionBox dim box n) := by
  simp only [List.mem_map]
  constructor
  · intro hb
    obtain ⟨dir, hsd, hreg⟩ := raw_isRegion dim box n hlo hhi b hb
    refine ⟨(List.range dim).map dir, ?_, ?_⟩
    · simp only [shellDirs, List.mem_filter, List.any_eq_true, decide_eq_true_eq]
      refine ⟨(mem_dirList _ _).2 ⟨by simp, fun x hx => ?_⟩, ?_⟩
      · simp only [List.mem_map, List.mem_range] at hx
        obtain ⟨a, -, rfl⟩ := hx
        exact hsd.1 a
      · obtain ⟨a, ha, hne⟩ := hsd.2
        exact ⟨dir a, List.mem_map.mpr ⟨a, List.mem_range.mpr ha, rfl⟩, hne⟩
    · exact isRegion_unique box n dim _ _ _ _ (isRegion_regionBox dim box n _) hreg
        fun a ha => getD_range_map dim dir a ha
  · rintro ⟨l, hl, rfl⟩
    obtain ⟨b, hb, dir', hreg, hagree⟩ :=
      raw_of_dir dim hdim box n hlo hhi _ (shellDir_of_mem dim l hl)
    have := isRegion_unique box n dim _ _ _ _ hreg (isRegion_regionBox dim box n l) hagree
    rw [← this]
    exact hb

theorem regionBox_inj (dim : Nat) (box : Box) (n : Int) (hn : 1 ≤ n)
    (hbox : ∀ a, a < dim → box.smallend.getD a 0 ≤ box.bigend.getD a 0)
    (l1 l2 : List Int) (h1 : l1 ∈ dirList dim) (h2 : l2 ∈ dirList dim)
    (h : regionBox dim box n l1 = regionBox dim box n l2) : l1 = l2 := by
  obtain ⟨e1, c1⟩ := (mem_dirList dim l1).1 h1
  obtain ⟨e2, c2⟩ := (mem_dirList dim l2).1 h2
  refine list_ext_getD _ _ (by omega) fun a ha => ?_
  have hs := congrArg (fun b : Box => b.smallend.getD a 0) h
  simp only [regionBox] at hs
  rw [getD_range_map dim _ a (by omega), getD_range_map dim _ a (by omega)] at hs
  exact sideLo_inj _ _ n _ _ (getD_dir_cases l1 c1 a) (getD_dir_cases l2 c2 a) hn
    (hbox a (by omega)) hs

theorem getBoundaryBoxes_of_checks (dim : Nat) (box : Box) (n : Int)
    (h1 : IntVect.allGT box.size (IntVect.scale 2 (IntVect.const dim n)) = true)
    (h2 : box.cellCentered = true) :
    getBoundaryBoxes dim box n = .ok (RemoveDuplicates Box.lt (rawBoundaryBoxes dim box n)) := by
  unfold getBoundaryBoxes
  rw [if_neg (by rw [h1]; decide), if_neg (by rw [h2]; decide)]
  rfl

theorem allGT_of_extent (dim : Nat) (box : Box) (n : Int)
    (hlo : box.smallend.length = dim) (hhi : box.bigend.length = dim)
    (hext : ∀ a, a < dim → 2 * n < box.bigend.getD a 0 - box.smallend.getD a 0 + 1) :
    IntVect.allGT box.size (IntVect.scale 2 (IntVect.const dim n)) = true := by
  rw [allGT_iff _ _ (by simp [Box.size, IntVect.scale, IntVect.const, hlo, hhi])]
  have hlen : box.size.length = dim := by simp [Box.size, hlo, hhi]
  rw [hlen]
  intro a ha
  rw [size_getD box a (by omega) (by omega)]
  have h2 : (IntVect.scale 2 (IntVect.const dim n)).getD a 0 = 2 * n := by
    simp [IntVect.scale, IntVect.const, List.getD_eq_getElem?_getD, ha]
  rw [h2]
  exact hext a ha

/-- C15. For a cell-centered box `B` in `dim` dimensions, `dim` being `1`, `2`
or `3`, and a depth `n ≥ 1` with the extent of `B` above `2 * n` on every
axis, `getBoundaryBoxes` returns a list `bl` without duplicates of exactly
`3 ^ dim - 1` boxes, which are the boxes of depth `n` next to `B` in the
directions other than zero (faces, edges, corners); two different boxes of
`bl` share no cell, and a cell lies in a box of `bl` exactly when it lies in
`grow(B, n)` and not in `B`. When `B` is a grid shrunk by `n`, as in
`buildNeighborMask`, a cell lies in a box of `bl` exactly when it lies in the
shell of depth `n` of the grid. -/
theorem C15_boundary_boxes_tile (dim : Nat) (hdim : dim = 1 ∨ dim = 2 ∨ dim = 3) (B : Box)
    (n : Int) (hn : 1 ≤ n) (hlo : B.smallend.length = dim) (hhi : B.bigend.length = dim)
    (hcc : B.cellCentered = true)
    (hext : ∀ a, a < dim → 2 * n < B.bigend.getD a 0 - B.smallend.getD a 0 + 1) :
    ∃ bl, getBoundaryBoxes dim B n = .ok bl ∧ bl.Nodup ∧ bl.length = 3 ^ dim - 1 ∧
      bl.Perm ((shellDirs dim).map (regionBox dim B n)) ∧
      (∀ b1 b2, b1 ∈ bl → b2 ∈ bl → b1 ≠ b2 → ∀ iv : IntVect, iv.length = dim →
        ¬ (b1.contains iv = true ∧ b2.contains iv = true)) ∧
      (∀ iv : IntVect, iv.length = dim →
        ((∃ b, b ∈ bl ∧ b.contains iv = true) ↔
          ((B.grow n).contains iv = true ∧ B.contains iv = false))) ∧
      ∀ grid : Box, B = grid.grow (-n) → ∀ iv : IntVect, iv.length = dim →
        ((∃ b, b ∈ bl ∧ b.contains iv = true) ↔ inShell grid n iv) := by
  have hd3 : dim ≤ 3 := by omega
  have hbl := getBoundaryBoxes_of_checks dim B n (allGT_of_extent dim B n hlo hhi hext) hcc
  have hbox : ∀ a, a < dim → B.smallend.getD a 0 ≤ B.bigend.getD a 0 + 1 := fun a ha => by
    have := hext a ha
    omega
  have hbox' : ∀ a, a < dim → B.smallend.getD a 0 ≤ B.bigend.getD a 0 := fun a ha => by
    have := hext a ha
    omega
  have hmem : ∀ b, b ∈ RemoveDuplicates Box.lt (rawBoundaryBoxes dim B n) ↔
      b ∈ rawBoundaryBoxes dim B n := fun b => mem_RemoveDuplicates _ _ _
  have hnd := RemoveDuplicates_box_nodup (rawBoundaryBoxes dim B n)
  have hdirs : (dirList dim).Nodup ∧ (shellDirs dim).length = 3 ^ dim - 1 := by
    rcases hdim with rfl | rfl | rfl <;> exact ⟨by decide, by decide⟩
  have hnd2 : ((shellDirs dim).map (regionBox dim B n)).Nodup := by
    refine List.Nodup.map_on (fun l1 h1 l2 h2 h => ?_) (hdirs.1.filter _)
    exact regionBox_inj dim B n hn hbox' l1 l2 (List.mem_filter.mp h1).1
      (List.mem_filter.mp h2).1 h
  have hperm : (RemoveDuplicates Box.lt (rawBoundaryBoxes dim B n)).Perm
      ((shellDirs dim).map (regionBox dim B n)) :=
    (List.perm_ext_iff_of_nodup hnd hnd2).2 fun b =>
      (hmem b).trans (mem_raw_iff_dir dim hd3 B n hlo hhi b)
  have hcover : ∀ iv : IntVect, iv.length = dim →
      ((∃ b, b ∈ RemoveDuplicates Box.lt (rawBoundaryBoxes dim B n) ∧ b.contains iv = true) ↔
        ((B.grow n).contains iv = true ∧ B.contains iv = false)) := by
    intro iv hiv
    constructor
    · rintro ⟨b, hb, hc⟩
      exact raw_in_shell dim B n hn hlo hhi hbox b ((hmem b).1 hb) iv hiv hc
    · rintro ⟨h1, h2⟩
      obtain ⟨b, hb, hc⟩ := raw_covers dim hd3 B n hn hlo hhi hbox iv hiv h1 h2
      exact ⟨b, (hmem b).2 hb, hc⟩
  refine ⟨_, hbl, hnd, ?_, hperm, ?_, hcover, ?_⟩
  · rw [hperm.length_eq, List.length_map, hdirs.2]
  · rintro b1 b2 h1 h2 hne iv hiv ⟨c1, c2⟩
    exact hne (raw_disjoint dim B n hn hlo hhi hbox b1 b2 ((hmem b1).1 h1) ((hmem b2).1 h2)
      iv hiv c1 c2)
  · intro grid hB iv hiv
    rw [hcover iv hiv, hB, grow_grow]
    rfl

set_option maxRecDepth 100000 in
/-- Witness of C15: a box of ten by ten cells in two dimensions with depth `1`,
which has four faces and four corners. -/
theorem C15_boundary_boxes_tile_witness :
    ∃ bl, getBoundaryBoxes 2 ({ smallend := [0, 0], bigend := [9, 9], btype := 0 } : Box) 1 = .ok bl ∧ bl.Nodup ∧ bl.length = 3 ^ 2 - 1 ∧
      bl.Perm ((shellDirs 2).map (regionBox 2 ({ smallend := [0, 0], bigend := [9, 9], btype := 0 } : Box) 1)) ∧
      (∀ b1 b2, b1 ∈ bl → b2 ∈ bl → b1 ≠ b2 → ∀ iv : IntVect, iv.length = 2 →
        ¬ (b1.contains iv = true ∧ b2.contains iv = true)) ∧
      (∀ iv : IntVect, iv.length = 2 →
        ((∃ b, b ∈ bl ∧ b.contains iv = true) ↔
          ((({ smallend := [0, 0], bigend := [9, 9], btype := 0 } : Box).grow 1).contains iv = true ∧ ({ smallend := [0, 0], bigend := [9, 9], btype := 0 } : Box).contains iv = false))) ∧
      ∀ grid : Box, ({ smallend := [0, 0], bigend := [9, 9], btype := 0 } : Box) = grid.grow (-1) → ∀ iv : IntVect, iv.length = 2 →
        ((∃ b, b ∈ bl ∧ b.contains iv = true) ↔ inShell grid 1 iv) :=
  C15_boundary_boxes_tile 2 (Or.inr (Or.inl rfl)) ({ smallend := [0, 0], bigend := [9, 9], btype := 0 } : Box) 1 (by decide) rfl rfl rfl
    (by
      intro a ha
      interval_cases a <;> decide)

/-! ### The receive offset held in an `int` -/

theorem forEach_last_error {σ : Type} (body : σ → Nat → Except Err σ) (e : Err)
    (h : ∀ s, body s 2 = .error e) (s : σ) : isOk (forEach body [0, 1, 2] s) = false := by
  simp only [forEach]
  cases body s 0 with
  | error e0 => rfl
  | ok s1 =>
    simp only
    cases body s1 1 with
    | error e1 => rfl
    | ok s2 =>
      simp only
      rw [h s2]
      rfl

set_option maxRecDepth 100000 in
/-- C21, evaluated at a failing input. Rank `0` of four ranks is announced
1073741864 bytes by each of the ranks `1`, `2` and `3`, every count below the
largest `int`, with a total of 2^31 bytes or more. The messages are received at
the offsets 0, 1073741864 and 2147483728 (`rOffset`, of type `size_t`). The
unpack loop stores the offset into an `int`: for the message of rank `3` this
gives -2147483568, which is not the offset at which the message was received;
the read of this peer starts before the receive buffer, so the unpack of the
peer has no defined result whatever the bytes received, and neither has the
call of `fillNeighborsMPIGPU` for any messages of these sizes. -/
theorem C21_offset_wraps :
    (∀ c, c ∈ bigCounts → c < INT_MAX) ∧
      sizeof_size_t + (sizeof_size_t + 2 * sizeof_int + 13421773 * 80) = 1073741864 ∧
      2 ^ 31 ≤ bigCounts.sum ∧
      (recvLayout bigCounts).1 = [1, 2, 3] ∧
      (recvLayout bigCounts).2.1 = [0, 1073741864, 2147483728] ∧
      toInt32 ((recvLayout bigCounts).2.1.getD 2 0) = -2147483568 ∧
      toInt32 ((recvLayout bigCounts).2.1.getD 2 0)
        ≠ (((recvLayout bigCounts).2.1.getD 2 0 : Nat) : Int) ∧
      (∀ (cfg : Config) (buf : List MemVal) (st : ParticleState),
        unpackPeer cfg 0 buf (recvLayout bigCounts).2.1 st 2 = .error .undefined) ∧
      ∀ (cfg : Config) (sends : Nat → SendMap) (st : ParticleState), cfg.nprocs = 4 →
        (∀ i, i < 4 → ((sends i).buf 0).length = bigCounts.getD i 0) →
        isOk (fillNeighborsMPIGPU cfg 0 sends st) = false := by
  have hpeer : ∀ (cfg : Config) (buf : List MemVal) (st : ParticleState),
      unpackPeer cfg 0 buf (recvLayout bigCounts).2.1 st 2 = .error .undefined := by
    intro cfg buf st
    unfold unpackPeer
    have h : toInt32 ((recvLayout bigCounts).2.1.getD 2 0) < 0 := by decide
    simp only [h, if_true]
  refine ⟨by decide, by decide, by decide, by decide, by decide, by decide, by decide, hpeer, ?_⟩
  intro cfg sends st h4 hlen
  have hR : (List.range cfg.nprocs).map (fun i => ((sends i).buf 0).length) = bigCounts := by
    rw [h4]
    have e : List.range 4 = [0, 1, 2, 3] := by decide
    rw [e]
    simp only [List.map_cons, List.map_nil, hlen 0 (by omega), hlen 1 (by omega),
      hlen 2 (by omega), hlen 3 (by omega)]
    rfl
  unfold fillNeighborsMPIGPU
  simp only
  split
  · rfl
  · split
    · rename_i hmax
      exfalso
      have h1 := foldl_max_eq_zero _ hmax
        (((List.range cfg.nprocs).map fun who => ((sends 1).buf who).length).sum)
        (List.mem_map.mpr ⟨1, List.mem_range.mpr (by omega), rfl⟩)
      have h2 := le_sum_of_mem_nat
        ((List.range cfg.nprocs).map fun who => ((sends 1).buf who).length)
        ((sends 1).buf 0).length (List.mem_map.mpr ⟨0, List.mem_range.mpr (by omega), rfl⟩)
      have h3 : ((sends 1).buf 0).length = 1073741864 := hlen 1 (by omega)
      omega
    · rw [hR]
      split
      · rfl
      · split
        · rfl
        · split
          · rfl
          · have hn : (recvLayout bigCounts).1.length = 3 := by decide
            rw [hn]
            simp only [show (0 : Nat) < 3 by omega, if_true]
            have e3 : List.range 3 = [0, 1, 2] := by decide
            rw [e3]
            exact forEach_last_error _ _ (fun s => hpeer cfg _ s) st

/-! ### The sub-cells of the initial positions -/

theorem divInt_nonneg (a b : Int) (ha : 0 ≤ a) (hb : 0 < b) : divInt a b = .ok (a / b) := by
  unfold divInt
  rw [if_neg (by omega), Int.tdiv_eq_ediv ha (by omega)]

theorem modInt_nonneg (a b : Int) (ha : 0 ≤ a) (hb : 0 < b) : modInt a b = .ok (a % b) := by
  unfold modInt
  rw [if_neg (by omega), Int.tmod_eq_emod ha (by omega)]

theorem subCellIndices_eq (nx ny nz i : Int) (hx : 1 ≤ nx) (hy : 1 ≤ ny) (hz : 1 ≤ nz)
    (hfit : nx * ny * nz ≤ (INT_MAX : Int)) (h0 : 0 ≤ i) :
    subCellIndices [nx, ny, nz] i
      = .ok (i / (ny * nz), (i % (ny * nz)) % ny, (i % (ny * nz)) / ny) := by
  have hm : 1 ≤ ny * nz := by nlinarith
  have hle : ny * nz ≤ nx * ny * nz := by nlinarith
  have hin : inInt32 (ny * nz) = true := by
    simp only [inInt32, decide_eq_true_eq]
    have : ((INT_MAX : Nat) : Int) = 2147483647 := rfl
    omega
  have hr := Int.emod_nonneg i (show ny * nz ≠ 0 by omega)
  simp only [subCellIndices, List.getElem?_cons_succ, List.getElem?_cons_zero, mulInt, hin,
    if_true, divInt_nonneg i (ny * nz) h0 (by omega), modInt_nonneg i (ny * nz) h0 (by omega),
    divInt_nonneg (i % (ny * nz)) ny hr (by omega), modInt_nonneg (i % (ny * nz)) ny hr (by omega)]

theorem halfPlusOver_facts (i n : Int) (hn : 1 ≤ n) (h0 : 0 ≤ i) (h1 : i < n) :
    (AmrexReal.halfPlusOver i n).num = 2 * i + 1 ∧
      ((AmrexReal.halfPlusOver i n).den : Int) = 2 * n ∧
      0 < (AmrexReal.halfPlusOver i n).num ∧
      (AmrexReal.halfPlusOver i n).num < ((AmrexReal.halfPlusOver i n).den : Int) := by
  have hs : n.sign = 1 := Int.sign_eq_one_of_pos (by omega)
  have e1 : (AmrexReal.halfPlusOver i n).num = 2 * i + 1 := by
    simp [AmrexReal.halfPlusOver, hs]
  have e2 : ((AmrexReal.halfPlusOver i n).den : Int) = 2 * n := by
    simp only [AmrexReal.halfPlusOver]
    omega
  rw [e1, e2]
  exact ⟨rfl, rfl, by omega, by omega⟩

theorem subCell_facts (nx ny nz i : Int) (hx : 1 ≤ nx) (hy : 1 ≤ ny)
    (h0 : 0 ≤ i) (h1 : i < nx * ny * nz) :
    0 ≤ i / (ny * nz) ∧ i / (ny * nz) < nx ∧
      0 ≤ (i % (ny * nz)) % ny ∧ (i % (ny * nz)) % ny < ny ∧
      0 ≤ (i % (ny * nz)) / ny ∧ (i % (ny * nz)) / ny < nz ∧
      i = i / (ny * nz) * (ny * nz) + (i % (ny * nz)) / ny * ny + (i % (ny * nz)) % ny := by
  have hm : 1 ≤ ny * nz := by nlinarith
  have hr0 := Int.emod_nonneg i (show ny * nz ≠ 0 by omega)
  have hr1 := Int.emod_lt_of_pos i (show 0 < ny * nz by omega)
  have e1 := Int.ediv_add_emod i (ny * nz)
  have e2 := Int.ediv_add_emod (i % (ny * nz)) ny
  refine ⟨Int.ediv_nonneg h0 (by omega), Int.ediv_lt_of_lt_mul (by omega) (by linarith),
    Int.emod_nonneg _ (by omega), Int.emod_lt_of_pos _ (by omega),
    Int.ediv_nonneg hr0 (by omega), Int.ediv_lt_of_lt_mul (by omega) (by linarith), ?_⟩
  linarith

/-- C22, amended. For `nppc = (nx, ny, nz)` with `nx, ny, nz ≥ 1` whose product, the
number of particles of a cell, fits an `int`: for every `i_part` from `0` up to
`nx * ny * nz - 1` the indices of `get_position_unit_cell` are defined and
satisfy `0 ≤ ix < nx`, `0 ≤ iy < ny`, `0 ≤ iz < nz` and
`i_part = ix * (ny * nz) + iz * ny + iy`, and the position is the list of the
three fractions `(2 index + 1) / (2 n)`, each above `0` and below `1`; two
different `i_part` of the range have different indices; and every triple of
indices in the bounds is that of an `i_part` of the range. -/
theorem C22_unit_cell_indices (nx ny nz : Int) (hx : 1 ≤ nx) (hy : 1 ≤ ny) (hz : 1 ≤ nz)
    (hfit : nx * ny * nz ≤ (INT_MAX : Int)) :
    (∀ i, 0 ≤ i → i < nx * ny * nz →
      ∃ ix iy iz, subCellIndices [nx, ny, nz] i = .ok (ix, iy, iz) ∧
        0 ≤ ix ∧ ix < nx ∧ 0 ≤ iy ∧ iy < ny ∧ 0 ≤ iz ∧ iz < nz ∧
        i = ix * (ny * nz) + iz * ny + iy ∧
        get_position_unit_cell [nx, ny, nz] i
          = .ok [AmrexReal.halfPlusOver ix nx, AmrexReal.halfPlusOver iy ny,
              AmrexReal.halfPlusOver iz nz] ∧
        (AmrexReal.halfPlusOver ix nx).num = 2 * ix + 1 ∧
        ((AmrexReal.halfPlusOver ix nx).den : Int) = 2 * nx ∧
        (AmrexReal.halfPlusOver iy ny).num = 2 * iy + 1 ∧
        ((AmrexReal.halfPlusOver iy ny).den : Int) = 2 * ny ∧
        (AmrexReal.halfPlusOver iz nz).num = 2 * iz + 1 ∧
        ((AmrexReal.halfPlusOver iz nz).den : Int) = 2 * nz ∧
        ∀ r, r ∈ [AmrexReal.halfPlusOver ix nx, AmrexReal.halfPlusOver iy ny,
            AmrexReal.halfPlusOver iz nz] → 0 < r.num ∧ r.num < (r.den : Int)) ∧
      (∀ i j, 0 ≤ i → i < nx * ny * nz → 0 ≤ j → j < nx * ny * nz →
        subCellIndices [nx, ny, nz] i = subCellIndices [nx, ny, nz] j → i = j) ∧
      ∀ a b c, 0 ≤ a → a < nx → 0 ≤ b → b < ny → 0 ≤ c → c < nz →
        ∃ i, 0 ≤ i ∧ i < nx * ny * nz ∧ subCellIndices [nx, ny, nz] i = .ok (a, b, c) := by
  refine ⟨fun i h0 h1 => ?_, fun i j hi0 hi1 hj0 hj1 h => ?_, fun a b c a0 a1 b0 b1 c0 c1 => ?_⟩
  · obtain ⟨f1, f2, f3, f4, f5, f6, f7⟩ := subCell_facts nx ny nz i hx hy h0 h1
    have hs := subCellIndices_eq nx ny nz i hx hy hz hfit h0
    obtain ⟨x1, x2, x3, x4⟩ := halfPlusOver_facts _ nx hx f1 f2
    obtain ⟨y1, y2, y3, y4⟩ := halfPlusOver_facts _ ny hy f3 f4
    obtain ⟨z1, z2, z3, z4⟩ := halfPlusOver_facts _ nz hz f5 f6
    refine ⟨_, _, _, hs, f1, f2, f3, f4, f5, f6, f7, ?_, x1, x2, y1, y2, z1, z2, ?_⟩
    · simp only [get_position_unit_cell, List.getElem?_cons_succ, List.getElem?_cons_zero, hs]
    · intro r hr
      simp only [List.mem_cons, List.mem_singleton, List.not_mem_nil, or_false] at hr
      rcases hr with rfl | rfl | rfl
      · exact ⟨x3, x4⟩
      · exact ⟨y3, y4⟩
      · exact ⟨z3, z4⟩
  · rw [subCellIndices_eq nx ny nz i hx hy hz hfit hi0,
      subCellIndices_eq nx ny nz j hx hy hz hfit hj0] at h
    simp only [Except.ok.injEq, Prod.mk.injEq] at h
    obtain ⟨e1, e2, e3⟩ := h
    have fi := (subCell_facts nx ny nz i hx hy hi0 hi1).2.2.2.2.2.2
    have fj := (subCell_facts nx ny nz j hx hy hj0 hj1).2.2.2.2.2.2
    rw [fi, fj, e1, e2, e3]
  · have hm : 1 ≤ ny * nz := by nlinarith
    have hr1 : c * ny + b < ny * nz := by nlinarith
    have hr0 : 0 ≤ c * ny + b := by nlinarith
    have hi0 : 0 ≤ a * (ny * nz) + (c * ny + b) := by nlinarith
    have hi1 : a * (ny * nz) + (c * ny + b) < nx * ny * nz := by nlinarith
    refine ⟨a * (ny * nz) + (c * ny + b), hi0, hi1, ?_⟩
    rw [subCellIndices_eq nx ny nz _ hx hy hz hfit hi0]
    have k1 := (Int.ediv_emod_unique (a := a * (ny * nz) + (c * ny + b)) (b := ny * nz)
      (r := c * ny + b) (q := a) (by omega)).2 ⟨by ring, hr0, hr1⟩
    have k2 := (Int.ediv_emod_unique (a := c * ny + b) (b := ny) (r := b) (q := c)
      (by omega)).2 ⟨by ring, b0, b1⟩
    rw [k1.1, k1.2, k2.1, k2.2]

/-- Witness of C22: two by three by four particles per cell, of which the
particle `17` has the indices `(1, 2, 1)`. -/
theorem C22_unit_cell_indices_witness :
    subCellIndices [2, 3, 4] 17 = .ok (1, 2, 1) ∧
      ((∀ i, 0 ≤ i → i < (2 : Int) * 3 * 4 →
        ∃ ix iy iz, subCellIndices [2, 3, 4] i = .ok (ix, iy, iz) ∧
          0 ≤ ix ∧ ix < 2 ∧ 0 ≤ iy ∧ iy < 3 ∧ 0 ≤ iz ∧ iz < 4 ∧
          i = ix * (3 * 4) + iz * 3 + iy ∧
          get_position_unit_cell [2, 3, 4] i
            = .ok [AmrexReal.halfPlusOver ix 2, AmrexReal.halfPlusOver iy 3,
                AmrexReal.halfPlusOver iz 4] ∧
          (AmrexReal.halfPlusOver ix 2).num = 2 * ix + 1 ∧
          ((AmrexReal.halfPlusOver ix 2).den : Int) = 2 * 2 ∧
          (AmrexReal.halfPlusOver iy 3).num = 2 * iy + 1 ∧
          ((AmrexReal.halfPlusOver iy 3).den : Int) = 2 * 3 ∧
          (AmrexReal.halfPlusOver iz 4).num = 2 * iz + 1 ∧
          ((AmrexReal.halfPlusOver iz 4).den : Int) = 2 * 4 ∧
          ∀ r, r ∈ [AmrexReal.halfPlusOver ix 2, AmrexReal.halfPlusOver iy 3,
              AmrexReal.halfPlusOver iz 4] → 0 < r.num ∧ r.num < (r.den : Int)) ∧
        (∀ i j, 0 ≤ i → i < (2 : Int) * 3 * 4 → 0 ≤ j → j < (2 : Int) * 3 * 4 →
          subCellIndices [2, 3, 4] i = subCellIndices [2, 3, 4] j → i = j) ∧
        ∀ a b c, 0 ≤ a → a < (2 : Int) → 0 ≤ b → b < (3 : Int) → 0 ≤ c → c < (4 : Int) →
          ∃ i, 0 ≤ i ∧ i < (2 : Int) * 3 * 4 ∧ subCellIndices [2, 3, 4] i = .ok (a, b, c)) :=
  ⟨by decide, C22_unit_cell_indices 2 3 4 (by decide) (by decide) (by decide) (by decide)⟩

/-- C22, as stated, fails: for `nppc = (1, 65536, 65536)`, three counts of at
least `1`, and `i_part = 0`, which is below `nx * ny * nz`, the product
`ny * nz` is 2^32 and does not fit an `int`, so `get_position_unit_cell` has no
defined indices and no defined position. -/
theorem C22_counterexample :
    ((1 : Int) ≤ 1 ∧ (1 : Int) ≤ 65536 ∧ (1 : Int) ≤ 65536) ∧
      ((0 : Int) ≤ 0 ∧ (0 : Int) < 1 * 65536 * 65536) ∧
      inInt32 1 = true ∧ inInt32 65536 = true ∧ inInt32 0 = true ∧
      inInt32 (65536 * 65536) = false ∧
      mulInt 65536 65536 = .error .undefined ∧
      isOk (subCellIndices [1, 65536, 65536] 0) = false ∧
      isOk (get_position_unit_cell [1, 65536, 65536] 0) = false := by
  decide

/-! ### The exchange for every call that returns -/

theorem forEach_ok_each {σ β : Type} (body : σ → β → Except Err σ) (l : List β) (s s' : σ)
    (h : forEach body l s = .ok s') : ∀ x, x ∈ l → ∃ s1 s2, body s1 x = .ok s2 := by
  induction l generalizing s with
  | nil =>
    intro x hx
    simp at hx
  | cons g gs ih =>
    intro x hx
    unfold forEach at h
    cases hb : body s g with
    | error e =>
      rw [hb] at h
      cases h
    | ok s1 =>
      rw [hb] at h
      rcases List.mem_cons.mp hx with rfl | hx
      · exact ⟨s, s1, hb⟩
      · exact ih s1 h x hx

theorem lt_of_toInt32_nonneg (n : Nat) (hn : n < 2 ^ 32) (h : 0 ≤ toInt32 n) : n < 2 ^ 31 := by
  unfold toInt32 at h
  rw [Nat.mod_eq_of_lt hn] at h
  by_contra hc
  rw [if_neg hc] at h
  omega

theorem offsets_small_of_nonneg (lens : List Nat)
    (hlen : ∀ x, x ∈ lens → x < INT_MAX)
    (hnn : ∀ i, i < lens.length → 0 ≤ toInt32 ((offsetsFrom 0 lens).getD i 0)) :
    ∀ i, i < lens.length → (offsetsFrom 0 lens).getD i 0 < 2 ^ 31 := by
  intro i
  induction i with
  | zero =>
    intro hi
    rw [offsetsFrom_getD _ _ _ hi]
    simp
  | succ k ih =>
    intro hi
    have hk := ih (by omega)
    have h1 := hnn (k + 1) hi
    rw [offsetsFrom_getD _ _ _ hi] at h1 ⊢
    rw [offsetsFrom_getD _ _ _ (by omega)] at hk
    rw [sum_take_succ _ _ (by omega)] at h1 ⊢
    have h2 : lens.getD k 0 < INT_MAX := by
      rw [List.getD_eq_getElem?_getD, List.getElem?_eq_getElem (by omega)]
      exact hlen _ (List.getElem_mem _)
    unfold INT_MAX at h2
    exact lt_of_toInt32_nonneg _ (by omega) h1

theorem recvLayout_sendBuf (cfg : Config) (nm : NeighborMask) (st : ParticleState) (r : Nat) :
    recvLayout ((List.range cfg.nprocs).map fun i => (sendBuf cfg nm st i r).length)
      = ((List.range cfg.nprocs).filter (fun i => decide (0 < (sendBuf cfg nm st i r).length)),
          offsetsFrom 0 (((List.range cfg.nprocs).filter
            (fun i => decide (0 < (sendBuf cfg nm st i r).length))).map
              fun j => (sendBuf cfg nm st j r).length),
          (((List.range cfg.nprocs).filter
            (fun i => decide (0 < (sendBuf cfg nm st i r).length))).flatMap
              fun j => sendBuf cfg nm st j r).length) := by
  have hgetD : ∀ i, i < cfg.nprocs →
      ((List.range cfg.nprocs).map fun i => (sendBuf cfg nm st i r).length).getD i 0
        = (sendBuf cfg nm st i r).length := fun i hi => by
    rw [List.getD_eq_getElem?_getD, List.getElem?_eq_getElem (by simpa using hi)]
    simp
  rw [recvLayout_eq, length_flatMap_eq]
  simp only [List.length_map, List.length_range]
  have e1 : (List.range cfg.nprocs).filter (fun i => decide (0 <
        ((List.range cfg.nprocs).map fun i => (sendBuf cfg nm st i r).length).getD i 0))
      = (List.range cfg.nprocs).filter
        (fun i => decide (0 < (sendBuf cfg nm st i r).length)) :=
    List.filter_congr fun i hi => by rw [hgetD i (List.mem_range.mp hi)]
  rw [e1]
  have e2 : ((List.range cfg.nprocs).filter
        (fun i => decide (0 < (sendBuf cfg nm st i r).length))).map (fun i =>
        ((List.range cfg.nprocs).map fun i => (sendBuf cfg nm st i r).length).getD i 0)
      = ((List.range cfg.nprocs).filter
        (fun i => decide (0 < (sendBuf cfg nm st i r).length))).map
          fun j => (sendBuf cfg nm st j r).length :=
    List.map_congr_left fun i hi => hgetD i (List.mem_range.mp (List.mem_filter.mp hi).1)
  rw [e2]

/-- A call of `fillNeighborsMPIGPU` that returns has passed its checks: the
peers of the rank are ranks, every message it receives or sends is shorter than
`INT_MAX` bytes and every receive offset fits in an `int`. -/
theorem fillNeighborsMPIGPU_sizes (cfg : Config) (nm : NeighborMask) (st : ParticleState)
    (sends : Nat → SendMap) (r : Nat) (hr : r < cfg.nprocs)
    (hbuf : ∀ i, i < cfg.nprocs → ∀ w, (sends i).buf w = sendBuf cfg nm st i w)
    (S S' : ParticleState) (hret : fillNeighborsMPIGPU cfg r sends S = .ok S') :
    (∀ w, w ∈ (sends r).keys → w < cfg.nprocs) ∧
    (∀ i, i < cfg.nprocs → (sendBuf cfg nm st i r).length < INT_MAX) ∧
    (∀ who, who ∈ (sends r).keys → (sendBuf cfg nm st r who).length < INT_MAX) ∧
    ∀ i, i < ((List.range cfg.nprocs).filter
          (fun i => decide (0 < (sendBuf cfg nm st i r).length))).length →
      (offsetsFrom 0 (((List.range cfg.nprocs).filter
          (fun i => decide (0 < (sendBuf cfg nm st i r).length))).map
            fun j => (sendBuf cfg nm st j r).length)).getD i 0 < 2 ^ 31 := by
  have hRcvs : ((List.range cfg.nprocs).map fun i => ((sends i).buf r).length)
      = (List.range cfg.nprocs).map fun i => (sendBuf cfg nm st i r).length :=
    List.map_congr_left fun i hi => by rw [hbuf i (List.mem_range.mp hi)]
  have hgetD : ∀ i, i < cfg.nprocs →
      ((List.range cfg.nprocs).map fun i => (sendBuf cfg nm st i r).length).getD i 0
        = (sendBuf cfg nm st i r).length := fun i hi => by
    rw [List.getD_eq_getElem?_getD, List.getElem?_eq_getElem (by simpa using hi)]
    simp
  unfold fillNeighborsMPIGPU at hret
  simp only [hRcvs, recvLayout_sendBuf] at hret
  by_cases hk : ((sends r).keys.any fun who => decide (cfg.nprocs ≤ who)) = true
  · rw [if_pos hk] at hret
    cases hret
  rw [if_neg hk] at hret
  have hkeys : ∀ w, w ∈ (sends r).keys → w < cfg.nprocs := by
    simpa only [List.any_eq_true, decide_eq_true_eq, not_exists, not_and, Nat.not_le] using hk
  refine ⟨hkeys, ?_⟩
  by_cases hmax : List.foldl max 0
      (List.map (fun r => (List.map (fun who => ((sends r).buf who).length)
        (List.range cfg.nprocs)).sum) (List.range cfg.nprocs)) = 0
  · have hnil : ∀ i w, i < cfg.nprocs → w < cfg.nprocs → sendBuf cfg nm st i w = [] :=
      fun i w hi hw => by
        have h1 := foldl_max_eq_zero _ hmax _
          (List.mem_map.mpr ⟨i, List.mem_range.mpr hi, rfl⟩)
        have h2 : ((sends i).buf w).length ≤ 0 := by
          rw [← h1]
          exact le_sum_of_mem_nat _ _ (List.mem_map.mpr ⟨w, List.mem_range.mpr hw, rfl⟩)
        rw [← hbuf i hi]
        exact List.length_eq_zero.mp (by omega)
    refine ⟨fun i hi => ?_, fun who hw => ?_, fun i hi => ?_⟩
    · rw [hnil i r hi hr]
      decide
    · rw [hnil r who hr (hkeys who hw)]
      decide
    · have hF : (List.range cfg.nprocs).filter
          (fun i => decide (0 < (sendBuf cfg nm st i r).length)) = [] := by
        rw [List.filter_eq_nil_iff]
        intro j hj
        rw [hnil j r (List.mem_range.mp hj) hr]
        simp
      rw [hF] at hi
      simp at hi
  · rw [if_neg hmax] at hret
    by_cases hself : ((List.range cfg.nprocs).map
        fun i => (sendBuf cfg nm st i r).length).getD r 0 ≠ 0
    · rw [if_pos hself] at hret
      cases hret
    rw [if_neg hself] at hret
    by_cases hc1 : (((List.range cfg.nprocs).filter
        (fun i => decide (0 < (sendBuf cfg nm st i r).length))).any fun who =>
          decide (INT_MAX ≤ ((List.range cfg.nprocs).map
            fun i => (sendBuf cfg nm st i r).length).getD who 0)) = true
    · rw [if_pos hc1] at hret
      cases hret
    rw [if_neg hc1] at hret
    by_cases hc2 : ((sends r).keys.any fun who =>
        decide (INT_MAX ≤ ((sends r).buf who).length)) = true
    · rw [if_pos hc2] at hret
      cases hret
    rw [if_neg hc2] at hret
    simp only [List.any_eq_true, decide_eq_true_eq, not_exists, not_and, Nat.not_le] at hc1 hc2
    have hrecv : ∀ i, i < cfg.nprocs → (sendBuf cfg nm st i r).length < INT_MAX := by
      intro i hi
      by_cases h0 : 0 < (sendBuf cfg nm st i r).length
      · have := hc1 i (List.mem_filter.mpr ⟨List.mem_range.mpr hi, by simpa using h0⟩)
        rwa [hgetD i hi] at this
      · have : (sendBuf cfg nm st i r).length = 0 := by omega
        rw [this]
        decide
    refine ⟨hrecv, fun who hw => ?_, ?_⟩
    · rw [← hbuf r hr]
      exact hc2 who hw
    · have hlen : ((List.range cfg.nprocs).filter
          (fun i => decide (0 < (sendBuf cfg nm st i r).length))).length
          = (((List.range cfg.nprocs).filter
          (fun i => decide (0 < (sendBuf cfg nm st i r).length))).map
            fun j => (sendBuf cfg nm st j r).length).length := by
        rw [List.length_map]
      rw [hlen]
      apply offsets_small_of_nonneg
      · intro x hx
        obtain ⟨j, hj, rfl⟩ := List.mem_map.mp hx
        exact hrecv j (List.mem_range.mp (List.mem_filter.mp hj).1)
      · intro i hi
        rw [← hlen] at hi
        rw [if_pos (by omega)] at hret
        obtain ⟨s1, s2, hb⟩ := forEach_ok_each _ _ _ _ hret i (List.mem_range.mpr hi)
        unfold unpackPeer at hb
        simp only at hb
        by_contra hneg
        rw [if_pos (by omega)] at hb
        cases hb

/-- The effect of every call of `fillNeighborsMPIGPU` that returns. -/
theorem fillNeighborsMPIGPU_ret (cfg : Config) (nm : NeighborMask) (st : ParticleState)
    (sends : Nat → SendMap) (r : Nat) (hr : r < cfg.nprocs)
    (hsz : 0 < cfg.sizeofParticleType) (htv : TableValid cfg nm)
    (hbuf : ∀ i, i < cfg.nprocs → ∀ w, (sends i).buf w = sendBuf cfg nm st i w)
    (S S' : ParticleState) (G : Nat → List ParticleType)
    (hS : ∀ g, LocalTo cfg r g → S.plev g = mkTile (st.plev g).realParticles (G g))
    (hret : fillNeighborsMPIGPU cfg r sends S = .ok S') :
    S'.m_start = S.m_start ∧ S'.m_stop = S.m_stop ∧
      (∀ g, LocalTo cfg r g →
        S'.plev g = mkTile (st.plev g).realParticles
          (G g ++ deliveredTo st g
            (((List.range cfg.nprocs).filter fun i => decide (i ≠ r)).flatMap
              (rankTriples cfg nm)))) ∧
      ∀ g, ¬ LocalTo cfg r g → S'.plev g = S.plev g := by
  obtain ⟨hkeys, hrecv, hsend, hoffs⟩ :=
    fillNeighborsMPIGPU_sizes cfg nm st sends r hr hbuf S S' hret
  obtain ⟨S2, e, h⟩ := fillNeighborsMPIGPU_acc cfg nm st sends r hr hsz htv hbuf hkeys
    hrecv hsend hoffs S G hS
  rw [hret] at e
  cases e
  exact h

/-- The effect of every call of `updateNeighbors` that returns: the real
particles of a grid stay and its ghosts are the particles delivered to it, in
the order of arrival. -/
theorem updateNeighbors_ret (cfg : Config) (nm : NeighborMask) (st st' : ParticleState)
    (htv : TableValid cfg nm) (hrv : RunsValid cfg nm st)
    (hdm : ∀ g, g < cfg.ba.length → cfg.dmap g < cfg.nprocs)
    (hsz : 0 < cfg.sizeofParticleType)
    (hret : updateNeighbors cfg nm st = .ok st') :
    st'.m_start = st.m_start ∧ st'.m_stop = st.m_stop ∧
      ∀ d, d < cfg.ba.length →
        st'.plev d = mkTile (st.plev d).realParticles
          (deliveredTo st d (arrivalOrder cfg nm (cfg.dmap d))) := by
  obtain ⟨packed, hpack, p1, p2, p3, p4, p5, p6, p7⟩ := packAll_spec cfg nm st hrv htv
  have hkeys : ∀ r, r < cfg.nprocs → ∀ w, w ∈ (packed.sends r).keys → w ≠ r ∧ w < cfg.nprocs :=
    fun r hr w hw => by
      obtain ⟨hwr, t, ht, htw⟩ := p6 r (List.mem_range.mpr hr) w hw
      exact ⟨hwr, htw ▸ hdm _ (htv _ _ _ (mem_rankTriples cfg nm r t ht).2.2.2)⟩
  unfold updateNeighbors at hret
  rw [hpack] at hret
  simp only at hret
  by_cases h1 : cfg.nprocs = 1
  · rw [if_pos h1] at hret
    have hk : (packed.sends 0).keys = [] := by
      apply List.eq_nil_iff_forall_not_mem.mpr
      intro w hw
      have := hkeys 0 (by omega) w hw
      omega
    rw [hk] at hret
    simp only [List.isEmpty_nil, if_true, Except.ok.injEq] at hret
    subst hret
    refine ⟨p1, p2, fun d hd => ?_⟩
    have hd0 : cfg.dmap d = 0 := by have := hdm d hd; omega
    rw [p3 d hd (List.mem_range.mpr (hdm d hd)), hd0]
    have hf : (List.range 1).filter (fun i => decide (i ≠ 0)) = [] := by decide
    simp only [arrivalOrder, h1, hf, List.flatMap_nil, List.append_nil]
  · rw [if_neg h1] at hret
    obtain ⟨q1, q2, q3, -⟩ := forEach_nodup_rel
      (fun st r => fillNeighborsMPIGPU cfg r packed.sends st)
      (fun (pre : List Nat) (S : ParticleState) =>
        S.m_start = st.m_start ∧ S.m_stop = st.m_stop ∧
        (∀ g, g < cfg.ba.length → cfg.dmap g ∈ pre →
          S.plev g = mkTile (st.plev g).realParticles
            (deliveredTo st g (arrivalOrder cfg nm (cfg.dmap g)))) ∧
        ∀ g, ¬ (g < cfg.ba.length ∧ cfg.dmap g ∈ pre) → S.plev g = packed.st.plev g)
      (List.range cfg.nprocs) (List.nodup_range _)
      (fun pre r S S2 hr hrp hI e2 => by
        have hr' := List.mem_range.mp hr
        obtain ⟨a1, a2, a3, a4⟩ := hI
        obtain ⟨b1, b2, b3, b4⟩ := fillNeighborsMPIGPU_ret cfg nm st packed.sends r hr'
          hsz htv (fun i hi w => p5 i (List.mem_range.mpr hi) w) S S2
          (fun g => deliveredTo st g (rankTriples cfg nm r))
          (fun g hg => by
            rw [a4 g (fun hc => hrp (hg.2 ▸ hc.2)),
              p3 g hg.1 (List.mem_range.mpr (hdm g hg.1)), hg.2])
          e2
        refine ⟨b1.trans a1, b2.trans a2, fun g hg hm => ?_, fun g hg => ?_⟩
        · by_cases hgr : cfg.dmap g = r
          · rw [b3 g ⟨hg, hgr⟩, hgr, arrivalOrder, deliveredTo_append]
          · rw [b4 g (fun hc => hgr hc.2)]
            rcases List.mem_append.mp hm with hm | hm
            · exact a3 g hg hm
            · exact absurd (List.mem_singleton.mp hm) hgr
        · rw [b4 g (fun hc => hg ⟨hc.1, by simp [hc.2]⟩)]
          exact a4 g (fun hc => hg ⟨hc.1, List.mem_append_left _ hc.2⟩))
      [] (fun _ _ hm => by simp at hm) packed.st st'
      ⟨p1, p2, fun _ _ hm => by simp at hm, fun _ _ => rfl⟩ hret
    exact ⟨q1, q2, fun d hd => q3 d hd (by simpa using hdm d hd)⟩

/-! ### The ghosts of every call that returns -/

/-- C1 (amended). Let the table list only grids of the box array, the runs
delimit real particles, every grid belong to a rank and a particle record have
a positive size. After every call of `updateNeighbors` that returns, the real
particles of every grid are as before, and the ghost segment of every grid `d`
is, up to the order of the records, the concatenation of the runs `i` of the
source grids `s` taken once for every listing of `d` in `m_grid_map[s][i - 1]`:
a run is copied to `d` as many times as `d` is listed under its code, be `d` on
the rank of `s` (local copy) or on another rank (pack, send, unpack). -/
theorem C1_one_copy_per_listing (cfg : Config) (nm : NeighborMask) (st st' : ParticleState)
    (htv : TableValid cfg nm) (hrv : RunsValid cfg nm st)
    (hdm : ∀ g, g < cfg.ba.length → cfg.dmap g < cfg.nprocs)
    (hsz : 0 < cfg.sizeofParticleType)
    (hret : updateNeighbors cfg nm st = .ok st') :
    ∀ d, d < cfg.ba.length →
      (st'.plev d).realParticles = (st.plev d).realParticles ∧
      (st'.plev d).ghosts.Perm
        (((List.range cfg.ba.length).flatMap (gridTriples nm)).flatMap fun t =>
          if t.2.2 = d then runOf st t.1 t.2.1 else []) := by
  obtain ⟨-, -, h⟩ := updateNeighbors_ret cfg nm st st' htv hrv hdm hsz hret
  intro d hd
  rw [h d hd, mkTile_real, mkTile_ghosts]
  exact ⟨rfl, (arrivalOrder_perm cfg nm _ (hdm d hd) hdm).flatMap_right _⟩

set_option maxRecDepth 100000 in
/-- Witness of C1 (amended): two grids on two ranks, where the particle `7` of
grid `0` goes to grid `1` in a message and the particle `8` of grid `1` goes to
grid `0`. -/
theorem C1_one_copy_per_listing_witness :
    ∃ st', updateNeighbors (twoGrids 2 fun g => g) faceTable sortedPair = .ok st' ∧
      ∀ d, d < (twoGrids 2 fun g => g).ba.length →
        (st'.plev d).realParticles = (sortedPair.plev d).realParticles ∧
        (st'.plev d).ghosts.Perm
          (((List.range (twoGrids 2 fun g => g).ba.length).flatMap
              (gridTriples faceTable)).flatMap fun t =>
            if t.2.2 = d then runOf sortedPair t.1 t.2.1 else []) :=
  ⟨valueOr emptyState (updateNeighbors (twoGrids 2 fun g => g) faceTable sortedPair),
    eq_ok_of_isOk _ _ (by decide),
    C1_one_copy_per_listing (twoGrids 2 fun g => g) faceTable sortedPair
      (valueOr emptyState (updateNeighbors (twoGrids 2 fun g => g) faceTable sortedPair))
      (by
        intro s k d h
        show d < 2
        simp only [faceTable] at h
        split_ifs at h
        · rcases k with _ | _ | k <;> simp at h
          omega
        · rcases k with _ | _ | k <;> simp at h
          omega
        · simp at h)
      (by
        intro s hs i h1 h2
        have hs2 : s < 2 := hs
        interval_cases s
        · have : i ≤ 2 := h2
          interval_cases i
          · exact ⟨1, 1, rfl, rfl, by decide, by decide, by decide⟩
          · exact ⟨1, 2, rfl, rfl, by decide, by decide, by decide⟩
        · have : i ≤ 2 := h2
          interval_cases i
          · exact ⟨0, 1, rfl, rfl, by decide, by decide, by decide⟩
          · exact ⟨1, 1, rfl, rfl, by decide, by decide, by decide⟩)
      (fun g hg => hg)
      (by decide)
      (eq_ok_of_isOk _ _ (by decide))⟩

/-- C2 (amended). Let `buildNeighborMask` return the mask and table, the grids
have at most three dimensions and a shell depth of at least `1`, and every grid
belong to a rank. After every call of `fillNeighbors` that returns, for every
grid `d` of the box array and every record `p`:
`p` is in the ghost segment of `d` exactly when `p` is a real particle of a grid
`s` other than `d` and the boundary box of `s` that holds the cell of `p` has a
cell that lies, under some periodic shift, in the box of `d` grown by the shell
depth (the whole boundary box is exported, not only the cells near `d`);
and when no cell of a grid lies, under a periodic shift, in another grid, every
real particle of a grid `s` other than `d` whose cell lies, under some periodic
shift, in the box of `d` grown by the shell depth is in the ghost segment of
`d`. -/
theorem C2_ghosts_of_boundary_boxes (cfg : Config) (nm : NeighborMask) (st st' : ParticleState)
    (hnm : buildNeighborMask cfg = .ok nm) (hdim : cfg.dim ≤ 3) (hn : 1 ≤ cfg.ncells)
    (hper : cfg.period.length = cfg.dim) (hdom : cfg.domain.smallend.length = cfg.dim)
    (hboxes : ∀ g, g < cfg.ba.length → (cfg.ba.getD g default).smallend.length = cfg.dim ∧
      (cfg.ba.getD g default).bigend.length = cfg.dim)
    (hdm : ∀ g, g < cfg.ba.length → cfg.dmap g < cfg.nprocs)
    (hsz : 0 < cfg.sizeofParticleType)
    (hfill : fillNeighbors cfg nm st = .ok st') :
    ∀ d, d < cfg.ba.length → ∀ p,
      (p ∈ (st'.plev d).ghosts ↔
        ∃ s, s < cfg.ba.length ∧ s ≠ d ∧ p ∈ (st.plev s).realParticles ∧
          ∃ bl, getBoundaryBoxes cfg.dim ((cfg.ba.getD s default).grow (-cfg.ncells))
              cfg.ncells = .ok bl ∧
            ∃ k, k < bl.length ∧ (bl.getD k default).contains (cellOf cfg p) = true ∧
              ∃ pit, pit ∈ shiftIntVect cfg.period ∧
                ∃ iv : IntVect, iv.length = cfg.dim ∧
                  (bl.getD k default).contains iv = true ∧
                  ((cfg.ba.getD d default).grow cfg.ncells).contains (iv.add pit) = true) ∧
      ((∀ s' d', s' < cfg.ba.length → d' < cfg.ba.length → s' ≠ d' →
          ∀ pit, pit ∈ shiftIntVect cfg.period → ∀ iv : IntVect, iv.length = cfg.dim →
            ¬ ((cfg.ba.getD s' default).contains iv = true ∧
              (cfg.ba.getD d' default).contains (iv.add pit) = true)) →
        ∀ s, s < cfg.ba.length → s ≠ d → p ∈ (st.plev s).realParticles →
          ∀ pit, pit ∈ shiftIntVect cfg.period →
            ((cfg.ba.getD d default).grow cfg.ncells).contains ((cellOf cfg p).add pit) = true →
            p ∈ (st'.plev d).ghosts) := by
  -- the sort has returned, and `updateNeighbors` after it
  unfold fillNeighbors at hfill
  cases hsort : sortAll cfg nm st with
  | error e =>
    rw [hsort] at hfill
    cases hfill
  | ok st1 =>
  rw [hsort] at hfill
  simp only at hfill
  have hall : ∀ g, g < cfg.ba.length → g ∈ allLocalGrids cfg := fun g hg =>
    (mem_allLocalGrids cfg g).2 ⟨hg, hdm g hg⟩
  have hrv : RunsValid cfg nm st1 := runsValid_of_sorted cfg nm st1 fun s hs =>
    ((sortAll_slots cfg nm st st1 hsort).1 s (hall s hs)).sortedSlot
  obtain ⟨-, -, htile⟩ := updateNeighbors_ret cfg nm st1 st' (tableValid_of_build cfg nm hnm)
    hrv hdm hsz hfill
  have hiff := ghost_iff_listed cfg nm st st1 st' hnm hdim hn hdom hboxes hdm hsort
    (fun d hd => by rw [htile d hd, mkTile_ghosts])
  have hgeo : ∀ d, d < cfg.ba.length → ∀ p,
      (p ∈ (st'.plev d).ghosts ↔
        ∃ s, s < cfg.ba.length ∧ s ≠ d ∧ p ∈ (st.plev s).realParticles ∧
          ∃ bl, getBoundaryBoxes cfg.dim ((cfg.ba.getD s default).grow (-cfg.ncells))
              cfg.ncells = .ok bl ∧
            ∃ k, k < bl.length ∧ (bl.getD k default).contains (cellOf cfg p) = true ∧
              ∃ pit, pit ∈ shiftIntVect cfg.period ∧
                ∃ iv : IntVect, iv.length = cfg.dim ∧
                  (bl.getD k default).contains iv = true ∧
                  ((cfg.ba.getD d default).grow cfg.ncells).contains (iv.add pit) = true) := by
    intro d hd p
    rw [hiff d hd p]
    constructor
    · rintro ⟨s, hs, hreal, bl, hbl, k, hk, hc, hmem⟩
      obtain ⟨-, hne, pit, hpit, iv, hiv, h1, h2⟩ :=
        (table_entry_iff cfg nm hnm hn hper hboxes s hs bl hbl k hk d).1 hmem
      exact ⟨s, hs, hne, hreal, bl, hbl, k, hk, hc, pit, hpit, iv, hiv, h1, h2⟩
    · rintro ⟨s, hs, hne, hreal, bl, hbl, k, hk, hc, pit, hpit, iv, hiv, h1, h2⟩
      exact ⟨s, hs, hreal, bl, hbl, k, hk, hc,
        (table_entry_iff cfg nm hnm hn hper hboxes s hs bl hbl k hk d).2
          ⟨hd, hne, pit, hpit, iv, hiv, h1, h2⟩⟩
  refine fun d hd p => ⟨hgeo d hd p, ?_⟩
  intro hdisj s hs hne hreal pit hpit hnear
  rw [hgeo d hd p]
  -- the cell of the particle lies in its grid, hence in the shell of the grid
  have hcell := length_cellOf cfg hdom p
  have hp : pit.length = cfg.dim := (shiftIntVect_length _ pit hpit).trans hper
  have hin : (cfg.ba.getD s default).contains (cellOf cfg p) = true := by
    obtain ⟨codes, hc, -⟩ := (sortAll_slots cfg nm st st1 hsort).1 s
      ((mem_allLocalGrids cfg s).2 ⟨hs, hdm s hs⟩)
    have := codesOf_contains cfg _ _ codes hc p hreal
    rwa [mask_box cfg nm hnm s hs] at this
  have hshell := in_shell_of_near cfg.dim _ _ cfg.ncells (by omega) (hboxes s hs).1
    (hboxes s hs).2 (hboxes d hd).1 (hboxes d hd).2 pit _ hp hcell
    (grid_nonempty cfg nm hnm hn d hd (hboxes d hd).1 (hboxes d hd).2) hin hnear
    (hdisj s d hs hd hne pit hpit)
  obtain ⟨bl, hbl, -, -⟩ := buildNeighborMaskGrid_ok cfg s _
    (buildNeighborMask_grid cfg nm hnm s hs)
  obtain ⟨-, -, hcover⟩ := boundary_tiling cfg.dim hdim _ cfg.ncells hn (hboxes s hs).1
    (hboxes s hs).2 bl hbl
  obtain ⟨b, hb, hc⟩ := (hcover _ hcell).2 hshell
  obtain ⟨k, hk, rfl⟩ := List.getElem_of_mem hb
  have hget : bl.getD k default = bl[k] := by
    rw [List.getD_eq_getElem?_getD, List.getElem?_eq_getElem hk]
    rfl
  exact ⟨s, hs, hne, hreal, bl, hbl, k, hk, hget ▸ hc, pit, hpit, cellOf cfg p, hcell,
    hget ▸ hc, hnear⟩

set_option maxRecDepth 100000 in
/-- Witness of C2 (amended): two grids of ten cells on two ranks, where grid `0`
holds a particle in cell `4` and a particle in cell `9`, next to grid `1`. -/
theorem C2_ghosts_of_boundary_boxes_witness :
    ∃ st', fillNeighbors (twoGrids 2 fun g => g) (valueOr noMask (buildNeighborMask (twoGrids 2 fun g => g))) (onlyGridZero [particleAt 3 [4], particleAt 7 [9]]) = .ok st' ∧
      ∀ d, d < (twoGrids 2 fun g => g).ba.length → ∀ p,
      (p ∈ (st'.plev d).ghosts ↔
        ∃ s, s < (twoGrids 2 fun g => g).ba.length ∧ s ≠ d ∧ p ∈ ((onlyGridZero [particleAt 3 [4], particleAt 7 [9]]).plev s).realParticles ∧
          ∃ bl, getBoundaryBoxes (twoGrids 2 fun g => g).dim
              (((twoGrids 2 fun g => g).ba.getD s default).grow (-(twoGrids 2 fun g => g).ncells)) (twoGrids 2 fun g => g).ncells = .ok bl ∧
            ∃ k, k < bl.length ∧ (bl.getD k default).contains (cellOf (twoGrids 2 fun g => g) p) = true ∧
              ∃ pit, pit ∈ shiftIntVect (twoGrids 2 fun g => g).period ∧
                ∃ iv : IntVect, iv.length = (twoGrids 2 fun g => g).dim ∧
                  (bl.getD k default).contains iv = true ∧
                  (((twoGrids 2 fun g => g).ba.getD d default).grow (twoGrids 2 fun g => g).ncells).contains (iv.add pit)
                    = true) ∧
      ((∀ s' d', s' < (twoGrids 2 fun g => g).ba.length → d' < (twoGrids 2 fun g => g).ba.length → s' ≠ d' →
          ∀ pit, pit ∈ shiftIntVect (twoGrids 2 fun g => g).period → ∀ iv : IntVect,
            iv.length = (twoGrids 2 fun g => g).dim →
            ¬ (((twoGrids 2 fun g => g).ba.getD s' default).contains iv = true ∧
              ((twoGrids 2 fun g => g).ba.getD d' default).contains (iv.add pit) = true)) →
        ∀ s, s < (twoGrids 2 fun g => g).ba.length → s ≠ d → p ∈ ((onlyGridZero [particleAt 3 [4], particleAt 7 [9]]).plev s).realParticles →
          ∀ pit, pit ∈ shiftIntVect (twoGrids 2 fun g => g).period →
            (((twoGrids 2 fun g => g).ba.getD d default).grow (twoGrids 2 fun g => g).ncells).contains
              ((cellOf (twoGrids 2 fun g => g) p).add pit) = true →
            p ∈ (st'.plev d).ghosts) :=
  ⟨valueOr emptyState (fillNeighbors (twoGrids 2 fun g => g) (valueOr noMask (buildNeighborMask (twoGrids 2 fun g => g))) (onlyGridZero [particleAt 3 [4], particleAt 7 [9]])),
    eq_ok_of_isOk _ _ (by decide),
    C2_ghosts_of_boundary_boxes (twoGrids 2 fun g => g) (valueOr noMask (buildNeighborMask (twoGrids 2 fun g => g))) (onlyGridZero [particleAt 3 [4], particleAt 7 [9]])
      (valueOr emptyState (fillNeighbors (twoGrids 2 fun g => g) (valueOr noMask (buildNeighborMask (twoGrids 2 fun g => g))) (onlyGridZero [particleAt 3 [4], particleAt 7 [9]])))
      (eq_ok_of_isOk _ _ (by decide)) (by decide) (by decide) rfl rfl
      (by
        intro g hg
        have hg2 : g < 2 := hg
        interval_cases g <;> exact ⟨rfl, rfl⟩)
      (fun g hg => hg) (by decide)
      (eq_ok_of_isOk _ _ (by decide))⟩

/-- C17. After the sort, `updateNeighbors` exports no particle of code `-1`.
Every export `(s, i, d)` of every rank has `1 ≤ i ≤ numCodes`, takes `d` from
the table entry `m_grid_map[s][i-1]` and copies the run
`[m_start[s][i], m_stop[s][i])`; this run starts at or after `m_stop[s][0]`,
the end of the run of code `-1`, and every record of it has the code `i - 1`,
the code of the table entry. The first part of `updateNeighbors` returns on
every rank, and the send buffer of every rank for every rank is made of the
runs of the exports of the rank (`sendBuf`). After every call of
`updateNeighbors` that returns, the ghost segment of every grid is made of the
runs of the exports that name the grid. -/
theorem C17_interior_never_exported (cfg : Config) (nm : NeighborMask)
    (st st1 : ParticleState) (htv : TableValid cfg nm)
    (hdm : ∀ g, g < cfg.ba.length → cfg.dmap g < cfg.nprocs)
    (hsz : 0 < cfg.sizeofParticleType)
    (hsort : sortAll cfg nm st = .ok st1) :
    (∀ r t, t ∈ rankTriples cfg nm r →
        1 ≤ t.2.1 ∧ t.2.1 ≤ (nm.m_grid_map t.1).length ∧
          t.2.2 ∈ (nm.m_grid_map t.1).getD (t.2.1 - 1) [] ∧
          0 ≤ (st1.m_start t.1).getD 0 0 ∧
          (st1.m_start t.1).getD 0 0 ≤ (st1.m_stop t.1).getD 0 0 ∧
          (st1.m_stop t.1).getD 0 0 ≤ (st1.m_start t.1).getD t.2.1 0 ∧
          (st1.m_start t.1).getD t.2.1 0 ≤ (st1.m_stop t.1).getD t.2.1 0 ∧
          ∀ p, p ∈ runOf st1 t.1 t.2.1 →
            (nm.m_neighbor_mask t.1).get (cellOf cfg p) = .ok ((t.2.1 : Int) - 1)) ∧
      (∃ packed, packAll cfg nm (List.range cfg.nprocs) st1 = .ok packed ∧
        ∀ r, r < cfg.nprocs → ∀ w, (packed.sends r).buf w = sendBuf cfg nm st1 r w) ∧
      ∀ st', updateNeighbors cfg nm st1 = .ok st' →
        ∀ d, d < cfg.ba.length →
          (st'.plev d).ghosts = deliveredTo st1 d (arrivalOrder cfg nm (cfg.dmap d)) := by
  have hall : ∀ g, g < cfg.ba.length → g ∈ allLocalGrids cfg := fun g hg =>
    (mem_allLocalGrids cfg g).2 ⟨hg, hdm g hg⟩
  have hslot : ∀ s, s < cfg.ba.length → SortedSlot cfg nm s (slotOf st1 s) := fun s hs =>
    ((sortAll_slots cfg nm st st1 hsort).1 s (hall s hs)).sortedSlot
  have hrv : RunsValid cfg nm st1 := runsValid_of_sorted cfg nm st1 hslot
  obtain ⟨packed, hpack, -, -, -, -, p5, -, -⟩ := packAll_spec cfg nm st1 hrv htv
  refine ⟨fun r t ht => ?_, ⟨packed, hpack, fun r hr w => p5 r (List.mem_range.mpr hr) w⟩,
    fun st' hupd d hd => by
      rw [(updateNeighbors_ret cfg nm st1 st' htv hrv hdm hsz hupd).2.2 d hd, mkTile_ghosts]⟩
  obtain ⟨hloc, h1, h2, h3⟩ := mem_rankTriples cfg nm r t ht
  obtain ⟨codes, hc, hsorted, a1, a2⟩ := sortedSlot_runs cfg nm st1 t.1 (hslot _ hloc.1) t.2.1 h2
  obtain ⟨codes0, hc0, -, b1, b2⟩ :=
    sortedSlot_runs cfg nm st1 t.1 (hslot _ hloc.1) 0 (Nat.zero_le _)
  rw [hc] at hc0
  simp only [Except.ok.injEq] at hc0
  subst hc0
  have e1 : (st1.m_start t.1).getD t.2.1 0 = (lower_bound codes ((t.2.1 : Int) - 1) : Int) := by
    simp [List.getD, a1]
  have e2 : (st1.m_stop t.1).getD t.2.1 0 = (upper_bound codes ((t.2.1 : Int) - 1) : Int) := by
    simp [List.getD, a2]
  have e3 : (st1.m_start t.1).getD 0 0 = (lower_bound codes (((0 : Nat) : Int) - 1) : Int) := by
    simp [List.getD, b1]
  have e4 : (st1.m_stop t.1).getD 0 0 = (upper_bound codes (((0 : Nat) : Int) - 1) : Int) := by
    simp [List.getD, b2]
  have k1 := lower_le_upper codes ((t.2.1 : Int) - 1) hsorted
  have k2 := lower_le_upper codes (((0 : Nat) : Int) - 1) hsorted
  have k3 := upper_le_lower_of_lt codes (((0 : Nat) : Int) - 1) ((t.2.1 : Int) - 1) (by omega)
    hsorted
  refine ⟨h1, h2, h3, by rw [e3]; omega, by rw [e3, e4]; omega, by rw [e4, e1]; omega,
    by rw [e1, e2]; omega, fun p hp => ?_⟩
  exact ((mem_runOf_iff cfg nm st1 t.1 (hslot _ hloc.1) t.2.1 h2 p).1 hp).2

set_option maxRecDepth 100000 in
/-- Witness of C17: two grids of ten cells on two ranks, where grid `0` holds
the particle `3` of the interior and the particle `7` next to grid `1`; there
`updateNeighbors` returns. -/
theorem C17_interior_never_exported_witness :
    isOk (updateNeighbors (twoGrids 2 fun g => g) (valueOr noMask (buildNeighborMask (twoGrids 2 fun g => g))) (valueOr emptyState (sortAll (twoGrids 2 fun g => g) (valueOr noMask (buildNeighborMask (twoGrids 2 fun g => g))) (onlyGridZero [particleAt 3 [4], particleAt 7 [9]])))) = true ∧
      (∀ r t, t ∈ rankTriples (twoGrids 2 fun g => g) (valueOr noMask (buildNeighborMask (twoGrids 2 fun g => g))) r →
        1 ≤ t.2.1 ∧ t.2.1 ≤ ((valueOr noMask (buildNeighborMask (twoGrids 2 fun g => g))).m_grid_map t.1).length ∧
          t.2.2 ∈ ((valueOr noMask (buildNeighborMask (twoGrids 2 fun g => g))).m_grid_map t.1).getD (t.2.1 - 1) [] ∧
          0 ≤ ((valueOr emptyState (sortAll (twoGrids 2 fun g => g) (valueOr noMask (buildNeighborMask (twoGrids 2 fun g => g))) (onlyGridZero [particleAt 3 [4], particleAt 7 [9]]))).m_start t.1).getD 0 0 ∧
          ((valueOr emptyState (sortAll (twoGrids 2 fun g => g) (valueOr noMask (buildNeighborMask (twoGrids 2 fun g => g))) (onlyGridZero [particleAt 3 [4], particleAt 7 [9]]))).m_start t.1).getD 0 0 ≤ ((valueOr emptyState (sortAll (twoGrids 2 fun g => g) (valueOr noMask (buildNeighborMask (twoGrids 2 fun g => g))) (onlyGridZero [particleAt 3 [4], particleAt 7 [9]]))).m_stop t.1).getD 0 0 ∧
          ((valueOr emptyState (sortAll (twoGrids 2 fun g => g) (valueOr noMask (buildNeighborMask (twoGrids 2 fun g => g))) (onlyGridZero [particleAt 3 [4], particleAt 7 [9]]))).m_stop t.1).getD 0 0 ≤ ((valueOr emptyState (sortAll (twoGrids 2 fun g => g) (valueOr noMask (buildNeighborMask (twoGrids 2 fun g => g))) (onlyGridZero [particleAt 3 [4], particleAt 7 [9]]))).m_start t.1).getD t.2.1 0 ∧
          ((valueOr emptyState (sortAll (twoGrids 2 fun g => g) (valueOr noMask (buildNeighborMask (twoGrids 2 fun g => g))) (onlyGridZero [particleAt 3 [4], particleAt 7 [9]]))).m_start t.1).getD t.2.1 0 ≤ ((valueOr emptyState (sortAll (twoGrids 2 fun g => g) (valueOr noMask (buildNeighborMask (twoGrids 2 fun g => g))) (onlyGridZero [particleAt 3 [4], particleAt 7 [9]]))).m_stop t.1).getD t.2.1 0 ∧
          ∀ p, p ∈ runOf (valueOr emptyState (sortAll (twoGrids 2 fun g => g) (valueOr noMask (buildNeighborMask (twoGrids 2 fun g => g))) (onlyGridZero [particleAt 3 [4], particleAt 7 [9]]))) t.1 t.2.1 →
            ((valueOr noMask (buildNeighborMask (twoGrids 2 fun g => g))).m_neighbor_mask t.1).get (cellOf (twoGrids 2 fun g => g) p) = .ok ((t.2.1 : Int) - 1)) ∧
      (∃ packed, packAll (twoGrids 2 fun g => g) (valueOr noMask (buildNeighborMask (twoGrids 2 fun g => g))) (List.range (twoGrids 2 fun g => g).nprocs) (valueOr emptyState (sortAll (twoGrids 2 fun g => g) (valueOr noMask (buildNeighborMask (twoGrids 2 fun g => g))) (onlyGridZero [particleAt 3 [4], particleAt 7 [9]]))) = .ok packed ∧
        ∀ r, r < (twoGrids 2 fun g => g).nprocs → ∀ w, (packed.sends r).buf w = sendBuf (twoGrids 2 fun g => g) (valueOr noMask (buildNeighborMask (twoGrids 2 fun g => g))) (valueOr emptyState (sortAll (twoGrids 2 fun g => g) (valueOr noMask (buildNeighborMask (twoGrids 2 fun g => g))) (onlyGridZero [particleAt 3 [4], particleAt 7 [9]]))) r w) ∧
      ∀ st', updateNeighbors (twoGrids 2 fun g => g) (valueOr noMask (buildNeighborMask (twoGrids 2 fun g => g))) (valueOr emptyState (sortAll (twoGrids 2 fun g => g) (valueOr noMask (buildNeighborMask (twoGrids 2 fun g => g))) (onlyGridZero [particleAt 3 [4], particleAt 7 [9]]))) = .ok st' →
        ∀ d, d < (twoGrids 2 fun g => g).ba.length →
          (st'.plev d).ghosts = deliveredTo (valueOr emptyState (sortAll (twoGrids 2 fun g => g) (valueOr noMask (buildNeighborMask (twoGrids 2 fun g => g))) (onlyGridZero [particleAt 3 [4], particleAt 7 [9]]))) d (arrivalOrder (twoGrids 2 fun g => g) (valueOr noMask (buildNeighborMask (twoGrids 2 fun g => g))) ((twoGrids 2 fun g => g).dmap d)) :=
  ⟨by decide, C17_interior_never_exported (twoGrids 2 fun g => g) (valueOr noMask (buildNeighborMask (twoGrids 2 fun g => g))) (onlyGridZero [particleAt 3 [4], particleAt 7 [9]]) (valueOr emptyState (sortAll (twoGrids 2 fun g => g) (valueOr noMask (buildNeighborMask (twoGrids 2 fun g => g))) (onlyGridZero [particleAt 3 [4], particleAt 7 [9]])))
    (tableValid_of_build _ _ (eq_ok_of_isOk _ _ (by decide)))
    (fun g hg => hg) (by decide)
    (eq_ok_of_isOk _ _ (by decide))⟩

end MD
